import Mathlib

/-!
# Verification development for `pkg/obfuscate/appsec.go`

A shallow embedding of the AppSec obfuscator.  Go strings are byte sequences and are
embedded as `List Nat`; Go `int` offsets that use the `-1` sentinel are embedded as `Int`,
loop counters (which start at a non-negative value and are only incremented) as `Nat`.
A slice or index expression that Go evaluates out of bounds is the outcome `Res.panic`.
Every `for ; i < len(input); i++` loop is embedded as a recursion on an explicit iteration
budget; exhausting the budget is the separate outcome `Res.timeout`.
-/

namespace Obfuscate

/-! ## Outcomes -/

/-- Outcome of running a piece of Go code: a value, a run-time panic (slice or index out of
range), or exhaustion of the iteration budget given to a loop. -/
inductive Res (α : Type) where
  | ok (a : α)
  | panic
  | timeout
  deriving DecidableEq, Repr

/-- Sequencing of outcomes. -/
def Res.bind {α β : Type} (r : Res α) (f : α → Res β) : Res β :=
  match r with
  | .ok a => f a
  | .panic => .panic
  | .timeout => .timeout

instance : Monad Res where
  pure := Res.ok
  bind := Res.bind

/-! ## Byte strings -/

/-- The bytes of an ASCII string literal. -/
def B (s : String) : List Nat := s.data.map Char.toNat

/-- Go `input[i]` for an `int` index: panics when `i < 0` or `i >= len(input)`. -/
def byteAt (input : List Nat) (i : Int) : Res Nat :=
  if i < 0 then .panic
  else match input[i.toNat]? with
    | some c => .ok c
    | none => .panic

/-- Go `input[lo:hi]`: panics unless `0 <= lo <= hi <= len(input)`. -/
def slice (input : List Nat) (lo hi : Int) : Res (List Nat) :=
  if 0 ≤ lo ∧ lo ≤ hi ∧ hi ≤ (input.length : Int) then
    .ok ((input.drop lo.toNat).take (hi.toNat - lo.toNat))
  else .panic

/-- Go `input[lo:]`: panics unless `0 <= lo <= len(input)`. -/
def sliceFrom (input : List Nat) (lo : Int) : Res (List Nat) :=
  slice input lo input.length

/-! ## The JSON scanner

The file `json_scanner.go` of the package is not part of the sources at hand; the scanner
is the byte-at-a-time state machine of Go's `encoding/json`, of which the package keeps a
copy. -/

/-- Operation codes returned by the scanner for each byte. -/
inductive ScanOp where
  | scanContinue
  | scanBeginLiteral
  | scanBeginObject
  | scanObjectKey
  | scanObjectValue
  | scanEndObject
  | scanBeginArray
  | scanArrayValue
  | scanEndArray
  | scanSkipSpace
  | scanEnd
  | scanError
  deriving DecidableEq, Repr

open ScanOp

/-- Entries of the scanner's parse-state stack. -/
inductive ParseState where
  | parseObjectKey
  | parseObjectValue
  | parseArrayValue
  deriving DecidableEq, Repr

open ParseState

/-- The scanner's current state function (the Go field `step`). -/
inductive StepFn where
  | stateBeginValueOrEmpty
  | stateBeginValue
  | stateBeginStringOrEmpty
  | stateBeginString
  | stateEndValue
  | stateEndTop
  | stateInString
  | stateInStringEsc
  | stateInStringEscU
  | stateInStringEscU1
  | stateInStringEscU12
  | stateInStringEscU123
  | stateNeg
  | state1
  | state0
  | stateDot
  | stateDot0
  | stateE
  | stateESign
  | stateE0
  | stateT
  | stateTr
  | stateTru
  | stateF
  | stateFa
  | stateFal
  | stateFals
  | stateN
  | stateNu
  | stateNul
  | stateError
  deriving DecidableEq, Repr

/-- The scanner's syntax error: the offending byte, or the end of the input. -/
inductive SyntaxError where
  | invalidCharacter (c : Nat)
  | unexpectedEnd
  deriving DecidableEq, Repr

/-- Modelled from the spec: the Token Scanner state (`scanner` of `json_scanner.go`, absent
from the sources): the current state function, the stack of parse states (innermost
container first), the recorded syntax error and the end-of-top-level-value flag. -/
structure Scanner where
  stepFn : StepFn
  parseState : List ParseState
  err : Option SyntaxError
  endTop : Bool
  deriving DecidableEq, Repr

/-- Modelled from the spec: `scanner.reset()` of the absent `json_scanner.go` puts the
machine in its initial state. -/
def Scanner.reset : Scanner :=
  { stepFn := .stateBeginValue, parseState := [], err := none, endTop := false }

/-- Modelled from the spec: `scanner.error` of the absent `json_scanner.go` records a
syntax error and makes every later step report `scanError`. -/
def Scanner.error (s : Scanner) (c : Nat) : Scanner × ScanOp :=
  ({ s with stepFn := .stateError, err := some (.invalidCharacter c) }, scanError)

/-- Go `isSpace`. -/
def isSpace (c : Nat) : Bool := c = 32 || c = 9 || c = 13 || c = 10

/-- Hexadecimal digit test used by the `\u` escape states. -/
def isHex (c : Nat) : Bool :=
  (48 ≤ c && c ≤ 57) || (97 ≤ c && c ≤ 102) || (65 ≤ c && c ≤ 70)

/-- Decimal digit test. -/
def isDigit (c : Nat) : Bool := 48 ≤ c && c ≤ 57

/-- Modelled from the spec: `stateEndTop` of the absent `json_scanner.go`: after the
top-level value only white space may follow; anything else is recorded as an error that
the next step reports. -/
def Scanner.stateEndTop (s : Scanner) (c : Nat) : Scanner × ScanOp :=
  if !isSpace c then ((s.error c).1, scanEnd) else (s, scanEnd)

/-- Modelled from the spec: `popParseState` of the absent `json_scanner.go`. -/
def Scanner.popParseState (s : Scanner) : Scanner :=
  match s.parseState.tail with
  | [] => { s with parseState := [], stepFn := .stateEndTop, endTop := true }
  | ps => { s with parseState := ps, stepFn := .stateEndValue }

/-- Modelled from the spec: `stateEndValue` of the absent `json_scanner.go`: the state
after a completed value, which classifies `:`, `,`, `}` and `]` by the innermost
container. -/
def Scanner.stateEndValue (s : Scanner) (c : Nat) : Scanner × ScanOp :=
  match s.parseState with
  | [] => Scanner.stateEndTop { s with stepFn := .stateEndTop, endTop := true } c
  | ps :: rest =>
    if isSpace c then ({ s with stepFn := .stateEndValue }, scanSkipSpace)
    else match ps with
      | parseObjectKey =>
        if c = 58 then
          ({ s with parseState := parseObjectValue :: rest, stepFn := .stateBeginValue },
            scanObjectKey)
        else s.error c
      | parseObjectValue =>
        if c = 44 then
          ({ s with parseState := parseObjectKey :: rest, stepFn := .stateBeginString },
            scanObjectValue)
        else if c = 125 then (s.popParseState, scanEndObject)
        else s.error c
      | parseArrayValue =>
        if c = 44 then ({ s with stepFn := .stateBeginValue }, scanArrayValue)
        else if c = 93 then (s.popParseState, scanEndArray)
        else s.error c

/-- Modelled from the spec: `stateBeginValue` of the absent `json_scanner.go`. -/
def Scanner.stateBeginValue (s : Scanner) (c : Nat) : Scanner × ScanOp :=
  if isSpace c then (s, scanSkipSpace)
  else if c = 123 then
    ({ s with stepFn := .stateBeginStringOrEmpty, parseState := parseObjectKey :: s.parseState },
      scanBeginObject)
  else if c = 91 then
    ({ s with stepFn := .stateBeginValueOrEmpty, parseState := parseArrayValue :: s.parseState },
      scanBeginArray)
  else if c = 34 then ({ s with stepFn := .stateInString }, scanBeginLiteral)
  else if c = 45 then ({ s with stepFn := .stateNeg }, scanBeginLiteral)
  else if c = 48 then ({ s with stepFn := .state0 }, scanBeginLiteral)
  else if c = 116 then ({ s with stepFn := .stateT }, scanBeginLiteral)
  else if c = 102 then ({ s with stepFn := .stateF }, scanBeginLiteral)
  else if c = 110 then ({ s with stepFn := .stateN }, scanBeginLiteral)
  else if 49 ≤ c ∧ c ≤ 57 then ({ s with stepFn := .state1 }, scanBeginLiteral)
  else s.error c

/-- Modelled from the spec: `stateBeginString` of the absent `json_scanner.go`. -/
def Scanner.stateBeginString (s : Scanner) (c : Nat) : Scanner × ScanOp :=
  if isSpace c then (s, scanSkipSpace)
  else if c = 34 then ({ s with stepFn := .stateInString }, scanBeginLiteral)
  else s.error c

/-- Modelled from the spec: the state function `state0` of the absent `json_scanner.go`
(after a leading `0` of a number). -/
def Scanner.state0 (s : Scanner) (c : Nat) : Scanner × ScanOp :=
  if c = 46 then ({ s with stepFn := .stateDot }, scanContinue)
  else if c = 101 ∨ c = 69 then ({ s with stepFn := .stateE }, scanContinue)
  else s.stateEndValue c

/-- Modelled from the spec: `stateESign` of the absent `json_scanner.go`. -/
def Scanner.stateESign (s : Scanner) (c : Nat) : Scanner × ScanOp :=
  if isDigit c then ({ s with stepFn := .stateE0 }, scanContinue) else s.error c

/-- One expected byte of the literals `true`, `false`, `null`. -/
def Scanner.expect (s : Scanner) (c want : Nat) (next : StepFn) : Scanner × ScanOp :=
  if c = want then ({ s with stepFn := next }, scanContinue) else s.error c

/-- Modelled from the spec: `scanner.step(scanner, c)` of the absent `json_scanner.go`
consumes one byte, updates the nesting and quote state and returns the operation code that
byte produced, `scanError` when the byte violates the JSON grammar. -/
def Scanner.step (s : Scanner) (c : Nat) : Scanner × ScanOp :=
  match s.stepFn with
  | .stateBeginValueOrEmpty =>
    if isSpace c then (s, scanSkipSpace)
    else if c = 93 then s.stateEndValue c
    else s.stateBeginValue c
  | .stateBeginValue => s.stateBeginValue c
  | .stateBeginStringOrEmpty =>
    if isSpace c then (s, scanSkipSpace)
    else if c = 125 then
      Scanner.stateEndValue { s with parseState := parseObjectValue :: s.parseState.tail } c
    else s.stateBeginString c
  | .stateBeginString => s.stateBeginString c
  | .stateEndValue => s.stateEndValue c
  | .stateEndTop => s.stateEndTop c
  | .stateInString =>
    if c = 34 then ({ s with stepFn := .stateEndValue }, scanContinue)
    else if c = 92 then ({ s with stepFn := .stateInStringEsc }, scanContinue)
    else if c < 32 then s.error c
    else (s, scanContinue)
  | .stateInStringEsc =>
    if c = 98 ∨ c = 102 ∨ c = 110 ∨ c = 114 ∨ c = 116 ∨ c = 92 ∨ c = 47 ∨ c = 34 then
      ({ s with stepFn := .stateInString }, scanContinue)
    else if c = 117 then ({ s with stepFn := .stateInStringEscU }, scanContinue)
    else s.error c
  | .stateInStringEscU =>
    if isHex c then ({ s with stepFn := .stateInStringEscU1 }, scanContinue) else s.error c
  | .stateInStringEscU1 =>
    if isHex c then ({ s with stepFn := .stateInStringEscU12 }, scanContinue) else s.error c
  | .stateInStringEscU12 =>
    if isHex c then ({ s with stepFn := .stateInStringEscU123 }, scanContinue) else s.error c
  | .stateInStringEscU123 =>
    if isHex c then ({ s with stepFn := .stateInString }, scanContinue) else s.error c
  | .stateNeg =>
    if c = 48 then ({ s with stepFn := .state0 }, scanContinue)
    else if 49 ≤ c ∧ c ≤ 57 then ({ s with stepFn := .state1 }, scanContinue)
    else s.error c
  | .state1 =>
    if isDigit c then ({ s with stepFn := .state1 }, scanContinue) else s.state0 c
  | .state0 => s.state0 c
  | .stateDot =>
    if isDigit c then ({ s with stepFn := .stateDot0 }, scanContinue) else s.error c
  | .stateDot0 =>
    if isDigit c then (s, scanContinue)
    else if c = 101 ∨ c = 69 then ({ s with stepFn := .stateE }, scanContinue)
    else s.stateEndValue c
  | .stateE =>
    if c = 43 ∨ c = 45 then ({ s with stepFn := .stateESign }, scanContinue)
    else s.stateESign c
  | .stateESign => s.stateESign c
  | .stateE0 =>
    if isDigit c then (s, scanContinue) else s.stateEndValue c
  | .stateT => s.expect c 114 .stateTr
  | .stateTr => s.expect c 117 .stateTru
  | .stateTru => s.expect c 101 .stateEndValue
  | .stateF => s.expect c 97 .stateFa
  | .stateFa => s.expect c 108 .stateFal
  | .stateFal => s.expect c 115 .stateFals
  | .stateFals => s.expect c 101 .stateEndValue
  | .stateN => s.expect c 117 .stateNu
  | .stateNu => s.expect c 108 .stateNul
  | .stateNul => s.expect c 108 .stateEndValue
  | .stateError => (s, scanError)

/-- Modelled from the spec: `scanner.eof()` of the absent `json_scanner.go` finalizes the
scan and reports `scanError` when the document was left incomplete (unterminated string,
unbalanced container), recording the error in the scanner. -/
def Scanner.eof (s : Scanner) : Scanner × ScanOp :=
  if s.err.isSome then (s, scanError)
  else if s.endTop then (s, scanEnd)
  else
    let s1 := (s.step 32).1
    if s1.endTop then (s1, scanEnd)
    else if s1.err.isNone then ({ s1 with err := some .unexpectedEnd }, scanError)
    else (s1, scanError)

/-! ## Pattern matchers and the literal codec -/

/-- A compiled regular expression, seen through the two methods the obfuscator calls.  The
patterns themselves are supplied by the configuration. -/
structure Regexp where
  MatchString : List Nat → Bool
  ReplaceAllString : List Nat → List Nat → List Nat

/-- The obfuscator's AppSec options: two optional pattern matchers. -/
structure Obfuscator where
  KeyRegexp : Option Regexp
  ValueRegexp : Option Regexp

/-- Value of a hexadecimal digit. -/
def hexVal (c : Nat) : Nat :=
  if 48 ≤ c ∧ c ≤ 57 then c - 48
  else if 97 ≤ c ∧ c ≤ 102 then c - 87
  else c - 55

/-- UTF-8 encoding of a code point. -/
def utf8 (r : Nat) : List Nat :=
  if r < 128 then [r]
  else if r < 2048 then [192 + r / 64, 128 + r % 64]
  else if r < 65536 then [224 + r / 4096, 128 + (r / 64) % 64, 128 + r % 64]
  else [240 + r / 262144, 128 + (r / 4096) % 64, 128 + (r / 64) % 64, 128 + r % 64]

/-- Code unit written by the four hexadecimal digits `a b c d`. -/
def hex4 (a b c d : Nat) : Nat := hexVal a * 4096 + hexVal b * 256 + hexVal c * 16 + hexVal d

/-- Bytes emitted for a pending unpaired surrogate half: the replacement character. -/
def flushPending (pend : Option Nat) : List Nat :=
  if pend.isSome then [239, 191, 189] else []

/-- Decoding of the content of a string literal, the opening quote removed: the closing
quote must be the last byte.  `pend` holds a high surrogate half read from a `\u` escape
and waiting for its low half. -/
def unquoteBody (pend : Option Nat) : List Nat → Option (List Nat)
  | [] => none
  | [34] => some (flushPending pend)
  | 92 :: 117 :: a :: b :: c :: d :: rest =>
    if isHex a ∧ isHex b ∧ isHex c ∧ isHex d then
      let u := hex4 a b c d
      match pend with
      | some hi =>
        if 56320 ≤ u ∧ u < 57344 then
          (unquoteBody none rest).map
            (utf8 (65536 + (hi - 55296) * 1024 + (u - 56320)) ++ ·)
        else if 55296 ≤ u ∧ u < 56320 then
          (unquoteBody (some u) rest).map ([239, 191, 189] ++ ·)
        else (unquoteBody none rest).map ([239, 191, 189] ++ utf8 u ++ ·)
      | none =>
        if 55296 ≤ u ∧ u < 56320 then unquoteBody (some u) rest
        else if 56320 ≤ u ∧ u < 57344 then
          (unquoteBody none rest).map ([239, 191, 189] ++ ·)
        else (unquoteBody none rest).map (utf8 u ++ ·)
    else none
  | 92 :: e :: rest =>
    if e = 34 ∨ e = 92 ∨ e = 47 then (unquoteBody none rest).map (flushPending pend ++ e :: ·)
    else if e = 98 then (unquoteBody none rest).map (flushPending pend ++ 8 :: ·)
    else if e = 102 then (unquoteBody none rest).map (flushPending pend ++ 12 :: ·)
    else if e = 110 then (unquoteBody none rest).map (flushPending pend ++ 10 :: ·)
    else if e = 114 then (unquoteBody none rest).map (flushPending pend ++ 13 :: ·)
    else if e = 116 then (unquoteBody none rest).map (flushPending pend ++ 9 :: ·)
    else none
  | c :: rest =>
    if c = 34 ∨ c = 92 ∨ c < 32 then none
    else (unquoteBody none rest).map (flushPending pend ++ c :: ·)

/-- Modelled from the spec: `unquote` (Literal Codec, not in the sources at hand) decodes a
JSON string literal, handling the standard escapes, to its logical value; `none` stands for
`ok = false` on a malformed literal.  Bytes that are not part of an escape are kept as they
are. -/
def unquote (s : List Nat) : Option (List Nat) :=
  match s with
  | 34 :: rest => unquoteBody none rest
  | _ => none

/-- Hexadecimal digit (lower case) of a value below sixteen. -/
def hexDigit (n : Nat) : Nat := if n < 10 then 48 + n else 87 + n

/-- Escaping of one byte in a minimal JSON string literal. -/
def quoteByte (c : Nat) : List Nat :=
  if c = 34 then [92, 34]
  else if c = 92 then [92, 92]
  else if c = 10 then [92, 110]
  else if c = 13 then [92, 114]
  else if c = 9 then [92, 116]
  else if c < 32 then [92, 117, 48, 48, hexDigit (c / 16), hexDigit (c % 16)]
  else [c]

/-- Modelled from the spec: `quote` (Literal Codec, not in the sources at hand) encodes a
logical string back into a minimal valid JSON string literal; `none` stands for an encode
failure, which does not occur. -/
def quote (s : List Nat) : Option (List Nat) :=
  some (34 :: (s.flatMap quoteByte ++ [34]))

/-! ## The edit buffer -/

/-- One change: replace the bytes `from_ ..= to_` of the original input by `value`. -/
structure Edit where
  from_ : Int
  to_ : Int
  value : List Nat
  deriving DecidableEq, Repr

/-- The Go type `diff`: a list of changes. -/
abbrev Diff := List Edit

/-- Loop of `diff.apply`: `from_` is the Go variable `from`, `output` the builder. -/
def Diff.applyLoop (input : List Nat) : List Edit → Int → List Nat → Res (List Nat)
  | [], from_, output => do
    let tail ← sliceFrom input from_
    pure (output ++ tail)
  | e :: rest, from_, output => do
    let s ← slice input from_ e.from_
    Diff.applyLoop input rest (e.to_ + 1) (output ++ s ++ e.value)

/-- Go `diff.apply`. -/
def Diff.apply (d : Diff) (input : List Nat) : Res (List Nat) :=
  Diff.applyLoop input d 0 []

/-- Loop of Go's `sort.Search`: binary search of the smallest index in `[i, j)` at which
`f` holds. -/
def sortSearchLoop (f : Nat → Bool) : Nat → Nat → Nat → Res Nat
  | 0, _, _ => .timeout
  | fuel + 1, i, j =>
    if i < j then
      let h := (i + j) / 2
      if !f h then sortSearchLoop f fuel (h + 1) j else sortSearchLoop f fuel i h
    else .ok i

/-- Go `sort.Search(n, f)`. -/
def sortSearch (n : Nat) (f : Nat → Bool) : Res Nat :=
  sortSearchLoop f (n + 1) 0 n

/-- Go `diff.add`: insert the change before the first one whose `to` exceeds `from`. -/
def Diff.add (d : Diff) (from_ to_ : Int) (value : List Nat) : Res Diff := do
  let elt : Edit := { from_ := from_, to_ := to_, value := value }
  let i ← sortSearch d.length (fun i =>
    match d[i]? with
    | some e => decide (e.to_ > from_)
    | none => false)
  if i = d.length then pure (d ++ [elt])
  else pure (d.take i ++ elt :: d.drop i)

/-- Go `diff.merge`: add every change of `other`, shifted by `offset`. -/
def Diff.merge (d : Diff) (other : Diff) (offset : Int) : Res Diff :=
  match other with
  | [] => pure d
  | e :: rest => do
    let d1 ← Diff.add d (e.from_ + offset) (e.to_ + offset) e.value
    Diff.merge d1 rest offset

/-! ## Loops -/

/-- How one iteration of a `for ; i < len(input); i++` loop ends: `next j st` goes on with
the loop variable equal to `j` (the increment of the `for` clause included), `ret r`
leaves the enclosing function with `r`. -/
inductive Step (σ ρ : Type) where
  | next (j : Nat) (st : σ)
  | ret (r : ρ)
  deriving DecidableEq, Repr

/-- The loop `for ; i < len(input); i++ { body }` followed by `done`, with an iteration
budget.  `body i c st` receives the loop variable, the byte `input[i]` and the variables
the loop updates. -/
def forLoop {σ ρ : Type} (input : List Nat) (body : Nat → Nat → σ → Res (Step σ ρ))
    (done : Nat → σ → Res ρ) : Nat → Nat → σ → Res ρ
  | 0, _, _ => .timeout
  | fuel + 1, i, st =>
    match input[i]? with
    | none => done i st
    | some c =>
      match body i c st with
      | .ok (.next j st1) => forLoop input body done fuel j st1
      | .ok (.ret r) => .ok r
      | .panic => .panic
      | .timeout => .timeout

/-- Go `error` values produced by the walkers: the scanner's syntax error, or the typed
signal `unexpectedScannerOpError` carrying the operation actually met. -/
inductive Err where
  | syntaxError (e : SyntaxError)
  | unexpectedScannerOpError (op : ScanOp)
  deriving DecidableEq, Repr

/-- The Go expression `scanner.err` seen as an `error` value (`none` is `nil`). -/
def Scanner.errValue (s : Scanner) : Option Err := s.err.map Err.syntaxError

/-- Go `isJSONStringEnd`: `input[i] == '"' && input[i-1] != '\\'`. -/
def isJSONStringEnd (input : List Nat) (i : Nat) : Res Bool := do
  let c ← byteAt input i
  if c = 34 then do
    let p ← byteAt input ((i : Int) - 1)
    pure (p != 92)
  else pure false

/-! ## Cursor helpers -/

/-- Result of `stepToOneOf`: the scanner after the call and the Go results `(j, op, err)`. -/
structure StepResult where
  sc : Scanner
  i : Nat
  op : ScanOp
  err : Option Err
  deriving DecidableEq, Repr

/-- Body of the loop of `stepToOneOf`. -/
def stepToOneOfBody (targets : List ScanOp) (i c : Nat) (sc : Scanner) :
    Res (Step Scanner StepResult) :=
  let r := sc.step c
  match r.2 with
  | scanSkipSpace => .ok (.next (i + 1) r.1)
  | scanContinue => .ok (.next (i + 1) r.1)
  | scanError => .ok (.ret { sc := r.1, i := i + 1, op := scanError, err := r.1.errValue })
  | op =>
    if targets.contains op then .ok (.ret { sc := r.1, i := i + 1, op := op, err := none })
    else .ok (.ret { sc := r.1, i := i + 1, op := op, err := some (.unexpectedScannerOpError op) })

/-- Go `stepToOneOf`: at the end of the input the scanner is told `eof` and the operation
returned is `0`, which is `scanContinue`. -/
def stepToOneOf (scanner : Scanner) (input : List Nat) (i : Nat) (targets : List ScanOp) :
    Res StepResult :=
  forLoop input (stepToOneOfBody targets)
    (fun i sc => .ok { sc := sc.eof.1, i := i, op := scanContinue, err := sc.eof.1.errValue })
    (input.length + 1) i scanner

/-- Go `stepTo`. -/
def stepTo (scanner : Scanner) (input : List Nat) (i : Nat) (target : ScanOp) : Res StepResult :=
  stepToOneOf scanner input i [target]

/-- Variables updated by the loop of `stepUntil`. -/
structure UntilState where
  sc : Scanner
  depth : Int

/-- Body of the loop of `stepUntil`. -/
def stepUntilBody (until_ : ScanOp) (i c : Nat) (st : UntilState) :
    Res (Step UntilState (Scanner × Nat × Option Err)) :=
  let r := st.sc.step c
  match r.2 with
  | scanError => .ok (.ret (r.1, i + 1, r.1.errValue))
  | scanSkipSpace => .ok (.next (i + 1) { st with sc := r.1 })
  | scanContinue => .ok (.next (i + 1) { st with sc := r.1 })
  | op =>
    if st.depth = 0 ∧ op = until_ then .ok (.ret (r.1, i + 1, none))
    else match op with
      | scanBeginArray => .ok (.next (i + 1) { sc := r.1, depth := st.depth + 1 })
      | scanBeginObject => .ok (.next (i + 1) { sc := r.1, depth := st.depth + 1 })
      | scanEndArray => .ok (.next (i + 1) { sc := r.1, depth := st.depth - 1 })
      | scanEndObject => .ok (.next (i + 1) { sc := r.1, depth := st.depth - 1 })
      | _ => .ok (.next (i + 1) { st with sc := r.1 })

/-- Go `stepUntil`. -/
def stepUntil (scanner : Scanner) (input : List Nat) (i : Nat) (until_ : ScanOp) :
    Res (Scanner × Nat × Option Err) :=
  forLoop input (stepUntilBody until_)
    (fun i st => .ok (st.sc.eof.1, i, st.sc.eof.1.errValue))
    (input.length + 1) i { sc := scanner, depth := 0 }

/-! ## Structural walkers -/

/-- Variables updated by the loop of `walkArrayStrings`; `acc` is the state captured by
the `visit` closure. -/
structure ArrayState (β : Type) where
  sc : Scanner
  stringFrom : Int
  depth : Int
  acc : β

/-- Body of the loop of `walkArrayStrings`. -/
def walkArrayStringsBody {β : Type} (input : List Nat) (visit : Int → Int → β → Res β)
    (i c : Nat) (st : ArrayState β) : Res (Step (ArrayState β) β) :=
  let r := st.sc.step c
  match r.2 with
  | scanBeginObject => .ok (.next (i + 1) { st with sc := r.1, depth := st.depth + 1 })
  | scanBeginArray => .ok (.next (i + 1) { st with sc := r.1, depth := st.depth + 1 })
  | scanEndObject => .ok (.next (i + 1) { st with sc := r.1, depth := st.depth - 1 })
  | scanEndArray =>
    if st.depth = 0 then .ok (.ret st.acc)
    else .ok (.next (i + 1) { st with sc := r.1, depth := st.depth - 1 })
  | scanBeginLiteral =>
    if st.depth = 0 ∧ c = 34 then .ok (.next (i + 1) { st with sc := r.1, stringFrom := i })
    else .ok (.next (i + 1) { st with sc := r.1 })
  | scanContinue =>
    if st.stringFrom ≠ -1 then do
      let e ← isJSONStringEnd input i
      if e then do
        let acc ← visit st.stringFrom i st.acc
        pure (.next (i + 1) { st with sc := r.1, stringFrom := -1, acc := acc })
      else pure (.next (i + 1) { st with sc := r.1 })
    else .ok (.next (i + 1) { st with sc := r.1 })
  | scanError => .ok (.ret st.acc)
  | _ => .ok (.next (i + 1) { st with sc := r.1 })

/-- Go `walkArrayStrings`; the result is the state of the `visit` closure after the walk. -/
def walkArrayStrings {β : Type} (input : List Nat) (visit : Int → Int → β → Res β)
    (acc : β) : Res β := do
  let r ← stepTo Scanner.reset input 0 scanBeginArray
  if r.err.isSome then pure acc
  else
    forLoop input (walkArrayStringsBody input visit) (fun _ st => .ok st.acc)
      (input.length + 1) r.i { sc := r.sc, stringFrom := -1, depth := 0, acc := acc }

/-- Variables updated by the loop of `walkObject`; `acc` is the state captured by the
`visit` closure. -/
structure ObjectState (β : Type) where
  sc : Scanner
  keyFrom : Int
  keyTo : Int
  valueFrom : Int
  depth : Int
  acc : β

/-- Result of `walkObject`: the scanner after the call, the Go results `(i, err)` and the
state of the `visit` closure. -/
structure WalkResult (β : Type) where
  sc : Scanner
  i : Nat
  err : Option Err
  acc : β

/-- Body of the loop of `walkObject`. -/
def walkObjectBody {β : Type} (input : List Nat)
    (visit : Int → Int → Int → Int → β → Res β) (i c : Nat) (st : ObjectState β) :
    Res (Step (ObjectState β) (WalkResult β)) :=
  let r := st.sc.step c
  match r.2 with
  | scanBeginObject => .ok (.next (i + 1) { st with sc := r.1, depth := st.depth + 1 })
  | scanBeginArray => .ok (.next (i + 1) { st with sc := r.1, depth := st.depth + 1 })
  | scanEndArray => .ok (.next (i + 1) { st with sc := r.1, depth := st.depth - 1 })
  | scanEndObject =>
    if st.depth ≠ 0 then .ok (.next (i + 1) { st with sc := r.1, depth := st.depth - 1 })
    else if st.keyFrom ≠ -1 ∧ st.keyTo ≠ -1 ∧ st.valueFrom ≠ -1 then do
      let acc ← visit st.keyFrom st.keyTo st.valueFrom i st.acc
      pure (.ret { sc := r.1, i := i + 1, err := none, acc := acc })
    else .ok (.ret { sc := r.1, i := i + 1, err := none, acc := st.acc })
  | scanBeginLiteral =>
    if st.depth ≠ 0 ∨ st.keyFrom ≠ -1 then .ok (.next (i + 1) { st with sc := r.1 })
    else if c = 34 then .ok (.next (i + 1) { st with sc := r.1, keyFrom := i })
    else .ok (.next (i + 1) { st with sc := r.1 })
  | scanContinue =>
    if st.keyFrom ≠ -1 ∧ st.keyTo = -1 then do
      let e ← isJSONStringEnd input i
      if e then pure (.next (i + 1) { st with sc := r.1, keyTo := (i : Int) + 1 })
      else pure (.next (i + 1) { st with sc := r.1 })
    else .ok (.next (i + 1) { st with sc := r.1 })
  | scanObjectKey =>
    if st.depth = 0 then .ok (.next (i + 1) { st with sc := r.1, valueFrom := (i : Int) + 1 })
    else .ok (.next (i + 1) { st with sc := r.1 })
  | scanObjectValue =>
    if st.depth ≠ 0 then .ok (.next (i + 1) { st with sc := r.1 })
    else do
      let acc ← visit st.keyFrom st.keyTo st.valueFrom i st.acc
      pure (.next (i + 1)
        { st with sc := r.1, keyFrom := -1, keyTo := -1, valueFrom := -1, acc := acc })
  | scanError => .ok (.ret { sc := r.1, i := i, err := r.1.errValue, acc := st.acc })
  | _ => .ok (.next (i + 1) { st with sc := r.1 })

/-- Go `walkObject`. -/
def walkObject {β : Type} (scanner : Scanner) (input : List Nat) (i : Nat)
    (visit : Int → Int → Int → Int → β → Res β) (acc : β) : Res (WalkResult β) := do
  let r ← stepTo scanner input i scanBeginObject
  if r.err.isSome then pure { sc := r.sc, i := r.i, err := r.err, acc := acc }
  else
    forLoop input (walkObjectBody input visit)
      (fun i st => .ok { sc := st.sc.eof.1, i := i, err := st.sc.eof.1.errValue, acc := st.acc })
      (input.length + 1) r.i
      { sc := r.sc, keyFrom := -1, keyTo := -1, valueFrom := -1, depth := 0, acc := acc }

/-- Body of the loop of `scanString`; `from_` is the offset of the opening quote. -/
def scanStringBody (input : List Nat) (from_ : Int) (i c : Nat) (sc : Scanner) :
    Res (Step Scanner (Int × Int × Option Err)) :=
  let r := sc.step c
  match r.2 with
  | scanError => .ok (.ret (from_, (i : Int) + 1, r.1.errValue))
  | scanContinue => do
    let e ← isJSONStringEnd input i
    if e then pure (.ret (from_, (i : Int) + 1, none))
    else pure (.next (i + 1) r.1)
  | op => .ok (.ret (from_, (i : Int) + 1, some (.unexpectedScannerOpError op)))

/-- Go `scanString`: the results `(from, to, err)`. -/
def scanString (input : List Nat) : Res (Int × Int × Option Err) := do
  let r ← stepTo Scanner.reset input 0 scanBeginLiteral
  if r.err.isSome then pure (0, 0, r.err)
  else do
    let from_ : Int := (r.i : Int) - 1
    let c ← byteAt input from_
    if c ≠ 34 then
      pure (from_, (r.i : Int) + 1, some (.unexpectedScannerOpError scanBeginLiteral))
    else
      forLoop input (scanStringBody input from_)
        (fun _ sc => .ok (0, 0, sc.eof.1.errValue))
        (input.length + 1) r.i r.sc

/-! ## The AppSec semantic layer -/

/-- The key literal `"parameters"`, quotes included. -/
def parametersKey : List Nat := [34, 112, 97, 114, 97, 109, 101, 116, 101, 114, 115, 34]

/-- The key literal `"key_path"`, quotes included. -/
def keyPathKey : List Nat := [34, 107, 101, 121, 95, 112, 97, 116, 104, 34]

/-- The key literal `"value"`, quotes included. -/
def valueKey : List Nat := [34, 118, 97, 108, 117, 101, 34]

/-- The key literal `"highlight"`, quotes included. -/
def highlightKey : List Nat := [34, 104, 105, 103, 104, 108, 105, 103, 104, 116, 34]

/-- The replacement literal `"?"`, quotes included. -/
def redacted : List Nat := [34, 63, 34]

/-- The variables captured by the field visitor of `obfuscateAppSecParameter`. -/
structure ParamFields where
  keypath : List Nat
  vfrom : Int
  vto : Int
  hfrom : Int
  hto : Int
  deriving DecidableEq, Repr

/-- The field visitor of `obfuscateAppSecParameter`: `switch input[keyFrom:keyTo]`. -/
def paramVisit (input : List Nat) (keyFrom keyTo valueFrom valueTo : Int)
    (f : ParamFields) : Res ParamFields := do
  let k ← slice input keyFrom keyTo
  if k = keyPathKey then do
    let v ← slice input valueFrom valueTo
    pure { f with keypath := v }
  else if k = valueKey then pure { f with vfrom := valueFrom, vto := valueTo }
  else if k = highlightKey then pure { f with hfrom := valueFrom, hto := valueTo }
  else pure f

/-- The visitor of `hasSensitiveKeyPath`; the state is the variable `found`. -/
def keyPathVisit (keyRE : Regexp) (keypath : List Nat) (from_ to_ : Int) (found : Bool) :
    Res Bool :=
  if found then pure found
  else do
    let value ← slice keypath from_ (to_ + 1)
    match unquote value with
    | none => pure found
    | some v => if keyRE.MatchString v then pure true else pure found

/-- Go `hasSensitiveKeyPath`. -/
def hasSensitiveKeyPath (o : Obfuscator) (keypath : List Nat) : Res Bool :=
  match o.KeyRegexp with
  | none => pure false
  | some keyRE =>
    if keypath = [] then pure false
    else walkArrayStrings keypath (keyPathVisit keyRE keypath) false

/-- The steps shared by the highlight visitor and `obfuscateAppSecValue` once the raw
literal `raw` at `from_ ..= to_` is known and the key path is not sensitive: unquote, match,
replace the matches, quote, add.  Calling a method of a nil matcher panics. -/
def redactMatches (o : Obfuscator) (raw : List Nat) (from_ to_ : Int) (d : Diff) : Res Diff :=
  match unquote raw with
  | none => pure d
  | some value =>
    match o.ValueRegexp with
    | none => .panic
    | some valueRE =>
      if !valueRE.MatchString value then pure d
      else match quote (valueRE.ReplaceAllString value [63]) with
        | none => pure d
        | some q => Diff.add d from_ to_ q

/-- The visitor of `obfuscateAppSecHighlights`; the state is the diff. -/
def highlightVisit (o : Obfuscator) (input : List Nat) (hasSensitiveKey : Bool)
    (from_ to_ : Int) (d : Diff) : Res Diff :=
  if hasSensitiveKey then Diff.add d from_ to_ redacted
  else do
    let raw ← slice input from_ (to_ + 1)
    redactMatches o raw from_ to_ d

/-- Go `obfuscateAppSecHighlights`. -/
def obfuscateAppSecHighlights (o : Obfuscator) (input : List Nat) (diff : Diff)
    (hasSensitiveKey : Bool) : Res Diff :=
  if o.ValueRegexp.isNone ∧ hasSensitiveKey = false then pure diff
  else walkArrayStrings input (highlightVisit o input hasSensitiveKey) diff

/-- Go `obfuscateAppSecValue`. -/
def obfuscateAppSecValue (o : Obfuscator) (input : List Nat) (diff : Diff)
    (hasSensitiveKey : Bool) : Res Diff :=
  if o.ValueRegexp.isNone ∧ hasSensitiveKey = false then pure diff
  else do
    let r ← scanString input
    if r.2.2.isSome then pure diff
    else if hasSensitiveKey then Diff.add diff r.1 (r.2.1 - 1) redacted
    else do
      let raw ← slice input r.1 r.2.1
      redactMatches o raw r.1 (r.2.1 - 1) diff

/-- Result of `obfuscateAppSecParameter`: the scanner and diff after the call and the Go
results `(i, err)`. -/
structure ParamResult where
  sc : Scanner
  diff : Diff
  i : Nat
  err : Option Err
  deriving DecidableEq, Repr

/-- Go `obfuscateAppSecParameter`. -/
def obfuscateAppSecParameter (o : Obfuscator) (scanner : Scanner) (input : List Nat) (i : Nat)
    (d : Diff) : Res ParamResult := do
  let w ← walkObject scanner input i (paramVisit input)
    { keypath := [], vfrom := 0, vto := 0, hfrom := 0, hto := 0 }
  if w.err.isSome then pure { sc := w.sc, diff := d, i := w.i, err := w.err }
  else do
    let hasSensitiveKey ← hasSensitiveKeyPath o w.acc.keypath
    let highlights ← slice input w.acc.hfrom w.acc.hto
    let d1 ← if highlights ≠ [] then do
        let tmpDiff ← obfuscateAppSecHighlights o highlights [] hasSensitiveKey
        Diff.merge d tmpDiff w.acc.hfrom
      else pure d
    let value ← slice input w.acc.vfrom w.acc.vto
    let d2 ← if value ≠ [] then do
        let tmpDiff ← obfuscateAppSecValue o value [] hasSensitiveKey
        Diff.merge d1 tmpDiff w.acc.vfrom
      else pure d1
    pure { sc := w.sc, diff := d2, i := w.i, err := none }

/-- Variables updated by the loop of `obfuscateAppSecParameters`. -/
structure ParamsState where
  sc : Scanner
  diff : Diff
  deriving DecidableEq, Repr

/-- The end of an iteration of the loop of `obfuscateAppSecParameters`: step to the next
array value or to the end of the array; when the loop goes on, the `for` clause increments
the index returned by `stepToOneOf`. -/
def parametersNext (input : List Nat) (sc : Scanner) (i : Nat) (diff : Diff) :
    Res (Step ParamsState (ParamsState × Nat)) := do
  let r ← stepToOneOf sc input i [scanArrayValue, scanEndArray]
  if r.err.isSome ∨ r.op = scanEndArray then pure (.ret ({ sc := r.sc, diff := diff }, r.i))
  else pure (.next (r.i + 1) { sc := r.sc, diff := diff })

/-- Body of the loop of `obfuscateAppSecParameters`. -/
def obfuscateAppSecParametersBody (o : Obfuscator) (input : List Nat) (i _c : Nat)
    (st : ParamsState) : Res (Step ParamsState (ParamsState × Nat)) := do
  let p ← obfuscateAppSecParameter o st.sc input i st.diff
  match p.err with
  | none => parametersNext input p.sc p.i p.diff
  | some (.syntaxError _) => pure (.ret ({ sc := p.sc, diff := p.diff }, p.i))
  | some (.unexpectedScannerOpError got) =>
    match got with
    | scanEndArray => pure (.ret ({ sc := p.sc, diff := p.diff }, p.i))
    | scanBeginObject => do
      let u ← stepUntil p.sc input p.i scanEndObject
      if u.2.2.isSome then pure (.ret ({ sc := u.1, diff := p.diff }, u.2.1))
      else parametersNext input u.1 u.2.1 p.diff
    | scanBeginArray => do
      let u ← stepUntil p.sc input p.i scanEndArray
      if u.2.2.isSome then pure (.ret ({ sc := u.1, diff := p.diff }, u.2.1))
      else parametersNext input u.1 u.2.1 p.diff
    | scanBeginLiteral => parametersNext input p.sc p.i p.diff
    | _ => pure (.ret ({ sc := p.sc, diff := p.diff }, p.i))

/-- Go `obfuscateAppSecParameters`: the scanner and diff after the call and the returned
index. -/
def obfuscateAppSecParameters (o : Obfuscator) (scanner : Scanner) (input : List Nat) (i : Nat)
    (diff : Diff) : Res (ParamsState × Nat) := do
  let r ← stepTo scanner input i scanBeginArray
  if r.err.isSome then pure ({ sc := r.sc, diff := diff }, r.i)
  else
    forLoop input (obfuscateAppSecParametersBody o input)
      (fun i st => .ok (st, i)) (input.length + 1) r.i { sc := r.sc, diff := diff }

/-- Variables updated by the main loop of `obfuscateAppSec`. -/
structure MainState where
  sc : Scanner
  diff : Diff
  keyFrom : Int
  keyTo : Int
  deriving DecidableEq, Repr

/-- Body of the main loop of `obfuscateAppSec`.  After a `"parameters"` key the loop
variable is set to the index returned by `obfuscateAppSecParameters` and decremented; the
increment of the `for` clause then restores it, so the next iteration starts at the
returned index. -/
def obfuscateAppSecBody (o : Obfuscator) (input : List Nat) (i c : Nat) (st : MainState) :
    Res (Step MainState (List Nat × Option Err)) :=
  let r := st.sc.step c
  match r.2 with
  | scanError => .ok (.ret (input, r.1.errValue))
  | scanBeginLiteral =>
    if c = 34 then .ok (.next (i + 1) { st with sc := r.1, keyFrom := i })
    else .ok (.next (i + 1) { st with sc := r.1 })
  | scanContinue =>
    if st.keyFrom ≠ -1 then do
      let e ← isJSONStringEnd input i
      if e then pure (.next (i + 1) { st with sc := r.1, keyTo := i })
      else pure (.next (i + 1) { st with sc := r.1 })
    else .ok (.next (i + 1) { st with sc := r.1 })
  | scanObjectKey => do
    let k ← slice input st.keyFrom (st.keyTo + 1)
    if k = parametersKey then do
      let p ← obfuscateAppSecParameters o r.1 input (i + 1) st.diff
      pure (.next p.2 { sc := p.1.sc, diff := p.1.diff, keyFrom := -1, keyTo := -1 })
    else pure (.next (i + 1) { st with sc := r.1, keyFrom := -1, keyTo := -1 })
  | _ => .ok (.next (i + 1) { st with sc := r.1 })

/-- The end of `obfuscateAppSec`, after the main loop. -/
def obfuscateAppSecDone (input : List Nat) (st : MainState) : Res (List Nat × Option Err) :=
  if st.sc.eof.2 = scanError then .ok (input, st.sc.eof.1.errValue)
  else do
    let output ← Diff.apply st.diff input
    pure (output, none)

/-- Go `obfuscateAppSec`: the results `(output, err)`. -/
def obfuscateAppSec (o : Obfuscator) (input : List Nat) : Res (List Nat × Option Err) :=
  forLoop input (obfuscateAppSecBody o input) (fun _ st => obfuscateAppSecDone input st)
    (input.length + 1) 0 { sc := Scanner.reset, diff := [], keyFrom := -1, keyTo := -1 }

/-- Go `ObfuscateAppSec`; the error is only logged. -/
def ObfuscateAppSec (o : Obfuscator) (val : List Nat) : Res (List Nat) :=
  if o.KeyRegexp.isNone ∧ o.ValueRegexp.isNone then pure val
  else do
    let r ← obfuscateAppSec o val
    if r.2.isSome then pure val else pure r.1

/-! ## Concrete pattern matchers used in the examples -/

/-- Replace every leftmost non-overlapping occurrence of the non-empty literal `pat`;
`skip` counts the bytes of the current occurrence still to be dropped. -/
def replaceLiteral (pat repl : List Nat) (skip : Nat) : List Nat → List Nat
  | [] => []
  | c :: rest =>
    if skip ≠ 0 then replaceLiteral pat repl (skip - 1) rest
    else if pat.isPrefixOf (c :: rest) then repl ++ replaceLiteral pat repl (pat.length - 1) rest
    else c :: replaceLiteral pat repl 0 rest

/-- Whether the literal `pat` occurs in the text. -/
def containsLiteral (pat : List Nat) : List Nat → Bool
  | [] => pat.isEmpty
  | c :: rest => pat.isPrefixOf (c :: rest) || containsLiteral pat rest

/-- The matcher of a literal pattern such as `password` or `secretval`. -/
def literalRegexp (pat : List Nat) : Regexp :=
  { MatchString := containsLiteral pat
    ReplaceAllString := fun s repl => replaceLiteral pat repl 0 s }

/-- Word characters of the class `\w`. -/
def isWord (c : Nat) : Bool :=
  (48 ≤ c && c ≤ 57) || (65 ≤ c && c ≤ 90) || (97 ≤ c && c ≤ 122) || c = 95

/-- Length of the match of `pat\w+` at the start of the text, if any. -/
def wordMatchLength (pat : List Nat) (s : List Nat) : Option Nat :=
  if pat.isPrefixOf s then
    match (s.drop pat.length).takeWhile isWord with
    | [] => none
    | w => some (pat.length + w.length)
  else none

/-- Replace every leftmost greedy match of `pat\w+`. -/
def replaceWord (pat repl : List Nat) (skip : Nat) : List Nat → List Nat
  | [] => []
  | c :: rest =>
    if skip ≠ 0 then replaceWord pat repl (skip - 1) rest
    else match wordMatchLength pat (c :: rest) with
      | some n => repl ++ replaceWord pat repl (n - 1) rest
      | none => c :: replaceWord pat repl 0 rest

/-- Whether `pat\w+` matches somewhere in the text. -/
def containsWord (pat : List Nat) : List Nat → Bool
  | [] => false
  | c :: rest => (wordMatchLength pat (c :: rest)).isSome || containsWord pat rest

/-- The matcher of a pattern `pat\w+` such as `secret=\w+`. -/
def wordRegexp (pat : List Nat) : Regexp :=
  { MatchString := containsWord pat
    ReplaceAllString := fun s repl => replaceWord pat repl 0 s }

/-! ## Well-formed documents -/

/-- Feed every byte of the text to the scanner; `none` as soon as a step reports
`scanError`. -/
def scanAll (sc : Scanner) : List Nat → Option Scanner
  | [] => some sc
  | c :: rest => if (sc.step c).2 = scanError then none else scanAll (sc.step c).1 rest

/-- A text is a well-formed JSON document when the scanner, started from `reset`, accepts
every byte and `eof` does not report `scanError`. -/
def wellFormed (input : List Nat) : Bool :=
  match scanAll Scanner.reset input with
  | some sc => sc.eof.2 != scanError
  | none => false

/-! ## Configurations of the examples -/

/-- Only a key matcher, matching `password`. -/
def keyPassword : Obfuscator :=
  { KeyRegexp := some (literalRegexp (B "password")), ValueRegexp := none }

/-- Only a value matcher, matching `secretval`. -/
def valueSecretval : Obfuscator :=
  { KeyRegexp := none, ValueRegexp := some (literalRegexp (B "secretval")) }

/-- Only a value matcher, matching `secret=\w+`. -/
def valueSecretWord : Obfuscator :=
  { KeyRegexp := none, ValueRegexp := some (wordRegexp (B "secret=")) }

/-! ## Documents of the examples -/

/-- The document `{"a\\":1}`: an object key that ends in an escaped backslash. -/
def docEscapedKey : List Nat := B "\x7b\"a\\\\\":1\x7d"

/-- The document `{"parameters":[{"a\\":1,"b":2}]}`. -/
def docEscapedParamKey : List Nat := B "\x7b\"parameters\":[\x7b\"a\\\\\":1,\"b\":2\x7d]\x7d"

/-- The truncated document `{"parameters":[{"value":"secretval"}]`. -/
def docTruncatedAfterEdit : List Nat := B "\x7b\"parameters\":[\x7b\"value\":\"secretval\"\x7d]"

/-- The document `{"parameters":[{"value":"secretval"},{"value":"secretval"}]}`. -/
def docTwoParams : List Nat :=
  B "\x7b\"parameters\":[\x7b\"value\":\"secretval\"\x7d,\x7b\"value\":\"secretval\"\x7d]\x7d"

/-- The document `{"parameters":[{"value":"?"},{"value":"?"}]}`. -/
def docTwoParamsRedacted : List Nat :=
  B "\x7b\"parameters\":[\x7b\"value\":\"?\"\x7d,\x7b\"value\":\"?\"\x7d]\x7d"

/-- The document `{"parameters":[{"value":"secretval"}, {"value":"secretval"}]}`, with a
blank after the comma. -/
def docTwoParamsSpaced : List Nat :=
  B "\x7b\"parameters\":[\x7b\"value\":\"secretval\"\x7d, \x7b\"value\":\"secretval\"\x7d]\x7d"

/-- The document `{"parameters":[{"value":"?"}, {"value":"?"}]}`. -/
def docTwoParamsSpacedRedacted : List Nat :=
  B "\x7b\"parameters\":[\x7b\"value\":\"?\"\x7d, \x7b\"value\":\"?\"\x7d]\x7d"

/-- The document `{"parameters":[1, "x", {"value":"secretval"}]}`, with a blank after each
comma. -/
def docMixedParamsSpaced : List Nat :=
  B "\x7b\"parameters\":[1, \"x\", \x7b\"value\":\"secretval\"\x7d]\x7d"

/-- The document `{"parameters":[1, "x", {"value":"?"}]}`. -/
def docMixedParamsSpacedRedacted : List Nat :=
  B "\x7b\"parameters\":[1, \"x\", \x7b\"value\":\"?\"\x7d]\x7d"

/-- The document `{"parameters":[1,"x",{"value":"secretval"}]}`. -/
def docMixedParams : List Nat := B "\x7b\"parameters\":[1,\"x\",\x7b\"value\":\"secretval\"\x7d]\x7d"

/-- The document `{"parameters":[1,"x",{"value":"?"}]}`. -/
def docMixedParamsRedacted : List Nat := B "\x7b\"parameters\":[1,\"x\",\x7b\"value\":\"?\"\x7d]\x7d"

/-- The malformed text `{"parameters":[{"value":"secretval"},x1]}`. -/
def docMalformedElement : List Nat :=
  B "\x7b\"parameters\":[\x7b\"value\":\"secretval\"\x7d,x1]\x7d"

/-- The text `{"parameters":[{"value":"?"},x1]}`. -/
def docMalformedElementRedacted : List Nat := B "\x7b\"parameters\":[\x7b\"value\":\"?\"\x7d,x1]\x7d"

/-- The document `{"parameters":[{"key_path":["password"],"value":"a\\"}]}`. -/
def docEscapedValue : List Nat :=
  B "\x7b\"parameters\":[\x7b\"key_path\":[\"password\"],\"value\":\"a\\\\\"\x7d]\x7d"

/-- The text `{"parameters":[{"key_path":["password"],"value":"?""a\\"}]}`. -/
def docEscapedValueOutput : List Nat :=
  B "\x7b\"parameters\":[\x7b\"key_path\":[\"password\"],\"value\":\"?\"\"a\\\\\"\x7d]\x7d"

/-! ## Predicates used to reason about the loops -/

/-- The loop started at index `i` with the variables `st` ends with the outcome `R`, for
every iteration budget larger than the number of bytes left. -/
def Runs {σ ρ : Type} (input : List Nat) (body : Nat → Nat → σ → Res (Step σ ρ))
    (done : Nat → σ → Res ρ) (i : Nat) (st : σ) (R : Res ρ) : Prop :=
  ∀ fuel, input.length - i < fuel → forLoop input body done fuel i st = R

/-- The same as `Runs`, for an index `i > 0` at which the rest of the input is `suffix`
and which does not follow a backslash. -/
def RunsAt {σ ρ : Type} (input : List Nat) (body : Nat → Nat → σ → Res (Step σ ρ))
    (done : Nat → σ → Res ρ) (i : Nat) (suffix : List Nat) (st : σ) (R : Res ρ) : Prop :=
  0 < i → (∃ p, input[i - 1]? = some p ∧ p ≠ 92) → input.drop i = suffix →
    Runs input body done i st R

/-- What the outcome of one iteration means for the outcome `R` of the loop: a `next`
must satisfy `k`, anything else is the outcome of the loop. -/
def Cont {σ ρ : Type} (R : Res ρ) (k : Nat → σ → Prop) : Res (Step σ ρ) → Prop
  | .ok (.next j st) => k j st
  | .ok (.ret r) => R = .ok r
  | .panic => R = .panic
  | .timeout => R = .timeout

/-- Plain bytes of a string literal: no control character, quote or backslash. -/
def plain (c : Nat) : Prop := 32 ≤ c ∧ c ≠ 34 ∧ c ≠ 92

instance (c : Nat) : Decidable (plain c) := by
  unfold plain
  infer_instance

/-- The document `{"parameters":[{"key_path":["k"],"highlight":["h"],"value":"v"}]}` for
the contents `k`, `h` and `v` of the three string literals. -/
def docParam (k h v : List Nat) : List Nat :=
  B "\x7b\"parameters\":[\x7b\"key_path\":[\"" ++ k ++ B "\"],\"highlight\":[\"" ++ h
    ++ B "\"],\"value\":\"" ++ v ++ B "\"\x7d]\x7d"

/-- The scanner after the bytes `{"parameters":[` of a document. -/
def scannerInParameters : Scanner :=
  { stepFn := .stateBeginValueOrEmpty, parseState := [parseArrayValue, parseObjectValue],
    err := none, endTop := false }

/-- The scanner after the bytes `{"parameters":` of a document. -/
def scannerAfterParametersKey : Scanner :=
  { stepFn := .stateBeginValue, parseState := [parseObjectValue], err := none, endTop := false }

/-- The document `{"parameters":[{"key_path":["k"],"value":V}]}` for the content `k` of the
key-path literal and the raw text `V` of the value. -/
def docKeyValue (k V : List Nat) : List Nat :=
  B "\x7b\"parameters\":[\x7b\"key_path\":[\"" ++ k ++ B "\"],\"value\":" ++ V ++ B "\x7d]\x7d"

/-! ## Specification of the edit buffer -/

/-- The edit-buffer invariant from the cursor `lo` on: the first edit starts at `lo` or
later, every edit has `from <= to`, and every edit starts after the end of the previous
one. -/
def Diff.SortedFrom : Int → List Edit → Prop
  | _, [] => True
  | lo, e :: rest => lo ≤ e.from_ ∧ e.from_ ≤ e.to_ ∧ Diff.SortedFrom (e.to_ + 1) rest

/-- The edit-buffer invariant: sorted ascending by `from` and pairwise non-overlapping,
`from[i] <= to[i] < from[i+1]`. -/
def Diff.Sorted : List Edit → Prop
  | [] => True
  | e :: rest => Diff.SortedFrom e.from_ (e :: rest)

/-- The text `input[lo:f1] ++ v1 ++ input[t1+1:f2] ++ v2 ++ ... ++ vn ++ input[tn+1:]` of
the specification of `apply`, for the cursor `lo` and the edits `(f1,t1,v1), ...`. -/
def Diff.spliced (input : List Nat) : Nat → List Edit → List Nat
  | lo, [] => input.drop lo
  | lo, e :: rest =>
    (input.drop lo).take (e.from_.toNat - lo) ++ e.value
      ++ Diff.spliced input (e.to_.toNat + 1) rest

/-- Offset, in the text `spliced input lo d` placed at offset `out` of the output, of the
input byte at offset `p`, for `p` at or after `lo` and outside every edit range. -/
def Diff.position : Nat → Nat → List Edit → Nat → Nat
  | lo, out, [], p => out + (p - lo)
  | lo, out, e :: rest, p =>
    if p < e.from_.toNat then out + (p - lo)
    else Diff.position (e.to_.toNat + 1) (out + (e.from_.toNat - lo) + e.value.length) rest p

/-- The input offset `p` lies in no range `[from, to]` of the buffer. -/
def Diff.Outside (d : Diff) (p : Nat) : Prop :=
  ∀ e ∈ d, (p : Int) < e.from_ ∨ e.to_ < (p : Int)

/-- The edit `e` with both offsets shifted by `offset`, the replacement text unchanged. -/
def Edit.shift (offset : Int) (e : Edit) : Edit :=
  { from_ := e.from_ + offset, to_ := e.to_ + offset, value := e.value }

/-! ## Further documents of the examples -/

/-- The document `{"parameters":[]}`. -/
def docEmptyParams : List Nat := B "\x7b\"parameters\":[]\x7d"

/-- The document `{"parameters":[ ]}`, with a blank inside the array. -/
def docBlankParams : List Nat := B "\x7b\"parameters\":[ ]\x7d"

/-- The document `{"a\\":1,"parameters":[]}`: a key ending in an escaped backslash before
an empty parameters array. -/
def docEscapedKeyEmptyParams : List Nat := B "\x7b\"a\\\\\":1,\"parameters\":[]\x7d"

/-- The string literal `"a\\"`, whose content is `a` followed by an escaped backslash. -/
def litEscapedBackslash : List Nat := B "\"a\\\\\""

/-- The document `{"parameters":[{"value":"abc123","key_path":["password"]}]}`. -/
def docValueFirst : List Nat :=
  B "\x7b\"parameters\":[\x7b\"value\":\"abc123\",\"key_path\":[\"password\"]\x7d]\x7d"

/-- The document `{"parameters":[{"value":"?","key_path":["password"]}]}`. -/
def docValueFirstRedacted : List Nat :=
  B "\x7b\"parameters\":[\x7b\"value\":\"?\",\"key_path\":[\"password\"]\x7d]\x7d"

/-- The document `{"parameters":[{"value":"abc123","key_path":["password"],"a\\":1}]}`: the
field whose key ends in an escaped backslash comes last. -/
def docEscapedFieldLast : List Nat :=
  B "\x7b\"parameters\":[\x7b\"value\":\"abc123\",\"key_path\":[\"password\"],\"a\\\\\":1\x7d]\x7d"

/-- The document `{"parameters":[{"value":"?","key_path":["password"],"a\\":1}]}`. -/
def docEscapedFieldLastRedacted : List Nat :=
  B "\x7b\"parameters\":[\x7b\"value\":\"?\",\"key_path\":[\"password\"],\"a\\\\\":1\x7d]\x7d"

/-- The document `{"parameters":[{"a\\":1,"value":"abc123","key_path":["password"]}]}`: the
same three fields, the one whose key ends in an escaped backslash first. -/
def docEscapedFieldFirst : List Nat :=
  B "\x7b\"parameters\":[\x7b\"a\\\\\":1,\"value\":\"abc123\",\"key_path\":[\"password\"]\x7d]\x7d"

/-- The scanner after a complete element of a parameters array. -/
def scannerAfterElement : Scanner :=
  { stepFn := .stateEndValue, parseState := [parseArrayValue, parseObjectValue],
    err := none, endTop := false }

/-- The pattern `^`: it matches every string, with one empty match at the start, so
replacing all the matches puts the replacement in front of the string. -/
def startRegexp : Regexp :=
  { MatchString := fun _ => true
    ReplaceAllString := fun s repl => repl ++ s }

/-- Only a value matcher, the pattern `^`. -/
def valueStart : Obfuscator :=
  { KeyRegexp := none, ValueRegexp := some startRegexp }

/-- The document `{"parameters":[{"value":""}]}`. -/
def docEmptyValue : List Nat := B "\x7b\"parameters\":[\x7b\"value\":\"\"\x7d]\x7d"

/-- The document `{"parameters":[{"value":"?"}]}`. -/
def docPlaceholderValue : List Nat := B "\x7b\"parameters\":[\x7b\"value\":\"?\"\x7d]\x7d"

/-- The document `{"parameters":[{"value":"??"}]}`. -/
def docTwoPlaceholdersValue : List Nat := B "\x7b\"parameters\":[\x7b\"value\":\"??\"\x7d]\x7d"

/-! ## Nested documents -/

/-- The contents `(k, h, v)` of the three string literals of one object
`{"parameters":[{"key_path":["k"],"highlight":["h"],"value":"v"}]}`. -/
abbrev Block := List Nat × List Nat × List Nat

/-- The object `{"parameters":[{"key_path":["k"],"highlight":["h"],"value":"v"}]}`. -/
def blockText (b : Block) : List Nat := docParam b.1 b.2.1 b.2.2

/-- The objects of a non-empty sequence of blocks, separated by commas. -/
def joinBlocks : Block → List Block → List Nat
  | b, [] => blockText b
  | b, b1 :: bs => blockText b ++ 44 :: joinBlocks b1 bs

/-- A block after redaction under a sensitive key: `highlight` and `value` hold `?`. -/
def redactBlock (b : Block) : Block := (b.1, [63], [63])

/-- The edits that replace by `"?"` the `highlight` and `value` literals of the blocks of
`joinBlocks b bs` when that text starts at index `i` of the input. -/
def blockEdits : Nat → Block → List Block → List Edit
  | i, b, [] =>
    [{ from_ := (i : Int) + 45 + b.1.length, to_ := (i : Int) + 46 + b.1.length + b.2.1.length,
       value := redacted },
     { from_ := (i : Int) + 57 + b.1.length + b.2.1.length,
       to_ := (i : Int) + 58 + b.1.length + b.2.1.length + b.2.2.length, value := redacted }]
  | i, b, b1 :: bs =>
    { from_ := (i : Int) + 45 + b.1.length, to_ := (i : Int) + 46 + b.1.length + b.2.1.length,
      value := redacted }
    :: { from_ := (i : Int) + 57 + b.1.length + b.2.1.length,
         to_ := (i : Int) + 58 + b.1.length + b.2.1.length + b.2.2.length, value := redacted }
    :: blockEdits (i + (63 + b.1.length + b.2.1.length + b.2.2.length)) b1 bs

/-- The opening `{"t1":[{"t2":[ ... {"tn":[` of nested wrappers with the keys `t1 ... tn`. -/
def wrapOpen : List (List Nat) → List Nat
  | [] => []
  | t :: ts => B "\x7b\"" ++ t ++ B "\":[" ++ wrapOpen ts

/-- The closing `]}]} ... ]}` of the same wrappers. -/
def wrapClose : List (List Nat) → List Nat
  | [] => []
  | _ :: ts => wrapClose ts ++ B "]\x7d"

/-- The containers open inside the wrappers, innermost first, above the containers `ps`. -/
def wrapStack : List (List Nat) → List ParseState → List ParseState
  | [], ps => ps
  | _ :: ts, ps => wrapStack ts (parseArrayValue :: parseObjectValue :: ps)

/-- The document `{"t1":[{"t2":[ ... {"tn":[ B1,B2,...,Bm ]} ... ]}]}` where each `Bj` is an
object `{"parameters":[{"key_path":["k"],"highlight":["h"],"value":"v"}]}`. -/
def docNested (ts : List (List Nat)) (b : Block) (bs : List Block) : List Nat :=
  wrapOpen ts ++ joinBlocks b bs ++ wrapClose ts

/-- The scanner after a complete value inside the containers `ps`: at the top level the
document is complete. -/
def scannerAfterValue : List ParseState → Scanner
  | [] => Scanner.mk .stateEndTop [] none true
  | p :: ps => Scanner.mk .stateEndValue (p :: ps) none false

/-- The document
`{"parameters":[{"key_path":["x"],"value":{"parameters":[{"key_path":["password"],"value":"abc123"}]}}]}`:
a `parameters` key inside the `value` of an element of a parameters array. -/
def docParametersInValue : List Nat :=
  B "\x7b\"parameters\":[\x7b\"key_path\":[\"x\"],\"value\":\x7b\"parameters\":[\x7b\"key_path\":[\"password\"],\"value\":\"abc123\"\x7d]\x7d\x7d]\x7d"

/-- The same document with the inner `"abc123"` replaced by `"?"`. -/
def docParametersInValueRedacted : List Nat :=
  B "\x7b\"parameters\":[\x7b\"key_path\":[\"x\"],\"value\":\x7b\"parameters\":[\x7b\"key_path\":[\"password\"],\"value\":\"?\"\x7d]\x7d\x7d]\x7d"

/-- The document
`{"triggers":[{"rule_matches":[{"parameters":[{"key_path":["password"],"value":"abc123"}]}]}]}`. -/
def docTriggers : List Nat :=
  B "\x7b\"triggers\":[\x7b\"rule_matches\":[\x7b\"parameters\":[\x7b\"key_path\":[\"password\"],\"value\":\"abc123\"\x7d]\x7d]\x7d]\x7d"

/-- The same document with `"abc123"` replaced by `"?"`. -/
def docTriggersRedacted : List Nat :=
  B "\x7b\"triggers\":[\x7b\"rule_matches\":[\x7b\"parameters\":[\x7b\"key_path\":[\"password\"],\"value\":\"?\"\x7d]\x7d]\x7d]\x7d"

/-! ## Recording visitors and the texts of the walker examples -/

/-- One call of the `visit` callback of `walkObject`. -/
structure FieldVisit where
  keyFrom : Int
  keyTo : Int
  valueFrom : Int
  valueTo : Int
  deriving DecidableEq, Repr

/-- A `visit` callback of `walkObject` that records the four offsets of every call. -/
def recordField (keyFrom keyTo valueFrom valueTo : Int) (acc : List FieldVisit) :
    Res (List FieldVisit) :=
  .ok (acc ++ [{ keyFrom := keyFrom, keyTo := keyTo, valueFrom := valueFrom,
                 valueTo := valueTo }])

/-- What `walkObject` does on a text: the returned index and error and the calls of
`visit`. -/
structure WalkedFields where
  i : Nat
  err : Option Err
  visits : List FieldVisit
  deriving DecidableEq, Repr

/-- The calls of `visit` made by `walkObject` on the text, from the initial scanner state,
with the returned index and error. -/
def walkObjectFields (input : List Nat) : Res WalkedFields :=
  (walkObject Scanner.reset input 0 recordField []).bind
    (fun w => .ok { i := w.i, err := w.err, visits := w.acc })

/-- A `visit` callback of `walkArrayStrings` that records the two offsets of every call. -/
def recordString (from_ to_ : Int) (acc : List (Int × Int)) : Res (List (Int × Int)) :=
  .ok (acc ++ [(from_, to_)])

/-- The object `{"a\\":1,"b":2}`: the first key ends in an escaped backslash. -/
def objEscapedKeyFirst : List Nat := B "\x7b\"a\\\\\":1,\"b\":2\x7d"

/-- The object `{"b":2,"a\\":1}`: the same two fields in the other order. -/
def objEscapedKeyLast : List Nat := B "\x7b\"b\":2,\"a\\\\\":1\x7d"

/-- The object ` {"b" : [1,{"c":"d"}] , "e":"f\\"}`, with blanks and nested containers. -/
def objNested : List Nat :=
  B " \x7b\"b\" : [1,\x7b\"c\":\"d\"\x7d] , \"e\":\"f\\\\\"\x7d"

/-- The array `["a\\"]`: one string ending in an escaped backslash. -/
def arrEscaped : List Nat := B "[\"a\\\\\"]"

/-- The array `["a\\",["b"]]`. -/
def arrEscapedThenNested : List Nat := B "[\"a\\\\\",[\"b\"]]"

/-- The array ` ["a", 1, true, null, ["b"], {"c":"d"}, "e\"f"] `. -/
def arrMixed : List Nat :=
  B " [\"a\", 1, true, null, [\"b\"], \x7b\"c\":\"d\"\x7d, \"e\\\"f\"] "

/-- The object `{"a":["b"]}`, which is not an array. -/
def objWithArray : List Nat := B "\x7b\"a\":[\"b\"]\x7d"

/-- The key path `["password\\"]`: the string `password` followed by a backslash. -/
def keyPathEscaped : List Nat := B "[\"password\\\\\"]"

/-- The document `{"parameters":[{"key_path":["password\\"],"value":"abc123"}]}`. -/
def docKeyPathEscaped : List Nat :=
  B "\x7b\"parameters\":[\x7b\"key_path\":[\"password\\\\\"],\"value\":\"abc123\"\x7d]\x7d"

/-- The highlights `["a\\",{"k":"v"}]`. -/
def highlightsEscaped : List Nat := B "[\"a\\\\\",\x7b\"k\":\"v\"\x7d]"

/-- The document
`{"parameters":[{"key_path":["password"],"highlight":["a\\",{"k":"v"}]}]}`. -/
def docHighlightsEscaped : List Nat :=
  B "\x7b\"parameters\":[\x7b\"key_path\":[\"password\"],\"highlight\":[\"a\\\\\",\x7b\"k\":\"v\"\x7d]\x7d]\x7d"

/-- The text `{"parameters":[{"key_path":["password"],"highlight":["?":"v"}]}]}`. -/
def docHighlightsEscapedOutput : List Nat :=
  B "\x7b\"parameters\":[\x7b\"key_path\":[\"password\"],\"highlight\":[\"?\":\"v\"\x7d]\x7d]\x7d"

/-- The highlights `["secretval\\"]`. -/
def highlightsSecretEscaped : List Nat := B "[\"secretval\\\\\"]"

/-- The document `{"parameters":[{"highlight":["secretval\\"],"value":"x"}]}`. -/
def docHighlightsSecretEscaped : List Nat :=
  B "\x7b\"parameters\":[\x7b\"highlight\":[\"secretval\\\\\"],\"value\":\"x\"\x7d]\x7d"

/-- The document `{"parameters":[{"value":1},{"value":"secretval"}]}`. -/
def docNumberThenSecret : List Nat :=
  B "\x7b\"parameters\":[\x7b\"value\":1\x7d,\x7b\"value\":\"secretval\"\x7d]\x7d"

/-- The document `{"parameters":[{"value":1}, {"value":"secretval"}]}`, with a blank after
the comma. -/
def docNumberThenSecretSpaced : List Nat :=
  B "\x7b\"parameters\":[\x7b\"value\":1\x7d, \x7b\"value\":\"secretval\"\x7d]\x7d"

/-- The document `{"parameters":[{"value":1}, {"value":"?"}]}`. -/
def docNumberThenSecretSpacedRedacted : List Nat :=
  B "\x7b\"parameters\":[\x7b\"value\":1\x7d, \x7b\"value\":\"?\"\x7d]\x7d"

/-! ## Outcomes that satisfy a postcondition -/

/-- The outcome is not a budget exhaustion, and when it is a value the value satisfies
`P`. -/
def Res.Sat {α : Type} (P : α → Prop) : Res α → Prop
  | .ok a => P a
  | .panic => True
  | .timeout => False

/-- The outcome of one loop iteration started at index `i`: it is not a budget exhaustion,
a `next` goes to a larger index and keeps the invariant, a `ret` satisfies the
postcondition. -/
def Step.Sat {σ ρ : Type} (i : Nat) (Inv : Nat → σ → Prop) (P : ρ → Prop) :
    Res (Step σ ρ) → Prop
  | .ok (.next j st) => i < j ∧ Inv j st
  | .ok (.ret r) => P r
  | .panic => True
  | .timeout => False

/-! ## Specification of the cursor helpers -/

/-- What a scan meets first: a byte at index `k` on which the scanner returns the
operation `op`, other than `scanSkipSpace` and `scanContinue` (`sc` is the scanner after
that byte), or the end of the input at index `k` (`sc` is the scanner reached). -/
inductive Significant where
  | found (k : Nat) (sc : Scanner) (op : ScanOp)
  | exhausted (k : Nat) (sc : Scanner)
  deriving DecidableEq, Repr

/-- The first significant operation of the scan of the bytes `rest`, which stand at the
indexes `k, k+1, ...` of the input. -/
def firstSignificant : Scanner → List Nat → Nat → Significant
  | s, [], k => .exhausted k s
  | s, c :: rest, k =>
    if (s.step c).2 = scanSkipSpace ∨ (s.step c).2 = scanContinue then
      firstSignificant (s.step c).1 rest (k + 1)
    else .found k (s.step c).1 (s.step c).2

/-- The result of `stepToOneOf` in terms of the first significant operation: a syntax
error for `scanError`, success for a target, the typed signal for any other operation, and
the outcome of `eof` at the end of the input. -/
def stepToOneOfSpec (targets : List ScanOp) : Significant → StepResult
  | .found k sc op =>
    if op = scanError then { sc := sc, i := k + 1, op := op, err := sc.errValue }
    else if op ∈ targets then { sc := sc, i := k + 1, op := op, err := none }
    else { sc := sc, i := k + 1, op := op, err := some (.unexpectedScannerOpError op) }
  | .exhausted k sc =>
    { sc := sc.eof.1, i := k, op := scanContinue, err := sc.eof.1.errValue }

/-- First byte of a JSON value that is not a string: `{`, `[`, `-`, `t`, `f`, `n` or a
digit. -/
def startsNonString (c : Nat) : Prop :=
  c = 123 ∨ c = 91 ∨ c = 45 ∨ c = 116 ∨ c = 102 ∨ c = 110 ∨ (48 ≤ c ∧ c ≤ 57)

/-! ## Nesting seen through the scanner's parse stack -/

/-- Effect of one scanner step on the byte `c` that returned `op` on the parse-state stack:
`ps` is the stack before the step and `ps1` the stack after it.  Containers are begun and
ended by their own bytes only, and an error leaves the stack as it is. -/
def StackEffect (c : Nat) (ps ps1 : List ParseState) : ScanOp → Prop
  | scanBeginObject => c = 123 ∧ ps1 = parseObjectKey :: ps
  | scanBeginArray => c = 91 ∧ ps1 = parseArrayValue :: ps
  | scanEndArray => c = 93 ∧ ps = parseArrayValue :: ps1
  | scanEndObject => c = 125 ∧ (ps = parseObjectValue :: ps1 ∨ ps = parseObjectKey :: ps1)
  | scanObjectKey => ∃ rest, ps = parseObjectKey :: rest ∧ ps1 = parseObjectValue :: rest
  | scanObjectValue => ∃ rest, ps = parseObjectValue :: rest ∧ ps1 = parseObjectKey :: rest
  | _ => ps1 = ps

/-- Two facts that hold of every state the scanner reaches from `reset`: the state that
expects the first key of an object has an object on top of the stack, and the
end-of-top-level-value flag is set only with an empty stack, in the state `stateEndTop`
or after an error. -/
def Scanner.Coherent (s : Scanner) : Prop :=
  (s.stepFn = .stateBeginStringOrEmpty → ∃ rest, s.parseState = parseObjectKey :: rest)
    ∧ (s.endTop = true →
        s.parseState = [] ∧ (s.stepFn = .stateEndTop ∨ s.stepFn = .stateError))

/-- The effect of a step that returns `op` without touching the stack, the end flag staying unset. -/
def Scanner.Plain (s : Scanner) (r : Scanner × ScanOp) : Prop :=
  r.1.parseState = s.parseState ∧ r.1.endTop = false
    ∧ r.1.stepFn ≠ .stateBeginStringOrEmpty
    ∧ (r.2 = scanContinue ∨ r.2 = scanBeginLiteral ∨ r.2 = scanSkipSpace ∨ r.2 = scanError
        ∨ r.2 = scanEnd)

/-- The result `r` of a step from `s` on the byte `c` acts on the stack as its operation
says and is coherent. -/
def Scanner.Effect (s : Scanner) (c : Nat) (r : Scanner × ScanOp) : Prop :=
  StackEffect c s.parseState r.1.parseState r.2 ∧ r.1.Coherent

/-- The byte that closes the container open at stack height `base`: running the scanner
`sc` on the bytes `l`, the first of which has index `i`, the index of the first byte after
which the parse stack is shorter than `base`, with the scanner after that byte; `none` when
the scanner reports an error first or the bytes run out. -/
def closingIndex (base : Nat) : Scanner → List Nat → Nat → Option (Nat × Scanner)
  | _, [], _ => none
  | sc, c :: rest, i =>
    if (sc.step c).2 = scanError then none
    else if (sc.step c).1.parseState.length < base then some (i, (sc.step c).1)
    else closingIndex base (sc.step c).1 rest (i + 1)

/-- The operation that ends the container begun by `op`. -/
def closerOf : ScanOp → ScanOp
  | scanBeginArray => scanEndArray
  | _ => scanEndObject

/-- The byte that ends the container begun by `op`: `]` or `}`. -/
def closerByte : ScanOp → Nat
  | scanBeginArray => 93
  | _ => 125

/-- The text `\x7b"a":\x7b"b":[\x7b\x7d,"\x7d"]\x7d,"c":1\x7d`: an object with nested
containers and a brace inside a string. -/
def nestedObjectText : List Nat := B "\x7b\"a\":\x7b\"b\":[\x7b\x7d,\"\x7d\"]\x7d,\"c\":1\x7d"

/-- A parameter object followed by a comma:
`\x7b"key_path":["password"],"extra":"abc","highlight":["ab","c"],"value":"abc"\x7d,`. -/
def paramObjectText : List Nat :=
  B "\x7b\"key_path\":[\"password\"],\"extra\":\"abc\",\"highlight\":[\"ab\",\"c\"],\"value\":\"abc\"\x7d,"

/-- The parameter object `\x7b"key_path":["password"],"highlight":["a\\",\x7b"k":"v"\x7d]\x7d`:
the first highlight is a string that ends in an escaped backslash, the second an object
with the key `"k"`, which is the bytes 45 to 47. -/
def paramHighlightsEscaped : List Nat :=
  B "\x7b\"key_path\":[\"password\"],\"highlight\":[\"a\\\\\",\x7b\"k\":\"v\"\x7d]\x7d"

/-- A range captured by the field visitor of `obfuscateAppSecParameter` while `walkObject`,
started at `i`, has come to the index `k`: still the initial `(0, 0)`, or a value range
that begins after `i` (or with the sentinel `-1`) and ends before `k`. -/
def CapturedRange (i k : Nat) (lo hi : Int) : Prop :=
  (lo = 0 ∧ hi = 0) ∨ ((lo = -1 ∨ (i : Int) < lo) ∧ lo ≤ hi ∧ hi < (k : Int))

/-- The truncated document `\x7b"parameters":[1,`: 17 bytes, the last one the comma after
the first element of the parameters array. -/
def docTruncatedAfterComma : List Nat := B "\x7b\"parameters\":[1,"

/-! ## Texts of the general documents -/

/-- White space: every byte is one of the four JSON blanks. -/
def IsWs (w : List Nat) : Prop := ∀ c ∈ w, isSpace c = true

instance (w : List Nat) : Decidable (IsWs w) := by
  unfold IsWs
  infer_instance


/-! ## The main scan, iteration by iteration -/

/-- The main loop of `obfuscateAppSec` after `n` iterations: the index and the variables
with which the next iteration starts, `none` when the loop has stopped before. -/
def mainScan (o : Obfuscator) (input : List Nat) : Nat → Option (Nat × MainState)
  | 0 => some (0, { sc := Scanner.reset, diff := [], keyFrom := -1, keyTo := -1 })
  | n + 1 =>
    match mainScan o input n with
    | none => none
    | some (i, st) =>
      match input[i]? with
      | none => none
      | some c =>
        match obfuscateAppSecBody o input i c st with
        | .ok (.next j st1) => some (j, st1)
        | _ => none

/-- The main loop of `obfuscateAppSec` starts an iteration at index `i` with the variables
`st`, or leaves the loop there. -/
def Reached (o : Obfuscator) (input : List Nat) (i : Nat) (st : MainState) : Prop :=
  ∃ n, mainScan o input n = some (i, st)

/-- A document with a `parameters` key in each of two sibling objects, the second key
followed by white space. -/
def docSiblingObjects : List Nat :=
  B "\x7b\"a\":\x7b\"parameters\":[\x7b\"key_path\":[\"password\"],\"value\":\"x\"\x7d]\x7d,\"b\":\x7b\"parameters\" : [\x7b\"key_path\":[\"password\"],\"value\":\"y\"\x7d]\x7d\x7d"

/-- The scanner about to read the first key of an object, inside the containers `ps`. -/
def scannerAtKey (ps : List ParseState) : Scanner :=
  { stepFn := .stateBeginStringOrEmpty, parseState := parseObjectKey :: ps, err := none,
    endTop := false }

/-- The next state function of the scanner inside a string literal, `none` when the byte is
not allowed there. -/
def strNext : StepFn → Nat → Option StepFn
  | .stateInString, c =>
    if c = 34 then some .stateEndValue
    else if c = 92 then some .stateInStringEsc
    else if c < 32 then none
    else some .stateInString
  | .stateInStringEsc, c =>
    if c = 98 ∨ c = 102 ∨ c = 110 ∨ c = 114 ∨ c = 116 ∨ c = 92 ∨ c = 47 ∨ c = 34 then
      some .stateInString
    else if c = 117 then some .stateInStringEscU
    else none
  | .stateInStringEscU, c => if isHex c then some .stateInStringEscU1 else none
  | .stateInStringEscU1, c => if isHex c then some .stateInStringEscU12 else none
  | .stateInStringEscU12, c => if isHex c then some .stateInStringEscU123 else none
  | .stateInStringEscU123, c => if isHex c then some .stateInString else none
  | _, _ => none

/-- The state functions of the scanner inside a string literal. -/
def InStr (f : StepFn) : Prop :=
  f = .stateInString ∨ f = .stateInStringEsc ∨ f = .stateInStringEscU
    ∨ f = .stateInStringEscU1 ∨ f = .stateInStringEscU12 ∨ f = .stateInStringEscU123

/-- The content of a string literal read from the state function `f`: the state function
after the last byte, `none` when a byte is not allowed or closes the literal. -/
def strBody : StepFn → List Nat → Option StepFn
  | f, [] => some f
  | f, c :: rest =>
    match strNext f c with
    | none => none
    | some g => if g = .stateEndValue then none else strBody g rest

/-- The bytes `k` are the content of a string literal, escapes included: the scanner reads
them after an opening quote and then expects ordinary content or the closing quote. -/
def isStringContent (k : List Nat) : Prop := strBody .stateInString k = some .stateInString

instance (k : List Nat) : Decidable (isStringContent k) := by
  unfold isStringContent
  infer_instance

/-- The content does not end in a backslash: the closing quote of the literal does not
follow an escaped backslash. -/
def endsPlain (k : List Nat) : Prop := k.getLast? ≠ some 92

instance (k : List Nat) : Decidable (endsPlain k) := by
  unfold endsPlain
  infer_instance

/-- The string literal with the content `k`. -/
def strLit (k : List Nat) : List Nat := 34 :: (k ++ [34])

/-- Running the loop from the index `i` with the variables `st` leads, `n` bytes further, to
the variables `st1`: every outcome of the loop from there is the outcome from `i`. -/
def Adv {σ ρ : Type} (input : List Nat) (body : Nat → Nat → σ → Res (Step σ ρ))
    (done : Nat → σ → Res ρ) (i n : Nat) (st st1 : σ) : Prop :=
  ∀ R, Runs input body done (i + n) st1 R → Runs input body done i st R

/-- The scanner `s` working inside the containers `suf`: the same state with `suf` under
its own stack. -/
def Scanner.lift (s : Scanner) (suf : List ParseState) : Scanner :=
  { s with parseState := s.parseState ++ suf }

/-- Reading the bytes of one or more complete values below the current container: the
scanner after the bytes and the number of containers opened and not yet closed, `none` when
the scanner reports an error, or an operation that belongs to the current container itself
(a separator, a colon or a closing bracket at depth 0) or the end of the top-level value. -/
def valueRun (sc : Scanner) (depth : Nat) : List Nat → Option (Scanner × Nat)
  | [] => some (sc, depth)
  | c :: rest =>
    match (sc.step c).2 with
    | scanError => none
    | scanEnd => none
    | scanBeginObject => valueRun (sc.step c).1 (depth + 1) rest
    | scanBeginArray => valueRun (sc.step c).1 (depth + 1) rest
    | scanEndObject => if depth = 0 then none else valueRun (sc.step c).1 (depth - 1) rest
    | scanEndArray => if depth = 0 then none else valueRun (sc.step c).1 (depth - 1) rest
    | scanObjectKey => if depth = 0 then none else valueRun (sc.step c).1 depth rest
    | scanObjectValue => if depth = 0 then none else valueRun (sc.step c).1 depth rest
    | scanArrayValue => if depth = 0 then none else valueRun (sc.step c).1 depth rest
    | _ => valueRun (sc.step c).1 depth rest

/-- The scanner after the colon of a field of an object that is an element of an array. -/
def scannerInField : Scanner :=
  { stepFn := .stateBeginValue, parseState := [parseObjectValue, parseArrayValue], err := none,
    endTop := false }

/-- The text `t` is the value of an object field, white space around it included: the
scanner reads it after the colon as one complete value, after which a comma starts the next
field and a closing brace ends the object. -/
def isFieldValue (t : List Nat) : Bool :=
  match valueRun scannerInField 0 t with
  | some (s, 0) =>
    decide (s.step 44
        = (Scanner.mk .stateBeginString [parseObjectKey, parseArrayValue] none false,
          scanObjectValue))
      && decide (s.step 125
        = (Scanner.mk .stateEndValue [parseArrayValue] none false, scanEndObject))
  | _ => false

/-- The scanner skips white space in its present state without changing. -/
def SkipsSpace (sc : Scanner) : Prop := ∀ w, isSpace w = true → sc.step w = (sc, scanSkipSpace)

/-- A field of an object: the white space before the key, the content of the key literal,
the white space between the key and the colon, and the text of the value, from the colon to
the separator that follows, white space included. -/
structure Field where
  pre : List Nat
  key : List Nat
  mid : List Nat
  value : List Nat
  deriving DecidableEq, Repr

/-- The text of a field. -/
def Field.text (f : Field) : List Nat := f.pre ++ (strLit f.key ++ (f.mid ++ 58 :: f.value))

/-- The index of the first byte of the value of a field whose text starts at `p`. -/
def Field.valueStart (f : Field) (p : Nat) : Nat :=
  p + f.pre.length + (f.key.length + 2) + f.mid.length + 1

/-- The parts of the field are what their names say. -/
def Field.WellFormed (f : Field) : Prop :=
  IsWs f.pre ∧ isStringContent f.key ∧ endsPlain f.key ∧ IsWs f.mid
    ∧ isFieldValue f.value = true

instance (f : Field) : Decidable f.WellFormed := by
  unfold Field.WellFormed
  infer_instance

/-- The fields of an object, separated by commas. -/
def fieldsText : List Field → List Nat
  | [] => []
  | [f] => f.text
  | f :: g :: fs => f.text ++ 44 :: fieldsText (g :: fs)

/-- What `obfuscateAppSecParameter` keeps of a field whose text starts at `p`: the text of
the value of `key_path`, the range of the value of `value` or of `highlight`. -/
def Field.visit (f : Field) (p : Nat) (acc : ParamFields) : ParamFields :=
  if strLit f.key = keyPathKey then { acc with keypath := f.value }
  else if strLit f.key = valueKey then
    { acc with vfrom := f.valueStart p, vto := f.valueStart p + f.value.length }
  else if strLit f.key = highlightKey then
    { acc with hfrom := f.valueStart p, hto := f.valueStart p + f.value.length }
  else acc

/-- What `obfuscateAppSecParameter` keeps of the fields of an object, the first of which
starts at `p`. -/
def visitFields : Nat → List Field → ParamFields → ParamFields
  | _, [], acc => acc
  | p, f :: fs, acc => visitFields (p + f.text.length + 1) fs (f.visit p acc)

/-- A string element of an array: the white space before the literal, the content of the
literal and the white space after it. -/
structure Elem where
  pre : List Nat
  lit : List Nat
  post : List Nat
  deriving DecidableEq, Repr

/-- The text of a string element. -/
def Elem.text (e : Elem) : List Nat := e.pre ++ (strLit e.lit ++ e.post)

/-- The parts of the string element are what their names say. -/
def Elem.WellFormed (e : Elem) : Prop := IsWs e.pre ∧ isStringContent e.lit ∧ IsWs e.post

instance (e : Elem) : Decidable e.WellFormed := by
  unfold Elem.WellFormed
  infer_instance

/-- Reading the bytes of an array element that is not a string: as `valueRun`, but a string
literal that starts at depth 0 is refused as well. -/
def otherRun (sc : Scanner) (depth : Nat) : List Nat → Option (Scanner × Nat)
  | [] => some (sc, depth)
  | c :: rest =>
    match (sc.step c).2 with
    | scanError => none
    | scanEnd => none
    | scanBeginLiteral =>
      if depth = 0 ∧ c = 34 then none else otherRun (sc.step c).1 depth rest
    | scanBeginObject => otherRun (sc.step c).1 (depth + 1) rest
    | scanBeginArray => otherRun (sc.step c).1 (depth + 1) rest
    | scanEndObject => if depth = 0 then none else otherRun (sc.step c).1 (depth - 1) rest
    | scanEndArray => if depth = 0 then none else otherRun (sc.step c).1 (depth - 1) rest
    | scanObjectKey => if depth = 0 then none else otherRun (sc.step c).1 depth rest
    | scanObjectValue => if depth = 0 then none else otherRun (sc.step c).1 depth rest
    | scanArrayValue => if depth = 0 then none else otherRun (sc.step c).1 depth rest
    | _ => otherRun (sc.step c).1 depth rest

/-- The text `t`, which starts with a byte that is not white space, is an element of an
array that is not a string (a number, `true`, `false`, `null`, an array or an object),
white space after it included: the scanner reads it as one complete value, after which a
comma starts the next element and a closing bracket ends the array. -/
def isOtherElement (t : List Nat) : Bool :=
  (match t.head? with
    | some c => !isSpace c
    | none => false)
  && match otherRun (Scanner.mk .stateBeginValue [parseArrayValue] none false) 0 t with
    | some (s, 0) =>
      decide (s.step 44
          = (Scanner.mk .stateBeginValue [parseArrayValue] none false, scanArrayValue))
        && decide (s.step 93 = (Scanner.mk .stateEndTop [] none true, scanEndArray))
    | _ => false

/-- An element of an array: a string literal, or white space and a value that is not a
string. -/
inductive Item where
  | str (e : Elem)
  | other (pre body : List Nat)
  deriving DecidableEq, Repr

/-- The text of an element. -/
def Item.text : Item → List Nat
  | .str e => e.text
  | .other pre body => pre ++ body

/-- The elements of an array, separated by commas. -/
def itemsText : List Item → List Nat
  | [] => []
  | [e] => e.text
  | e :: g :: es => e.text ++ 44 :: itemsText (g :: es)

/-- The text of an array as the value of a field: white space `w0`, the opening bracket,
white space `wi`, the elements, the closing bracket and white space `w1`. -/
def arrayText (w0 wi : List Nat) (es : List Item) (w1 : List Nat) : List Nat :=
  w0 ++ 91 :: (wi ++ (itemsText es ++ 93 :: w1))

/-- The parts of the element are what their names say: white space and a string literal,
or white space and a value that is not a string. -/
def Item.WellFormed : Item → Prop
  | .str e => e.WellFormed
  | .other pre body => IsWs pre ∧ isOtherElement body = true

instance (it : Item) : Decidable it.WellFormed := by
  cases it <;> unfold Item.WellFormed <;> infer_instance

/-- The string literal with the content `k` is not matched by `re`: it has no unquoted
form, or `re` does not match its unquoted form. -/
def unmatched (re : Regexp) (k : List Nat) : Bool :=
  match unquote (strLit k) with
  | none => true
  | some u => !re.MatchString u

/-- The element is not a string that `re` matches. -/
def Item.unmatchedBy (re : Regexp) : Item → Bool
  | .str e => unmatched re e.lit
  | .other _ _ => true

/-- The value `t` of a field has no string element matched by `re`: it is not an array (its
first byte after the white space is not an opening bracket), or it is an array of
well-formed elements, strings or not, none of whose strings is matched. -/
def ArrayClear (re : Regexp) (t : List Nat) : Prop :=
  (∃ ws c rest, t = ws ++ c :: rest ∧ IsWs ws ∧ isSpace c = false ∧ c ≠ 91)
    ∨ ∃ w0 wi es w1, t = arrayText w0 wi es w1 ∧ IsWs w0 ∧ IsWs wi
        ∧ (∀ it ∈ es, it.WellFormed) ∧ ∀ it ∈ es, it.unmatchedBy re = true

/-- No element of the key path `t` (the text of the value of `key_path`, empty when the
field is absent) is matched by the key matcher: the matcher is unset, or the field is
absent, or its value has no string element that is matched. -/
def KeyPathClear (o : Obfuscator) (t : List Nat) : Prop :=
  o.KeyRegexp = none ∨ t = [] ∨ ∃ keyRE, o.KeyRegexp = some keyRE ∧ ArrayClear keyRE t

/-- No highlight of `t` (the text of the value of `highlight`, empty when the field is
absent) is matched by the value matcher `valueRE`. -/
def HighlightClear (valueRE : Regexp) (t : List Nat) : Prop :=
  t = [] ∨ ArrayClear valueRE t

/-- The variable `stringFrom` of `walkArrayStrings` at the index `p`: no string is open, or
the string that is open is a complete literal before `p` (its closing quote followed an
escaped backslash and was not taken for its end). -/
def StaleAt (input : List Nat) (sf : Int) (p : Nat) : Prop :=
  sf = -1 ∨ ∃ (a : Nat) (lit tail : List Nat), sf = (a : Int) ∧ isStringContent lit
    ∧ input.drop a = strLit lit ++ tail ∧ a + lit.length + 2 ≤ p

/-- The text of the value of the last field `key_path` of the fields, `t` when there is
none. -/
def keyPathOf : List Field → List Nat → List Nat
  | [], t => t
  | f :: fs, t => keyPathOf fs (if strLit f.key = keyPathKey then f.value else t)

/-- The text of the value of the last field `highlight` of the fields, `t` when there is
none. -/
def highlightOf : List Field → List Nat → List Nat
  | [], t => t
  | f :: fs, t => highlightOf fs (if strLit f.key = highlightKey then f.value else t)

/-- The text of the fields that come before another field, each followed by a comma. -/
def fieldsBefore : List Field → List Nat
  | [] => []
  | f :: fs => f.text ++ 44 :: fieldsBefore fs

/-- The text of the fields that come after another field, each preceded by a comma. -/
def fieldsAfter : List Field → List Nat
  | [] => []
  | f :: fs => 44 :: (f.text ++ fieldsAfter fs)

/-- The white space of a single-parameter document
`w0 \x7b w1 "parameters" w2 : w3 [ w4 \x7b fields \x7d w5 ] w6 \x7d w7`; the white space
inside the parameter object belongs to its fields. -/
structure Blanks where
  w0 : List Nat
  w1 : List Nat
  w2 : List Nat
  w3 : List Nat
  w4 : List Nat
  w5 : List Nat
  w6 : List Nat
  w7 : List Nat
  deriving DecidableEq, Repr

/-- Every part of the white space is white space. -/
def Blanks.WellFormed (b : Blanks) : Prop :=
  IsWs b.w0 ∧ IsWs b.w1 ∧ IsWs b.w2 ∧ IsWs b.w3 ∧ IsWs b.w4 ∧ IsWs b.w5 ∧ IsWs b.w6
    ∧ IsWs b.w7

instance (b : Blanks) : Decidable b.WellFormed := by
  unfold Blanks.WellFormed
  infer_instance

/-- The single-parameter document whose parameter object has the fields `fs`. -/
def docParameter (b : Blanks) (fs : List Field) : List Nat :=
  b.w0 ++ 123 :: (b.w1 ++ (parametersKey ++ (b.w2 ++ 58 :: (b.w3 ++ 91 :: (b.w4 ++ 123 ::
    (fieldsText fs ++ 125 :: (b.w5 ++ 93 :: (b.w6 ++ 125 :: b.w7))))))))

/-- The field `value` whose value is the text `lit` with the white space `w1` before it and
`w2` after it. -/
def valueField (pre mid w1 lit w2 : List Nat) : Field :=
  { pre := pre, key := B "value", mid := mid, value := w1 ++ (lit ++ w2) }

/-- A key matcher matching `password` and a value matcher matching `secret=\w+`. -/
def keyPasswordValueSecretWord : Obfuscator :=
  { KeyRegexp := some (literalRegexp (B "password")),
    ValueRegexp := some (wordRegexp (B "secret=")) }

/-- White space of a document written with blanks around its brackets. -/
def blanksSpaced : Blanks :=
  { w0 := [32], w1 := [10, 32], w2 := [32], w3 := [32], w4 := [], w5 := [32], w6 := [10],
    w7 := [10] }

/-- No white space. -/
def blanksNone : Blanks :=
  { w0 := [], w1 := [], w2 := [], w3 := [], w4 := [], w5 := [], w6 := [], w7 := [] }

/-- The fields `"address":"query"`, `"key_path": ["user", 0, "na\"me"]` and
`"highlight":["a\\b","c\\",\x7b"k":"v"\x7d]` of the example, with some white space: the key
path has an element that is not a string, and an object follows a highlight that ends in an
escaped backslash. -/
def fieldsBeforeValue : List Field :=
  [{ pre := [], key := B "address", mid := [], value := B "\"query\"" },
   { pre := [32], key := B "key_path", mid := [32],
     value := B " [\"user\", 0, \"na\\\"me\"]" },
   { pre := [], key := B "highlight", mid := [],
     value := B "[\"a\\\\b\",\"c\\\\\",\x7b\"k\":\"v\"\x7d] " }]

/-- The elements of the key path of the example. -/
def keyPathItems : List Item :=
  [.str (Elem.mk [] (B "user") []), .other [32] (B "0"),
   .str (Elem.mk [32] (B "na\\\"me") [])]

/-- The elements of the highlights of the example. -/
def highlightItems : List Item :=
  [.str (Elem.mk [] (B "a\\\\b") []), .str (Elem.mk [] (B "c\\\\") []),
   .other [] (B "\x7b\"k\":\"v\"\x7d")]

/-- The fields `"n":[1,\x7b"x\\":"y"\x7d]` and `"t":true` of the example. -/
def fieldsAfterValue : List Field :=
  [{ pre := [], key := B "n", mid := [], value := B "[1,\x7b\"x\\\\\":\"y\"\x7d]" },
   { pre := [32], key := B "t", mid := [], value := B "true " }]

/-- The field `"key_path":["username"]`. -/
def fieldKeyPathUsername : Field :=
  { pre := [], key := B "key_path", mid := [], value := B "[\"username\"]" }

/-- The document `{"parameters":[{"a\\":1,"value":"secret=b"}]}`: a field whose key ends
in an escaped backslash before the field `value`. -/
def docPartialEscapedKey : List Nat :=
  B "\x7b\"parameters\":[\x7b\"a\\\\\":1,\"value\":\"secret=b\"\x7d]\x7d"

/-- The document `{"parameters":[{"key_path":["username"],"value":"secret=b\\"}]}`: a value
literal that ends in an escaped backslash. -/
def docPartialEscapedValue : List Nat :=
  B "\x7b\"parameters\":[\x7b\"key_path\":[\"username\"],\"value\":\"secret=b\\\\\"\x7d]\x7d"

/-! # Theorems -/

/-! ## Loops -/

/-- A property of every result the body or the exit of a loop can produce holds of the
result of the loop. -/
theorem forLoop_ret_prop {σ ρ : Type} (input : List Nat)
    (body : Nat → Nat → σ → Res (Step σ ρ)) (done : Nat → σ → Res ρ) (P : ρ → Prop)
    (hbody : ∀ i c st r, body i c st = .ok (.ret r) → P r)
    (hdone : ∀ i st r, done i st = .ok r → P r) :
    ∀ fuel i st r, forLoop input body done fuel i st = .ok r → P r := by
  intro fuel
  induction fuel with
  | zero => intro i st r h; simp [forLoop] at h
  | succ n ih =>
    intro i st r h
    rw [forLoop] at h
    cases hc : input[i]? with
    | none => rw [hc] at h; exact hdone i st r h
    | some c =>
      rw [hc] at h
      simp only at h
      cases hb : body i c st with
      | ok s =>
        rw [hb] at h
        cases s with
        | next j st1 => exact ih j st1 r h
        | ret r1 =>
          simp only [Res.ok.injEq] at h
          subst h
          exact hbody i c st r1 hb
      | panic => rw [hb] at h; simp at h
      | timeout => rw [hb] at h; simp at h

/-! ## The entry point -/

/-- Whenever `obfuscateAppSec` returns a non-nil error, the string it returns with it is
the input. -/
theorem obfuscateAppSec_error_output (o : Obfuscator) (input out : List Nat) (e : Err)
    (h : obfuscateAppSec o input = .ok (out, some e)) : out = input := by
  have key := forLoop_ret_prop input (obfuscateAppSecBody o input)
    (fun _ st => obfuscateAppSecDone input st) (fun r => r.2.isSome → r.1 = input)
    (by
      intro i c st r hb
      unfold obfuscateAppSecBody at hb
      simp only at hb
      split at hb
      · simp only [Res.ok.injEq, Step.ret.injEq] at hb; subst hb; intro _; rfl
      · split at hb <;> simp at hb
      · split at hb
        · cases he : isJSONStringEnd input i with
          | ok b => rw [he] at hb; cases b <;> simp [bind, Res.bind, pure] at hb
          | panic => rw [he] at hb; simp [bind, Res.bind] at hb
          | timeout => rw [he] at hb; simp [bind, Res.bind] at hb
        · simp at hb
      · cases hs : slice input st.keyFrom (st.keyTo + 1) with
        | ok k =>
          rw [hs] at hb
          simp only [bind, Res.bind] at hb
          split at hb
          · cases hp : obfuscateAppSecParameters o (st.sc.step c).1 input (i + 1) st.diff with
            | ok p => rw [hp] at hb; simp [pure] at hb
            | panic => rw [hp] at hb; simp at hb
            | timeout => rw [hp] at hb; simp at hb
          · simp [pure] at hb
        | panic => rw [hs] at hb; simp [bind, Res.bind] at hb
        | timeout => rw [hs] at hb; simp [bind, Res.bind] at hb
      · simp at hb)
    (by
      intro i st r hd
      simp only [obfuscateAppSecDone] at hd
      split at hd
      · simp only [Res.ok.injEq] at hd; subst hd; intro _; rfl
      · cases ha : Diff.apply st.diff input with
        | ok out1 => rw [ha] at hd; simp [bind, Res.bind, pure] at hd; subst hd; simp
        | panic => rw [ha] at hd; simp [bind, Res.bind] at hd
        | timeout => rw [ha] at hd; simp [bind, Res.bind] at hd)
  exact key _ _ _ _ h (by simp)

/-- C1 (refuted on the code): `ObfuscateAppSec` does not return normally on the well-formed
documents `{"a\\":1}` and `{"parameters":[{"a\\":1,"b":2}]}`.  The closing quote of a key
that ends in an escaped backslash is not recognised by `isJSONStringEnd`, so `keyTo` keeps
the value `-1` and the slice `input[keyFrom:keyTo+1]` of `obfuscateAppSec`, respectively
`input[keyFrom:keyTo]` of the field visitor, is evaluated with bounds out of range. -/
theorem ObfuscateAppSec_panics_on_escaped_key :
    wellFormed docEscapedKey = true ∧ ObfuscateAppSec keyPassword docEscapedKey = .panic
      ∧ wellFormed docEscapedParamKey = true
      ∧ ObfuscateAppSec keyPassword docEscapedParamKey = .panic := by
  decide

/-- C2: fail open.  For every configuration and every input, if `obfuscateAppSec` ends
with an error, the string it returns with the error is the input and `ObfuscateAppSec`
returns the input, whatever edits had been recorded. -/
theorem ObfuscateAppSec_fail_open (o : Obfuscator) (input out : List Nat) (e : Err)
    (h : obfuscateAppSec o input = .ok (out, some e)) :
    out = input ∧ ObfuscateAppSec o input = .ok input := by
  refine ⟨obfuscateAppSec_error_output o input out e h, ?_⟩
  unfold ObfuscateAppSec
  split
  · rfl
  · simp [h, bind, Res.bind, pure]

/-- Witness of C2: on the truncated document `{"parameters":[{"value":"secretval"}]` the
scan ends with the error reported by `eof`, after an edit of the value has been recorded,
and the input is returned. -/
theorem ObfuscateAppSec_fail_open_witness :
    obfuscateAppSecParameters valueSecretval scannerAfterParametersKey docTruncatedAfterEdit
        14 []
        = .ok ({ sc := { stepFn := .stateEndValue, parseState := [parseObjectValue],
                         err := none, endTop := false },
                 diff := [{ from_ := 24, to_ := 34, value := redacted }] }, 37)
      ∧ obfuscateAppSec valueSecretval docTruncatedAfterEdit
        = .ok (docTruncatedAfterEdit, some (.syntaxError .unexpectedEnd))
      ∧ (docTruncatedAfterEdit = docTruncatedAfterEdit
        ∧ ObfuscateAppSec valueSecretval docTruncatedAfterEdit = .ok docTruncatedAfterEdit) :=
  ⟨by decide, by decide, ObfuscateAppSec_fail_open valueSecretval docTruncatedAfterEdit
    docTruncatedAfterEdit (.syntaxError .unexpectedEnd) (by decide)⟩

/-- C3: no-op when disabled.  When both matchers are unset, `ObfuscateAppSec` returns its
argument, for every byte string, without running the scan (no budget, no slice). -/
theorem ObfuscateAppSec_disabled (s : List Nat) :
    ObfuscateAppSec { KeyRegexp := none, ValueRegexp := none } s = .ok s := by
  simp [ObfuscateAppSec, pure]

/-- C4 (refuted on the code): with a value matcher matching `secretval`, the document
`{"parameters":[{"value":"secretval"},{"value":"secretval"}]}` is returned unchanged
instead of redacted.  After `stepToOneOf` has consumed the comma, the `for` clause of
`obfuscateAppSecParameters` increments the index once more, so the opening brace of the
second parameter is never given to the scanner, which then reports a syntax error.  With a
blank after the comma the skipped byte is the blank and both values are redacted. -/
theorem ObfuscateAppSec_two_parameters_not_redacted :
    wellFormed docTwoParams = true
      ∧ ObfuscateAppSec valueSecretval docTwoParams = .ok docTwoParams
      ∧ docTwoParams ≠ docTwoParamsRedacted
      ∧ ObfuscateAppSec valueSecretval docTwoParamsSpaced = .ok docTwoParamsSpacedRedacted := by
  decide

/-- C7 (refuted on the code): with a value matcher matching `secretval`, the document
`{"parameters":[1,"x",{"value":"secretval"}]}` is returned unchanged: the byte after the
first comma (the opening quote of `"x"`) is skipped, the scanner reports a syntax error and
the whole call is aborted.  With a blank after each comma the object is redacted. -/
theorem ObfuscateAppSec_mixed_elements_not_redacted :
    wellFormed docMixedParams = true
      ∧ ObfuscateAppSec valueSecretval docMixedParams = .ok docMixedParams
      ∧ docMixedParams ≠ docMixedParamsRedacted
      ∧ ObfuscateAppSec valueSecretval docMixedParamsSpaced
          = .ok docMixedParamsSpacedRedacted := by
  decide

/-- C8 (refuted on the code): the text `{"parameters":[{"value":"secretval"},x1]}` is not
a well-formed JSON document, yet `ObfuscateAppSec` returns it with the value redacted: the
offending byte `x` follows a comma of the parameters array and is never given to the
scanner. -/
theorem ObfuscateAppSec_malformed_modified :
    wellFormed docMalformedElement = false
      ∧ ObfuscateAppSec valueSecretval docMalformedElement = .ok docMalformedElementRedacted
      ∧ docMalformedElementRedacted ≠ docMalformedElement := by
  decide

/-- C9 (refuted on the code): under a sensitive key path, the value literal `"a\\"` gets
the edit `(0, -1, "?")`, which covers no byte of the literal: `isJSONStringEnd` does not
recognise the closing quote after the escaped backslash, `scanString` reaches the end of
the value text and returns `(0, 0, nil)`.  The output keeps the whole original literal after
the inserted placeholder. -/
theorem obfuscateAppSecValue_escaped_backslash :
    unquote (B "\"a\\\\\"") = some (B "a\\")
      ∧ scanString (B "\"a\\\\\"") = .ok (0, 0, none)
      ∧ obfuscateAppSecValue keyPassword (B "\"a\\\\\"") [] true
          = .ok [{ from_ := 0, to_ := -1, value := redacted }]
      ∧ ObfuscateAppSec keyPassword docEscapedValue = .ok docEscapedValueOutput := by
  decide

/-- C10 (refuted on the code): the well-formed document
`{"parameters":[{"key_path":["password"],"value":"a\\"}]}` is turned into
`{"parameters":[{"key_path":["password"],"value":"?""a\\"}]}`, which the scanner
rejects. -/
theorem ObfuscateAppSec_output_not_well_formed :
    wellFormed docEscapedValue = true
      ∧ ObfuscateAppSec keyPassword docEscapedValue = .ok docEscapedValueOutput
      ∧ wellFormed docEscapedValueOutput = false := by
  decide

theorem runs_of_step {σ ρ : Type} {input : List Nat} {body : Nat → Nat → σ → Res (Step σ ρ)}
    {done : Nat → σ → Res ρ} {i c : Nat} {st : σ} {R : Res ρ}
    (h : input[i]? = some c)
    (hb : Cont R (fun j st1 => i < j ∧ Runs input body done j st1 R) (body i c st)) :
    Runs input body done i st R := by
  intro fuel hf
  have hi : i < input.length := by
    rcases List.getElem?_eq_some_iff.mp h with ⟨hlt, _⟩
    exact hlt
  cases fuel with
  | zero => omega
  | succ n =>
    rw [forLoop, h]
    simp only
    cases hbody : body i c st with
    | ok s =>
      rw [hbody] at hb
      cases s with
      | next j st1 =>
        simp only [Cont] at hb
        exact hb.2 n (by omega)
      | ret r => simp only [Cont] at hb; exact hb.symm
    | panic => rw [hbody] at hb; simp only [Cont] at hb; exact hb.symm
    | timeout => rw [hbody] at hb; simp only [Cont] at hb; exact hb.symm

theorem runs_of_none {σ ρ : Type} {input : List Nat} {body : Nat → Nat → σ → Res (Step σ ρ)}
    {done : Nat → σ → Res ρ} {i : Nat} {st : σ} {R : Res ρ}
    (h : input[i]? = none) (hd : done i st = R) : Runs input body done i st R := by
  intro fuel hf
  cases fuel with
  | zero => omega
  | succ n => rw [forLoop, h]; exact hd

theorem runs_apply {σ ρ : Type} {input : List Nat} {body : Nat → Nat → σ → Res (Step σ ρ)}
    {done : Nat → σ → Res ρ} {i : Nat} {st : σ} {R : Res ρ}
    (h : Runs input body done i st R) :
    forLoop input body done (input.length + 1) i st = R :=
  h _ (by omega)

theorem byteAt_natCast {input : List Nat} {i c : Nat} (h : input[i]? = some c) :
    byteAt input (i : Int) = .ok c := by
  simp [byteAt, h]

theorem isJSONStringEnd_of_prev {input : List Nat} {i c p : Nat} (h : input[i]? = some c)
    (hi : 0 < i) (hp : input[i - 1]? = some p) (hne : p ≠ 92) :
    isJSONStringEnd input i = .ok (decide (c = 34)) := by
  have h2 : byteAt input ((i : Int) - 1) = .ok p := by
    have : ((i : Int) - 1) = ((i - 1 : Nat) : Int) := by omega
    rw [this]; exact byteAt_natCast hp
  unfold isJSONStringEnd
  rw [byteAt_natCast h]
  by_cases hc : c = 34
  · simp [bind, Res.bind, hc, h2, pure, hne]
  · simp [bind, Res.bind, hc, pure]

theorem getElem?_of_drop {input : List Nat} {i c : Nat} {rest : List Nat}
    (h : input.drop i = c :: rest) : input[i]? = some c ∧ input.drop (i + 1) = rest := by
  constructor
  · have := congrArg (fun l => l[0]?) h
    simpa using this
  · have := congrArg List.tail h
    simpa using this

theorem runsAt_cons {σ ρ : Type} {input : List Nat} {body : Nat → Nat → σ → Res (Step σ ρ)}
    {done : Nat → σ → Res ρ} {b j c : Nat} {rest : List Nat} {st : σ} {R : Res ρ}
    (hc : c ≠ 92)
    (hb : input.drop (b + j) = c :: rest →
      isJSONStringEnd input (b + j) = .ok (decide (c = 34)) →
      Cont R (fun j1 st1 => j1 = b + j + 1 ∧ RunsAt input body done (b + (j + 1)) rest st1 R)
        (body (b + j) c st)) :
    RunsAt input body done (b + j) (c :: rest) st R := by
  intro hpos hprev hdrop
  obtain ⟨p, hp, hne⟩ := hprev
  obtain ⟨h1, h2⟩ := getElem?_of_drop hdrop
  have hE := isJSONStringEnd_of_prev h1 hpos hp hne
  have hb1 := hb hdrop hE
  apply runs_of_step h1
  cases hbody : body (b + j) c st with
  | ok s =>
    rw [hbody] at hb1
    cases s with
    | next j1 st1 =>
      simp only [Cont] at hb1 ⊢
      obtain ⟨rfl, hr⟩ := hb1
      refine ⟨by omega, ?_⟩
      exact hr (by omega) ⟨c, by simpa using h1, hc⟩ h2
    | ret r => simpa only [Cont] using hb1
  | panic => rw [hbody] at hb1; simpa only [Cont] using hb1
  | timeout => rw [hbody] at hb1; simpa only [Cont] using hb1

theorem runsAt_nil {σ ρ : Type} {input : List Nat} {body : Nat → Nat → σ → Res (Step σ ρ)}
    {done : Nat → σ → Res ρ} {i : Nat} {st : σ} {R : Res ρ}
    (hd : done i st = R) : RunsAt input body done i [] st R := by
  intro _ _ hdrop
  apply runs_of_none _ hd
  have : input.length ≤ i := by simpa using hdrop
  simpa using this

theorem runsAt_plain {σ ρ : Type} {input : List Nat} {body : Nat → Nat → σ → Res (Step σ ρ)}
    {done : Nat → σ → Res ρ} {st : σ} {R : Res ρ} (k rest : List Nat)
    (hk : ∀ c ∈ k, plain c)
    (hst : ∀ i c, plain c → input[i]? = some c → body i c st = .ok (.next (i + 1) st)) :
    ∀ i, RunsAt input body done (i + k.length + 0) rest st R →
      RunsAt input body done i (k ++ rest) st R := by
  induction k with
  | nil => intro i h; simpa using h
  | cons c k ih =>
    intro i h hpos hprev hdrop
    have hc : plain c := hk c (by simp)
    obtain ⟨h1, h2⟩ := getElem?_of_drop (by simpa using hdrop)
    apply runs_of_step h1
    rw [hst i c hc h1]
    simp only [Cont]
    refine ⟨by omega, ?_⟩
    apply ih (fun c' hc' => hk c' (by simp [hc'])) (i + 1)
    · have : i + 1 + k.length + 0 = i + (c :: k).length + 0 := by simp; omega
      rw [this]; exact h
    · omega
    · exact ⟨c, by simpa using h1, hc.2.2⟩
    · exact h2

theorem step_inString_plain (sc : Scanner) (c : Nat) (hs : sc.stepFn = .stateInString)
    (hc : plain c) : sc.step c = (sc, scanContinue) := by
  obtain ⟨h1, h2, h3⟩ := hc
  have h4 : ¬ c < 32 := by omega
  simp [Scanner.step, hs, h2, h3, h4]

theorem isJSONStringEnd_plain {input : List Nat} {i c : Nat} (h : input[i]? = some c)
    (hc : plain c) : isJSONStringEnd input i = .ok false := by
  unfold isJSONStringEnd
  rw [byteAt_natCast h]
  simp [bind, Res.bind, hc.2.1, pure]

theorem walkArrayStringsBody_plain {β : Type} (input : List Nat)
    (visit : Int → Int → β → Res β) (st : ArrayState β) (hs : st.sc.stepFn = .stateInString)
    (i c : Nat) (hc : plain c) (h : input[i]? = some c) :
    walkArrayStringsBody input visit i c st = .ok (.next (i + 1) st) := by
  unfold walkArrayStringsBody
  simp only [step_inString_plain st.sc c hs hc, isJSONStringEnd_plain h hc]
  split <;> simp [bind, Res.bind, pure]

theorem stepToOneOf_hit (sc : Scanner) (targets : List ScanOp) {input : List Nat} {i c : Nat}
    (h : input[i]? = some c) (hop : (sc.step c).2 ∈ targets)
    (h1 : (sc.step c).2 ≠ scanSkipSpace) (h2 : (sc.step c).2 ≠ scanContinue)
    (h3 : (sc.step c).2 ≠ scanError) :
    stepToOneOf sc input i targets
      = .ok { sc := (sc.step c).1, i := i + 1, op := (sc.step c).2, err := none } := by
  unfold stepToOneOf
  apply runs_apply
  apply runs_of_step h
  unfold stepToOneOfBody
  generalize sc.step c = r at *
  obtain ⟨s, op⟩ := r
  cases op <;> simp_all [Cont]

/-- `walkArrayStrings` on the array `["x"]` of one plain string literal calls `visit` once,
with the offsets of the two quotes. -/
theorem walkArrayStrings_single {β : Type} (x : List Nat) (hx : ∀ c ∈ x, plain c)
    (visit : Int → Int → β → Res β) (acc : β) :
    walkArrayStrings (91 :: 34 :: (x ++ [34, 93])) visit acc
      = visit 1 ((x.length : Int) + 2) acc := by
  set input := 91 :: 34 :: (x ++ [34, 93]) with hin
  have h0 : input[0]? = some 91 := by simp [hin]
  have hstep := stepToOneOf_hit Scanner.reset [scanBeginArray] h0
    (by decide) (by decide) (by decide) (by decide)
  unfold walkArrayStrings stepTo
  rw [hstep]
  simp only [bind, Res.bind, Option.isSome_none, Bool.false_eq_true, ↓reduceIte]
  apply runs_apply
  obtain ⟨b, hb⟩ : ∃ b : Nat, b = 1 := ⟨1, rfl⟩
  have key : RunsAt input (walkArrayStringsBody input visit) (fun _ st => .ok st.acc) (b + 0)
      (34 :: (x ++ [34, 93]))
      { sc := (Scanner.reset.step 91).1, stringFrom := -1, depth := 0, acc := acc }
      (visit 1 ((x.length : Int) + 2) acc) := by
    apply runsAt_cons (by decide)
    intro h1 hE
    simp (disch := omega) [walkArrayStringsBody, Scanner.step, Scanner.reset,
      Scanner.stateBeginValue, isSpace, Cont]
    apply runsAt_plain x _ hx
    · intro i c hc h
      exact walkArrayStringsBody_plain input visit _ rfl i c hc h
    · apply runsAt_cons (by decide)
      intro h1 hE
      simp only [Nat.add_zero, decide_True] at h1 hE
      simp (disch := omega) [walkArrayStringsBody, Scanner.step, Cont, hE, bind, Res.bind]
      have hv : ∀ p q : Int, p = 1 → q = x.length + 2 →
          visit p q acc = visit 1 ((x.length : Int) + 2) acc := by
        intro p q hp hq; rw [hp, hq]
      rw [hv _ _ (by omega) (by omega)]
      generalize visit 1 ((x.length : Int) + 2) acc = V
      cases V with
      | ok a =>
        simp only [pure]
        refine ⟨trivial, ?_⟩
        apply runsAt_cons (by decide)
        intro h1 hE
        simp (disch := omega) [walkArrayStringsBody, Scanner.step, Scanner.stateEndValue,
          Scanner.popParseState, isSpace, Cont]
      | panic => trivial
      | timeout => trivial
  have := key (by omega) ⟨91, by simp [hb, hin], by decide⟩ (by simp [hb, hin])
  simpa [hb] using this

theorem scanStringBody_plain (input : List Nat) (from_ : Int) (sc : Scanner)
    (hs : sc.stepFn = .stateInString) (i c : Nat) (hc : plain c) (h : input[i]? = some c) :
    scanStringBody input from_ i c sc = .ok (.next (i + 1) sc) := by
  unfold scanStringBody
  simp [step_inString_plain sc c hs hc, isJSONStringEnd_plain h hc, bind, Res.bind, pure]

/-- `scanString` on a plain string literal returns the offsets of the whole literal. -/
theorem scanString_plain (v : List Nat) (hv : ∀ c ∈ v, plain c) :
    scanString (34 :: (v ++ [34])) = .ok (0, (v.length : Int) + 2, none) := by
  set input := 34 :: (v ++ [34]) with hin
  have h0 : input[0]? = some 34 := by simp [hin]
  have hstep := stepToOneOf_hit Scanner.reset [scanBeginLiteral] h0
    (by decide) (by decide) (by decide) (by decide)
  unfold scanString stepTo
  rw [hstep]
  have hb0 : byteAt input ((0 + 1 : Nat) - 1 : Int) = .ok 34 := by
    simpa using byteAt_natCast h0
  simp only [bind, Res.bind, Option.isSome_none, Bool.false_eq_true, ↓reduceIte, hb0]
  simp only [ne_eq, not_true_eq_false, ↓reduceIte]
  apply runs_apply
  obtain ⟨b, hb⟩ : ∃ b : Nat, b = 1 := ⟨1, rfl⟩
  have key : RunsAt input (scanStringBody input ((0 + 1 : Nat) - 1 : Int))
      (fun _ sc => .ok (0, 0, sc.eof.1.errValue)) b (v ++ [34])
      (Scanner.reset.step 34).1 (.ok (0, (v.length : Int) + 2, none)) := by
    apply runsAt_plain v _ hv
    · intro i c hc h
      exact scanStringBody_plain input _ _ rfl i c hc h
    · apply runsAt_cons (by decide)
      intro h1 hE
      simp only [Nat.add_zero, decide_True] at h1 hE
      simp (disch := omega) [scanStringBody, Scanner.step, Scanner.reset,
        Scanner.stateBeginValue, isSpace, Cont, hE, bind, Res.bind, pure]
      omega
  have := key (by omega) ⟨34, by simp [hb, hin], by decide⟩ (by simp [hb, hin])
  simpa [hb] using this

theorem ne_neg_one_of_nonneg (x : Int) (h : 0 ≤ x) : (x = -1) = False := by
  simp; omega

theorem slice_of_drop {input l rest : List Nat} {n : Nat} (hd : input.drop n = l ++ rest)
    (hl : l ≠ []) (lo hi : Int) (hlo : lo = n) (hhi : hi = n + l.length) :
    slice input lo hi = .ok l := by
  have hlen : (input.drop n).length = l.length + rest.length := by rw [hd]; simp
  have hpos : 0 < l.length := List.length_pos.mpr hl
  simp only [List.length_drop] at hlen
  subst hlo hhi
  unfold slice
  have hc : (0 : Int) ≤ (n : Int) ∧ (n : Int) ≤ (n : Int) + l.length
      ∧ (n : Int) + l.length ≤ (input.length : Int) := by omega
  rw [if_pos hc]
  have e1 : ((n : Int)).toNat = n := by simp
  have e2 : ((n : Int) + l.length).toNat - ((n : Int)).toNat = l.length := by
    have : ((n : Int) + l.length).toNat = n + l.length := by omega
    rw [this, e1]; omega
  rw [e2, e1, hd]
  simp

theorem paramVisit_keyPath {input : List Nat} {kf kt vf vt : Int} {f : ParamFields}
    (val : List Nat) (hk : slice input kf kt = .ok keyPathKey)
    (hv : slice input vf vt = .ok val) :
    paramVisit input kf kt vf vt f = .ok { f with keypath := val } := by
  simp [paramVisit, hk, hv, bind, Res.bind, pure]

theorem paramVisit_value {input : List Nat} {kf kt vf vt : Int} {f : ParamFields}
    (hk : slice input kf kt = .ok valueKey) :
    paramVisit input kf kt vf vt f = .ok { f with vfrom := vf, vto := vt } := by
  simp [paramVisit, hk, bind, Res.bind, pure, keyPathKey, valueKey]

theorem paramVisit_highlight {input : List Nat} {kf kt vf vt : Int} {f : ParamFields}
    (hk : slice input kf kt = .ok highlightKey) :
    paramVisit input kf kt vf vt f = .ok { f with hfrom := vf, hto := vt } := by
  simp [paramVisit, hk, bind, Res.bind, pure, keyPathKey, valueKey, highlightKey]

theorem docParam_eq (k h v : List Nat) :
    docParam k h v = 123 :: 34 :: 112 :: 97 :: 114 :: 97 :: 109 :: 101 :: 116 :: 101 :: 114
      :: 115 :: 34 :: 58 :: 91 :: 123 :: 34 :: 107 :: 101 :: 121 :: 95 :: 112 :: 97 :: 116
      :: 104 :: 34 :: 58 :: 91 :: 34 :: (k ++ 34 :: 93 :: 44 :: 34 :: 104 :: 105 :: 103
      :: 104 :: 108 :: 105 :: 103 :: 104 :: 116 :: 34 :: 58 :: 91 :: 34 :: (h ++ 34 :: 93
      :: 44 :: 34 :: 118 :: 97 :: 108 :: 117 :: 101 :: 34 :: 58 :: 34
      :: (v ++ [34, 125, 93, 125]))) := by
  have e1 : B "\x7b\"parameters\":[\x7b\"key_path\":[\"" = [123, 34, 112, 97, 114, 97, 109,
    101, 116, 101, 114, 115, 34, 58, 91, 123, 34, 107, 101, 121, 95, 112, 97, 116, 104, 34,
    58, 91, 34] := by decide
  have e2 : B "\"],\"highlight\":[\"" = [34, 93, 44, 34, 104, 105, 103, 104, 108, 105, 103,
    104, 116, 34, 58, 91, 34] := by decide
  have e3 : B "\"],\"value\":\"" = [34, 93, 44, 34, 118, 97, 108, 117, 101, 34, 58, 34] := by
    decide
  have e4 : B "\"\x7d]\x7d" = [34, 125, 93, 125] := by decide
  simp [docParam, e1, e2, e3, e4]

theorem walkObjectBody_plain {β : Type} (input : List Nat)
    (visit : Int → Int → Int → Int → β → Res β) (st : ObjectState β)
    (hs : st.sc.stepFn = .stateInString) (i c : Nat) (hc : plain c) (h : input[i]? = some c) :
    walkObjectBody input visit i c st = .ok (.next (i + 1) st) := by
  unfold walkObjectBody
  simp only [step_inString_plain st.sc c hs hc, isJSONStringEnd_plain h hc]
  split <;> simp [bind, Res.bind, pure]

theorem slice_of_drop_take {input f l : List Nat} {n m : Nat} (hd : input.drop n = f)
    (hl : f.take m = l) (hm : m ≤ f.length) (hpos : 0 < m) (lo hi : Int)
    (hlo : lo = n) (hhi : hi = n + m) : slice input lo hi = .ok l := by
  have hlen : (input.drop n).length = f.length := by rw [hd]
  simp only [List.length_drop] at hlen
  subst hlo hhi
  unfold slice
  have hc : (0 : Int) ≤ (n : Int) ∧ (n : Int) ≤ (n : Int) + m
      ∧ (n : Int) + m ≤ (input.length : Int) := by omega
  rw [if_pos hc]
  have e1 : ((n : Int)).toNat = n := by simp
  have e2 : ((n : Int) + m).toNat - ((n : Int)).toNat = m := by
    have : ((n : Int) + m).toNat = n + m := by omega
    rw [this, e1]; omega
  rw [e2, e1, hd, hl]

/-- The parameter object `{"key_path":["k"],"highlight":["h"],"value":"v"}` at any
index `a` of any input and under any enclosing containers `ps`: `walkObject` stops just
past the closing brace and the field visitor has captured the three fields. -/
theorem walkObject_param_at (input : List Nat) (a : Nat) (ps : List ParseState)
    (k h v rest : List Nat) (hk : ∀ c ∈ k, plain c) (hh : ∀ c ∈ h, plain c)
    (hv : ∀ c ∈ v, plain c)
    (hdrop : input.drop a = 123 :: (34 :: 107 :: 101 :: 121 :: 95 :: 112 :: 97 :: 116 :: 104 :: 34 :: 58 :: 91 :: 34 :: (k
      ++ 34 :: 93 :: 44 :: 34 :: 104 :: 105 :: 103 :: 104 :: 108 :: 105 :: 103 :: 104 :: 116
      :: 34 :: 58 :: 91 :: 34 :: (h ++ 34 :: 93 :: 44 :: 34 :: 118 :: 97 :: 108 :: 117 :: 101
      :: 34 :: 58 :: 34 :: (v ++ 34 :: 125 :: rest))))) :
    walkObject (Scanner.mk .stateBeginValueOrEmpty (parseArrayValue :: ps) none false) input a
      (paramVisit input) { keypath := [], vfrom := 0, vto := 0, hfrom := 0, hto := 0 }
      = .ok { sc := Scanner.mk .stateEndValue (parseArrayValue :: ps) none false,
              i := a + 45 + k.length + h.length + v.length, err := none,
              acc := { keypath := 91 :: 34 :: (k ++ [34, 93]),
                       vfrom := (a : Int) + 42 + k.length + h.length,
                       vto := (a : Int) + 44 + k.length + h.length + v.length,
                       hfrom := (a : Int) + 29 + k.length,
                       hto := (a : Int) + 33 + k.length + h.length } } := by
  have ha : input[a]? = some 123 := (getElem?_of_drop hdrop).1
  have hsuf := (getElem?_of_drop hdrop).2
  have hstep := stepToOneOf_hit
    (Scanner.mk .stateBeginValueOrEmpty (parseArrayValue :: ps) none false) [scanBeginObject] ha
    (by simp [Scanner.step, Scanner.stateBeginValue, isSpace])
    (by simp [Scanner.step, Scanner.stateBeginValue, isSpace])
    (by simp [Scanner.step, Scanner.stateBeginValue, isSpace])
    (by simp [Scanner.step, Scanner.stateBeginValue, isSpace])
  unfold walkObject stepTo
  rw [hstep]
  simp only [bind, Res.bind, Option.isSome_none, Bool.false_eq_true, ↓reduceIte]
  apply runs_apply
  obtain ⟨b, hb⟩ : ∃ b : Nat, b = a + 1 := ⟨a + 1, rfl⟩
  clear hstep hdrop
  have key : RunsAt input (walkObjectBody input (paramVisit input))
      (fun i st => .ok { sc := st.sc.eof.1, i := i, err := st.sc.eof.1.errValue, acc := st.acc })
      (b + 0)
      (34 :: 107 :: 101 :: 121 :: 95 :: 112 :: 97 :: 116 :: 104 :: 34 :: 58 :: 91 :: 34 :: (k
      ++ 34 :: 93 :: 44 :: 34 :: 104 :: 105 :: 103 :: 104 :: 108 :: 105 :: 103 :: 104 :: 116
      :: 34 :: 58 :: 91 :: 34 :: (h ++ 34 :: 93 :: 44 :: 34 :: 118 :: 97 :: 108 :: 117 :: 101
      :: 34 :: 58 :: 34 :: (v ++ 34 :: 125 :: rest))))
      { sc := Scanner.mk .stateBeginStringOrEmpty
          (parseObjectKey :: parseArrayValue :: ps) none false,
        keyFrom := -1, keyTo := -1, valueFrom := -1,
        depth := 0, acc := { keypath := [], vfrom := 0, vto := 0, hfrom := 0, hto := 0 } }
      (.ok { sc := Scanner.mk .stateEndValue (parseArrayValue :: ps) none false,
              i := a + 45 + k.length + h.length + v.length, err := none,
              acc := { keypath := 91 :: 34 :: (k ++ [34, 93]),
                       vfrom := (a : Int) + 42 + k.length + h.length,
                       vto := (a : Int) + 44 + k.length + h.length + v.length,
                       hfrom := (a : Int) + 29 + k.length,
                       hto := (a : Int) + 33 + k.length + h.length } }) := by
    clear hsuf ha
    apply runsAt_cons (by decide)
    intro hK1 hE
    simp at hE
    simp (disch := omega) [walkObjectBody, Scanner.step, Scanner.stateBeginValue,
      Scanner.stateBeginString, Scanner.stateEndValue, Scanner.popParseState, isSpace, Cont,
      hE, bind, Res.bind, pure, ne_neg_one_of_nonneg]
    clear hE
    apply runsAt_cons (by decide)
    intro h1 hE
    simp at hE
    simp (disch := omega) [walkObjectBody, Scanner.step, Scanner.stateBeginValue,
      Scanner.stateBeginString, Scanner.stateEndValue, Scanner.popParseState, isSpace, Cont,
      hE, bind, Res.bind, pure, ne_neg_one_of_nonneg]
    clear h1 hE
    apply runsAt_cons (by decide)
    intro h1 hE
    simp at hE
    simp (disch := omega) [walkObjectBody, Scanner.step, Scanner.stateBeginValue,
      Scanner.stateBeginString, Scanner.stateEndValue, Scanner.popParseState, isSpace, Cont,
      hE, bind, Res.bind, pure, ne_neg_one_of_nonneg]
    clear h1 hE
    apply runsAt_cons (by decide)
    intro h1 hE
    simp at hE
    simp (disch := omega) [walkObjectBody, Scanner.step, Scanner.stateBeginValue,
      Scanner.stateBeginString, Scanner.stateEndValue, Scanner.popParseState, isSpace, Cont,
      hE, bind, Res.bind, pure, ne_neg_one_of_nonneg]
    clear h1 hE
    apply runsAt_cons (by decide)
    intro h1 hE
    simp at hE
    simp (disch := omega) [walkObjectBody, Scanner.step, Scanner.stateBeginValue,
      Scanner.stateBeginString, Scanner.stateEndValue, Scanner.popParseState, isSpace, Cont,
      hE, bind, Res.bind, pure, ne_neg_one_of_nonneg]
    clear h1 hE
    apply runsAt_cons (by decide)
    intro h1 hE
    simp at hE
    simp (disch := omega) [walkObjectBody, Scanner.step, Scanner.stateBeginValue,
      Scanner.stateBeginString, Scanner.stateEndValue, Scanner.popParseState, isSpace, Cont,
      hE, bind, Res.bind, pure, ne_neg_one_of_nonneg]
    clear h1 hE
    apply runsAt_cons (by decide)
    intro h1 hE
    simp at hE
    simp (disch := omega) [walkObjectBody, Scanner.step, Scanner.stateBeginValue,
      Scanner.stateBeginString, Scanner.stateEndValue, Scanner.popParseState, isSpace, Cont,
      hE, bind, Res.bind, pure, ne_neg_one_of_nonneg]
    clear h1 hE
    apply runsAt_cons (by decide)
    intro h1 hE
    simp at hE
    simp (disch := omega) [walkObjectBody, Scanner.step, Scanner.stateBeginValue,
      Scanner.stateBeginString, Scanner.stateEndValue, Scanner.popParseState, isSpace, Cont,
      hE, bind, Res.bind, pure, ne_neg_one_of_nonneg]
    clear h1 hE
    apply runsAt_cons (by decide)
    intro h1 hE
    simp at hE
    simp (disch := omega) [walkObjectBody, Scanner.step, Scanner.stateBeginValue,
      Scanner.stateBeginString, Scanner.stateEndValue, Scanner.popParseState, isSpace, Cont,
      hE, bind, Res.bind, pure, ne_neg_one_of_nonneg]
    clear h1 hE
    apply runsAt_cons (by decide)
    intro h1 hE
    simp at hE
    simp (disch := omega) [walkObjectBody, Scanner.step, Scanner.stateBeginValue,
      Scanner.stateBeginString, Scanner.stateEndValue, Scanner.popParseState, isSpace, Cont,
      hE, bind, Res.bind, pure, ne_neg_one_of_nonneg]
    clear h1 hE
    apply runsAt_cons (by decide)
    intro h1 hE
    simp at hE
    simp (disch := omega) [walkObjectBody, Scanner.step, Scanner.stateBeginValue,
      Scanner.stateBeginString, Scanner.stateEndValue, Scanner.popParseState, isSpace, Cont,
      hE, bind, Res.bind, pure, ne_neg_one_of_nonneg]
    clear h1 hE
    apply runsAt_cons (by decide)
    intro hV1 hE
    simp at hE
    simp (disch := omega) [walkObjectBody, Scanner.step, Scanner.stateBeginValue,
      Scanner.stateBeginString, Scanner.stateEndValue, Scanner.popParseState, isSpace, Cont,
      hE, bind, Res.bind, pure, ne_neg_one_of_nonneg]
    clear hE
    apply runsAt_cons (by decide)
    intro h1 hE
    simp at hE
    simp (disch := omega) [walkObjectBody, Scanner.step, Scanner.stateBeginValue,
      Scanner.stateBeginString, Scanner.stateEndValue, Scanner.popParseState, isSpace, Cont,
      hE, bind, Res.bind, pure, ne_neg_one_of_nonneg]
    clear h1 hE
    apply runsAt_plain k _ hk
    · intro i c hc hi
      exact walkObjectBody_plain input _ _ rfl i c hc hi
    · apply runsAt_cons (by decide)
      intro h1 hE
      simp at hE
      simp (disch := omega) [walkObjectBody, Scanner.step, Scanner.stateBeginValue,
        Scanner.stateBeginString, Scanner.stateEndValue, Scanner.popParseState, isSpace, Cont,
        hE, bind, Res.bind, pure, ne_neg_one_of_nonneg]
      clear h1 hE
      apply runsAt_cons (by decide)
      intro h1 hE
      simp at hE
      simp (disch := omega) [walkObjectBody, Scanner.step, Scanner.stateBeginValue,
        Scanner.stateBeginString, Scanner.stateEndValue, Scanner.popParseState, isSpace, Cont,
        hE, bind, Res.bind, pure, ne_neg_one_of_nonneg]
      clear h1 hE
      apply runsAt_cons (by decide)
      intro hC hE
      simp at hE
      simp (disch := omega) [walkObjectBody, Scanner.step, Scanner.stateBeginValue,
        Scanner.stateBeginString, Scanner.stateEndValue, Scanner.popParseState, isSpace, Cont,
        hE, bind, Res.bind, pure, ne_neg_one_of_nonneg]
      rw [paramVisit_keyPath (91 :: 34 :: (k ++ [34, 93]))]
      rotate_left
      · exact slice_of_drop_take hK1 (m := 10)
          (by simp [keyPathKey, valueKey, highlightKey]) (by simp)
          (by omega) _ _ (by omega) (by omega)
      · exact slice_of_drop_take hV1 (m := k.length + 4)
          (by simp [keyPathKey, valueKey, highlightKey, List.take_append_eq_append_take]) (by simp)
          (by omega) _ _ (by omega) (by omega)
      simp (disch := omega) [Cont]
      clear hC hE hK1 hV1
      apply runsAt_cons (by decide)
      intro hK2 hE
      simp at hE
      simp (disch := omega) [walkObjectBody, Scanner.step, Scanner.stateBeginValue,
        Scanner.stateBeginString, Scanner.stateEndValue, Scanner.popParseState, isSpace, Cont,
        hE, bind, Res.bind, pure, ne_neg_one_of_nonneg]
      clear hE
      apply runsAt_cons (by decide)
      intro h1 hE
      simp at hE
      simp (disch := omega) [walkObjectBody, Scanner.step, Scanner.stateBeginValue,
        Scanner.stateBeginString, Scanner.stateEndValue, Scanner.popParseState, isSpace, Cont,
        hE, bind, Res.bind, pure, ne_neg_one_of_nonneg]
      clear h1 hE
      apply runsAt_cons (by decide)
      intro h1 hE
      simp at hE
      simp (disch := omega) [walkObjectBody, Scanner.step, Scanner.stateBeginValue,
        Scanner.stateBeginString, Scanner.stateEndValue, Scanner.popParseState, isSpace, Cont,
        hE, bind, Res.bind, pure, ne_neg_one_of_nonneg]
      clear h1 hE
      apply runsAt_cons (by decide)
      intro h1 hE
      simp at hE
      simp (disch := omega) [walkObjectBody, Scanner.step, Scanner.stateBeginValue,
        Scanner.stateBeginString, Scanner.stateEndValue, Scanner.popParseState, isSpace, Cont,
        hE, bind, Res.bind, pure, ne_neg_one_of_nonneg]
      clear h1 hE
      apply runsAt_cons (by decide)
      intro h1 hE
      simp at hE
      simp (disch := omega) [walkObjectBody, Scanner.step, Scanner.stateBeginValue,
        Scanner.stateBeginString, Scanner.stateEndValue, Scanner.popParseState, isSpace, Cont,
        hE, bind, Res.bind, pure, ne_neg_one_of_nonneg]
      clear h1 hE
      apply runsAt_cons (by decide)
      intro h1 hE
      simp at hE
      simp (disch := omega) [walkObjectBody, Scanner.step, Scanner.stateBeginValue,
        Scanner.stateBeginString, Scanner.stateEndValue, Scanner.popParseState, isSpace, Cont,
        hE, bind, Res.bind, pure, ne_neg_one_of_nonneg]
      clear h1 hE
      apply runsAt_cons (by decide)
      intro h1 hE
      simp at hE
      simp (disch := omega) [walkObjectBody, Scanner.step, Scanner.stateBeginValue,
        Scanner.stateBeginString, Scanner.stateEndValue, Scanner.popParseState, isSpace, Cont,
        hE, bind, Res.bind, pure, ne_neg_one_of_nonneg]
      clear h1 hE
      apply runsAt_cons (by decide)
      intro h1 hE
      simp at hE
      simp (disch := omega) [walkObjectBody, Scanner.step, Scanner.stateBeginValue,
        Scanner.stateBeginString, Scanner.stateEndValue, Scanner.popParseState, isSpace, Cont,
        hE, bind, Res.bind, pure, ne_neg_one_of_nonneg]
      clear h1 hE
      apply runsAt_cons (by decide)
      intro h1 hE
      simp at hE
      simp (disch := omega) [walkObjectBody, Scanner.step, Scanner.stateBeginValue,
        Scanner.stateBeginString, Scanner.stateEndValue, Scanner.popParseState, isSpace, Cont,
        hE, bind, Res.bind, pure, ne_neg_one_of_nonneg]
      clear h1 hE
      apply runsAt_cons (by decide)
      intro h1 hE
      simp at hE
      simp (disch := omega) [walkObjectBody, Scanner.step, Scanner.stateBeginValue,
        Scanner.stateBeginString, Scanner.stateEndValue, Scanner.popParseState, isSpace, Cont,
        hE, bind, Res.bind, pure, ne_neg_one_of_nonneg]
      clear h1 hE
      apply runsAt_cons (by decide)
      intro h1 hE
      simp at hE
      simp (disch := omega) [walkObjectBody, Scanner.step, Scanner.stateBeginValue,
        Scanner.stateBeginString, Scanner.stateEndValue, Scanner.popParseState, isSpace, Cont,
        hE, bind, Res.bind, pure, ne_neg_one_of_nonneg]
      clear h1 hE
      apply runsAt_cons (by decide)
      intro h1 hE
      simp at hE
      simp (disch := omega) [walkObjectBody, Scanner.step, Scanner.stateBeginValue,
        Scanner.stateBeginString, Scanner.stateEndValue, Scanner.popParseState, isSpace, Cont,
        hE, bind, Res.bind, pure, ne_neg_one_of_nonneg]
      clear h1 hE
      apply runsAt_cons (by decide)
      intro h1 hE
      simp at hE
      simp (disch := omega) [walkObjectBody, Scanner.step, Scanner.stateBeginValue,
        Scanner.stateBeginString, Scanner.stateEndValue, Scanner.popParseState, isSpace, Cont,
        hE, bind, Res.bind, pure, ne_neg_one_of_nonneg]
      clear h1 hE
      apply runsAt_cons (by decide)
      intro h1 hE
      simp at hE
      simp (disch := omega) [walkObjectBody, Scanner.step, Scanner.stateBeginValue,
        Scanner.stateBeginString, Scanner.stateEndValue, Scanner.popParseState, isSpace, Cont,
        hE, bind, Res.bind, pure, ne_neg_one_of_nonneg]
      clear h1 hE
      apply runsAt_plain h _ hh
      · intro i c hc hi
        exact walkObjectBody_plain input _ _ rfl i c hc hi
      · apply runsAt_cons (by decide)
        intro h1 hE
        simp at hE
        simp (disch := omega) [walkObjectBody, Scanner.step, Scanner.stateBeginValue,
          Scanner.stateBeginString, Scanner.stateEndValue, Scanner.popParseState, isSpace, Cont,
          hE, bind, Res.bind, pure, ne_neg_one_of_nonneg]
        clear h1 hE
        apply runsAt_cons (by decide)
        intro h1 hE
        simp at hE
        simp (disch := omega) [walkObjectBody, Scanner.step, Scanner.stateBeginValue,
          Scanner.stateBeginString, Scanner.stateEndValue, Scanner.popParseState, isSpace, Cont,
          hE, bind, Res.bind, pure, ne_neg_one_of_nonneg]
        clear h1 hE
        apply runsAt_cons (by decide)
        intro hC hE
        simp at hE
        simp (disch := omega) [walkObjectBody, Scanner.step, Scanner.stateBeginValue,
          Scanner.stateBeginString, Scanner.stateEndValue, Scanner.popParseState, isSpace, Cont,
          hE, bind, Res.bind, pure, ne_neg_one_of_nonneg]
        rw [paramVisit_highlight]
        rotate_left
        · exact slice_of_drop_take hK2 (m := 11)
            (by simp [keyPathKey, valueKey, highlightKey]) (by simp)
            (by omega) _ _ (by omega) (by omega)
        simp (disch := omega) [Cont]
        clear hC hE hK2
        apply runsAt_cons (by decide)
        intro hK3 hE
        simp at hE
        simp (disch := omega) [walkObjectBody, Scanner.step, Scanner.stateBeginValue,
          Scanner.stateBeginString, Scanner.stateEndValue, Scanner.popParseState, isSpace, Cont,
          hE, bind, Res.bind, pure, ne_neg_one_of_nonneg]
        clear hE
        apply runsAt_cons (by decide)
        intro h1 hE
        simp at hE
        simp (disch := omega) [walkObjectBody, Scanner.step, Scanner.stateBeginValue,
          Scanner.stateBeginString, Scanner.stateEndValue, Scanner.popParseState, isSpace, Cont,
          hE, bind, Res.bind, pure, ne_neg_one_of_nonneg]
        clear h1 hE
        apply runsAt_cons (by decide)
        intro h1 hE
        simp at hE
        simp (disch := omega) [walkObjectBody, Scanner.step, Scanner.stateBeginValue,
          Scanner.stateBeginString, Scanner.stateEndValue, Scanner.popParseState, isSpace, Cont,
          hE, bind, Res.bind, pure, ne_neg_one_of_nonneg]
        clear h1 hE
        apply runsAt_cons (by decide)
        intro h1 hE
        simp at hE
        simp (disch := omega) [walkObjectBody, Scanner.step, Scanner.stateBeginValue,
          Scanner.stateBeginString, Scanner.stateEndValue, Scanner.popParseState, isSpace, Cont,
          hE, bind, Res.bind, pure, ne_neg_one_of_nonneg]
        clear h1 hE
        apply runsAt_cons (by decide)
        intro h1 hE
        simp at hE
        simp (disch := omega) [walkObjectBody, Scanner.step, Scanner.stateBeginValue,
          Scanner.stateBeginString, Scanner.stateEndValue, Scanner.popParseState, isSpace, Cont,
          hE, bind, Res.bind, pure, ne_neg_one_of_nonneg]
        clear h1 hE
        apply runsAt_cons (by decide)
        intro h1 hE
        simp at hE
        simp (disch := omega) [walkObjectBody, Scanner.step, Scanner.stateBeginValue,
          Scanner.stateBeginString, Scanner.stateEndValue, Scanner.popParseState, isSpace, Cont,
          hE, bind, Res.bind, pure, ne_neg_one_of_nonneg]
        clear h1 hE
        apply runsAt_cons (by decide)
        intro h1 hE
        simp at hE
        simp (disch := omega) [walkObjectBody, Scanner.step, Scanner.stateBeginValue,
          Scanner.stateBeginString, Scanner.stateEndValue, Scanner.popParseState, isSpace, Cont,
          hE, bind, Res.bind, pure, ne_neg_one_of_nonneg]
        clear h1 hE
        apply runsAt_cons (by decide)
        intro h1 hE
        simp at hE
        simp (disch := omega) [walkObjectBody, Scanner.step, Scanner.stateBeginValue,
          Scanner.stateBeginString, Scanner.stateEndValue, Scanner.popParseState, isSpace, Cont,
          hE, bind, Res.bind, pure, ne_neg_one_of_nonneg]
        clear h1 hE
        apply runsAt_cons (by decide)
        intro h1 hE
        simp at hE
        simp (disch := omega) [walkObjectBody, Scanner.step, Scanner.stateBeginValue,
          Scanner.stateBeginString, Scanner.stateEndValue, Scanner.popParseState, isSpace, Cont,
          hE, bind, Res.bind, pure, ne_neg_one_of_nonneg]
        clear h1 hE
        apply runsAt_plain v _ hv
        · intro i c hc hi
          exact walkObjectBody_plain input _ _ rfl i c hc hi
        · apply runsAt_cons (by decide)
          intro h1 hE
          simp at hE
          simp (disch := omega) [walkObjectBody, Scanner.step, Scanner.stateBeginValue,
            Scanner.stateBeginString, Scanner.stateEndValue, Scanner.popParseState, isSpace, Cont,
            hE, bind, Res.bind, pure, ne_neg_one_of_nonneg]
          clear h1 hE
          apply runsAt_cons (by decide)
          intro hC hE
          simp at hE
          simp (disch := omega) [walkObjectBody, Scanner.step, Scanner.stateBeginValue,
            Scanner.stateBeginString, Scanner.stateEndValue, Scanner.popParseState, isSpace, Cont,
            hE, bind, Res.bind, pure, ne_neg_one_of_nonneg]
          rw [paramVisit_value]
          rotate_left
          · exact slice_of_drop_take hK3 (m := 7)
              (by simp [keyPathKey, valueKey, highlightKey]) (by simp)
              (by omega) _ _ (by omega) (by omega)
          simp (disch := omega) [Cont]
          omega
  have hsc : ((Scanner.mk .stateBeginValueOrEmpty (parseArrayValue :: ps) none false).step
      123).1 = Scanner.mk .stateBeginStringOrEmpty
      (parseObjectKey :: parseArrayValue :: ps) none false := by
    simp [Scanner.step, Scanner.stateBeginValue, isSpace]
  rw [hsc]
  have := key (by omega) ⟨123, by simpa [hb] using ha, by decide⟩ (by simpa [hb] using hsuf)
  simpa [hb] using this

theorem walkObject_param (k h v : List Nat) (hk : ∀ c ∈ k, plain c) (hh : ∀ c ∈ h, plain c)
    (hv : ∀ c ∈ v, plain c) :
    walkObject scannerInParameters (docParam k h v) 15 (paramVisit (docParam k h v))
      { keypath := [], vfrom := 0, vto := 0, hfrom := 0, hto := 0 }
      = .ok { sc := { stepFn := .stateEndValue, parseState := [parseArrayValue, parseObjectValue],
                      err := none, endTop := false },
              i := 60 + k.length + h.length + v.length, err := none,
              acc := { keypath := 91 :: 34 :: (k ++ [34, 93]),
                       vfrom := 57 + k.length + h.length,
                       vto := 59 + k.length + h.length + v.length,
                       hfrom := 44 + k.length, hto := 48 + k.length + h.length } } := by
  have hw := walkObject_param_at (docParam k h v) 15 [parseObjectValue] k h v [93, 125] hk hh hv
    (by rw [docParam_eq]; rfl)
  have e1 : scannerInParameters
      = Scanner.mk .stateBeginValueOrEmpty [parseArrayValue, parseObjectValue] none false := rfl
  rw [e1, hw]
  simp only [Nat.cast_ofNat, Res.ok.injEq, WalkResult.mk.injEq, ParamFields.mk.injEq, true_and]
  omega

theorem unquoteBody_plain (k : List Nat) (hk : ∀ c ∈ k, plain c) :
    unquoteBody none (k ++ [34]) = some k := by
  induction k with
  | nil => simp [unquoteBody, flushPending]
  | cons c k ih =>
    have hc : plain c := hk c (by simp)
    obtain ⟨h1, h2, h3⟩ := hc
    have ih1 := ih (fun c' hc' => hk c' (by simp [hc']))
    have hne : k ++ [34] ≠ [] := by simp
    have h4 : ¬ c < 32 := by omega
    rw [List.cons_append]
    unfold unquoteBody
    split
    · simp at *
    · next heq => simp at heq
    · next heq => simp at heq; simp_all
    · next heq => simp at heq; simp_all
    · next heq =>
      simp at heq
      obtain ⟨rfl, rfl⟩ := heq
      simp [h2, h3, h4, ih1, flushPending]

/-- A plain string literal unquotes to its content. -/
theorem unquote_plain (k : List Nat) (hk : ∀ c ∈ k, plain c) :
    unquote (34 :: (k ++ [34])) = some k := by
  simp [unquote, unquoteBody_plain k hk]

theorem slice_literal (x : List Nat) (tail : List Nat) :
    slice (91 :: 34 :: (x ++ 34 :: tail)) 1 ((x.length : Int) + 2 + 1)
      = .ok (34 :: (x ++ [34])) := by
  apply slice_of_drop_take (n := 1) (m := x.length + 2) (f := 34 :: (x ++ 34 :: tail))
  · rfl
  · simp [List.take_append_eq_append_take]
  · simp
  · omega
  · rfl
  · push_cast; ring

/-- A key path `["k"]` whose only element is matched by the key matcher is sensitive. -/
theorem hasSensitiveKeyPath_single (o : Obfuscator) (keyRE : Regexp) (k : List Nat)
    (ho : o.KeyRegexp = some keyRE) (hk : ∀ c ∈ k, plain c) :
    hasSensitiveKeyPath o (91 :: 34 :: (k ++ [34, 93])) = .ok (keyRE.MatchString k) := by
  unfold hasSensitiveKeyPath
  rw [ho]
  simp only [reduceCtorEq, ↓reduceIte]
  rw [walkArrayStrings_single k hk]
  unfold keyPathVisit
  simp only [Bool.false_eq_true, ↓reduceIte]
  rw [slice_literal k [93]]
  simp only [bind, Res.bind, unquote_plain k hk]
  cases keyRE.MatchString k <;> simp [pure]

theorem Diff.add_nil (from_ to_ : Int) (value : List Nat) :
    Diff.add [] from_ to_ value = .ok [{ from_ := from_, to_ := to_, value := value }] := by
  simp [Diff.add, sortSearch, sortSearchLoop, bind, Res.bind, pure]

/-- Under a sensitive key path, the highlights `["h"]` get one edit covering the literal. -/
theorem obfuscateAppSecHighlights_single (o : Obfuscator) (h : List Nat)
    (hh : ∀ c ∈ h, plain c) :
    obfuscateAppSecHighlights o (91 :: 34 :: (h ++ [34, 93])) [] true
      = .ok [{ from_ := 1, to_ := (h.length : Int) + 2, value := redacted }] := by
  unfold obfuscateAppSecHighlights
  simp only [Bool.true_eq_false, and_false, ↓reduceIte]
  rw [walkArrayStrings_single h hh]
  simp [highlightVisit, Diff.add_nil]

/-- Under a sensitive key path, the value `"v"` gets one edit covering the literal. -/
theorem obfuscateAppSecValue_plain (o : Obfuscator) (v : List Nat) (hv : ∀ c ∈ v, plain c) :
    obfuscateAppSecValue o (34 :: (v ++ [34])) [] true
      = .ok [{ from_ := 0, to_ := (v.length : Int) + 1, value := redacted }] := by
  unfold obfuscateAppSecValue
  simp only [Bool.true_eq_false, and_false, ↓reduceIte]
  rw [scanString_plain v hv]
  simp only [bind, Res.bind, Option.isSome_none, Bool.false_eq_true, ↓reduceIte, Diff.add_nil]
  congr 3
  omega

theorem drop_of_eq_append (input pre rest : List Nat) (he : input = pre ++ rest) (n : Nat)
    (hn : n = pre.length) : input.drop n = rest := by
  rw [he, hn]; simp

/-- Suffixes of the document `docParam k h v` at the offsets the obfuscator uses. -/
theorem docParam_drops (k h v : List Nat) :
    (docParam k h v).drop (44 + k.length) = 91 :: 34 :: (h ++ 34 :: 93 :: 44 :: 34 :: 118
        :: 97 :: 108 :: 117 :: 101 :: 34 :: 58 :: 34 :: (v ++ [34, 125, 93, 125]))
      ∧ (docParam k h v).drop (57 + k.length + h.length) = 34 :: (v ++ [34, 125, 93, 125])
      ∧ (docParam k h v).drop (60 + k.length + h.length + v.length) = [93, 125]
      ∧ (docParam k h v).length = 62 + k.length + h.length + v.length := by
  refine ⟨?_, ?_, ?_, ?_⟩
  · apply drop_of_eq_append _ ([123, 34, 112, 97, 114, 97, 109, 101, 116, 101, 114,
      115, 34, 58, 91, 123, 34, 107, 101, 121, 95, 112, 97, 116, 104, 34, 58, 91, 34]
      ++ k ++ [34, 93, 44, 34, 104, 105, 103, 104, 108, 105, 103, 104, 116, 34, 58])
    · rw [docParam_eq]; simp
    · simp; omega
  · apply drop_of_eq_append _ ([123, 34, 112, 97, 114, 97, 109, 101, 116, 101, 114,
      115, 34, 58, 91, 123, 34, 107, 101, 121, 95, 112, 97, 116, 104, 34, 58, 91, 34]
      ++ k ++ [34, 93, 44, 34, 104, 105, 103, 104, 108, 105, 103, 104, 116, 34, 58, 91, 34]
      ++ h ++ [34, 93, 44, 34, 118, 97, 108, 117, 101, 34, 58])
    · rw [docParam_eq]; simp
    · simp; omega
  · apply drop_of_eq_append _ ([123, 34, 112, 97, 114, 97, 109, 101, 116, 101, 114,
      115, 34, 58, 91, 123, 34, 107, 101, 121, 95, 112, 97, 116, 104, 34, 58, 91, 34]
      ++ k ++ [34, 93, 44, 34, 104, 105, 103, 104, 108, 105, 103, 104, 116, 34, 58, 91, 34]
      ++ h ++ [34, 93, 44, 34, 118, 97, 108, 117, 101, 34, 58, 34] ++ v ++ [34, 125])
    · rw [docParam_eq]; simp
    · simp; omega
  · rw [docParam_eq]; simp; omega

theorem Diff.add_after (e : Edit) (from_ to_ : Int) (value : List Nat) (h : e.to_ ≤ from_) :
    Diff.add [e] from_ to_ value = .ok [e, { from_ := from_, to_ := to_, value := value }] := by
  have h1 : ¬ from_ < e.to_ := by omega
  simp [Diff.add, sortSearch, sortSearchLoop, bind, Res.bind, pure, h1]

/-- The parameter object of `docParam k h v` under a sensitive key path: both literals get
an edit replacing them by the placeholder. -/
theorem obfuscateAppSecParameter_docParam (o : Obfuscator) (keyRE : Regexp) (k h v : List Nat)
    (ho : o.KeyRegexp = some keyRE) (hm : keyRE.MatchString k = true)
    (hk : ∀ c ∈ k, plain c) (hh : ∀ c ∈ h, plain c) (hv : ∀ c ∈ v, plain c) :
    obfuscateAppSecParameter o scannerInParameters (docParam k h v) 15 []
      = .ok { sc := { stepFn := .stateEndValue, parseState := [parseArrayValue, parseObjectValue],
                      err := none, endTop := false },
              diff := [{ from_ := 45 + k.length, to_ := 46 + k.length + h.length,
                         value := redacted },
                       { from_ := 57 + k.length + h.length,
                         to_ := 58 + k.length + h.length + v.length, value := redacted }],
              i := 60 + k.length + h.length + v.length, err := none } := by
  obtain ⟨d1, d2, d3, d4⟩ := docParam_drops k h v
  have s1 : slice (docParam k h v) (44 + (k.length : Int)) (48 + k.length + h.length)
      = .ok (91 :: 34 :: (h ++ [34, 93])) :=
    slice_of_drop_take d1 (m := h.length + 4) (by simp [List.take_append_eq_append_take])
      (by simp) (by omega) _ _ (by omega) (by omega)
  have s2 : slice (docParam k h v) (57 + (k.length : Int) + h.length)
      (59 + k.length + h.length + v.length) = .ok (34 :: (v ++ [34])) :=
    slice_of_drop_take d2 (m := v.length + 2) (by simp [List.take_append_eq_append_take])
      (by simp) (by omega) _ _ (by omega) (by omega)
  unfold obfuscateAppSecParameter
  rw [walkObject_param k h v hk hh hv]
  simp only [bind, Res.bind, Option.isSome_none, Bool.false_eq_true, ↓reduceIte]
  rw [hasSensitiveKeyPath_single o keyRE k ho hk, hm]
  simp only [s1, s2]
  simp only [ne_eq, reduceCtorEq, not_false_eq_true, ↓reduceIte,
    obfuscateAppSecHighlights_single o h hh, obfuscateAppSecValue_plain o v hv, Diff.merge,
    Diff.add_nil, pure, bind, Res.bind]
  rw [Diff.add_after _ _ _ _ (by simp; omega)]
  simp only [Res.ok.injEq, ParamResult.mk.injEq, true_and, and_true]
  simp
  omega

theorem slice_mid (input a m c : List Nat) (he : input = a ++ (m ++ c)) (lo hi : Int)
    (hlo : lo = a.length) (hhi : hi = a.length + m.length) : slice input lo hi = .ok m := by
  subst he hlo hhi
  unfold slice
  have hc : (0 : Int) ≤ (a.length : Int) ∧ (a.length : Int) ≤ (a.length : Int) + m.length
      ∧ (a.length : Int) + m.length ≤ ((a ++ (m ++ c)).length : Int) := by
    simp
  rw [if_pos hc]
  have e2 : ((a.length : Int) + m.length).toNat - ((a.length : Int)).toNat = m.length := by
    omega
  rw [e2]
  simp

/-- Applying the two edits of the sensitive case to `docParam k h v` replaces the two
literals by the placeholder. -/
theorem Diff.apply_docParam (k h v : List Nat) :
    Diff.apply [{ from_ := 45 + k.length, to_ := 46 + k.length + h.length, value := redacted },
        { from_ := 57 + k.length + h.length, to_ := 58 + k.length + h.length + v.length,
          value := redacted }] (docParam k h v) = .ok (docParam k [63] [63]) := by
  have hlen : (docParam k h v).length = 62 + k.length + h.length + v.length :=
    (docParam_drops k h v).2.2.2
  have s1 := slice_mid (docParam k h v) [] ([123, 34, 112, 97, 114,
      97, 109, 101, 116, 101, 114, 115, 34, 58, 91, 123, 34, 107, 101, 121, 95, 112, 97, 116,
      104, 34, 58, 91, 34] ++ k ++ [34, 93, 44, 34, 104, 105, 103, 104, 108, 105, 103, 104,
      116, 34, 58, 91]) (34 :: (h ++ 34 :: 93 :: 44 :: 34 :: 118 :: 97 :: 108 :: 117 :: 101
      :: 34 :: 58 :: 34 :: (v ++ [34, 125, 93, 125]))) (by rw [docParam_eq]; simp)
      0 (45 + (k.length : Int)) (by simp) (by simp; omega)
  have s2 := slice_mid (docParam k h v) ([123, 34, 112, 97, 114,
      97, 109, 101, 116, 101, 114, 115, 34, 58, 91, 123, 34, 107, 101, 121, 95, 112, 97, 116,
      104, 34, 58, 91, 34] ++ k ++ [34, 93, 44, 34, 104, 105, 103, 104, 108, 105, 103, 104,
      116, 34, 58, 91, 34] ++ h ++ [34]) [93, 44, 34, 118, 97, 108, 117, 101, 34, 58]
      (34 :: (v ++ [34, 125, 93, 125])) (by rw [docParam_eq]; simp)
      (46 + (k.length : Int) + h.length + 1) (57 + (k.length : Int) + h.length)
      (by simp; omega) (by simp; omega)
  have s3 := slice_mid (docParam k h v) ([123, 34, 112, 97, 114,
      97, 109, 101, 116, 101, 114, 115, 34, 58, 91, 123, 34, 107, 101, 121, 95, 112, 97, 116,
      104, 34, 58, 91, 34] ++ k ++ [34, 93, 44, 34, 104, 105, 103, 104, 108, 105, 103, 104,
      116, 34, 58, 91, 34] ++ h ++ [34, 93, 44, 34, 118, 97, 108, 117, 101, 34, 58, 34]
      ++ v ++ [34]) [125, 93, 125] [] (by rw [docParam_eq]; simp)
      (58 + (k.length : Int) + h.length + v.length + 1) ((docParam k h v).length : Int)
      (by simp; omega) (by rw [hlen]; simp; omega)
  simp only [Diff.apply, Diff.applyLoop, sliceFrom, s1, s2, s3, bind, Res.bind, pure]
  rw [docParam_eq]
  simp [redacted]

theorem getElem?_of_drop_eq {input : List Nat} {n c : Nat} {rest : List Nat}
    (h : input.drop n = c :: rest) : input[n]? = some c :=
  (getElem?_of_drop h).1

/-- A parameters array `[{...}]` holding one object: when `obfuscateAppSecParameter`
succeeds on the object and stops at the closing bracket, `obfuscateAppSecParameters` returns
the index just past the bracket with the same diff. -/
theorem obfuscateAppSecParameters_single (o : Obfuscator) (input : List Nat) (d : Diff)
    (n : Nat) (h14 : input[14]? = some 91) (h15 : input[15]? = some 123)
    (hn : input[n]? = some 93)
    (hp : obfuscateAppSecParameter o scannerInParameters input 15 []
      = .ok { sc := { stepFn := .stateEndValue, parseState := [parseArrayValue, parseObjectValue],
                      err := none, endTop := false },
              diff := d, i := n, err := none }) :
    obfuscateAppSecParameters o scannerAfterParametersKey input 14 []
      = .ok ({ sc := { stepFn := .stateEndValue, parseState := [parseObjectValue],
                       err := none, endTop := false },
               diff := d }, n + 1) := by
  have hstep := stepToOneOf_hit scannerAfterParametersKey [scanBeginArray] h14
    (by decide) (by decide) (by decide) (by decide)
  have hsc : (scannerAfterParametersKey.step 91).1 = scannerInParameters := by decide
  unfold obfuscateAppSecParameters stepTo
  rw [hstep, hsc]
  simp only [bind, Res.bind, Option.isSome_none, Bool.false_eq_true, ↓reduceIte]
  apply runs_apply
  apply runs_of_step h15
  unfold obfuscateAppSecParametersBody
  rw [hp]
  simp only [bind, Res.bind]
  unfold parametersNext
  rw [stepToOneOf_hit _ [scanArrayValue, scanEndArray] hn
    (by decide) (by decide) (by decide) (by decide)]
  simp [bind, Res.bind, Scanner.step, Scanner.stateEndValue, Scanner.popParseState, isSpace,
    pure, Cont]

/-- A document `{"parameters":[...]}` whose parameters array is processed up to the last
byte: the scan ends without error and the recorded diff is applied. -/
theorem obfuscateAppSec_single (o : Obfuscator) (input output rest : List Nat) (d : Diff)
    (n : Nat)
    (hsuf : input.drop 0 = 123 ::
      34 :: 112 :: 97 :: 114 :: 97 :: 109 :: 101 :: 116 :: 101 :: 114 :: 115 :: 34 :: 58 ::
      rest)
    (hparams : obfuscateAppSecParameters o scannerAfterParametersKey input 14 []
      = .ok ({ sc := { stepFn := .stateEndValue, parseState := [parseObjectValue],
                       err := none, endTop := false },
               diff := d }, n))
    (h13 : 13 < n) (hlast : input[n]? = some 125) (hlen : input.length = n + 1)
    (happly : Diff.apply d input = .ok output) :
    obfuscateAppSec o input = .ok (output, none) := by
  have h0 : input[0]? = some 123 := getElem?_of_drop_eq hsuf
  have hsuf1 := (getElem?_of_drop hsuf).2
  have hnone : input[n + 1]? = none := by simp [hlen]
  unfold obfuscateAppSec
  apply runs_apply
  apply runs_of_step h0
  simp (disch := omega) [obfuscateAppSecBody, Scanner.step, Scanner.reset,
    Scanner.stateBeginValue, isSpace, Cont]
  obtain ⟨b, hb⟩ : ∃ b : Nat, b = 1 := ⟨1, rfl⟩
  have key : RunsAt input (obfuscateAppSecBody o input)
      (fun _ st => obfuscateAppSecDone input st) (b + 0)
      (      34 :: 112 :: 97 :: 114 :: 97 :: 109 :: 101 :: 116 :: 101 :: 114 :: 115 :: 34 :: 58 ::
      rest)
      { sc := Scanner.mk .stateBeginStringOrEmpty [parseObjectKey] none false,
        diff := [], keyFrom := -1, keyTo := -1 } (.ok (output, none)) := by
    clear hsuf hsuf1
    apply runsAt_cons (by decide)
    intro hK hE
    simp at hE
    simp (disch := omega) [obfuscateAppSecBody, Scanner.step, Scanner.stateBeginValue,
      Scanner.stateBeginString, Scanner.stateEndValue, Scanner.popParseState, isSpace, Cont,
      hE, bind, Res.bind, pure, ne_neg_one_of_nonneg]
    clear hE
    apply runsAt_cons (by decide)
    intro h1 hE
    simp at hE
    simp (disch := omega) [obfuscateAppSecBody, Scanner.step, Scanner.stateBeginValue,
      Scanner.stateBeginString, Scanner.stateEndValue, Scanner.popParseState, isSpace, Cont,
      hE, bind, Res.bind, pure, ne_neg_one_of_nonneg]
    clear h1 hE
    apply runsAt_cons (by decide)
    intro h1 hE
    simp at hE
    simp (disch := omega) [obfuscateAppSecBody, Scanner.step, Scanner.stateBeginValue,
      Scanner.stateBeginString, Scanner.stateEndValue, Scanner.popParseState, isSpace, Cont,
      hE, bind, Res.bind, pure, ne_neg_one_of_nonneg]
    clear h1 hE
    apply runsAt_cons (by decide)
    intro h1 hE
    simp at hE
    simp (disch := omega) [obfuscateAppSecBody, Scanner.step, Scanner.stateBeginValue,
      Scanner.stateBeginString, Scanner.stateEndValue, Scanner.popParseState, isSpace, Cont,
      hE, bind, Res.bind, pure, ne_neg_one_of_nonneg]
    clear h1 hE
    apply runsAt_cons (by decide)
    intro h1 hE
    simp at hE
    simp (disch := omega) [obfuscateAppSecBody, Scanner.step, Scanner.stateBeginValue,
      Scanner.stateBeginString, Scanner.stateEndValue, Scanner.popParseState, isSpace, Cont,
      hE, bind, Res.bind, pure, ne_neg_one_of_nonneg]
    clear h1 hE
    apply runsAt_cons (by decide)
    intro h1 hE
    simp at hE
    simp (disch := omega) [obfuscateAppSecBody, Scanner.step, Scanner.stateBeginValue,
      Scanner.stateBeginString, Scanner.stateEndValue, Scanner.popParseState, isSpace, Cont,
      hE, bind, Res.bind, pure, ne_neg_one_of_nonneg]
    clear h1 hE
    apply runsAt_cons (by decide)
    intro h1 hE
    simp at hE
    simp (disch := omega) [obfuscateAppSecBody, Scanner.step, Scanner.stateBeginValue,
      Scanner.stateBeginString, Scanner.stateEndValue, Scanner.popParseState, isSpace, Cont,
      hE, bind, Res.bind, pure, ne_neg_one_of_nonneg]
    clear h1 hE
    apply runsAt_cons (by decide)
    intro h1 hE
    simp at hE
    simp (disch := omega) [obfuscateAppSecBody, Scanner.step, Scanner.stateBeginValue,
      Scanner.stateBeginString, Scanner.stateEndValue, Scanner.popParseState, isSpace, Cont,
      hE, bind, Res.bind, pure, ne_neg_one_of_nonneg]
    clear h1 hE
    apply runsAt_cons (by decide)
    intro h1 hE
    simp at hE
    simp (disch := omega) [obfuscateAppSecBody, Scanner.step, Scanner.stateBeginValue,
      Scanner.stateBeginString, Scanner.stateEndValue, Scanner.popParseState, isSpace, Cont,
      hE, bind, Res.bind, pure, ne_neg_one_of_nonneg]
    clear h1 hE
    apply runsAt_cons (by decide)
    intro h1 hE
    simp at hE
    simp (disch := omega) [obfuscateAppSecBody, Scanner.step, Scanner.stateBeginValue,
      Scanner.stateBeginString, Scanner.stateEndValue, Scanner.popParseState, isSpace, Cont,
      hE, bind, Res.bind, pure, ne_neg_one_of_nonneg]
    clear h1 hE
    apply runsAt_cons (by decide)
    intro h1 hE
    simp at hE
    simp (disch := omega) [obfuscateAppSecBody, Scanner.step, Scanner.stateBeginValue,
      Scanner.stateBeginString, Scanner.stateEndValue, Scanner.popParseState, isSpace, Cont,
      hE, bind, Res.bind, pure, ne_neg_one_of_nonneg]
    clear h1 hE
    apply runsAt_cons (by decide)
    intro h1 hE
    simp at hE
    simp (disch := omega) [obfuscateAppSecBody, Scanner.step, Scanner.stateBeginValue,
      Scanner.stateBeginString, Scanner.stateEndValue, Scanner.popParseState, isSpace, Cont,
      hE, bind, Res.bind, pure, ne_neg_one_of_nonneg]
    clear h1 hE
    intro hpos hprev hdrop
    subst hb
    apply runs_of_step (getElem?_of_drop_eq hdrop)
    simp (disch := omega) [obfuscateAppSecBody, Scanner.step, Scanner.stateBeginValue,
      Scanner.stateBeginString, Scanner.stateEndValue, Scanner.popParseState, isSpace,
      bind, Res.bind, pure, ne_neg_one_of_nonneg]
    have hkey : slice input 1 13 = .ok parametersKey :=
      slice_of_drop_take hK (m := 12) (by simp [parametersKey]) (by simp) (by omega) _ _
        (by omega) (by omega)
    simp only [scannerAfterParametersKey] at hparams
    rw [hkey]
    simp only [↓reduceIte, hparams, Cont]
    refine ⟨by omega, ?_⟩
    apply runs_of_step hlast
    simp (disch := omega) [obfuscateAppSecBody, Scanner.step, Scanner.stateEndValue,
      Scanner.popParseState, isSpace, Cont]
    apply runs_of_none hnone
    simp [obfuscateAppSecDone, Scanner.eof, happly, bind, Res.bind, pure]
  have := key (by omega) ⟨123, by simpa [hb] using h0, by decide⟩ (by simpa [hb] using hsuf1)
  simpa [hb] using this

/-- The parameters array of `docParam k h v` under a sensitive key path. -/
theorem obfuscateAppSecParameters_docParam (o : Obfuscator) (keyRE : Regexp)
    (k h v : List Nat) (ho : o.KeyRegexp = some keyRE) (hm : keyRE.MatchString k = true)
    (hk : ∀ c ∈ k, plain c) (hh : ∀ c ∈ h, plain c) (hv : ∀ c ∈ v, plain c) :
    obfuscateAppSecParameters o scannerAfterParametersKey (docParam k h v) 14 []
      = .ok ({ sc := { stepFn := .stateEndValue, parseState := [parseObjectValue],
                       err := none, endTop := false },
               diff := [{ from_ := 45 + k.length, to_ := 46 + k.length + h.length,
                          value := redacted },
                        { from_ := 57 + k.length + h.length,
                          to_ := 58 + k.length + h.length + v.length, value := redacted }] },
             60 + k.length + h.length + v.length + 1) := by
  obtain ⟨d1, d2, d3, d4⟩ := docParam_drops k h v
  exact obfuscateAppSecParameters_single o _ _ _ (by rw [docParam_eq]; simp)
    (by rw [docParam_eq]; simp) (getElem?_of_drop_eq d3)
    (obfuscateAppSecParameter_docParam o keyRE k h v ho hm hk hh hv)

/-- The scan of `docParam k h v` under a sensitive key path ends without error and returns
the document with the two literals replaced by the placeholder. -/
theorem obfuscateAppSec_docParam (o : Obfuscator) (keyRE : Regexp) (k h v : List Nat)
    (ho : o.KeyRegexp = some keyRE) (hm : keyRE.MatchString k = true)
    (hk : ∀ c ∈ k, plain c) (hh : ∀ c ∈ h, plain c) (hv : ∀ c ∈ v, plain c) :
    obfuscateAppSec o (docParam k h v) = .ok (docParam k [63] [63], none) := by
  obtain ⟨d1, d2, d3, d4⟩ := docParam_drops k h v
  have hlast : (docParam k h v)[60 + k.length + h.length + v.length + 1]? = some 125 := by
    have := congrArg (fun l => l[1]?) d3
    simpa [List.getElem?_drop] using this
  exact obfuscateAppSec_single o _ _ ((docParam k h v).drop 14) _ _
    (by rw [docParam_eq]; rfl)
    (obfuscateAppSecParameters_docParam o keyRE k h v ho hm hk hh hv) (by omega) hlast
    (by rw [d4]; omega) (Diff.apply_docParam k h v)

/-- C5: full redaction under a sensitive key.  For every document
`{"parameters":[{"key_path":["k"],"highlight":["h"],"value":"v"}]}` whose three string
literals are made of plain bytes and whose key-path content `k` is matched by the key
matcher, `ObfuscateAppSec` returns the same document with the literals `"h"` and `"v"` both
replaced by `"?"`, every other byte unchanged (whatever the value matcher is). -/
theorem ObfuscateAppSec_full_redaction (o : Obfuscator) (keyRE : Regexp) (k h v : List Nat)
    (ho : o.KeyRegexp = some keyRE) (hm : keyRE.MatchString k = true)
    (hk : ∀ c ∈ k, plain c) (hh : ∀ c ∈ h, plain c) (hv : ∀ c ∈ v, plain c) :
    ObfuscateAppSec o (docParam k h v) = .ok (docParam k [63] [63]) := by
  unfold ObfuscateAppSec
  rw [obfuscateAppSec_docParam o keyRE k h v ho hm hk hh hv]
  simp [ho, bind, Res.bind, pure]

/-- Witness of C5: key matcher `password`, input
`{"parameters":[{"key_path":["password"],"highlight":["abc123"],"value":"abc123"}]}`, output
`{"parameters":[{"key_path":["password"],"highlight":["?"],"value":"?"}]}`. -/
theorem ObfuscateAppSec_full_redaction_witness :
    (keyPassword.KeyRegexp = some (literalRegexp (B "password"))
      ∧ (literalRegexp (B "password")).MatchString (B "password") = true
      ∧ (∀ c ∈ B "password", plain c) ∧ (∀ c ∈ B "abc123", plain c)
      ∧ (∀ c ∈ B "abc123", plain c))
      ∧ docParam (B "password") (B "abc123") (B "abc123") = B ("\x7b\"parameters\":[\x7b"
          ++ "\"key_path\":[\"password\"],\"highlight\":[\"abc123\"],\"value\":\"abc123\"\x7d]\x7d")
      ∧ docParam (B "password") [63] [63] = B ("\x7b\"parameters\":[\x7b"
          ++ "\"key_path\":[\"password\"],\"highlight\":[\"?\"],\"value\":\"?\"\x7d]\x7d")
      ∧ ObfuscateAppSec keyPassword (docParam (B "password") (B "abc123") (B "abc123"))
          = .ok (docParam (B "password") [63] [63]) :=
  ⟨⟨rfl, by decide, by decide, by decide, by decide⟩, by decide, by decide,
    ObfuscateAppSec_full_redaction keyPassword (literalRegexp (B "password")) (B "password")
      (B "abc123") (B "abc123") rfl (by decide) (by decide) (by decide) (by decide)⟩

theorem docKeyValue_eq (k V : List Nat) :
    docKeyValue k V = 123 :: 34 :: 112 :: 97 :: 114 :: 97 :: 109 :: 101 :: 116 :: 101 :: 114
      :: 115 :: 34 :: 58 :: 91 :: 123 :: 34 :: 107 :: 101 :: 121 :: 95 :: 112 :: 97 :: 116
      :: 104 :: 34 :: 58 :: 91 :: 34 :: (k ++ 34 :: 93 :: 44 :: 34 :: 118 :: 97 :: 108 :: 117
      :: 101 :: 34 :: 58 :: (V ++ [125, 93, 125])) := by
  have e1 : B "\x7b\"parameters\":[\x7b\"key_path\":[\"" = [123, 34, 112, 97, 114, 97, 109,
    101, 116, 101, 114, 115, 34, 58, 91, 123, 34, 107, 101, 121, 95, 112, 97, 116, 104, 34,
    58, 91, 34] := by decide
  have e2 : B "\"],\"value\":" = [34, 93, 44, 34, 118, 97, 108, 117, 101, 34, 58] := by
    decide
  have e3 : B "\x7d]\x7d" = [125, 93, 125] := by decide
  simp [docKeyValue, e1, e2, e3]

/-- The walk of the parameter object of `docKeyValue k "v"`. -/
theorem walkObject_keyValue (k v : List Nat) (hk : ∀ c ∈ k, plain c) (hv : ∀ c ∈ v, plain c) :
    walkObject scannerInParameters (docKeyValue k (34 :: (v ++ [34]))) 15
      (paramVisit (docKeyValue k (34 :: (v ++ [34]))))
      { keypath := [], vfrom := 0, vto := 0, hfrom := 0, hto := 0 }
      = .ok { sc := { stepFn := .stateEndValue, parseState := [parseArrayValue, parseObjectValue],
                      err := none, endTop := false },
              i := 43 + k.length + v.length, err := none,
              acc := { keypath := 91 :: 34 :: (k ++ [34, 93]),
                       vfrom := 40 + k.length, vto := 42 + k.length + v.length,
                       hfrom := 0, hto := 0 } } := by
  set input := docKeyValue k (34 :: (v ++ [34])) with hin
  have hdoc := docKeyValue_eq k (34 :: (v ++ [34]))
  rw [← hin] at hdoc
  have h15 : input[15]? = some 123 := by simp [hdoc]
  have hstep := stepToOneOf_hit scannerInParameters [scanBeginObject] h15
    (by decide) (by decide) (by decide) (by decide)
  unfold walkObject stepTo
  rw [hstep]
  simp only [bind, Res.bind, Option.isSome_none, Bool.false_eq_true, ↓reduceIte]
  apply runs_apply
  obtain ⟨b, hb⟩ : ∃ b : Nat, b = 16 := ⟨16, rfl⟩
  have hsuf : input.drop 16 = 
      (34 :: 107 :: 101 :: 121 :: 95 :: 112 :: 97 :: 116 :: 104 :: 34 :: 58 :: 91 :: 34 :: (k
      ++ 34 :: 93 :: 44 :: 34 :: 118 :: 97 :: 108 :: 117 :: 101 :: 34 :: 58 :: 34 :: (v ++
      [34, 125, 93, 125]))) := by
    rw [hdoc]; simp
  have h15p : input[15]? = some 123 := h15
  clear hstep h15 hdoc
  clear_value input
  have key : RunsAt input (walkObjectBody input (paramVisit input))
      (fun i st => .ok { sc := st.sc.eof.1, i := i, err := st.sc.eof.1.errValue, acc := st.acc })
      (b + 0)
      (34 :: 107 :: 101 :: 121 :: 95 :: 112 :: 97 :: 116 :: 104 :: 34 :: 58 :: 91 :: 34 :: (k
      ++ 34 :: 93 :: 44 :: 34 :: 118 :: 97 :: 108 :: 117 :: 101 :: 34 :: 58 :: 34 :: (v ++
      [34, 125, 93, 125])))
      { sc := Scanner.mk .stateBeginStringOrEmpty
          [parseObjectKey, parseArrayValue, parseObjectValue] none false,
        keyFrom := -1, keyTo := -1, valueFrom := -1,
        depth := 0, acc := { keypath := [], vfrom := 0, vto := 0, hfrom := 0, hto := 0 } }
      (.ok { sc := { stepFn := .stateEndValue, parseState := [parseArrayValue, parseObjectValue],
                      err := none, endTop := false },
             i := 43 + k.length + v.length, err := none,
             acc := { keypath := 91 :: 34 :: (k ++ [34, 93]),
                      vfrom := 40 + k.length, vto := 42 + k.length + v.length,
                      hfrom := 0, hto := 0 } }) := by
    clear hsuf
    apply runsAt_cons (by decide)
    intro hK1 hE
    simp at hE
    simp (disch := omega) [walkObjectBody, Scanner.step, Scanner.stateBeginValue,
      Scanner.stateBeginString, Scanner.stateEndValue, Scanner.popParseState, isSpace, Cont,
      hE, bind, Res.bind, pure, ne_neg_one_of_nonneg]
    clear hE
    apply runsAt_cons (by decide)
    intro h1 hE
    simp at hE
    simp (disch := omega) [walkObjectBody, Scanner.step, Scanner.stateBeginValue,
      Scanner.stateBeginString, Scanner.stateEndValue, Scanner.popParseState, isSpace, Cont,
      hE, bind, Res.bind, pure, ne_neg_one_of_nonneg]
    clear h1 hE
    apply runsAt_cons (by decide)
    intro h1 hE
    simp at hE
    simp (disch := omega) [walkObjectBody, Scanner.step, Scanner.stateBeginValue,
      Scanner.stateBeginString, Scanner.stateEndValue, Scanner.popParseState, isSpace, Cont,
      hE, bind, Res.bind, pure, ne_neg_one_of_nonneg]
    clear h1 hE
    apply runsAt_cons (by decide)
    intro h1 hE
    simp at hE
    simp (disch := omega) [walkObjectBody, Scanner.step, Scanner.stateBeginValue,
      Scanner.stateBeginString, Scanner.stateEndValue, Scanner.popParseState, isSpace, Cont,
      hE, bind, Res.bind, pure, ne_neg_one_of_nonneg]
    clear h1 hE
    apply runsAt_cons (by decide)
    intro h1 hE
    simp at hE
    simp (disch := omega) [walkObjectBody, Scanner.step, Scanner.stateBeginValue,
      Scanner.stateBeginString, Scanner.stateEndValue, Scanner.popParseState, isSpace, Cont,
      hE, bind, Res.bind, pure, ne_neg_one_of_nonneg]
    clear h1 hE
    apply runsAt_cons (by decide)
    intro h1 hE
    simp at hE
    simp (disch := omega) [walkObjectBody, Scanner.step, Scanner.stateBeginValue,
      Scanner.stateBeginString, Scanner.stateEndValue, Scanner.popParseState, isSpace, Cont,
      hE, bind, Res.bind, pure, ne_neg_one_of_nonneg]
    clear h1 hE
    apply runsAt_cons (by decide)
    intro h1 hE
    simp at hE
    simp (disch := omega) [walkObjectBody, Scanner.step, Scanner.stateBeginValue,
      Scanner.stateBeginString, Scanner.stateEndValue, Scanner.popParseState, isSpace, Cont,
      hE, bind, Res.bind, pure, ne_neg_one_of_nonneg]
    clear h1 hE
    apply runsAt_cons (by decide)
    intro h1 hE
    simp at hE
    simp (disch := omega) [walkObjectBody, Scanner.step, Scanner.stateBeginValue,
      Scanner.stateBeginString, Scanner.stateEndValue, Scanner.popParseState, isSpace, Cont,
      hE, bind, Res.bind, pure, ne_neg_one_of_nonneg]
    clear h1 hE
    apply runsAt_cons (by decide)
    intro h1 hE
    simp at hE
    simp (disch := omega) [walkObjectBody, Scanner.step, Scanner.stateBeginValue,
      Scanner.stateBeginString, Scanner.stateEndValue, Scanner.popParseState, isSpace, Cont,
      hE, bind, Res.bind, pure, ne_neg_one_of_nonneg]
    clear h1 hE
    apply runsAt_cons (by decide)
    intro h1 hE
    simp at hE
    simp (disch := omega) [walkObjectBody, Scanner.step, Scanner.stateBeginValue,
      Scanner.stateBeginString, Scanner.stateEndValue, Scanner.popParseState, isSpace, Cont,
      hE, bind, Res.bind, pure, ne_neg_one_of_nonneg]
    clear h1 hE
    apply runsAt_cons (by decide)
    intro h1 hE
    simp at hE
    simp (disch := omega) [walkObjectBody, Scanner.step, Scanner.stateBeginValue,
      Scanner.stateBeginString, Scanner.stateEndValue, Scanner.popParseState, isSpace, Cont,
      hE, bind, Res.bind, pure, ne_neg_one_of_nonneg]
    clear h1 hE
    apply runsAt_cons (by decide)
    intro hV1 hE
    simp at hE
    simp (disch := omega) [walkObjectBody, Scanner.step, Scanner.stateBeginValue,
      Scanner.stateBeginString, Scanner.stateEndValue, Scanner.popParseState, isSpace, Cont,
      hE, bind, Res.bind, pure, ne_neg_one_of_nonneg]
    clear hE
    apply runsAt_cons (by decide)
    intro h1 hE
    simp at hE
    simp (disch := omega) [walkObjectBody, Scanner.step, Scanner.stateBeginValue,
      Scanner.stateBeginString, Scanner.stateEndValue, Scanner.popParseState, isSpace, Cont,
      hE, bind, Res.bind, pure, ne_neg_one_of_nonneg]
    clear h1 hE
    apply runsAt_plain k _ hk
    · intro i c hc hi
      exact walkObjectBody_plain input _ _ rfl i c hc hi
    · apply runsAt_cons (by decide)
      intro h1 hE
      simp at hE
      simp (disch := omega) [walkObjectBody, Scanner.step, Scanner.stateBeginValue,
        Scanner.stateBeginString, Scanner.stateEndValue, Scanner.popParseState, isSpace, Cont,
        hE, bind, Res.bind, pure, ne_neg_one_of_nonneg]
      clear h1 hE
      apply runsAt_cons (by decide)
      intro h1 hE
      simp at hE
      simp (disch := omega) [walkObjectBody, Scanner.step, Scanner.stateBeginValue,
        Scanner.stateBeginString, Scanner.stateEndValue, Scanner.popParseState, isSpace, Cont,
        hE, bind, Res.bind, pure, ne_neg_one_of_nonneg]
      clear h1 hE
      apply runsAt_cons (by decide)
      intro hC hE
      simp at hE
      simp (disch := omega) [walkObjectBody, Scanner.step, Scanner.stateBeginValue,
        Scanner.stateBeginString, Scanner.stateEndValue, Scanner.popParseState, isSpace, Cont,
        hE, bind, Res.bind, pure, ne_neg_one_of_nonneg]
      rw [paramVisit_keyPath (91 :: 34 :: (k ++ [34, 93]))]
      rotate_left
      · exact slice_of_drop_take hK1 (m := 10)
          (by simp [keyPathKey, valueKey, highlightKey]) (by simp)
          (by omega) _ _ (by omega) (by omega)
      · exact slice_of_drop_take hV1 (m := k.length + 4)
          (by simp [keyPathKey, valueKey, highlightKey, List.take_append_eq_append_take]) (by simp)
          (by omega) _ _ (by omega) (by omega)
      simp (disch := omega) [Cont]
      clear hC hE hK1 hV1
      apply runsAt_cons (by decide)
      intro hK2 hE
      simp at hE
      simp (disch := omega) [walkObjectBody, Scanner.step, Scanner.stateBeginValue,
        Scanner.stateBeginString, Scanner.stateEndValue, Scanner.popParseState, isSpace, Cont,
        hE, bind, Res.bind, pure, ne_neg_one_of_nonneg]
      clear hE
      apply runsAt_cons (by decide)
      intro h1 hE
      simp at hE
      simp (disch := omega) [walkObjectBody, Scanner.step, Scanner.stateBeginValue,
        Scanner.stateBeginString, Scanner.stateEndValue, Scanner.popParseState, isSpace, Cont,
        hE, bind, Res.bind, pure, ne_neg_one_of_nonneg]
      clear h1 hE
      apply runsAt_cons (by decide)
      intro h1 hE
      simp at hE
      simp (disch := omega) [walkObjectBody, Scanner.step, Scanner.stateBeginValue,
        Scanner.stateBeginString, Scanner.stateEndValue, Scanner.popParseState, isSpace, Cont,
        hE, bind, Res.bind, pure, ne_neg_one_of_nonneg]
      clear h1 hE
      apply runsAt_cons (by decide)
      intro h1 hE
      simp at hE
      simp (disch := omega) [walkObjectBody, Scanner.step, Scanner.stateBeginValue,
        Scanner.stateBeginString, Scanner.stateEndValue, Scanner.popParseState, isSpace, Cont,
        hE, bind, Res.bind, pure, ne_neg_one_of_nonneg]
      clear h1 hE
      apply runsAt_cons (by decide)
      intro h1 hE
      simp at hE
      simp (disch := omega) [walkObjectBody, Scanner.step, Scanner.stateBeginValue,
        Scanner.stateBeginString, Scanner.stateEndValue, Scanner.popParseState, isSpace, Cont,
        hE, bind, Res.bind, pure, ne_neg_one_of_nonneg]
      clear h1 hE
      apply runsAt_cons (by decide)
      intro h1 hE
      simp at hE
      simp (disch := omega) [walkObjectBody, Scanner.step, Scanner.stateBeginValue,
        Scanner.stateBeginString, Scanner.stateEndValue, Scanner.popParseState, isSpace, Cont,
        hE, bind, Res.bind, pure, ne_neg_one_of_nonneg]
      clear h1 hE
      apply runsAt_cons (by decide)
      intro h1 hE
      simp at hE
      simp (disch := omega) [walkObjectBody, Scanner.step, Scanner.stateBeginValue,
        Scanner.stateBeginString, Scanner.stateEndValue, Scanner.popParseState, isSpace, Cont,
        hE, bind, Res.bind, pure, ne_neg_one_of_nonneg]
      clear h1 hE
      apply runsAt_cons (by decide)
      intro h1 hE
      simp at hE
      simp (disch := omega) [walkObjectBody, Scanner.step, Scanner.stateBeginValue,
        Scanner.stateBeginString, Scanner.stateEndValue, Scanner.popParseState, isSpace, Cont,
        hE, bind, Res.bind, pure, ne_neg_one_of_nonneg]
      clear h1 hE
      apply runsAt_cons (by decide)
      intro h1 hE
      simp at hE
      simp (disch := omega) [walkObjectBody, Scanner.step, Scanner.stateBeginValue,
        Scanner.stateBeginString, Scanner.stateEndValue, Scanner.popParseState, isSpace, Cont,
        hE, bind, Res.bind, pure, ne_neg_one_of_nonneg]
      clear h1 hE
      apply runsAt_plain v _ hv
      · intro i c hc hi
        exact walkObjectBody_plain input _ _ rfl i c hc hi
      · apply runsAt_cons (by decide)
        intro h1 hE
        simp at hE
        simp (disch := omega) [walkObjectBody, Scanner.step, Scanner.stateBeginValue,
          Scanner.stateBeginString, Scanner.stateEndValue, Scanner.popParseState, isSpace, Cont,
          hE, bind, Res.bind, pure, ne_neg_one_of_nonneg]
        clear h1 hE
        apply runsAt_cons (by decide)
        intro hC hE
        simp at hE
        simp (disch := omega) [walkObjectBody, Scanner.step, Scanner.stateBeginValue,
          Scanner.stateBeginString, Scanner.stateEndValue, Scanner.popParseState, isSpace, Cont,
          hE, bind, Res.bind, pure, ne_neg_one_of_nonneg]
        rw [paramVisit_value]
        rotate_left
        · exact slice_of_drop_take hK2 (m := 7)
            (by simp [keyPathKey, valueKey, highlightKey]) (by simp)
            (by omega) _ _ (by omega) (by omega)
        simp (disch := omega) [Cont]
        omega
  have hsc : (scannerInParameters.step 123).1 = Scanner.mk .stateBeginStringOrEmpty
      [parseObjectKey, parseArrayValue, parseObjectValue] none false := by decide
  rw [hsc]
  have := key (by omega) ⟨123, by simpa [hb] using h15p, by decide⟩ (by simpa [hb] using hsuf)
  simpa [hb] using this

/-- A key path `["k"]` is not sensitive when the key matcher is unset or does not match
`k`. -/
theorem hasSensitiveKeyPath_not (o : Obfuscator) (k : List Nat) (hk : ∀ c ∈ k, plain c)
    (hns : ∀ keyRE, o.KeyRegexp = some keyRE → keyRE.MatchString k = false) :
    hasSensitiveKeyPath o (91 :: 34 :: (k ++ [34, 93])) = .ok false := by
  cases ho : o.KeyRegexp with
  | none => simp [hasSensitiveKeyPath, ho, pure]
  | some keyRE => rw [hasSensitiveKeyPath_single o keyRE k ho hk, hns keyRE ho]

theorem slice_whole (input : List Nat) (hi : Int) (h : hi = input.length) :
    slice input 0 hi = .ok input := by
  have := slice_mid input [] input [] (by simp) 0 hi (by simp) (by simp [h])
  exact this

/-- Without a sensitive key path, a plain value literal whose content is matched by the
value matcher gets one edit covering the literal, with the re-quoted replacement. -/
theorem obfuscateAppSecValue_match (o : Obfuscator) (valueRE : Regexp) (v q : List Nat)
    (ho : o.ValueRegexp = some valueRE) (hm : valueRE.MatchString v = true)
    (hq : quote (valueRE.ReplaceAllString v [63]) = some q) (hv : ∀ c ∈ v, plain c) :
    obfuscateAppSecValue o (34 :: (v ++ [34])) [] false
      = .ok [{ from_ := 0, to_ := (v.length : Int) + 1, value := q }] := by
  unfold obfuscateAppSecValue
  rw [scanString_plain v hv]
  simp only [ho, Option.isNone_some, Bool.false_eq_true, false_and, ↓reduceIte, bind, Res.bind,
    Option.isSome_none]
  rw [slice_whole _ _ (by simp; omega)]
  simp only [redactMatches, unquote_plain v hv, ho, hm, hq, Bool.not_true, Bool.false_eq_true,
    ↓reduceIte, Diff.add_nil]
  congr 3
  omega

/-- Suffixes of the document `docKeyValue k V` at the offsets the obfuscator uses. -/
theorem docKeyValue_drops (k V : List Nat) :
    (docKeyValue k V).drop (40 + k.length) = V ++ [125, 93, 125]
      ∧ (docKeyValue k V).drop (41 + k.length + V.length) = [93, 125]
      ∧ (docKeyValue k V).length = 43 + k.length + V.length := by
  refine ⟨?_, ?_, ?_⟩
  · apply drop_of_eq_append _ ([123, 34, 112, 97, 114, 97, 109, 101, 116, 101, 114,
      115, 34, 58, 91, 123, 34, 107, 101, 121, 95, 112, 97, 116, 104, 34, 58, 91, 34]
      ++ k ++ [34, 93, 44, 34, 118, 97, 108, 117, 101, 34, 58])
    · rw [docKeyValue_eq]; simp
    · simp; omega
  · apply drop_of_eq_append _ ([123, 34, 112, 97, 114, 97, 109, 101, 116, 101, 114,
      115, 34, 58, 91, 123, 34, 107, 101, 121, 95, 112, 97, 116, 104, 34, 58, 91, 34]
      ++ k ++ [34, 93, 44, 34, 118, 97, 108, 117, 101, 34, 58] ++ V ++ [125])
    · rw [docKeyValue_eq]; simp
    · simp; omega
  · rw [docKeyValue_eq]; simp; omega

/-- The parameter object of `docKeyValue k "v"` without a sensitive key path: the value
literal gets one edit. -/
theorem obfuscateAppSecParameter_keyValue (o : Obfuscator) (valueRE : Regexp)
    (k v q : List Nat) (hns : ∀ keyRE, o.KeyRegexp = some keyRE → keyRE.MatchString k = false)
    (ho : o.ValueRegexp = some valueRE) (hm : valueRE.MatchString v = true)
    (hq : quote (valueRE.ReplaceAllString v [63]) = some q)
    (hk : ∀ c ∈ k, plain c) (hv : ∀ c ∈ v, plain c) :
    obfuscateAppSecParameter o scannerInParameters (docKeyValue k (34 :: (v ++ [34]))) 15 []
      = .ok { sc := { stepFn := .stateEndValue, parseState := [parseArrayValue, parseObjectValue],
                      err := none, endTop := false },
              diff := [{ from_ := 40 + k.length, to_ := 41 + k.length + v.length, value := q }],
              i := 43 + k.length + v.length, err := none } := by
  obtain ⟨d1, d2, d3⟩ := docKeyValue_drops k (34 :: (v ++ [34]))
  have s0 : slice (docKeyValue k (34 :: (v ++ [34]))) 0 0 = .ok [] := by simp [slice]
  have s2 : slice (docKeyValue k (34 :: (v ++ [34]))) (40 + (k.length : Int))
      (42 + k.length + v.length) = .ok (34 :: (v ++ [34])) :=
    slice_of_drop_take d1 (m := v.length + 2) (by simp [List.take_append_eq_append_take])
      (by simp) (by omega) _ _ (by omega) (by omega)
  unfold obfuscateAppSecParameter
  rw [walkObject_keyValue k v hk hv]
  simp only [bind, Res.bind, Option.isSome_none, Bool.false_eq_true, ↓reduceIte]
  rw [hasSensitiveKeyPath_not o k hk hns]
  simp only [s0, s2]
  simp only [ne_eq, reduceCtorEq, not_false_eq_true, not_true_eq_false, ↓reduceIte,
    obfuscateAppSecValue_match o valueRE v q ho hm hq hv, Diff.merge,
    Diff.add_nil, pure, bind, Res.bind]
  simp
  omega

/-- Applying the edit of the value to `docKeyValue k "v"` replaces the literal. -/
theorem Diff.apply_docKeyValue (k v q : List Nat) :
    Diff.apply [{ from_ := 40 + k.length, to_ := 41 + k.length + v.length, value := q }]
      (docKeyValue k (34 :: (v ++ [34]))) = .ok (docKeyValue k q) := by
  have hlen := (docKeyValue_drops k (34 :: (v ++ [34]))).2.2
  have s1 := slice_mid (docKeyValue k (34 :: (v ++ [34]))) [] ([123, 34, 112, 97, 114,
      97, 109, 101, 116, 101, 114, 115, 34, 58, 91, 123, 34, 107, 101, 121, 95, 112, 97, 116,
      104, 34, 58, 91, 34] ++ k ++ [34, 93, 44, 34, 118, 97, 108, 117, 101, 34, 58])
      (34 :: (v ++ [34, 125, 93, 125])) (by rw [docKeyValue_eq]; simp)
      0 (40 + (k.length : Int)) (by simp) (by simp; omega)
  have s3 := slice_mid (docKeyValue k (34 :: (v ++ [34]))) ([123, 34, 112, 97, 114,
      97, 109, 101, 116, 101, 114, 115, 34, 58, 91, 123, 34, 107, 101, 121, 95, 112, 97, 116,
      104, 34, 58, 91, 34] ++ k ++ [34, 93, 44, 34, 118, 97, 108, 117, 101, 34, 58, 34]
      ++ v ++ [34]) [125, 93, 125] [] (by rw [docKeyValue_eq]; simp)
      (41 + (k.length : Int) + v.length + 1)
      ((docKeyValue k (34 :: (v ++ [34]))).length : Int)
      (by simp; omega) (by rw [hlen]; simp; omega)
  simp only [Diff.apply, Diff.applyLoop, sliceFrom, s1, s3, bind, Res.bind, pure]
  rw [docKeyValue_eq]
  simp

/-- The scan of `docKeyValue k "v"` without a sensitive key path, when the value matcher
matches `v`: the value literal is replaced by the re-quoted replacement. -/
theorem obfuscateAppSec_keyValue (o : Obfuscator) (valueRE : Regexp)
    (k v q : List Nat) (hns : ∀ keyRE, o.KeyRegexp = some keyRE → keyRE.MatchString k = false)
    (ho : o.ValueRegexp = some valueRE) (hm : valueRE.MatchString v = true)
    (hq : quote (valueRE.ReplaceAllString v [63]) = some q)
    (hk : ∀ c ∈ k, plain c) (hv : ∀ c ∈ v, plain c) :
    obfuscateAppSec o (docKeyValue k (34 :: (v ++ [34]))) = .ok (docKeyValue k q, none) := by
  obtain ⟨d1, d2, d3⟩ := docKeyValue_drops k (34 :: (v ++ [34]))
  have e : 41 + k.length + (34 :: (v ++ [34])).length = 43 + k.length + v.length := by
    simp; omega
  rw [e] at d2
  have hlast : (docKeyValue k (34 :: (v ++ [34])))[43 + k.length + v.length + 1]? = some 125 := by
    have := congrArg (fun l => l[1]?) d2
    simpa [List.getElem?_drop] using this
  exact obfuscateAppSec_single o _ _ ((docKeyValue k (34 :: (v ++ [34]))).drop 14) _ _
    (by rw [docKeyValue_eq]; rfl)
    (obfuscateAppSecParameters_single o _ _ _ (by rw [docKeyValue_eq]; simp)
      (by rw [docKeyValue_eq]; simp) (getElem?_of_drop_eq d2)
      (obfuscateAppSecParameter_keyValue o valueRE k v q hns ho hm hq hk hv))
    (by omega) hlast (by rw [d3]; simp; omega) (Diff.apply_docKeyValue k v q)

/-- C6 (as stated, refuted): the single-parameter document
`{"parameters":[{"key_path":["username"],"highlight":["secret=a"],"value":"secret=b"}]}`
has no sensitive key path and its value literal matches the value matcher `secret=\w+`, yet
the output is not the input with only the value literal replaced: the matching element of
`highlight` is redacted as well.  Two more single-parameter documents without a sensitive
key path on which the value literal is not replaced, both well-formed: with a field whose
key ends in an escaped backslash, `{"parameters":[{"a\\":1,"value":"secret=b"}]}`, the
call panics; with a value literal that ends in an escaped backslash,
`{"parameters":[{"key_path":["username"],"value":"secret=b\\"}]}`, the document is returned
unchanged although the unquoted content is matched. -/
theorem ObfuscateAppSec_partial_redaction_counterexample :
    hasSensitiveKeyPath valueSecretWord (B "[\"username\"]") = .ok false
      ∧ unquote (B "\"secret=b\"") = some (B "secret=b")
      ∧ (wordRegexp (B "secret=")).MatchString (B "secret=b") = true
      ∧ quote ((wordRegexp (B "secret=")).ReplaceAllString (B "secret=b") [63])
          = some (B "\"?\"")
      ∧ ObfuscateAppSec valueSecretWord (docParam (B "username") (B "secret=a") (B "secret=b"))
          = .ok (docParam (B "username") (B "?") (B "?"))
      ∧ docParam (B "username") (B "?") (B "?")
          ≠ docParam (B "username") (B "secret=a") (B "?")
      ∧ wellFormed docPartialEscapedKey = true
      ∧ ObfuscateAppSec valueSecretWord docPartialEscapedKey = .panic
      ∧ wellFormed docPartialEscapedValue = true
      ∧ unquote (B "\"secret=b\\\\\"") = some (B "secret=b\\")
      ∧ (wordRegexp (B "secret=")).MatchString (B "secret=b\\") = true
      ∧ ObfuscateAppSec valueSecretWord docPartialEscapedValue = .ok docPartialEscapedValue := by
  decide

/-- Partial redaction without a sensitive key on the compact documents
`{"parameters":[{"key_path":["k"],"value":"v"}]}` whose two string literals are made of
plain bytes, if the key matcher is unset or does not match `k`, the value literal unquotes
to `u`, the value matcher matches `u` and `quote` of `u` with every match replaced by `?`
gives `q`, then `ObfuscateAppSec` returns the same document with the value literal replaced
by `q`, `key_path` and every other byte unchanged. -/
theorem ObfuscateAppSec_keyValue_family (o : Obfuscator) (valueRE : Regexp)
    (k v u q : List Nat)
    (hns : ∀ keyRE, o.KeyRegexp = some keyRE → keyRE.MatchString k = false)
    (ho : o.ValueRegexp = some valueRE) (hk : ∀ c ∈ k, plain c) (hv : ∀ c ∈ v, plain c)
    (hu : unquote (34 :: (v ++ [34])) = some u) (hm : valueRE.MatchString u = true)
    (hq : quote (valueRE.ReplaceAllString u [63]) = some q) :
    ObfuscateAppSec o (docKeyValue k (34 :: (v ++ [34]))) = .ok (docKeyValue k q) := by
  have huv : u = v := by
    rw [unquote_plain v hv] at hu
    exact (Option.some.inj hu).symm
  subst huv
  unfold ObfuscateAppSec
  rw [obfuscateAppSec_keyValue o valueRE k u q hns ho hm hq hk hv]
  simp [ho, bind, Res.bind, pure]

/-- Example of the compact documents: value matcher `secret=\w+`, input
`{"parameters":[{"key_path":["username"],"value":"secret=topsecret;ok=1"}]}`, output
`{"parameters":[{"key_path":["username"],"value":"?;ok=1"}]}`. -/
theorem ObfuscateAppSec_keyValue_family_example :
    ((∀ keyRE, valueSecretWord.KeyRegexp = some keyRE →
          keyRE.MatchString (B "username") = false)
      ∧ valueSecretWord.ValueRegexp = some (wordRegexp (B "secret="))
      ∧ (∀ c ∈ B "username", plain c) ∧ (∀ c ∈ B "secret=topsecret;ok=1", plain c)
      ∧ unquote (34 :: (B "secret=topsecret;ok=1" ++ [34])) = some (B "secret=topsecret;ok=1")
      ∧ (wordRegexp (B "secret=")).MatchString (B "secret=topsecret;ok=1") = true
      ∧ quote ((wordRegexp (B "secret=")).ReplaceAllString (B "secret=topsecret;ok=1") [63])
          = some (B "\"?;ok=1\""))
      ∧ docKeyValue (B "username") (34 :: (B "secret=topsecret;ok=1" ++ [34])) = B
          ("\x7b\"parameters\":[\x7b\"key_path\":[\"username\"],"
            ++ "\"value\":\"secret=topsecret;ok=1\"\x7d]\x7d")
      ∧ docKeyValue (B "username") (B "\"?;ok=1\"") = B
          "\x7b\"parameters\":[\x7b\"key_path\":[\"username\"],\"value\":\"?;ok=1\"\x7d]\x7d"
      ∧ ObfuscateAppSec valueSecretWord
          (docKeyValue (B "username") (34 :: (B "secret=topsecret;ok=1" ++ [34])))
          = .ok (docKeyValue (B "username") (B "\"?;ok=1\"")) :=
  ⟨⟨fun keyRE h => by simp [valueSecretWord] at h, rfl, by decide, by decide, by decide,
      by decide, by decide⟩, by decide, by decide,
    ObfuscateAppSec_keyValue_family valueSecretWord (wordRegexp (B "secret="))
      (B "username") (B "secret=topsecret;ok=1") (B "secret=topsecret;ok=1") (B "\"?;ok=1\"")
      (fun keyRE h => by simp [valueSecretWord] at h) rfl (by decide) (by decide) (by decide)
      (by decide) (by decide)⟩

/-! ## The edit buffer -/

theorem Diff.applyLoop_spliced (input : List Nat) :
    ∀ (d : List Edit) (lo : Nat) (out : List Nat), Diff.SortedFrom lo d →
      lo ≤ input.length → (∀ e ∈ d, e.to_ < input.length) →
      Diff.applyLoop input d lo out = .ok (out ++ Diff.spliced input lo d) := by
  intro d
  induction d with
  | nil =>
    intro lo out _ hlo _
    have hc : (0 : Int) ≤ (lo : Int) ∧ (lo : Int) ≤ (input.length : Int)
        ∧ (input.length : Int) ≤ (input.length : Int) := by omega
    simp only [Diff.applyLoop, sliceFrom, slice, if_pos hc, bind, Res.bind, pure,
      Diff.spliced, Int.toNat_ofNat]
    rw [List.take_of_length_le (by simp)]
  | cons e rest ih =>
    intro lo out hs hlo hr
    obtain ⟨h1, h2, h3⟩ := hs
    have ht : e.to_ < input.length := hr e (by simp)
    have hc : (0 : Int) ≤ (lo : Int) ∧ (lo : Int) ≤ e.from_
        ∧ e.from_ ≤ (input.length : Int) := by omega
    have e1 : e.to_ + 1 = ((e.to_.toNat + 1 : Nat) : Int) := by omega
    simp only [Diff.applyLoop, slice, if_pos hc, bind, Res.bind, Diff.spliced,
      Int.toNat_ofNat]
    rw [e1, ih (e.to_.toNat + 1) _ (by rw [← e1]; exact h3) (by omega)
      (fun e' he' => hr e' (by simp [he']))]
    simp

theorem Diff.position_ge (d : List Edit) :
    ∀ (lo out p : Nat), out ≤ Diff.position lo out d p := by
  induction d with
  | nil => intro lo out p; simp [Diff.position]
  | cons e rest ih =>
    intro lo out p
    simp only [Diff.position]
    split
    · omega
    · have := ih (e.to_.toNat + 1) (out + (e.from_.toNat - lo) + e.value.length) p
      omega

theorem Diff.position_shift (d : List Edit) :
    ∀ (lo out p : Nat), Diff.position lo out d p = out + Diff.position lo 0 d p := by
  induction d with
  | nil => intro lo out p; simp [Diff.position]
  | cons e rest ih =>
    intro lo out p
    simp only [Diff.position]
    split
    · omega
    · rw [ih (e.to_.toNat + 1) (out + (e.from_.toNat - lo) + e.value.length) p,
        ih (e.to_.toNat + 1) (0 + (e.from_.toNat - lo) + e.value.length) p]
      omega

theorem Diff.spliced_getElem? (input : List Nat) :
    ∀ (d : List Edit) (lo p : Nat), Diff.SortedFrom lo d →
      (∀ e ∈ d, e.to_ < input.length) → lo ≤ p → Diff.Outside d p →
      (Diff.spliced input lo d)[Diff.position lo 0 d p]? = input[p]? := by
  intro d
  induction d with
  | nil =>
    intro lo p _ _ hp _
    simp only [Diff.spliced, Diff.position, List.getElem?_drop]
    congr 1
    omega
  | cons e rest ih =>
    intro lo p hs hr hp ho
    obtain ⟨h1, h2, h3⟩ := hs
    have ht : e.to_ < input.length := hr e (by simp)
    have hlen : ((input.drop lo).take (e.from_.toNat - lo)).length = e.from_.toNat - lo := by
      simp; omega
    simp only [Diff.spliced, Diff.position]
    split
    · next hlt =>
      rw [List.append_assoc, List.getElem?_append_left (by rw [hlen]; omega),
        List.getElem?_take_of_lt (by omega), List.getElem?_drop]
      congr 1
      omega
    · next hge =>
      have hout := ho e (by simp)
      have hpt : e.to_.toNat + 1 ≤ p := by omega
      have e1 : e.to_ + 1 = ((e.to_.toNat + 1 : Nat) : Int) := by omega
      rw [Diff.position_shift, List.append_assoc, List.getElem?_append_right (by rw [hlen]; omega),
        List.getElem?_append_right (by rw [hlen]; omega)]
      have e2 : 0 + (e.from_.toNat - lo) + e.value.length
          + Diff.position (e.to_.toNat + 1) 0 rest p
          - ((input.drop lo).take (e.from_.toNat - lo)).length - e.value.length
          = Diff.position (e.to_.toNat + 1) 0 rest p := by rw [hlen]; omega
      rw [e2]
      exact ih (e.to_.toNat + 1) p (by rw [← e1]; exact h3)
        (fun e' he' => hr e' (by simp [he'])) hpt (fun e' he' => ho e' (by simp [he']))

theorem Diff.position_lt (d : List Edit) :
    ∀ (lo out p q : Nat), Diff.SortedFrom lo d → lo ≤ p → p < q → Diff.Outside d p →
      Diff.Outside d q → Diff.position lo out d p < Diff.position lo out d q := by
  induction d with
  | nil => intro lo out p q _ hp hpq _ _; simp only [Diff.position]; omega
  | cons e rest ih =>
    intro lo out p q hs hp hpq hop hoq
    obtain ⟨h1, h2, h3⟩ := hs
    have hp1 := hop e (by simp)
    have hq1 := hoq e (by simp)
    have e1 : e.to_ + 1 = ((e.to_.toNat + 1 : Nat) : Int) := by omega
    simp only [Diff.position]
    by_cases hpf : p < e.from_.toNat
    · rw [if_pos hpf]
      by_cases hqf : q < e.from_.toNat
      · rw [if_pos hqf]; omega
      · rw [if_neg hqf]
        have := Diff.position_ge rest (e.to_.toNat + 1)
          (out + (e.from_.toNat - lo) + e.value.length) q
        omega
    · rw [if_neg hpf, if_neg (by omega)]
      exact ih (e.to_.toNat + 1) _ p q (by rw [← e1]; exact h3) (by omega) hpq
        (fun e' he' => hop e' (by simp [he'])) (fun e' he' => hoq e' (by simp [he']))

/-- C11: byte preservation outside edits.  For every input and every edit buffer that is
sorted, pairwise non-overlapping and in range (`0 <= f1`, `fi <= ti < f(i+1)`,
`ti < len(input)`), `apply` takes no slice out of bounds and returns
`input[0:f1] ++ v1 ++ input[t1+1:f2] ++ ... ++ vn ++ input[tn+1:]`; every input byte whose
offset lies in no range `[fi, ti]` is found in the output at the offset given by `position`,
and these offsets keep the original order. -/
theorem Diff.apply_preserves (input : List Nat) (d : Diff) (hs : Diff.SortedFrom 0 d)
    (hr : ∀ e ∈ d, e.to_ < input.length) :
    Diff.apply d input = .ok (Diff.spliced input 0 d)
      ∧ (∀ p, p < input.length → Diff.Outside d p →
          (Diff.spliced input 0 d)[Diff.position 0 0 d p]? = input[p]?)
      ∧ (∀ p q, p < q → Diff.Outside d p → Diff.Outside d q →
          Diff.position 0 0 d p < Diff.position 0 0 d q) := by
  refine ⟨?_, ?_, ?_⟩
  · have := Diff.applyLoop_spliced input d 0 [] hs (by omega) hr
    simpa [Diff.apply] using this
  · intro p _ ho
    exact Diff.spliced_getElem? input d 0 p hs hr (by omega) ho
  · intro p q hpq hop hoq
    exact Diff.position_lt d 0 0 p q hs (by omega) hpq hop hoq

theorem sortSearchLoop_spec (f : Nat → Bool) (n : Nat)
    (hmono : ∀ a b, a ≤ b → b < n → f a = true → f b = true) :
    ∀ fuel i j, i ≤ j → j ≤ n → j - i < fuel → (∀ a, a < i → f a = false) →
      (∀ a, j ≤ a → a < n → f a = true) →
      ∃ r, sortSearchLoop f fuel i j = .ok r ∧ r ≤ n ∧ (∀ a, a < r → f a = false)
        ∧ (∀ a, r ≤ a → a < n → f a = true) := by
  intro fuel
  induction fuel with
  | zero => intro i j _ _ h; omega
  | succ m ih =>
    intro i j hij hjn hfuel hlo hhi
    rw [sortSearchLoop]
    by_cases hlt : i < j
    · rw [if_pos hlt]
      simp only
      have hh1 : i ≤ (i + j) / 2 := by omega
      have hh2 : (i + j) / 2 < j := by omega
      cases hf : f ((i + j) / 2) with
      | false =>
        simp only [Bool.not_false, ↓reduceIte]
        apply ih ((i + j) / 2 + 1) j (by omega) hjn (by omega) _ hhi
        intro a ha
        cases hfa : f a with
        | false => rfl
        | true =>
          have := hmono a ((i + j) / 2) (by omega) (by omega) hfa
          rw [hf] at this
          exact absurd this (by simp)
      | true =>
        simp only [Bool.not_true, Bool.false_eq_true, ↓reduceIte]
        apply ih i ((i + j) / 2) hh1 (by omega) (by omega) hlo
        intro a ha han
        exact hmono ((i + j) / 2) a ha han hf
    · rw [if_neg hlt]
      exact ⟨i, rfl, by omega, hlo, fun a ha han => hhi a (by omega) han⟩

theorem sortSearch_spec (f : Nat → Bool) (n : Nat)
    (hmono : ∀ a b, a ≤ b → b < n → f a = true → f b = true) :
    ∃ r, sortSearch n f = .ok r ∧ r ≤ n ∧ (∀ a, a < r → f a = false)
      ∧ (∀ a, r ≤ a → a < n → f a = true) :=
  sortSearchLoop_spec f n hmono (n + 1) 0 n (by omega) (by omega) (by omega)
    (fun a ha => by omega) (fun a ha han => by omega)

theorem Diff.SortedFrom_mono {lo lo1 : Int} {d : List Edit} (h : Diff.SortedFrom lo d)
    (hle : lo1 ≤ lo) : Diff.SortedFrom lo1 d := by
  cases d with
  | nil => trivial
  | cons e rest => exact ⟨by have := h.1; omega, h.2.1, h.2.2⟩

theorem Diff.SortedFrom_to_ge {d : List Edit} :
    ∀ {lo : Int}, Diff.SortedFrom lo d → ∀ e ∈ d, lo ≤ e.to_ := by
  induction d with
  | nil => intro lo _ e he; simp at he
  | cons e0 rest ih =>
    intro lo h e he
    obtain ⟨h1, h2, h3⟩ := h
    rcases List.mem_cons.mp he with rfl | hm
    · omega
    · have := ih h3 e hm
      omega

theorem Diff.SortedFrom_to_le {d : List Edit} :
    ∀ {lo : Int}, Diff.SortedFrom lo d → ∀ (a b : Nat) (ea eb : Edit), a ≤ b →
      d[a]? = some ea → d[b]? = some eb → ea.to_ ≤ eb.to_ := by
  induction d with
  | nil => intro lo _ a b ea eb _ ha; simp at ha
  | cons e0 rest ih =>
    intro lo h a b ea eb hab ha hb
    obtain ⟨h1, h2, h3⟩ := h
    cases a with
    | zero =>
      simp at ha
      subst ha
      cases b with
      | zero => simp at hb; subst hb; omega
      | succ b =>
        simp at hb
        have := Diff.SortedFrom_to_ge h3 eb (List.getElem?_mem hb)
        omega
    | succ a =>
      cases b with
      | zero => omega
      | succ b =>
        simp at ha hb
        exact ih h3 a b ea eb (by omega) ha hb

theorem takeWhile_eq_take {α : Type} (p : α → Bool) :
    ∀ (d : List α) (r : Nat), r ≤ d.length → (∀ a e, a < r → d[a]? = some e → p e = true) →
      (∀ e, d[r]? = some e → p e = false) →
      d.takeWhile p = d.take r ∧ d.dropWhile p = d.drop r := by
  intro d
  induction d with
  | nil => intro r _ _ _; simp
  | cons e0 rest ih =>
    intro r hr hlo hhi
    cases r with
    | zero =>
      have := hhi e0 (by simp)
      simp [List.takeWhile, List.dropWhile, this]
    | succ r =>
      have h0 := hlo 0 e0 (by omega) (by simp)
      have := ih r (by simpa using hr) (fun a e ha he => hlo (a + 1) e (by omega) (by simpa using he))
        (fun e he => hhi e (by simpa using he))
      simp [List.takeWhile, List.dropWhile, h0, this.1, this.2]

/-- The place where `add` inserts: before the first edit whose `to` exceeds `from`. -/
theorem Diff.add_eq (d : Diff) (lo from_ to_ : Int) (value : List Nat)
    (hs : Diff.SortedFrom lo d) :
    Diff.add d from_ to_ value
      = .ok (d.takeWhile (fun e => decide (e.to_ ≤ from_))
          ++ { from_ := from_, to_ := to_, value := value }
            :: d.dropWhile (fun e => decide (e.to_ ≤ from_))) := by
  have hmono : ∀ a b, a ≤ b → b < d.length →
      (match d[a]? with | some e => decide (e.to_ > from_) | none => false) = true →
      (match d[b]? with | some e => decide (e.to_ > from_) | none => false) = true := by
    intro a b hab hb ha
    have hbs : d[b]? = some d[b] := List.getElem?_eq_getElem hb
    have has : d[a]? = some d[a] := List.getElem?_eq_getElem (by omega)
    rw [has] at ha
    rw [hbs]
    have := Diff.SortedFrom_to_le hs a b _ _ hab has hbs
    simp only [gt_iff_lt, decide_eq_true_eq] at ha ⊢
    omega
  obtain ⟨r, hr, hrn, hlow, hhigh⟩ := sortSearch_spec _ d.length hmono
  have htw := takeWhile_eq_take (fun e : Edit => decide (e.to_ ≤ from_)) d r hrn
    (by
      intro a e ha he
      have := hlow a ha
      rw [he] at this
      simp only [gt_iff_lt, decide_eq_false_iff_not, not_lt] at this
      simpa using this)
    (by
      intro e he
      have hlt : r < d.length := by
        rcases List.getElem?_eq_some_iff.mp he with ⟨h, _⟩
        exact h
      have := hhigh r (by omega) hlt
      rw [he] at this
      simp only [gt_iff_lt, decide_eq_true_eq] at this
      simp only [decide_eq_false_iff_not, not_le]
      exact this)
  have hadd : Diff.add d from_ to_ value
      = Res.bind (sortSearch d.length (fun a =>
          match d[a]? with
          | some e => decide (e.to_ > from_)
          | none => false))
        (fun i => if i = d.length then
            .ok (d ++ [{ from_ := from_, to_ := to_, value := value }])
          else .ok (d.take i ++ { from_ := from_, to_ := to_, value := value } :: d.drop i)) :=
    rfl
  rw [hadd, hr, htw.1, htw.2]
  simp only [Res.bind]
  split
  · next h => subst h; simp
  · rfl

theorem Diff.SortedFrom_insert (from_ to_ : Int) (value : List Nat) (hft : from_ ≤ to_) :
    ∀ (d : List Edit) (lo : Int), Diff.SortedFrom lo d → lo ≤ from_ →
      (∀ e ∈ d, e.to_ < from_ ∨ to_ < e.from_) →
      Diff.SortedFrom lo (d.takeWhile (fun e => decide (e.to_ ≤ from_))
        ++ { from_ := from_, to_ := to_, value := value }
          :: d.dropWhile (fun e => decide (e.to_ ≤ from_))) := by
  intro d
  induction d with
  | nil => intro lo _ hlo _; simp [Diff.SortedFrom, hlo, hft]
  | cons e rest ih =>
    intro lo hs hlo hd
    obtain ⟨h1, h2, h3⟩ := hs
    have hde := hd e (by simp)
    by_cases hle : e.to_ ≤ from_
    · have hlt : e.to_ < from_ := by omega
      simp only [List.takeWhile, List.dropWhile, hle, decide_True, List.cons_append]
      exact ⟨h1, h2, ih (e.to_ + 1) h3 (by omega) (fun e' he' => hd e' (by simp [he']))⟩
    · simp only [List.takeWhile, List.dropWhile, hle, decide_False, List.nil_append]
      refine ⟨hlo, hft, ?_, h2, h3⟩
      show to_ + 1 ≤ e.from_
      omega

theorem Diff.Sorted_of_SortedFrom {lo : Int} {d : List Edit} (h : Diff.SortedFrom lo d) :
    Diff.Sorted d := by
  cases d with
  | nil => trivial
  | cons e rest => exact ⟨le_refl _, h.2.1, h.2.2⟩

theorem Diff.SortedFrom_of_Sorted {d : List Edit} (h : Diff.Sorted d) (from_ : Int) :
    ∃ lo, lo ≤ from_ ∧ Diff.SortedFrom lo d := by
  cases d with
  | nil => exact ⟨from_, le_refl _, trivial⟩
  | cons e rest =>
    refine ⟨min from_ e.from_, min_le_left _ _, ?_⟩
    exact Diff.SortedFrom_mono h (min_le_right _ _)

/-- C12: the edit-buffer invariant is preserved by `add`.  For every buffer that is sorted
ascending by `from` and pairwise non-overlapping and every new edit with `from <= to` whose
range is disjoint from every existing range, `add` succeeds, the new buffer is again sorted
and non-overlapping, and it is the old buffer with the new edit inserted before the first
edit whose `to` exceeds `from`: the edits before it are the longest prefix of edits with
`to <= from`, the edits after it the remaining ones, in their previous order. -/
theorem Diff.add_preserves_sorted (d : Diff) (from_ to_ : Int) (value : List Nat)
    (hs : Diff.Sorted d) (hft : from_ ≤ to_)
    (hd : ∀ e ∈ d, e.to_ < from_ ∨ to_ < e.from_) :
    Diff.add d from_ to_ value
        = .ok (d.takeWhile (fun e => decide (e.to_ ≤ from_))
            ++ { from_ := from_, to_ := to_, value := value }
              :: d.dropWhile (fun e => decide (e.to_ ≤ from_)))
      ∧ Diff.Sorted (d.takeWhile (fun e => decide (e.to_ ≤ from_))
            ++ { from_ := from_, to_ := to_, value := value }
              :: d.dropWhile (fun e => decide (e.to_ ≤ from_)))
      ∧ d.takeWhile (fun e => decide (e.to_ ≤ from_))
            ++ d.dropWhile (fun e => decide (e.to_ ≤ from_)) = d
      ∧ (∀ e ∈ d.takeWhile (fun e => decide (e.to_ ≤ from_)), e.to_ ≤ from_)
      ∧ (∀ e, (d.dropWhile (fun e => decide (e.to_ ≤ from_))).head? = some e →
          from_ < e.to_) := by
  obtain ⟨lo, hlo, hsf⟩ := Diff.SortedFrom_of_Sorted hs from_
  refine ⟨Diff.add_eq d lo from_ to_ value hsf,
    Diff.Sorted_of_SortedFrom (Diff.SortedFrom_insert from_ to_ value hft d lo hsf hlo hd),
    List.takeWhile_append_dropWhile _ _, ?_, ?_⟩
  · intro e he
    have := List.mem_takeWhile_imp he
    simpa using this
  · intro e he
    have := List.head?_dropWhile_not (fun e : Edit => decide (e.to_ ≤ from_)) d
    rw [he] at this
    simpa using this

/-- Witness of C12: adding `(3, 3, "x")` to `[(0, 1, "a"), (5, 6, "b")]` gives
`[(0, 1, "a"), (3, 3, "x"), (5, 6, "b")]`. -/
theorem Diff.add_preserves_sorted_witness :
    (Diff.Sorted [{ from_ := 0, to_ := 1, value := [97] }, { from_ := 5, to_ := 6, value := [98] }]
      ∧ (3 : Int) ≤ 3
      ∧ (∀ e ∈ ([{ from_ := 0, to_ := 1, value := [97] },
            { from_ := 5, to_ := 6, value := [98] }] : Diff), e.to_ < 3 ∨ 3 < e.from_))
      ∧ Diff.add [{ from_ := 0, to_ := 1, value := [97] }, { from_ := 5, to_ := 6, value := [98] }]
          3 3 [120]
        = .ok [{ from_ := 0, to_ := 1, value := [97] }, { from_ := 3, to_ := 3, value := [120] },
            { from_ := 5, to_ := 6, value := [98] }] :=
  ⟨⟨by simp [Diff.Sorted, Diff.SortedFrom], by decide, by decide⟩,
    (Diff.add_preserves_sorted [{ from_ := 0, to_ := 1, value := [97] },
      { from_ := 5, to_ := 6, value := [98] }] 3 3 [120]
      (by simp [Diff.Sorted, Diff.SortedFrom]) (by decide) (by decide)).1⟩

/-- Witness of C11: the edits `(0, 4, "HI")` and `(6, 6, "W")` turn `hello world` into
`HI World`. -/
theorem Diff.apply_preserves_witness :
    (Diff.SortedFrom 0 [{ from_ := 0, to_ := 4, value := B "HI" },
        { from_ := 6, to_ := 6, value := B "W" }]
      ∧ (∀ e ∈ ([{ from_ := 0, to_ := 4, value := B "HI" },
            { from_ := 6, to_ := 6, value := B "W" }] : Diff),
          e.to_ < ((B "hello world").length : Int)))
      ∧ Diff.spliced (B "hello world") 0 [{ from_ := 0, to_ := 4, value := B "HI" },
          { from_ := 6, to_ := 6, value := B "W" }] = B "HI World"
      ∧ Diff.apply [{ from_ := 0, to_ := 4, value := B "HI" },
          { from_ := 6, to_ := 6, value := B "W" }] (B "hello world")
        = .ok (Diff.spliced (B "hello world") 0 [{ from_ := 0, to_ := 4, value := B "HI" },
          { from_ := 6, to_ := 6, value := B "W" }]) :=
  ⟨⟨by simp [Diff.SortedFrom], by decide⟩, by decide,
    (Diff.apply_preserves (B "hello world") [{ from_ := 0, to_ := 4, value := B "HI" },
      { from_ := 6, to_ := 6, value := B "W" }] (by simp [Diff.SortedFrom]) (by decide)).1⟩

theorem Diff.add_append (d : Diff) (lo from_ to_ : Int) (value : List Nat)
    (hs : Diff.SortedFrom lo d) (hle : ∀ e ∈ d, e.to_ ≤ from_) :
    Diff.add d from_ to_ value
      = .ok (d ++ [{ from_ := from_, to_ := to_, value := value }]) := by
  rw [Diff.add_eq d lo from_ to_ value hs]
  have h1 : d.takeWhile (fun e => decide (e.to_ ≤ from_)) = d := by
    rw [List.takeWhile_eq_self_iff]
    intro e he
    simpa using hle e he
  have h2 : d.dropWhile (fun e => decide (e.to_ ≤ from_)) = [] := by
    rw [List.dropWhile_eq_nil_iff]
    intro e he
    simpa using hle e he
  rw [h1, h2]

theorem Diff.SortedFrom_append_singleton (e1 : Edit) :
    ∀ (d : List Edit) (lo : Int), Diff.SortedFrom lo d → lo ≤ e1.from_ → e1.from_ ≤ e1.to_ →
      (∀ e ∈ d, e.to_ < e1.from_) → Diff.SortedFrom lo (d ++ [e1]) := by
  intro d
  induction d with
  | nil => intro lo _ hlo hft _; exact ⟨hlo, hft, trivial⟩
  | cons e rest ih =>
    intro lo hs hlo hft hlt
    obtain ⟨h1, h2, h3⟩ := hs
    have := hlt e (by simp)
    exact ⟨h1, h2, ih (e.to_ + 1) h3 (by omega) hft (fun e' he' => hlt e' (by simp [he']))⟩

theorem Diff.merge_sorted (offset : Int) :
    ∀ (d acc : List Edit) (lo0 lo : Int), Diff.SortedFrom lo0 acc → lo0 ≤ lo + offset →
      (∀ e ∈ acc, e.to_ < lo + offset) → Diff.SortedFrom lo d →
      Diff.merge acc d offset = .ok (acc ++ d.map (Edit.shift offset)) := by
  intro d
  induction d with
  | nil => intro acc lo0 lo _ _ _ _; simp [Diff.merge, pure]
  | cons e rest ih =>
    intro acc lo0 lo hacc hlo hlt hs
    obtain ⟨h1, h2, h3⟩ := hs
    have hadd := Diff.add_append acc lo0 (e.from_ + offset) (e.to_ + offset) e.value hacc
      (fun e' he' => by have := hlt e' he'; omega)
    have hacc1 := Diff.SortedFrom_append_singleton (Edit.shift offset e) acc lo0 hacc
      (by simp only [Edit.shift]; omega) (by simp only [Edit.shift]; omega)
      (fun e' he' => by have := hlt e' he'; simp only [Edit.shift]; omega)
    have := ih (acc ++ [Edit.shift offset e]) lo0 (e.to_ + 1) hacc1 (by omega)
      (by
        intro e' he'
        rcases List.mem_append.mp he' with hm | hm
        · have := hlt e' hm; omega
        · simp only [List.mem_singleton] at hm
          subst hm
          simp only [Edit.shift]; omega)
      h3
    simp only [Diff.merge, hadd, bind, Res.bind]
    rw [show ({ from_ := e.from_ + offset, to_ := e.to_ + offset, value := e.value } : Edit)
      = Edit.shift offset e from rfl, this]
    simp

theorem Diff.spliced_shift (pre s post : List Nat) :
    ∀ (d : List Edit) (lo : Nat), Diff.SortedFrom lo d → lo ≤ s.length →
      (∀ e ∈ d, e.to_ < s.length) →
      Diff.spliced (pre ++ s ++ post) (lo + pre.length) (d.map (Edit.shift pre.length))
        = Diff.spliced s lo d ++ post := by
  intro d
  induction d with
  | nil =>
    intro lo _ hlo _
    simp only [List.map_nil, Diff.spliced]
    rw [Nat.add_comm, List.append_assoc, List.drop_append, List.drop_append_of_le_length hlo]
  | cons e rest ih =>
    intro lo hs hlo hr
    obtain ⟨h1, h2, h3⟩ := hs
    have ht : e.to_ < s.length := hr e (by simp)
    have e1 : e.to_ + 1 = ((e.to_.toNat + 1 : Nat) : Int) := by omega
    have e2 : (e.to_ + (pre.length : Int)).toNat + 1 = e.to_.toNat + 1 + pre.length := by omega
    have e3 : (e.from_ + (pre.length : Int)).toNat - (lo + pre.length) = e.from_.toNat - lo := by
      omega
    simp only [List.map_cons, Diff.spliced, Edit.shift]
    rw [e2, e3, ih (e.to_.toNat + 1) (by rw [← e1]; exact h3) (by omega)
      (fun e' he' => hr e' (by simp [he']))]
    have e4 : List.drop (lo + pre.length) (pre ++ s ++ post) = List.drop lo s ++ post := by
      rw [Nat.add_comm, List.append_assoc, List.drop_append, List.drop_append_of_le_length hlo]
    rw [e4, List.take_append_of_le_length (by simp; omega)]
    simp

theorem Diff.spliced_prefix (pre rest : List Nat) (d : List Edit)
    (hd : ∀ e ∈ d, (pre.length : Int) ≤ e.from_) :
    Diff.spliced (pre ++ rest) 0 d = pre ++ Diff.spliced (pre ++ rest) pre.length d := by
  cases d with
  | nil => simp [Diff.spliced]
  | cons e tl =>
    have := hd e (by simp)
    simp only [Diff.spliced, List.drop_zero, Nat.sub_zero, List.drop_left]
    have e1 : e.from_.toNat = pre.length + (e.from_.toNat - pre.length) := by omega
    rw [e1, List.take_append]
    simp

theorem Diff.merge_eq_foldlM (offset : Int) :
    ∀ (other acc : Diff), Diff.merge acc other offset
      = other.foldlM (fun a e => Diff.add a (e.from_ + offset) (e.to_ + offset) e.value) acc := by
  intro other
  induction other with
  | nil => intro acc; rfl
  | cons e rest ih =>
    intro acc
    simp only [Diff.merge, List.foldlM, bind]
    cases Diff.add acc (e.from_ + offset) (e.to_ + offset) e.value with
    | ok d1 => simp only [Res.bind]; exact ih d1
    | panic => rfl
    | timeout => rfl

/-- C13: offset-shifted merge commutes with apply.  For every text `s`, every edit buffer
`d` that is sorted, non-overlapping and in range for `s`, and every `pre` and `post`,
merging `d` into the empty buffer with offset `len(pre)` gives the edits of `d` shifted by
`len(pre)`, and applying them to `pre ++ s ++ post` yields `pre ++ d.apply(s) ++ post`.  For
every buffer and offset, `merge` adds, for each edit of the merged buffer in order, the edit
with both offsets shifted and the same replacement text. -/
theorem Diff.merge_apply (s pre post : List Nat) (d : Diff) (hs : Diff.SortedFrom 0 d)
    (hr : ∀ e ∈ d, e.to_ < s.length) :
    Diff.merge [] d pre.length = .ok (d.map (Edit.shift pre.length))
      ∧ Diff.apply d s = .ok (Diff.spliced s 0 d)
      ∧ Diff.apply (d.map (Edit.shift pre.length)) (pre ++ s ++ post)
          = .ok (pre ++ Diff.spliced s 0 d ++ post)
      ∧ (∀ (acc other : Diff) (offset : Int), Diff.merge acc other offset
          = other.foldlM
              (fun a e => Diff.add a (e.from_ + offset) (e.to_ + offset) e.value) acc) := by
  have hsorted : ∀ (d1 : List Edit) (lo : Int), Diff.SortedFrom lo d1 →
      Diff.SortedFrom (lo + pre.length) (d1.map (Edit.shift pre.length)) := by
    intro d1
    induction d1 with
    | nil => intro lo _; trivial
    | cons e rest ih =>
      intro lo h
      obtain ⟨h1, h2, h3⟩ := h
      refine ⟨by simp only [Edit.shift]; omega, by simp only [Edit.shift]; omega, ?_⟩
      have := ih (e.to_ + 1) h3
      have e1 : (Edit.shift pre.length e).to_ + 1 = e.to_ + 1 + pre.length := by
        simp only [Edit.shift]; omega
      rw [e1]; exact this
  have hfrom : ∀ e ∈ d.map (Edit.shift pre.length), (pre.length : Int) ≤ e.from_ := by
    intro e he
    obtain ⟨e0, he0, rfl⟩ := List.mem_map.mp he
    have : (0 : Int) ≤ e0.from_ := by
      have h1 := Diff.SortedFrom_to_ge hs e0 he0
      clear h1
      induction d with
      | nil => simp at he0
      | cons e1 rest _ =>
        rcases List.mem_cons.mp he0 with rfl | hm
        · exact hs.1
        · have hrest := hs.2.2
          have hge : ∀ (l : List Edit) (lo : Int), Diff.SortedFrom lo l →
              ∀ x ∈ l, lo ≤ x.from_ := by
            intro l
            induction l with
            | nil => intro lo _ x hx; simp at hx
            | cons y ys ihy =>
              intro lo hl x hx
              rcases List.mem_cons.mp hx with rfl | hxm
              · exact hl.1
              · have := ihy (y.to_ + 1) hl.2.2 x hxm
                have := hl.1
                have := hl.2.1
                omega
          have := hge rest (e1.to_ + 1) hrest e0 hm
          have := hs.1
          have := hs.2.1
          omega
    simp only [Edit.shift]; omega
  have hin : ∀ e ∈ d.map (Edit.shift pre.length),
      e.to_ < ((pre ++ s ++ post).length : Int) := by
    intro e he
    obtain ⟨e0, he0, rfl⟩ := List.mem_map.mp he
    have := hr e0 he0
    simp only [Edit.shift, List.length_append]
    push_cast
    omega
  have hsh := hsorted d 0 hs
  refine ⟨?_, ?_, ?_, fun acc other offset => Diff.merge_eq_foldlM offset other acc⟩
  rotate_left
  · have := Diff.applyLoop_spliced s d 0 [] hs (by omega) hr
    simpa [Diff.apply] using this
  · have h1 := Diff.applyLoop_spliced (pre ++ s ++ post) (d.map (Edit.shift pre.length)) 0 []
      (Diff.SortedFrom_mono hsh (by omega)) (by omega) hin
    have h2 := Diff.spliced_prefix pre (s ++ post) (d.map (Edit.shift pre.length)) hfrom
    have h3 := Diff.spliced_shift pre s post d 0 hs (by omega) hr
    simp only [List.append_assoc] at h1 h2 h3 ⊢
    simp only [Diff.apply]
    simp only [Nat.cast_zero, List.nil_append] at h1
    rw [h1, h2]
    simp only [Nat.zero_add] at h3
    rw [h3]
  · have := Diff.merge_sorted pre.length d [] 0 0 trivial (by omega) (by simp) hs
    simpa using this

/-- Witness of C13: the edits `(0, 4, "HI")`, `(6, 6, "W")` of `hello world`, merged with
offset 2 and applied to `<<hello world>>`, give `<<HI World>>`. -/
theorem Diff.merge_apply_witness :
    (Diff.SortedFrom 0 [{ from_ := 0, to_ := 4, value := B "HI" },
        { from_ := 6, to_ := 6, value := B "W" }]
      ∧ (∀ e ∈ ([{ from_ := 0, to_ := 4, value := B "HI" },
            { from_ := 6, to_ := 6, value := B "W" }] : Diff),
          e.to_ < ((B "hello world").length : Int)))
      ∧ B "<<" ++ B "hello world" ++ B ">>" = B "<<hello world>>"
      ∧ B "<<" ++ Diff.spliced (B "hello world") 0 [{ from_ := 0, to_ := 4, value := B "HI" },
          { from_ := 6, to_ := 6, value := B "W" }] ++ B ">>" = B "<<HI World>>"
      ∧ Diff.merge [] [{ from_ := 0, to_ := 4, value := B "HI" },
          { from_ := 6, to_ := 6, value := B "W" }] ((B "<<").length : Int)
        = .ok [{ from_ := 2, to_ := 6, value := B "HI" }, { from_ := 8, to_ := 8, value := B "W" }]
      ∧ Diff.apply [{ from_ := 2, to_ := 6, value := B "HI" },
          { from_ := 8, to_ := 8, value := B "W" }] (B "<<" ++ B "hello world" ++ B ">>")
        = .ok (B "<<" ++ Diff.spliced (B "hello world") 0
            [{ from_ := 0, to_ := 4, value := B "HI" }, { from_ := 6, to_ := 6, value := B "W" }]
            ++ B ">>") :=
  ⟨⟨by simp [Diff.SortedFrom], by decide⟩, by decide, by decide,
    (Diff.merge_apply (B "hello world") (B "<<") (B ">>")
      [{ from_ := 0, to_ := 4, value := B "HI" }, { from_ := 6, to_ := 6, value := B "W" }]
      (by simp [Diff.SortedFrom]) (by decide)).1,
    (Diff.merge_apply (B "hello world") (B "<<") (B ">>")
      [{ from_ := 0, to_ := 4, value := B "HI" }, { from_ := 6, to_ := 6, value := B "W" }]
      (by simp [Diff.SortedFrom]) (by decide)).2.2.1⟩

/-- C15 (refuted on the code): the outcome depends on the order of the fields of a
parameter.  The two well-formed documents
`{"parameters":[{"value":"abc123","key_path":["password"],"a\\":1}]}` and
`{"parameters":[{"a\\":1,"value":"abc123","key_path":["password"]}]}` differ only by the
position of the field `"a\\":1`; with a key matcher matching `password` the first one has
its value replaced by `"?"`, the second one makes the call panic.  The document of the
claim, without the third field, is redacted as the claim says. -/
theorem obfuscateAppSecParameter_field_order :
    wellFormed docEscapedFieldLast = true ∧ wellFormed docEscapedFieldFirst = true
      ∧ ObfuscateAppSec keyPassword docEscapedFieldLast = .ok docEscapedFieldLastRedacted
      ∧ ObfuscateAppSec keyPassword docEscapedFieldFirst = .panic
      ∧ ObfuscateAppSec keyPassword docValueFirst = .ok docValueFirstRedacted := by
  decide

/-- C16 (refuted on the code in its general part): for every configuration the documents
`{"parameters":[]}` and `{"parameters":[ ]}` are returned unchanged, and
`obfuscateAppSecParameters` records no edit and returns the index after the closing
bracket; but the well-formed document `{"a\\":1,"parameters":[]}`, whose only parameters
value is an empty array, makes the call panic. -/
theorem ObfuscateAppSec_empty_parameters (o : Obfuscator) :
    ObfuscateAppSec o docEmptyParams = .ok docEmptyParams
      ∧ ObfuscateAppSec o docBlankParams = .ok docBlankParams
      ∧ obfuscateAppSecParameters o scannerAfterParametersKey docEmptyParams 14 []
          = .ok ({ sc := { stepFn := .stateEndValue, parseState := [parseObjectValue],
                           err := none, endTop := false },
                   diff := [] }, 16)
      ∧ wellFormed docEscapedKeyEmptyParams = true
      ∧ ObfuscateAppSec keyPassword docEscapedKeyEmptyParams = .panic := by
  have h1 : obfuscateAppSec o docEmptyParams = .ok (docEmptyParams, none) := rfl
  have h2 : obfuscateAppSec o docBlankParams = .ok (docBlankParams, none) := rfl
  refine ⟨?_, ?_, rfl, by decide, by decide⟩
  · unfold ObfuscateAppSec
    split
    · rfl
    · simp [h1, bind, Res.bind, pure]
  · unfold ObfuscateAppSec
    split
    · rfl
    · simp [h2, bind, Res.bind, pure]

/-- C18 (refuted on the code): the bytes are not all passed to the scanner.  In the
well-formed document `{"parameters":[{"value":"secretval"},{"value":"secretval"}]}` the
first element ends at index 35, the comma is at index 36 and the second element begins at
index 37.  After the first element (scanner state reached on the bytes 0..35, index 36) the
end of the iteration of `obfuscateAppSecParameters` passes the comma to the scanner and
continues the loop at index 38 with the scanner state reached on the bytes 0..36: the byte
at index 37 is never passed to the scanner, which then reports a syntax error on the `:`
at index 45. -/
theorem obfuscateAppSecParameters_skips_byte_after_comma :
    wellFormed docTwoParams = true
      ∧ docTwoParams[36]? = some 44 ∧ docTwoParams[37]? = some 123
      ∧ scanAll Scanner.reset (docTwoParams.take 36) = some scannerAfterElement
      ∧ obfuscateAppSecParameter valueSecretval scannerInParameters docTwoParams 15 []
          = .ok { sc := scannerAfterElement,
                  diff := [{ from_ := 24, to_ := 34, value := redacted }],
                  i := 36, err := none }
      ∧ parametersNext docTwoParams scannerAfterElement 36
            [{ from_ := 24, to_ := 34, value := redacted }]
          = .ok (.next 38 { sc := (scannerAfterElement.step 44).1,
                            diff := [{ from_ := 24, to_ := 34, value := redacted }] })
      ∧ scanAll Scanner.reset (docTwoParams.take 37) = some (scannerAfterElement.step 44).1
      ∧ obfuscateAppSec valueSecretval docTwoParams
          = .ok (docTwoParams, some (.syntaxError (.invalidCharacter 58))) := by
  decide

/-- C19 (refuted on the code): `"a\\"` is a well-formed string literal (its content is `a`
followed by a backslash) and the quote at index 4 ends it: the scanner is inside the string
after the bytes 0..3 and at the end of the value after the bytes 0..4.  Yet
`isJSONStringEnd` is false at index 4, because the byte before the quote is a backslash;
it is false at every index of the literal. -/
theorem isJSONStringEnd_escaped_backslash :
    unquote litEscapedBackslash = some (B "a\\")
      ∧ litEscapedBackslash[4]? = some 34 ∧ litEscapedBackslash.length = 5
      ∧ (scanAll Scanner.reset (litEscapedBackslash.take 4)).map (fun s => s.stepFn)
          = some .stateInString
      ∧ (scanAll Scanner.reset (litEscapedBackslash.take 5)).map (fun s => s.stepFn)
          = some .stateEndValue
      ∧ isJSONStringEnd litEscapedBackslash 4 = .ok false
      ∧ ∀ i, 1 ≤ i → i < 5 → isJSONStringEnd litEscapedBackslash i = .ok false := by
  refine ⟨by decide, by decide, by decide, by decide, by decide, by decide, ?_⟩
  intro i h1 h5
  have h : i = 1 ∨ i = 2 ∨ i = 3 ∨ i = 4 := by omega
  rcases h with rfl | rfl | rfl | rfl <;> decide

/-- C20 (refuted on the code): on the well-formed string literal `"a\\"` (also after
leading blanks) `scanString` returns `(0, 0, nil)`: the error is nil although
`from < to` fails and although the end of the input was reached without finding the closing
quote.  On the unterminated text `"abc` an error is returned, and on `  "abc"  ` the
literal is located at `[2, 7)`. -/
theorem scanString_escaped_backslash :
    wellFormed litEscapedBackslash = true
      ∧ scanString litEscapedBackslash = .ok (0, 0, none)
      ∧ scanString (B "  \"x\\\\\"") = .ok (0, 0, none)
      ∧ scanString (B "\"abc") = .ok (0, 0, some (.syntaxError .unexpectedEnd))
      ∧ scanString (B "  \"abc\"  ") = .ok (2, 7, none) := by
  decide

/-- Placeholder under a value matcher: with the value matcher `^` and no key matcher, the only edit made
on `{"parameters":[{"value":""}]}` replaces the whole literal `""` by the placeholder
`"?"`; a second pass turns the placeholder into `"??"`, so the second pass is not the
identity on the output of the first. -/
theorem ObfuscateAppSec_idempotent_redacted_counterexample :
    obfuscateAppSecValue valueStart (B "\"\"") [] false
        = .ok [{ from_ := 0, to_ := 1, value := redacted }]
      ∧ ObfuscateAppSec valueStart docEmptyValue = .ok docPlaceholderValue
      ∧ ObfuscateAppSec valueStart docPlaceholderValue = .ok docTwoPlaceholdersValue
      ∧ (ObfuscateAppSec valueStart docEmptyValue).bind (ObfuscateAppSec valueStart)
          ≠ ObfuscateAppSec valueStart docEmptyValue := by
  decide

theorem drop_add_of_drop {input suf : List Nat} {a : Nat} (h : input.drop a = suf)
    (pre rest : List Nat) (he : suf = pre ++ rest) (n : Nat) (hn : n = a + pre.length) :
    input.drop n = rest := by
  have e : input.drop (a + pre.length) = (input.drop a).drop pre.length := by
    rw [List.drop_drop, Nat.add_comm]
  rw [hn, e, h, he]
  simp

/-- The parameter object `{"key_path":["k"],"highlight":["h"],"value":"v"}` at any index
`a`, under a sensitive key path: the two literals get an edit each, appended to the edits
recorded before the object. -/
theorem obfuscateAppSecParameter_at (o : Obfuscator) (keyRE : Regexp) (input : List Nat)
    (a : Nat) (ps : List ParseState) (d : Diff) (k h v rest : List Nat)
    (ho : o.KeyRegexp = some keyRE) (hm : keyRE.MatchString k = true)
    (hk : ∀ c ∈ k, plain c) (hh : ∀ c ∈ h, plain c) (hv : ∀ c ∈ v, plain c)
    (hdrop : input.drop a = 123 :: 34 :: 107 :: 101 :: 121 :: 95 :: 112 :: 97 :: 116 :: 104
      :: 34 :: 58 :: 91 :: 34 :: (k ++ 34 :: 93 :: 44 :: 34 :: 104 :: 105 :: 103 :: 104 :: 108
      :: 105 :: 103 :: 104 :: 116 :: 34 :: 58 :: 91 :: 34 :: (h ++ 34 :: 93 :: 44 :: 34 :: 118
      :: 97 :: 108 :: 117 :: 101 :: 34 :: 58 :: 34 :: (v ++ 34 :: 125 :: rest))))
    (hs : Diff.SortedFrom 0 d) (hd : ∀ e ∈ d, e.to_ < (a : Int)) :
    obfuscateAppSecParameter o
        (Scanner.mk .stateBeginValueOrEmpty (parseArrayValue :: ps) none false) input a d
      = .ok { sc := Scanner.mk .stateEndValue (parseArrayValue :: ps) none false,
              diff := d ++ [{ from_ := (a : Int) + 30 + k.length,
                              to_ := (a : Int) + 31 + k.length + h.length, value := redacted },
                            { from_ := (a : Int) + 42 + k.length + h.length,
                              to_ := (a : Int) + 43 + k.length + h.length + v.length,
                              value := redacted }],
              i := a + 45 + k.length + h.length + v.length, err := none } := by
  have d1 : input.drop (a + 29 + k.length) = 91 :: 34 :: (h ++ 34 :: 93 :: 44 :: 34 :: 118
      :: 97 :: 108 :: 117 :: 101 :: 34 :: 58 :: 34 :: (v ++ 34 :: 125 :: rest)) :=
    drop_add_of_drop hdrop ([123, 34, 107, 101, 121, 95, 112, 97, 116, 104, 34, 58, 91, 34]
      ++ k ++ [34, 93, 44, 34, 104, 105, 103, 104, 108, 105, 103, 104, 116, 34, 58]) _
      (by simp) _ (by simp; omega)
  have d2 : input.drop (a + 42 + k.length + h.length) = 34 :: (v ++ 34 :: 125 :: rest) :=
    drop_add_of_drop hdrop ([123, 34, 107, 101, 121, 95, 112, 97, 116, 104, 34, 58, 91, 34]
      ++ k ++ [34, 93, 44, 34, 104, 105, 103, 104, 108, 105, 103, 104, 116, 34, 58, 91, 34]
      ++ h ++ [34, 93, 44, 34, 118, 97, 108, 117, 101, 34, 58]) _
      (by simp) _ (by simp; omega)
  have s1 : slice input ((a : Int) + 29 + k.length) ((a : Int) + 33 + k.length + h.length)
      = .ok (91 :: 34 :: (h ++ [34, 93])) :=
    slice_of_drop_take d1 (m := h.length + 4) (by simp [List.take_append_eq_append_take])
      (by simp) (by omega) _ _ (by push_cast; omega) (by push_cast; omega)
  have s2 : slice input ((a : Int) + 42 + k.length + h.length)
      ((a : Int) + 44 + k.length + h.length + v.length) = .ok (34 :: (v ++ [34])) :=
    slice_of_drop_take d2 (m := v.length + 2) (by simp [List.take_append_eq_append_take])
      (by simp) (by omega) _ _ (by push_cast; omega) (by push_cast; omega)
  have m1 := Diff.merge_sorted ((a : Int) + 29 + k.length)
    [{ from_ := 1, to_ := (h.length : Int) + 2, value := redacted }] d 0 1 hs (by omega)
    (fun e he => by have := hd e he; omega) ⟨by simp, by simp; omega, trivial⟩
  have hs1 : Diff.SortedFrom 0 (d ++ [Edit.shift ((a : Int) + 29 + k.length)
      { from_ := 1, to_ := (h.length : Int) + 2, value := redacted }]) :=
    Diff.SortedFrom_append_singleton _ d 0 hs (by simp only [Edit.shift]; omega)
      (by simp only [Edit.shift]; omega)
      (fun e he => by have := hd e he; simp only [Edit.shift]; omega)
  have m2 := Diff.merge_sorted ((a : Int) + 42 + k.length + h.length)
    [{ from_ := 0, to_ := (v.length : Int) + 1, value := redacted }]
    (d ++ [Edit.shift ((a : Int) + 29 + k.length)
      { from_ := 1, to_ := (h.length : Int) + 2, value := redacted }]) 0 0 hs1 (by omega)
    (fun e he => by
      rcases List.mem_append.mp he with he | he
      · have := hd e he; omega
      · simp at he; subst he; simp only [Edit.shift]; omega)
    ⟨by simp, by simp; omega, trivial⟩
  unfold obfuscateAppSecParameter
  rw [walkObject_param_at input a ps k h v rest hk hh hv hdrop]
  simp only [bind, Res.bind, Option.isSome_none, Bool.false_eq_true, ↓reduceIte]
  rw [hasSensitiveKeyPath_single o keyRE k ho hk, hm]
  simp only [s1, s2]
  simp only [ne_eq, reduceCtorEq, not_false_eq_true, ↓reduceIte,
    obfuscateAppSecHighlights_single o h hh, obfuscateAppSecValue_plain o v hv, pure, bind,
    Res.bind]
  simp only [List.map_cons, List.map_nil] at m1 m2
  rw [m1]
  simp only [Res.bind]
  rw [m2]
  simp only [Res.ok.injEq, ParamResult.mk.injEq, true_and, and_true, List.append_assoc,
    List.cons_append, List.nil_append, Edit.shift]
  have e1 : (1 : Int) + ((a : Int) + 29 + k.length) = (a : Int) + 30 + k.length := by omega
  have e2 : (h.length : Int) + 2 + ((a : Int) + 29 + k.length)
      = (a : Int) + 31 + k.length + h.length := by omega
  have e3 : (0 : Int) + ((a : Int) + 42 + k.length + h.length)
      = (a : Int) + 42 + k.length + h.length := by omega
  have e4 : (v.length : Int) + 1 + ((a : Int) + 42 + k.length + h.length)
      = (a : Int) + 43 + k.length + h.length + v.length := by omega
  rw [e1, e2, e3, e4]

/-- A parameters array `[{...}]` holding one object, at any index `a` and under any
enclosing containers: when `obfuscateAppSecParameter` succeeds on the object and stops at
the closing bracket, `obfuscateAppSecParameters` returns the index just past the bracket. -/
theorem obfuscateAppSecParameters_at (o : Obfuscator) (input : List Nat) (d d1 : Diff)
    (a n : Nat) (ps : List ParseState)
    (ha : input[a]? = some 91) (ha1 : input[a + 1]? = some 123) (hn : input[n]? = some 93)
    (hp : obfuscateAppSecParameter o
        (Scanner.mk .stateBeginValueOrEmpty (parseArrayValue :: parseObjectValue :: ps) none
          false) input (a + 1) d
      = .ok { sc := Scanner.mk .stateEndValue (parseArrayValue :: parseObjectValue :: ps) none
                false,
              diff := d1, i := n, err := none }) :
    obfuscateAppSecParameters o (Scanner.mk .stateBeginValue (parseObjectValue :: ps) none false)
        input a d
      = .ok ({ sc := Scanner.mk .stateEndValue (parseObjectValue :: ps) none false,
               diff := d1 }, n + 1) := by
  have hstep := stepToOneOf_hit (Scanner.mk .stateBeginValue (parseObjectValue :: ps) none false)
    [scanBeginArray] ha
    (by simp [Scanner.step, Scanner.stateBeginValue, isSpace])
    (by simp [Scanner.step, Scanner.stateBeginValue, isSpace])
    (by simp [Scanner.step, Scanner.stateBeginValue, isSpace])
    (by simp [Scanner.step, Scanner.stateBeginValue, isSpace])
  have hsc : ((Scanner.mk .stateBeginValue (parseObjectValue :: ps) none false).step 91).1
      = Scanner.mk .stateBeginValueOrEmpty (parseArrayValue :: parseObjectValue :: ps) none
          false := by
    simp [Scanner.step, Scanner.stateBeginValue, isSpace]
  unfold obfuscateAppSecParameters stepTo
  rw [hstep, hsc]
  simp only [bind, Res.bind, Option.isSome_none, Bool.false_eq_true, ↓reduceIte]
  apply runs_apply
  apply runs_of_step ha1
  unfold obfuscateAppSecParametersBody
  rw [hp]
  simp only [bind, Res.bind]
  unfold parametersNext
  rw [stepToOneOf_hit _ [scanArrayValue, scanEndArray] hn
    (by simp [Scanner.step, Scanner.stateEndValue, Scanner.popParseState, isSpace])
    (by simp [Scanner.step, Scanner.stateEndValue, Scanner.popParseState, isSpace])
    (by simp [Scanner.step, Scanner.stateEndValue, Scanner.popParseState, isSpace])
    (by simp [Scanner.step, Scanner.stateEndValue, Scanner.popParseState, isSpace])]
  simp [bind, Res.bind, Scanner.step, Scanner.stateEndValue, Scanner.popParseState, isSpace,
    pure, Cont]

theorem obfuscateAppSecBody_plain (o : Obfuscator) (input : List Nat) (st : MainState)
    (hs : st.sc.stepFn = .stateInString) (i c : Nat) (hc : plain c) (h : input[i]? = some c) :
    obfuscateAppSecBody o input i c st = .ok (.next (i + 1) st) := by
  unfold obfuscateAppSecBody
  simp only [step_inString_plain st.sc c hs hc, isJSONStringEnd_plain h hc]
  obtain ⟨sc, d, kf, kt⟩ := st
  by_cases hk : kf = -1 <;> simp [hk, bind, Res.bind, pure]

theorem wrapperKey_ne (t : List Nat) (hne : t ≠ B "parameters") :
    (34 :: (t ++ [34]) = parametersKey) = False := by
  have e : parametersKey = 34 :: (B "parameters" ++ [34]) := by decide
  rw [e]
  simp [hne]

/-- The main loop over the key and the opening bracket of a wrapper `"t":[`, where `t` is
a plain key other than `parameters`: the key is not taken for the parameters key and the
scan goes on inside the array. -/
theorem obfuscateAppSec_wrapperKey (o : Obfuscator) (input : List Nat) (i : Nat)
    (t rest : List Nat) (ps : List ParseState) (d : Diff) (R : Res (List Nat × Option Err))
    (ht : ∀ c ∈ t, plain c) (hne : t ≠ B "parameters")
    (hnext : RunsAt input (obfuscateAppSecBody o input)
      (fun _ st => obfuscateAppSecDone input st) (i + (t.length + 4)) rest
      { sc := Scanner.mk .stateBeginValueOrEmpty (parseArrayValue :: parseObjectValue :: ps)
          none false,
        diff := d, keyFrom := -1, keyTo := -1 } R) :
    RunsAt input (obfuscateAppSecBody o input) (fun _ st => obfuscateAppSecDone input st)
      (i + 0) (34 :: (t ++ 34 :: 58 :: 91 :: rest))
      { sc := Scanner.mk .stateBeginStringOrEmpty (parseObjectKey :: ps) none false,
        diff := d, keyFrom := -1, keyTo := -1 } R := by
  apply runsAt_cons (by decide)
  intro hK hE
  simp at hE
  simp (disch := omega) [obfuscateAppSecBody, Scanner.step, Scanner.stateBeginValue,
    Scanner.stateBeginString, Scanner.stateEndValue, Scanner.popParseState, isSpace, Cont,
    hE, bind, Res.bind, pure, ne_neg_one_of_nonneg]
  clear hE
  apply runsAt_plain t _ ht
  · intro j c hc hj
    exact obfuscateAppSecBody_plain o input _ rfl j c hc hj
  apply runsAt_cons (by decide)
  intro h1 hE
  simp at hE
  simp (disch := omega) [obfuscateAppSecBody, Scanner.step, Scanner.stateBeginValue,
    Scanner.stateBeginString, Scanner.stateEndValue, Scanner.popParseState, isSpace, Cont,
    hE, bind, Res.bind, pure, ne_neg_one_of_nonneg]
  clear h1 hE
  apply runsAt_cons (by decide)
  intro h1 hE
  simp at hE
  simp (disch := omega) [obfuscateAppSecBody, Scanner.step, Scanner.stateBeginValue,
    Scanner.stateBeginString, Scanner.stateEndValue, Scanner.popParseState, isSpace, Cont,
    hE, bind, Res.bind, pure, ne_neg_one_of_nonneg]
  have hsl : slice input (i : Int) ((i : Int) + 1 + t.length + 1) = .ok (34 :: (t ++ [34])) :=
    slice_of_drop_take hK (m := t.length + 2) (by simp [List.take_append_eq_append_take])
      (by simp) (by omega) _ _ (by simp) (by push_cast; omega)
  rw [hsl]
  simp only [wrapperKey_ne t hne, ↓reduceIte, Cont, true_and]
  clear h1 hE hK
  apply runsAt_cons (by decide)
  intro h1 hE
  simp at hE
  simp (disch := omega) [obfuscateAppSecBody, Scanner.step, Scanner.stateBeginValue,
    Scanner.stateBeginString, Scanner.stateEndValue, Scanner.popParseState, isSpace, Cont,
    hE, bind, Res.bind, pure, ne_neg_one_of_nonneg]
  clear h1 hE
  have e : i + 1 + t.length + 3 = i + (t.length + 4) := by omega
  rw [e]
  exact hnext

/-- The main loop over a wrapper `{"t":[` met where an array element may begin. -/
theorem obfuscateAppSec_wrapper (o : Obfuscator) (input : List Nat) (i : Nat)
    (t rest : List Nat) (ps : List ParseState) (d : Diff) (R : Res (List Nat × Option Err))
    (ht : ∀ c ∈ t, plain c) (hne : t ≠ B "parameters")
    (hnext : RunsAt input (obfuscateAppSecBody o input)
      (fun _ st => obfuscateAppSecDone input st) (i + (t.length + 5)) rest
      { sc := Scanner.mk .stateBeginValueOrEmpty (parseArrayValue :: parseObjectValue :: ps)
          none false,
        diff := d, keyFrom := -1, keyTo := -1 } R) :
    RunsAt input (obfuscateAppSecBody o input) (fun _ st => obfuscateAppSecDone input st)
      (i + 0) (123 :: 34 :: (t ++ 34 :: 58 :: 91 :: rest))
      { sc := Scanner.mk .stateBeginValueOrEmpty ps none false,
        diff := d, keyFrom := -1, keyTo := -1 } R := by
  apply runsAt_cons (by decide)
  intro h1 hE
  simp at hE
  simp (disch := omega) [obfuscateAppSecBody, Scanner.step, Scanner.stateBeginValue,
    Scanner.stateBeginString, Scanner.stateEndValue, Scanner.popParseState, isSpace, Cont,
    hE, bind, Res.bind, pure, ne_neg_one_of_nonneg]
  clear h1 hE
  have e : i + (t.length + 5) = i + 1 + (t.length + 4) := by omega
  rw [e] at hnext
  exact obfuscateAppSec_wrapperKey o input (i + 1) t rest ps d R ht hne hnext

theorem docParam_append (k h v rest : List Nat) :
    docParam k h v ++ rest = 123 :: 34 :: 112 :: 97 :: 114 :: 97 :: 109 :: 101 :: 116 :: 101
      :: 114 :: 115 :: 34 :: 58 :: 91 :: 123 :: 34 :: 107 :: 101 :: 121 :: 95 :: 112 :: 97
      :: 116 :: 104 :: 34 :: 58 :: 91 :: 34 :: (k ++ 34 :: 93 :: 44 :: 34 :: 104 :: 105 :: 103
      :: 104 :: 108 :: 105 :: 103 :: 104 :: 116 :: 34 :: 58 :: 91 :: 34 :: (h ++ 34 :: 93
      :: 44 :: 34 :: 118 :: 97 :: 108 :: 117 :: 101 :: 34 :: 58 :: 34
      :: (v ++ 34 :: 125 :: 93 :: 125 :: rest))) := by
  rw [docParam_eq]
  simp

/-- The main loop over an object `{"parameters":[{...}]}` (the text of `docParam k h v`)
met at any index `i > 0` where a value may begin, inside any enclosing container: the key
triggers `obfuscateAppSecParameters`, the two literals of the parameter get their edits
and the scan goes on after the closing brace of the object. -/
theorem obfuscateAppSec_block (o : Obfuscator) (keyRE : Regexp) (input : List Nat) (i : Nat)
    (sf : StepFn) (hsf : sf = .stateBeginValue ∨ sf = .stateBeginValueOrEmpty)
    (p : ParseState) (ps : List ParseState) (d : Diff) (k h v rest : List Nat)
    (R : Res (List Nat × Option Err))
    (ho : o.KeyRegexp = some keyRE) (hm : keyRE.MatchString k = true)
    (hk : ∀ c ∈ k, plain c) (hh : ∀ c ∈ h, plain c) (hv : ∀ c ∈ v, plain c)
    (hs : Diff.SortedFrom 0 d) (hd : ∀ e ∈ d, e.to_ < (i : Int))
    (hnext : RunsAt input (obfuscateAppSecBody o input)
      (fun _ st => obfuscateAppSecDone input st)
      (i + (62 + k.length + h.length + v.length)) rest
      { sc := Scanner.mk .stateEndValue (p :: ps) none false,
        diff := d ++ [{ from_ := (i : Int) + 45 + k.length,
                        to_ := (i : Int) + 46 + k.length + h.length, value := redacted },
                      { from_ := (i : Int) + 57 + k.length + h.length,
                        to_ := (i : Int) + 58 + k.length + h.length + v.length,
                        value := redacted }],
        keyFrom := -1, keyTo := -1 } R) :
    RunsAt input (obfuscateAppSecBody o input) (fun _ st => obfuscateAppSecDone input st)
      (i + 0) (docParam k h v ++ rest)
      { sc := Scanner.mk sf (p :: ps) none false, diff := d, keyFrom := -1, keyTo := -1 }
      R := by
  rw [docParam_append]
  apply runsAt_cons (by decide)
  intro h1 hE
  simp at hE
  have hbrace : (Scanner.mk sf (p :: ps) none false).step 123
      = (Scanner.mk .stateBeginStringOrEmpty (parseObjectKey :: p :: ps) none false,
          scanBeginObject) := by
    rcases hsf with rfl | rfl <;> simp [Scanner.step, Scanner.stateBeginValue, isSpace]
  simp (disch := omega) [obfuscateAppSecBody, hbrace, Cont]
  clear h1 hE hbrace
  apply runsAt_cons (by decide)
  intro hK hE
  simp at hE
  simp (disch := omega) [obfuscateAppSecBody, Scanner.step, Scanner.stateBeginValue,
    Scanner.stateBeginString, Scanner.stateEndValue, Scanner.popParseState, isSpace, Cont,
    hE, bind, Res.bind, pure, ne_neg_one_of_nonneg]
  clear hE
  apply runsAt_cons (by decide)
  intro h1 hE
  simp at hE
  simp (disch := omega) [obfuscateAppSecBody, Scanner.step, Scanner.stateBeginValue,
    Scanner.stateBeginString, Scanner.stateEndValue, Scanner.popParseState, isSpace, Cont,
    hE, bind, Res.bind, pure, ne_neg_one_of_nonneg]
  clear h1 hE
  apply runsAt_cons (by decide)
  intro h1 hE
  simp at hE
  simp (disch := omega) [obfuscateAppSecBody, Scanner.step, Scanner.stateBeginValue,
    Scanner.stateBeginString, Scanner.stateEndValue, Scanner.popParseState, isSpace, Cont,
    hE, bind, Res.bind, pure, ne_neg_one_of_nonneg]
  clear h1 hE
  apply runsAt_cons (by decide)
  intro h1 hE
  simp at hE
  simp (disch := omega) [obfuscateAppSecBody, Scanner.step, Scanner.stateBeginValue,
    Scanner.stateBeginString, Scanner.stateEndValue, Scanner.popParseState, isSpace, Cont,
    hE, bind, Res.bind, pure, ne_neg_one_of_nonneg]
  clear h1 hE
  apply runsAt_cons (by decide)
  intro h1 hE
  simp at hE
  simp (disch := omega) [obfuscateAppSecBody, Scanner.step, Scanner.stateBeginValue,
    Scanner.stateBeginString, Scanner.stateEndValue, Scanner.popParseState, isSpace, Cont,
    hE, bind, Res.bind, pure, ne_neg_one_of_nonneg]
  clear h1 hE
  apply runsAt_cons (by decide)
  intro h1 hE
  simp at hE
  simp (disch := omega) [obfuscateAppSecBody, Scanner.step, Scanner.stateBeginValue,
    Scanner.stateBeginString, Scanner.stateEndValue, Scanner.popParseState, isSpace, Cont,
    hE, bind, Res.bind, pure, ne_neg_one_of_nonneg]
  clear h1 hE
  apply runsAt_cons (by decide)
  intro h1 hE
  simp at hE
  simp (disch := omega) [obfuscateAppSecBody, Scanner.step, Scanner.stateBeginValue,
    Scanner.stateBeginString, Scanner.stateEndValue, Scanner.popParseState, isSpace, Cont,
    hE, bind, Res.bind, pure, ne_neg_one_of_nonneg]
  clear h1 hE
  apply runsAt_cons (by decide)
  intro h1 hE
  simp at hE
  simp (disch := omega) [obfuscateAppSecBody, Scanner.step, Scanner.stateBeginValue,
    Scanner.stateBeginString, Scanner.stateEndValue, Scanner.popParseState, isSpace, Cont,
    hE, bind, Res.bind, pure, ne_neg_one_of_nonneg]
  clear h1 hE
  apply runsAt_cons (by decide)
  intro h1 hE
  simp at hE
  simp (disch := omega) [obfuscateAppSecBody, Scanner.step, Scanner.stateBeginValue,
    Scanner.stateBeginString, Scanner.stateEndValue, Scanner.popParseState, isSpace, Cont,
    hE, bind, Res.bind, pure, ne_neg_one_of_nonneg]
  clear h1 hE
  apply runsAt_cons (by decide)
  intro h1 hE
  simp at hE
  simp (disch := omega) [obfuscateAppSecBody, Scanner.step, Scanner.stateBeginValue,
    Scanner.stateBeginString, Scanner.stateEndValue, Scanner.popParseState, isSpace, Cont,
    hE, bind, Res.bind, pure, ne_neg_one_of_nonneg]
  clear h1 hE
  apply runsAt_cons (by decide)
  intro h1 hE
  simp at hE
  simp (disch := omega) [obfuscateAppSecBody, Scanner.step, Scanner.stateBeginValue,
    Scanner.stateBeginString, Scanner.stateEndValue, Scanner.popParseState, isSpace, Cont,
    hE, bind, Res.bind, pure, ne_neg_one_of_nonneg]
  clear h1 hE
  apply runsAt_cons (by decide)
  intro h1 hE
  simp at hE
  simp (disch := omega) [obfuscateAppSecBody, Scanner.step, Scanner.stateBeginValue,
    Scanner.stateBeginString, Scanner.stateEndValue, Scanner.popParseState, isSpace, Cont,
    hE, bind, Res.bind, pure, ne_neg_one_of_nonneg]
  clear h1 hE
  intro hpos hprev hdrop
  have hcolon := getElem?_of_drop_eq hdrop
  have hkey : slice input ((i : Int) + 1) ((i : Int) + 12 + 1) = .ok parametersKey :=
    slice_of_drop_take hK (m := 12) (by simp [parametersKey]) (by simp) (by omega) _ _
      (by push_cast; omega) (by push_cast; omega)
  have h14d := drop_add_of_drop hdrop [58] _ rfl (i + 14) (by simp)
  have h14 := getElem?_of_drop_eq h14d
  have h15d := drop_add_of_drop hdrop [58, 91] _ rfl (i + 14 + 1) (by simp)
  have h15 := getElem?_of_drop_eq h15d
  have hp := obfuscateAppSecParameter_at o keyRE input (i + 14 + 1) (parseObjectValue :: p :: ps)
    d k h v (93 :: 125 :: rest) ho hm hk hh hv h15d hs
    (fun e he => by have := hd e he; push_cast; omega)
  have hnd : input.drop (i + 14 + 1 + 45 + k.length + h.length + v.length)
      = 93 :: 125 :: rest :=
    drop_add_of_drop h15d ([123, 34, 107, 101, 121, 95, 112, 97, 116, 104, 34, 58, 91, 34]
      ++ k ++ [34, 93, 44, 34, 104, 105, 103, 104, 108, 105, 103, 104, 116, 34, 58, 91, 34]
      ++ h ++ [34, 93, 44, 34, 118, 97, 108, 117, 101, 34, 58, 34] ++ v ++ [34, 125]) _
      (by simp) _ (by simp; omega)
  obtain ⟨h93, hnd1⟩ := getElem?_of_drop hnd
  obtain ⟨h125, hnd2⟩ := getElem?_of_drop hnd1
  have hparams := obfuscateAppSecParameters_at o input d _ (i + 14) _ (p :: ps) h14 h15 h93 hp
  apply runs_of_step hcolon
  simp (disch := omega) [obfuscateAppSecBody, Scanner.step, Scanner.stateBeginValue,
    Scanner.stateBeginString, Scanner.stateEndValue, Scanner.popParseState, isSpace,
    bind, Res.bind, pure, ne_neg_one_of_nonneg]
  rw [hkey]
  simp only [↓reduceIte, hparams, Cont]
  refine ⟨by omega, ?_⟩
  apply runs_of_step h125
  simp (disch := omega) [obfuscateAppSecBody, Scanner.step, Scanner.stateEndValue,
    Scanner.popParseState, isSpace, Cont]
  have e0 : i + 14 + 1 + 45 + k.length + h.length + v.length + 1 + 1
      = i + (62 + k.length + h.length + v.length) := by omega
  have e1 : (i : Int) + 14 + 1 + 30 + k.length = (i : Int) + 45 + k.length := by omega
  have e2 : (i : Int) + 14 + 1 + 31 + k.length + h.length
      = (i : Int) + 46 + k.length + h.length := by omega
  have e3 : (i : Int) + 14 + 1 + 42 + k.length + h.length
      = (i : Int) + 57 + k.length + h.length := by omega
  have e4 : (i : Int) + 14 + 1 + 43 + k.length + h.length + v.length
      = (i : Int) + 58 + k.length + h.length + v.length := by omega
  rw [e0] at hnd2 ⊢
  rw [e1, e2, e3, e4]
  refine hnext (by omega) ⟨125, ?_, by decide⟩ hnd2
  rw [← h125]
  congr 1
  omega

theorem blockEdits_sorted : ∀ (bs : List Block) (b : Block) (i : Nat) (lo : Int),
    lo ≤ (i : Int) + 45 → Diff.SortedFrom lo (blockEdits i b bs)
      ∧ ∀ e ∈ blockEdits i b bs, (i : Int) ≤ e.from_
          ∧ e.to_ + 3 < ((i + (joinBlocks b bs).length : Nat) : Int) := by
  intro bs
  induction bs with
  | nil =>
    intro b i lo hlo
    have hl := (docParam_drops b.1 b.2.1 b.2.2).2.2.2
    refine ⟨⟨by simp only; omega, by simp only; omega, by simp only; omega,
      by simp only; omega, trivial⟩, ?_⟩
    intro e he
    simp only [blockEdits, List.mem_cons, List.mem_singleton, List.not_mem_nil, or_false] at he
    simp only [joinBlocks, blockText, hl]
    rcases he with rfl | rfl <;> simp only <;> push_cast <;> omega
  | cons b1 bs ih =>
    intro b i lo hlo
    have hl := (docParam_drops b.1 b.2.1 b.2.2).2.2.2
    obtain ⟨h1, h2⟩ := ih b1 (i + (63 + b.1.length + b.2.1.length + b.2.2.length))
      ((i : Int) + 58 + b.1.length + b.2.1.length + b.2.2.length + 1) (by push_cast; omega)
    refine ⟨⟨by simp only; omega, by simp only; omega, by simp only; omega,
      by simp only; omega, h1⟩, ?_⟩
    intro e he
    simp only [blockEdits, List.mem_cons] at he
    simp only [joinBlocks, blockText, List.length_append, List.length_cons, hl]
    rcases he with rfl | rfl | he
    · simp only; push_cast; omega
    · simp only; push_cast; omega
    · have := h2 e he
      push_cast at this ⊢
      omega

theorem runsAt_index {σ ρ : Type} {input : List Nat} {body : Nat → Nat → σ → Res (Step σ ρ)}
    {done : Nat → σ → Res ρ} {i j : Nat} {suffix : List Nat} {st : σ} {R : Res ρ}
    (h : RunsAt input body done i suffix st R) (hij : i = j) :
    RunsAt input body done j suffix st R := by
  subst hij
  exact h

/-- The main loop over a non-empty sequence of objects `{"parameters":[{...}]}` separated
by commas, elements of an array: every object is processed and the edits accumulate. -/
theorem obfuscateAppSec_blocks (o : Obfuscator) (keyRE : Regexp) (input : List Nat)
    (ps : List ParseState) (R : Res (List Nat × Option Err))
    (ho : o.KeyRegexp = some keyRE) :
    ∀ (bs : List Block) (b : Block) (i : Nat) (sf : StepFn) (d : Diff) (rest : List Nat),
      (sf = .stateBeginValue ∨ sf = .stateBeginValueOrEmpty) →
      (∀ b1 ∈ b :: bs, keyRE.MatchString b1.1 = true ∧ (∀ c ∈ b1.1, plain c)
        ∧ (∀ c ∈ b1.2.1, plain c) ∧ (∀ c ∈ b1.2.2, plain c)) →
      Diff.SortedFrom 0 d → (∀ e ∈ d, e.to_ < (i : Int)) →
      RunsAt input (obfuscateAppSecBody o input) (fun _ st => obfuscateAppSecDone input st)
        (i + (joinBlocks b bs).length) rest
        { sc := Scanner.mk .stateEndValue (parseArrayValue :: ps) none false,
          diff := d ++ blockEdits i b bs, keyFrom := -1, keyTo := -1 } R →
      RunsAt input (obfuscateAppSecBody o input) (fun _ st => obfuscateAppSecDone input st)
        (i + 0) (joinBlocks b bs ++ rest)
        { sc := Scanner.mk sf (parseArrayValue :: ps) none false, diff := d,
          keyFrom := -1, keyTo := -1 } R := by
  intro bs
  induction bs with
  | nil =>
    intro b i sf d rest hsf hb hs hd hnext
    obtain ⟨hm, hk, hh, hv⟩ := hb b (by simp)
    have hl := (docParam_drops b.1 b.2.1 b.2.2).2.2.2
    simp only [joinBlocks, blockText, blockEdits, hl] at hnext ⊢
    exact obfuscateAppSec_block o keyRE input i sf hsf _ ps d _ _ _ rest R ho hm hk hh hv hs hd
      hnext
  | cons b1 bs ih =>
    intro b i sf d rest hsf hb hs hd hnext
    obtain ⟨hm, hk, hh, hv⟩ := hb b (by simp)
    have hl := (docParam_drops b.1 b.2.1 b.2.2).2.2.2
    simp only [joinBlocks, blockText, blockEdits, List.length_append, List.length_cons, hl]
      at hnext
    simp only [joinBlocks, blockText, List.append_assoc, List.cons_append]
    apply obfuscateAppSec_block o keyRE input i sf hsf _ ps d _ _ _ _ R ho hm hk hh hv hs hd
    apply runsAt_cons (by decide)
    intro h1 hE
    simp at hE
    simp (disch := omega) [obfuscateAppSecBody, Scanner.step, Scanner.stateBeginValue,
      Scanner.stateBeginString, Scanner.stateEndValue, Scanner.popParseState, isSpace, Cont,
      hE, bind, Res.bind, pure, ne_neg_one_of_nonneg]
    clear h1 hE
    have hs1 : Diff.SortedFrom 0 (d ++ [Edit.mk ((i : Int) + 45 + b.1.length)
        ((i : Int) + 46 + b.1.length + b.2.1.length) redacted]) :=
      Diff.SortedFrom_append_singleton _ d 0 hs (by simp only; omega) (by simp only; omega)
        (fun e he => by have := hd e he; simp only; omega)
    have hs2 : Diff.SortedFrom 0 (d ++ [Edit.mk ((i : Int) + 45 + b.1.length)
        ((i : Int) + 46 + b.1.length + b.2.1.length) redacted]
        ++ [Edit.mk ((i : Int) + 57 + b.1.length + b.2.1.length)
              ((i : Int) + 58 + b.1.length + b.2.1.length + b.2.2.length) redacted]) :=
      Diff.SortedFrom_append_singleton _ _ 0 hs1 (by simp only; omega) (by simp only; omega)
        (fun e he => by
          rcases List.mem_append.mp he with he | he
          · have := hd e he; simp only; omega
          · simp at he; subst he; simp only; omega)
    have hnext1 := ih b1 (i + (63 + b.1.length + b.2.1.length + b.2.2.length))
      .stateBeginValue _ rest (Or.inl rfl) (fun b2 hb2 => hb b2 (by simp at hb2 ⊢; tauto)) hs2
      (fun e he => by
        rcases List.mem_append.mp he with he | he
        · rcases List.mem_append.mp he with he | he
          · have := hd e he; push_cast; omega
          · simp at he; subst he; simp only; push_cast; omega
        · simp at he; subst he; simp only; push_cast; omega)
      (by
        simp only [List.append_assoc, List.cons_append, List.nil_append]
        exact runsAt_index hnext (by omega))
    simp only [List.append_assoc, List.cons_append, List.nil_append] at hnext1
    exact runsAt_index hnext1 (by omega)

theorem wrapOpen_cons (t : List Nat) (ts : List (List Nat)) :
    wrapOpen (t :: ts) = 123 :: 34 :: (t ++ 34 :: 58 :: 91 :: wrapOpen ts) := by
  have e1 : B "\x7b\"" = [123, 34] := by decide
  have e2 : B "\":[" = [34, 58, 91] := by decide
  simp [wrapOpen, e1, e2]

theorem wrapClose_cons (t : List Nat) (ts : List (List Nat)) :
    wrapClose (t :: ts) = wrapClose ts ++ [93, 125] := by
  have e1 : B "]\x7d" = [93, 125] := by decide
  simp [wrapClose, e1]

/-- The main loop over the openings of nested wrappers: no key is taken for the parameters
key and the scan goes on inside the innermost array. -/
theorem obfuscateAppSec_wrapOpen (o : Obfuscator) (input : List Nat) (d : Diff)
    (R : Res (List Nat × Option Err)) :
    ∀ (ts : List (List Nat)) (i : Nat) (ps : List ParseState) (rest : List Nat),
      (∀ t ∈ ts, (∀ c ∈ t, plain c) ∧ t ≠ B "parameters") →
      RunsAt input (obfuscateAppSecBody o input) (fun _ st => obfuscateAppSecDone input st)
        (i + (wrapOpen ts).length) rest
        { sc := Scanner.mk .stateBeginValueOrEmpty (wrapStack ts ps) none false,
          diff := d, keyFrom := -1, keyTo := -1 } R →
      RunsAt input (obfuscateAppSecBody o input) (fun _ st => obfuscateAppSecDone input st)
        (i + 0) (wrapOpen ts ++ rest)
        { sc := Scanner.mk .stateBeginValueOrEmpty ps none false,
          diff := d, keyFrom := -1, keyTo := -1 } R := by
  intro ts
  induction ts with
  | nil =>
    intro i ps rest _ h
    simpa [wrapOpen, wrapStack] using h
  | cons t ts ih =>
    intro i ps rest hts h
    obtain ⟨ht, hne⟩ := hts t (by simp)
    rw [wrapOpen_cons] at h ⊢
    simp only [List.cons_append, List.append_assoc]
    apply obfuscateAppSec_wrapper o input i t _ ps d R ht hne
    have h1 := ih (i + (t.length + 5)) (parseArrayValue :: parseObjectValue :: ps) rest
      (fun t1 h1 => hts t1 (by simp [h1]))
      (runsAt_index h (by simp; omega))
    exact runsAt_index h1 (by omega)

/-- The main loop over the closings `]}` of nested wrappers. -/
theorem obfuscateAppSec_wrapClose (o : Obfuscator) (input : List Nat) (d : Diff)
    (R : Res (List Nat × Option Err)) :
    ∀ (ts : List (List Nat)) (i : Nat) (ps : List ParseState) (rest : List Nat),
      RunsAt input (obfuscateAppSecBody o input) (fun _ st => obfuscateAppSecDone input st)
        (i + (wrapClose ts).length) rest
        { sc := scannerAfterValue ps, diff := d, keyFrom := -1, keyTo := -1 } R →
      RunsAt input (obfuscateAppSecBody o input) (fun _ st => obfuscateAppSecDone input st)
        (i + 0) (wrapClose ts ++ rest)
        { sc := scannerAfterValue (wrapStack ts ps), diff := d, keyFrom := -1, keyTo := -1 }
        R := by
  intro ts
  induction ts with
  | nil =>
    intro i ps rest h
    simpa [wrapClose, wrapStack] using h
  | cons t ts ih =>
    intro i ps rest h
    rw [wrapClose_cons] at h ⊢
    simp only [List.cons_append, List.append_assoc, List.nil_append, wrapStack]
    apply ih i (parseArrayValue :: parseObjectValue :: ps) (93 :: 125 :: rest)
    simp only [scannerAfterValue]
    apply runsAt_cons (by decide)
    intro h1 hE
    simp at hE
    simp (disch := omega) [obfuscateAppSecBody, Scanner.step, Scanner.stateBeginValue,
      Scanner.stateBeginString, Scanner.stateEndValue, Scanner.popParseState, isSpace, Cont,
      hE, bind, Res.bind, pure, ne_neg_one_of_nonneg]
    clear h1 hE
    apply runsAt_cons (by decide)
    intro h1 hE
    simp at hE
    clear h1
    rcases ps with _ | ⟨p, ps⟩
    · simp (disch := omega) [obfuscateAppSecBody, Scanner.step, Scanner.stateBeginValue,
        Scanner.stateBeginString, Scanner.stateEndValue, Scanner.popParseState, isSpace, Cont,
        hE, bind, Res.bind, pure, ne_neg_one_of_nonneg]
      exact runsAt_index h (by simp)
    · simp (disch := omega) [obfuscateAppSecBody, Scanner.step, Scanner.stateBeginValue,
        Scanner.stateBeginString, Scanner.stateEndValue, Scanner.popParseState, isSpace, Cont,
        hE, bind, Res.bind, pure, ne_neg_one_of_nonneg]
      exact runsAt_index h (by simp)

theorem Diff.spliced_cons_at (input pre X L T : List Nat) (e : Edit) (tl : List Edit) (lo : Nat)
    (hin : input = pre ++ (X ++ (L ++ T))) (hlo : lo = pre.length)
    (hf : e.from_ = ((pre.length + X.length : Nat) : Int))
    (ht : e.to_ + 1 = ((pre.length + X.length + L.length : Nat) : Int))
    (hL : 0 < L.length) :
    Diff.spliced input lo (e :: tl)
      = X ++ e.value ++ Diff.spliced input (pre.length + X.length + L.length) tl := by
  have h1 : e.from_.toNat - lo = X.length := by omega
  have h2 : e.to_.toNat + 1 = pre.length + X.length + L.length := by omega
  simp only [Diff.spliced, h1, h2]
  subst hin hlo
  simp

theorem docParam_split (k h v : List Nat) :
    docParam k h v
      = ([123, 34, 112, 97, 114, 97, 109, 101, 116, 101, 114, 115, 34, 58, 91, 123, 34, 107,
          101, 121, 95, 112, 97, 116, 104, 34, 58, 91, 34] ++ k
          ++ [34, 93, 44, 34, 104, 105, 103, 104, 108, 105, 103, 104, 116, 34, 58, 91])
        ++ ((34 :: (h ++ [34])) ++ ([93, 44, 34, 118, 97, 108, 117, 101, 34, 58]
        ++ ((34 :: (v ++ [34])) ++ [125, 93, 125]))) := by
  rw [docParam_eq]
  simp

/-- Applying the edits of a sequence of blocks replaces the `highlight` and `value`
literals of every block by `"?"`. -/
theorem Diff.spliced_blockEdits : ∀ (bs : List Block) (b : Block) (input pre G rest : List Nat),
    input = pre ++ (G ++ (joinBlocks b bs ++ rest)) →
    Diff.spliced input pre.length (blockEdits (pre.length + G.length) b bs)
      = G ++ (joinBlocks (redactBlock b) (bs.map redactBlock) ++ rest) := by
  intro bs
  induction bs with
  | nil =>
    intro b input pre G rest hin
    obtain ⟨k, h, v⟩ := b
    simp only [joinBlocks, blockText, redactBlock, List.map_nil, blockEdits] at hin ⊢
    rw [docParam_split] at hin ⊢
    rw [Diff.spliced_cons_at input pre (G ++ ([123, 34, 112, 97, 114, 97, 109, 101, 116, 101,
        114, 115, 34, 58, 91, 123, 34, 107, 101, 121, 95, 112, 97, 116, 104, 34, 58, 91, 34]
        ++ k ++ [34, 93, 44, 34, 104, 105, 103, 104, 108, 105, 103, 104, 116, 34, 58, 91]))
      (34 :: (h ++ [34])) ([93, 44, 34, 118, 97, 108, 117, 101, 34, 58]
        ++ ((34 :: (v ++ [34])) ++ ([125, 93, 125] ++ rest))) _ _ _
      (by rw [hin]; simp) rfl (by simp; omega) (by simp; omega) (by simp)]
    rw [Diff.spliced_cons_at input (pre ++ (G ++ ([123, 34, 112, 97, 114, 97, 109, 101, 116,
        101, 114, 115, 34, 58, 91, 123, 34, 107, 101, 121, 95, 112, 97, 116, 104, 34, 58, 91,
        34] ++ k ++ [34, 93, 44, 34, 104, 105, 103, 104, 108, 105, 103, 104, 116, 34, 58, 91]))
        ++ (34 :: (h ++ [34])))
      [93, 44, 34, 118, 97, 108, 117, 101, 34, 58] (34 :: (v ++ [34])) ([125, 93, 125] ++ rest)
      _ _ _ (by rw [hin]; simp) (by simp; omega) (by simp; omega) (by simp; omega) (by simp)]
    simp only [Diff.spliced]
    rw [drop_of_eq_append input (pre ++ (G ++ ([123, 34, 112, 97, 114, 97, 109, 101, 116,
        101, 114, 115, 34, 58, 91, 123, 34, 107, 101, 121, 95, 112, 97, 116, 104, 34, 58, 91,
        34] ++ k ++ [34, 93, 44, 34, 104, 105, 103, 104, 108, 105, 103, 104, 116, 34, 58, 91]))
        ++ (34 :: (h ++ [34])) ++ [93, 44, 34, 118, 97, 108, 117, 101, 34, 58]
        ++ (34 :: (v ++ [34]))) ([125, 93, 125] ++ rest) (by rw [hin]; simp) _ (by simp; omega)]
    simp [redacted]
  | cons b1 bs ih =>
    intro b input pre G rest hin
    obtain ⟨k, h, v⟩ := b
    simp only [joinBlocks, blockText, redactBlock, List.map_cons, blockEdits] at hin ⊢
    rw [docParam_split] at hin ⊢
    rw [Diff.spliced_cons_at input pre (G ++ ([123, 34, 112, 97, 114, 97, 109, 101, 116, 101,
        114, 115, 34, 58, 91, 123, 34, 107, 101, 121, 95, 112, 97, 116, 104, 34, 58, 91, 34]
        ++ k ++ [34, 93, 44, 34, 104, 105, 103, 104, 108, 105, 103, 104, 116, 34, 58, 91]))
      (34 :: (h ++ [34])) ([93, 44, 34, 118, 97, 108, 117, 101, 34, 58]
        ++ ((34 :: (v ++ [34])) ++ ([125, 93, 125] ++ (44 :: (joinBlocks b1 bs ++ rest))))) _ _ _
      (by rw [hin]; simp) rfl (by simp; omega) (by simp; omega) (by simp)]
    rw [Diff.spliced_cons_at input (pre ++ (G ++ ([123, 34, 112, 97, 114, 97, 109, 101, 116,
        101, 114, 115, 34, 58, 91, 123, 34, 107, 101, 121, 95, 112, 97, 116, 104, 34, 58, 91,
        34] ++ k ++ [34, 93, 44, 34, 104, 105, 103, 104, 108, 105, 103, 104, 116, 34, 58, 91]))
        ++ (34 :: (h ++ [34])))
      [93, 44, 34, 118, 97, 108, 117, 101, 34, 58] (34 :: (v ++ [34]))
      ([125, 93, 125] ++ (44 :: (joinBlocks b1 bs ++ rest)))
      _ _ _ (by rw [hin]; simp) (by simp; omega) (by simp; omega) (by simp; omega) (by simp)]
    have hih := ih b1 input (pre ++ (G ++ ([123, 34, 112, 97, 114, 97, 109, 101, 116,
        101, 114, 115, 34, 58, 91, 123, 34, 107, 101, 121, 95, 112, 97, 116, 104, 34, 58, 91,
        34] ++ k ++ [34, 93, 44, 34, 104, 105, 103, 104, 108, 105, 103, 104, 116, 34, 58, 91]))
        ++ (34 :: (h ++ [34])) ++ [93, 44, 34, 118, 97, 108, 117, 101, 34, 58]
        ++ (34 :: (v ++ [34]))) [125, 93, 125, 44] rest (by rw [hin]; simp)
    have e1 : (pre ++ (G ++ ([123, 34, 112, 97, 114, 97, 109, 101, 116,
        101, 114, 115, 34, 58, 91, 123, 34, 107, 101, 121, 95, 112, 97, 116, 104, 34, 58, 91,
        34] ++ k ++ [34, 93, 44, 34, 104, 105, 103, 104, 108, 105, 103, 104, 116, 34, 58, 91]))
        ++ (34 :: (h ++ [34]))).length + [93, 44, 34, 118, 97, 108, 117, 101, 34, 58].length
        + (34 :: (v ++ [34])).length
        = (pre ++ (G ++ ([123, 34, 112, 97, 114, 97, 109, 101, 116,
        101, 114, 115, 34, 58, 91, 123, 34, 107, 101, 121, 95, 112, 97, 116, 104, 34, 58, 91,
        34] ++ k ++ [34, 93, 44, 34, 104, 105, 103, 104, 108, 105, 103, 104, 116, 34, 58, 91]))
        ++ (34 :: (h ++ [34])) ++ [93, 44, 34, 118, 97, 108, 117, 101, 34, 58]
        ++ (34 :: (v ++ [34]))).length := by
      simp only [List.length_append]
    have e2 : pre.length + G.length + (63 + k.length + h.length + v.length)
        = (pre ++ (G ++ ([123, 34, 112, 97, 114, 97, 109, 101, 116,
        101, 114, 115, 34, 58, 91, 123, 34, 107, 101, 121, 95, 112, 97, 116, 104, 34, 58, 91,
        34] ++ k ++ [34, 93, 44, 34, 104, 105, 103, 104, 108, 105, 103, 104, 116, 34, 58, 91]))
        ++ (34 :: (h ++ [34])) ++ [93, 44, 34, 118, 97, 108, 117, 101, 34, 58]
        ++ (34 :: (v ++ [34]))).length + [125, 93, 125, 44].length := by
      simp
      omega
    rw [e1, e2, hih]
    simp [redacted]
    rfl

theorem wrapStack_head : ∀ (ts : List (List Nat)) (ps : List ParseState),
    ∃ ps1, wrapStack ts (parseArrayValue :: parseObjectValue :: ps) = parseArrayValue :: ps1 := by
  intro ts
  induction ts with
  | nil => intro ps; exact ⟨_, rfl⟩
  | cons t ts ih => intro ps; exact ih _

/-- The scan of a nested document whose blocks all have a sensitive key path ends without
error and returns the document with the `highlight` and `value` literals of every block
replaced by the placeholder. -/
theorem obfuscateAppSec_docNested (o : Obfuscator) (keyRE : Regexp) (t : List Nat)
    (ts : List (List Nat)) (b : Block) (bs : List Block)
    (ho : o.KeyRegexp = some keyRE)
    (hts : ∀ t1 ∈ t :: ts, (∀ c ∈ t1, plain c) ∧ t1 ≠ B "parameters")
    (hb : ∀ b1 ∈ b :: bs, keyRE.MatchString b1.1 = true ∧ (∀ c ∈ b1.1, plain c)
      ∧ (∀ c ∈ b1.2.1, plain c) ∧ (∀ c ∈ b1.2.2, plain c)) :
    obfuscateAppSec o (docNested (t :: ts) b bs)
      = .ok (docNested (t :: ts) (redactBlock b) (bs.map redactBlock), none) := by
  obtain ⟨ht, hne⟩ := hts t (by simp)
  obtain ⟨ps1, hps1⟩ := wrapStack_head ts []
  set input := docNested (t :: ts) b bs with hinput
  have hin : input = 123 :: 34 :: (t ++ 34 :: 58 :: 91 :: (wrapOpen ts ++ (joinBlocks b bs
      ++ (wrapClose (t :: ts) ++ [])))) := by
    simp [hinput, docNested, wrapOpen_cons]
  have hin2 : input = [] ++ (wrapOpen (t :: ts) ++ (joinBlocks b bs ++ wrapClose (t :: ts))) := by
    simp [hinput, docNested]
  have hlen : input.length
      = (wrapOpen (t :: ts)).length + (joinBlocks b bs).length + (wrapClose (t :: ts)).length := by
    simp only [hinput, docNested, List.length_append]
  have hopen : (wrapOpen (t :: ts)).length = 1 + (t.length + 4) + (wrapOpen ts).length := by
    simp [wrapOpen_cons]
    omega
  obtain ⟨hsorted, hrange⟩ := blockEdits_sorted bs b (wrapOpen (t :: ts)).length 0 (by omega)
  have happly : Diff.apply (blockEdits (wrapOpen (t :: ts)).length b bs) input
      = .ok (docNested (t :: ts) (redactBlock b) (bs.map redactBlock)) := by
    have h1 := Diff.applyLoop_spliced input (blockEdits (wrapOpen (t :: ts)).length b bs) 0 []
      hsorted (by omega) (fun e he => by have := (hrange e he).2; rw [hlen]; push_cast at this ⊢; omega)
    have h2 := Diff.spliced_blockEdits bs b input [] (wrapOpen (t :: ts)) (wrapClose (t :: ts)) hin2
    simp only [List.length_nil, Nat.zero_add] at h2
    simp only [Diff.apply]
    simp only [Nat.cast_zero, List.nil_append] at h1
    rw [h1, h2]
    simp [docNested]
  have h0 : input[0]? = some 123 := by rw [hin]; rfl
  have hd1 : input.drop 1 = 34 :: (t ++ 34 :: 58 :: 91 :: (wrapOpen ts ++ (joinBlocks b bs
      ++ (wrapClose (t :: ts) ++ [])))) := by rw [hin]; rfl
  clear_value input
  unfold obfuscateAppSec
  apply runs_apply
  apply runs_of_step h0
  simp (disch := omega) [obfuscateAppSecBody, Scanner.step, Scanner.reset,
    Scanner.stateBeginValue, isSpace, Cont]
  have key : RunsAt input (obfuscateAppSecBody o input)
      (fun _ st => obfuscateAppSecDone input st) (1 + 0)
      (34 :: (t ++ 34 :: 58 :: 91 :: (wrapOpen ts ++ (joinBlocks b bs
        ++ (wrapClose (t :: ts) ++ [])))))
      { sc := Scanner.mk .stateBeginStringOrEmpty [parseObjectKey] none false,
        diff := [], keyFrom := -1, keyTo := -1 }
      (.ok (docNested (t :: ts) (redactBlock b) (bs.map redactBlock), none)) := by
    apply obfuscateAppSec_wrapperKey o input 1 t _ [] [] _ ht hne
    refine runsAt_index (obfuscateAppSec_wrapOpen o input [] _ ts (1 + (t.length + 4))
      [parseArrayValue, parseObjectValue] _ (fun t1 h1 => hts t1 (by simp [h1])) ?_) (by omega)
    rw [hps1]
    refine runsAt_index (obfuscateAppSec_blocks o keyRE input ps1 _ ho bs b
      (wrapOpen (t :: ts)).length .stateBeginValueOrEmpty [] _ (Or.inr rfl) hb trivial
      (by simp) ?_) (by omega)
    simp only [List.nil_append]
    have hc := obfuscateAppSec_wrapClose o input
      (blockEdits (wrapOpen (t :: ts)).length b bs)
      (.ok (docNested (t :: ts) (redactBlock b) (bs.map redactBlock), none)) (t :: ts)
      ((wrapOpen (t :: ts)).length + (joinBlocks b bs).length) [] []
      (runsAt_nil (by simp [obfuscateAppSecDone, scannerAfterValue, Scanner.eof, happly, bind,
        Res.bind, pure]))
    simp only [wrapStack, hps1, scannerAfterValue] at hc
    exact runsAt_index hc (by omega)
  exact key (by omega) ⟨123, h0, by decide⟩ hd1

/-- The scan of a nested document, at any depth including none: every block is redacted. -/
theorem obfuscateAppSec_nested_blocks (o : Obfuscator) (keyRE : Regexp)
    (ts : List (List Nat)) (b : Block) (bs : List Block)
    (ho : o.KeyRegexp = some keyRE) (hshape : ts ≠ [] ∨ bs = [])
    (hts : ∀ t ∈ ts, (∀ c ∈ t, plain c) ∧ t ≠ B "parameters")
    (hb : ∀ b1 ∈ b :: bs, keyRE.MatchString b1.1 = true ∧ (∀ c ∈ b1.1, plain c)
      ∧ (∀ c ∈ b1.2.1, plain c) ∧ (∀ c ∈ b1.2.2, plain c)) :
    obfuscateAppSec o (docNested ts b bs)
      = .ok (docNested ts (redactBlock b) (bs.map redactBlock), none) := by
  cases ts with
  | nil =>
    have hbs : bs = [] := by
      rcases hshape with h | h
      · exact absurd rfl h
      · exact h
    subst hbs
    obtain ⟨hm, hk, hh, hv⟩ := hb b (by simp)
    have e1 : docNested [] b [] = docParam b.1 b.2.1 b.2.2 := by
      simp [docNested, wrapOpen, wrapClose, joinBlocks, blockText]
    have e2 : docNested [] (redactBlock b) (List.map redactBlock [])
        = docParam b.1 [63] [63] := by
      simp [docNested, wrapOpen, wrapClose, joinBlocks, blockText, redactBlock]
    rw [e1, e2, obfuscateAppSec_docParam o keyRE b.1 b.2.1 b.2.2 ho hm hk hh hv]
  | cons t ts =>
    exact obfuscateAppSec_docNested o keyRE t ts b bs ho hts hb

/-- C14, counterexample: a `parameters` key is not processed at whatever depth it occurs.
In the well-formed document
`{"parameters":[{"key_path":["x"],"value":{"parameters":[{"key_path":["password"],"value":"abc123"}]}}]}`
the inner object key has the raw text `"parameters"`, but it lies inside an element of the
outer parameters array, which `walkObject` consumes as a whole: with a key matcher matching
`password` the document is returned unchanged, the inner `"abc123"` is not replaced.  The
document of the claim, where the key is nested in ordinary arrays and objects, is redacted. -/
theorem ObfuscateAppSec_parameters_any_depth_counterexample :
    wellFormed docParametersInValue = true
      ∧ ObfuscateAppSec keyPassword docParametersInValue = .ok docParametersInValue
      ∧ docParametersInValue ≠ docParametersInValueRedacted
      ∧ ObfuscateAppSec keyPassword docTriggers = .ok docTriggersRedacted := by
  decide

/-- Matching of the `parameters` key at any depth on the family of nested documents, and
of every occurrence.  For every document
`{"t1":[{"t2":[ ... {"tn":[ B1,...,Bm ]} ... ]}]}` with `n >= 0` wrappers whose keys are
plain and different from `parameters` (only one block when `n = 0`), where every block `Bj`
is an object `{"parameters":[{"key_path":["kj"],"highlight":["hj"],"value":"vj"}]}` with
plain contents and `kj` matched by the key matcher, `ObfuscateAppSec` returns the same
document with `"hj"` and `"vj"` replaced by `"?"` in every block. -/
theorem ObfuscateAppSec_nested_family (o : Obfuscator) (keyRE : Regexp)
    (ts : List (List Nat)) (b : Block) (bs : List Block)
    (ho : o.KeyRegexp = some keyRE) (hshape : ts ≠ [] ∨ bs = [])
    (hts : ∀ t ∈ ts, (∀ c ∈ t, plain c) ∧ t ≠ B "parameters")
    (hb : ∀ b1 ∈ b :: bs, keyRE.MatchString b1.1 = true ∧ (∀ c ∈ b1.1, plain c)
      ∧ (∀ c ∈ b1.2.1, plain c) ∧ (∀ c ∈ b1.2.2, plain c)) :
    ObfuscateAppSec o (docNested ts b bs)
      = .ok (docNested ts (redactBlock b) (bs.map redactBlock)) := by
  have hcfg : ¬ (o.KeyRegexp.isNone ∧ o.ValueRegexp.isNone) := by simp [ho]
  unfold ObfuscateAppSec
  rw [if_neg hcfg, obfuscateAppSec_nested_blocks o keyRE ts b bs ho hshape hts hb]
  rfl

theorem ObfuscateAppSec_nested_family_example :
    ((∀ t ∈ [B "triggers", B "rule_matches"], (∀ c ∈ t, plain c) ∧ t ≠ B "parameters")
      ∧ (∀ b1 ∈ [((B "password", B "abc", B "abc123") : Block), (B "password", B "x", B "hunter2")],
          (literalRegexp (B "password")).MatchString b1.1 = true ∧ (∀ c ∈ b1.1, plain c)
            ∧ (∀ c ∈ b1.2.1, plain c) ∧ (∀ c ∈ b1.2.2, plain c)))
      ∧ docNested [B "triggers", B "rule_matches"] (B "password", B "abc", B "abc123")
            [(B "password", B "x", B "hunter2")]
          = B "\x7b\"triggers\":[\x7b\"rule_matches\":[\x7b\"parameters\":[\x7b\"key_path\":[\"password\"],\"highlight\":[\"abc\"],\"value\":\"abc123\"\x7d]\x7d,\x7b\"parameters\":[\x7b\"key_path\":[\"password\"],\"highlight\":[\"x\"],\"value\":\"hunter2\"\x7d]\x7d]\x7d]\x7d"
      ∧ docNested [B "triggers", B "rule_matches"] (redactBlock (B "password", B "abc", B "abc123"))
            ([(B "password", B "x", B "hunter2")].map redactBlock)
          = B "\x7b\"triggers\":[\x7b\"rule_matches\":[\x7b\"parameters\":[\x7b\"key_path\":[\"password\"],\"highlight\":[\"?\"],\"value\":\"?\"\x7d]\x7d,\x7b\"parameters\":[\x7b\"key_path\":[\"password\"],\"highlight\":[\"?\"],\"value\":\"?\"\x7d]\x7d]\x7d]\x7d"
      ∧ ObfuscateAppSec keyPassword (docNested [B "triggers", B "rule_matches"]
            (B "password", B "abc", B "abc123") [(B "password", B "x", B "hunter2")])
          = .ok (docNested [B "triggers", B "rule_matches"]
              (redactBlock (B "password", B "abc", B "abc123"))
              ([(B "password", B "x", B "hunter2")].map redactBlock)) :=
  ⟨⟨by decide, by decide⟩, rfl, rfl,
    ObfuscateAppSec_nested_family keyPassword (literalRegexp (B "password"))
      [B "triggers", B "rule_matches"] (B "password", B "abc", B "abc123")
      [(B "password", B "x", B "hunter2")] rfl (Or.inl (by decide)) (by decide) (by decide)⟩

/-- Idempotence on the nested family under a sensitive key path.  For every nested document
`{"t1":[ ... {"tn":[ B1,...,Bm ]} ... ]}` (`n >= 0` wrappers with plain keys other than
`parameters`, one block when `n = 0`) whose blocks
`{"parameters":[{"key_path":["kj"],"highlight":["hj"],"value":"vj"}]}` have plain contents
and a key path matched by the key matcher, the first pass replaces every `"hj"` and `"vj"`
by `"?"` and a second pass under the same configuration returns the output of the first. -/
theorem ObfuscateAppSec_idempotent_redacted (o : Obfuscator) (keyRE : Regexp)
    (ts : List (List Nat)) (b : Block) (bs : List Block)
    (ho : o.KeyRegexp = some keyRE) (hshape : ts ≠ [] ∨ bs = [])
    (hts : ∀ t ∈ ts, (∀ c ∈ t, plain c) ∧ t ≠ B "parameters")
    (hb : ∀ b1 ∈ b :: bs, keyRE.MatchString b1.1 = true ∧ (∀ c ∈ b1.1, plain c)
      ∧ (∀ c ∈ b1.2.1, plain c) ∧ (∀ c ∈ b1.2.2, plain c)) :
    ObfuscateAppSec o (docNested ts b bs)
        = .ok (docNested ts (redactBlock b) (bs.map redactBlock))
      ∧ (ObfuscateAppSec o (docNested ts b bs)).bind (ObfuscateAppSec o)
          = ObfuscateAppSec o (docNested ts b bs) := by
  have h63 : ∀ c ∈ [63], plain c := by decide
  have hcfg : ¬ (o.KeyRegexp.isNone ∧ o.ValueRegexp.isNone) := by simp [ho]
  have hshape2 : ts ≠ [] ∨ bs.map redactBlock = [] := by
    rcases hshape with h | h
    · exact Or.inl h
    · exact Or.inr (by simp [h])
  have hb2 : ∀ b1 ∈ redactBlock b :: bs.map redactBlock, keyRE.MatchString b1.1 = true
      ∧ (∀ c ∈ b1.1, plain c) ∧ (∀ c ∈ b1.2.1, plain c) ∧ (∀ c ∈ b1.2.2, plain c) := by
    intro b1 hb1
    have hmem : ∃ b0 ∈ b :: bs, b1 = redactBlock b0 := by
      simp only [List.mem_cons, List.mem_map] at hb1
      rcases hb1 with rfl | ⟨b0, h0, rfl⟩
      · exact ⟨b, by simp, rfl⟩
      · exact ⟨b0, by simp [h0], rfl⟩
    obtain ⟨b0, h0, rfl⟩ := hmem
    obtain ⟨hm, hk, _, _⟩ := hb b0 h0
    exact ⟨hm, hk, h63, h63⟩
  have hred : ∀ b0 : Block, redactBlock (redactBlock b0) = redactBlock b0 := fun _ => rfl
  have p1 : ObfuscateAppSec o (docNested ts b bs)
      = .ok (docNested ts (redactBlock b) (bs.map redactBlock)) := by
    unfold ObfuscateAppSec
    rw [if_neg hcfg, obfuscateAppSec_nested_blocks o keyRE ts b bs ho hshape hts hb]
    rfl
  have p2 : ObfuscateAppSec o (docNested ts (redactBlock b) (bs.map redactBlock))
      = .ok (docNested ts (redactBlock b) (bs.map redactBlock)) := by
    unfold ObfuscateAppSec
    rw [if_neg hcfg, obfuscateAppSec_nested_blocks o keyRE ts (redactBlock b)
      (bs.map redactBlock) ho hshape2 hts hb2]
    simp [hred, Function.comp_def, bind, Res.bind, pure]
  refine ⟨p1, ?_⟩
  rw [p1]
  exact p2

theorem ObfuscateAppSec_idempotent_redacted_witness :
    ((∀ t ∈ [B "triggers"], (∀ c ∈ t, plain c) ∧ t ≠ B "parameters")
      ∧ (∀ b1 ∈ [((B "password", B "abc", B "abc123") : Block)],
          (literalRegexp (B "password")).MatchString b1.1 = true ∧ (∀ c ∈ b1.1, plain c)
            ∧ (∀ c ∈ b1.2.1, plain c) ∧ (∀ c ∈ b1.2.2, plain c)))
      ∧ docNested [B "triggers"] (B "password", B "abc", B "abc123") []
          = B "\x7b\"triggers\":[\x7b\"parameters\":[\x7b\"key_path\":[\"password\"],\"highlight\":[\"abc\"],\"value\":\"abc123\"\x7d]\x7d]\x7d"
      ∧ ObfuscateAppSec keyPassword (docNested [B "triggers"] (B "password", B "abc", B "abc123") [])
          = .ok (docNested [B "triggers"] (redactBlock (B "password", B "abc", B "abc123"))
              (([] : List Block).map redactBlock))
      ∧ (ObfuscateAppSec keyPassword
            (docNested [B "triggers"] (B "password", B "abc", B "abc123") [])).bind
          (ObfuscateAppSec keyPassword)
          = ObfuscateAppSec keyPassword
              (docNested [B "triggers"] (B "password", B "abc", B "abc123") []) :=
  ⟨⟨by decide, by decide⟩, rfl,
    ObfuscateAppSec_idempotent_redacted keyPassword (literalRegexp (B "password"))
      [B "triggers"] (B "password", B "abc", B "abc123") [] rfl (Or.inl (by decide))
      (by decide) (by decide)⟩

/-- C21 (refuted on the code): `walkObject` does not visit every direct field with its key
range.  On the well-formed object `{"a\\":1,"b":2}` the first call of `visit` gets
`keyTo = -1` (so `input[keyFrom:keyTo]` is out of range, not the key text), and on
`{"b":2,"a\\":1}` the field `"a\\":1` is not visited at all: `isJSONStringEnd` misses the
closing quote of a key that ends in an escaped backslash.  On ` {"b" : [1,{"c":"d"}] ,
"e":"f\\"}` the two direct fields are visited with their key and value ranges and nothing
nested is, and the empty object yields no visit. -/
theorem walkObject_escaped_key :
    wellFormed objEscapedKeyFirst = true ∧ wellFormed objEscapedKeyLast = true
      ∧ walkObjectFields objEscapedKeyFirst
          = .ok { i := 15, err := none, visits := [⟨1, -1, 7, 8⟩, ⟨9, 12, 13, 14⟩] }
      ∧ slice objEscapedKeyFirst 1 (-1) = .panic
      ∧ walkObjectFields objEscapedKeyLast = .ok { i := 15, err := none, visits := [⟨1, 4, 5, 6⟩] }
      ∧ walkObjectFields objNested
          = .ok { i := 34, err := none, visits := [⟨2, 5, 7, 22⟩, ⟨24, 27, 28, 33⟩] }
      ∧ slice objNested 2 5 = .ok (B "\"b\"")
      ∧ slice objNested 7 22 = .ok (B " [1,\x7b\"c\":\"d\"\x7d] ")
      ∧ walkObjectFields (B "\x7b\x7d") = .ok { i := 2, err := none, visits := [] } := by
  decide

/-- C22 (refuted on the code): `walkArrayStrings` does not visit every top-level string.
In the well-formed array `["a\\"]` the only element is a string and `visit` is never
called; in `["a\\",["b"]]` the single call is `visit(1, 10)`, a range that starts at the
first element and ends at the closing quote of the nested `"b"`.  On
` ["a", 1, true, null, ["b"], {"c":"d"}, "e\"f"] ` the two top-level strings are visited
with the offsets of their quotes, and on a text that is not an array `visit` is not
called. -/
theorem walkArrayStrings_escaped_string :
    wellFormed arrEscaped = true ∧ wellFormed arrEscapedThenNested = true
      ∧ walkArrayStrings arrEscaped recordString [] = .ok []
      ∧ walkArrayStrings arrEscapedThenNested recordString [] = .ok [(1, 10)]
      ∧ walkArrayStrings arrMixed recordString [] = .ok [(2, 4), (40, 45)]
      ∧ slice arrMixed 40 46 = .ok (B "\"e\\\"f\"")
      ∧ walkArrayStrings objWithArray recordString [] = .ok [] := by
  decide

/-- C23 (refuted on the code in its second part): `hasSensitiveKeyPath` is false when the
key matcher is unset or the key path is empty; but with a key matcher matching `password`
it is also false on the key path `["password\\"]`, whose only element is a string literal
that unquotes to `password\`, a value the matcher matches.  The whole parameter is then
left unredacted.  On `[1,["password"],"x","password"]` it is true and on
`[1,["password"],"x"]` false. -/
theorem hasSensitiveKeyPath_escaped_string (o : Obfuscator) (v : Option Regexp)
    (keypath : List Nat) :
    hasSensitiveKeyPath { KeyRegexp := none, ValueRegexp := v } keypath = .ok false
      ∧ hasSensitiveKeyPath o [] = .ok false
      ∧ unquote (B "\"password\\\\\"") = some (B "password\\")
      ∧ (literalRegexp (B "password")).MatchString (B "password\\") = true
      ∧ hasSensitiveKeyPath keyPassword keyPathEscaped = .ok false
      ∧ wellFormed docKeyPathEscaped = true
      ∧ ObfuscateAppSec keyPassword docKeyPathEscaped = .ok docKeyPathEscaped
      ∧ hasSensitiveKeyPath keyPassword (B "[1,[\"password\"],\"x\",\"password\"]") = .ok true
      ∧ hasSensitiveKeyPath keyPassword (B "[1,[\"password\"],\"x\"]") = .ok false := by
  refine ⟨rfl, ?_, by decide, by decide, by decide, by decide, by decide, by decide,
    by decide⟩
  unfold hasSensitiveKeyPath
  cases o.KeyRegexp <;> rfl

/-- C24 (refuted on the code): under a sensitive key path the highlights `["a\\"]` get no
edit although their only element is a string, and the highlights `["a\\",{"k":"v"}]` get
the single edit `(1, 10, "?")`, which covers the first element, the comma, the brace and the
nested key `"k"`: the well-formed document
`{"parameters":[{"key_path":["password"],"highlight":["a\\",{"k":"v"}]}]}` is turned into
the malformed text `{"parameters":[{"key_path":["password"],"highlight":["?":"v"}]}]}`.  On
`["a", 1, ["b"], "c"]` the two top-level strings get one edit each. -/
theorem obfuscateAppSecHighlights_escaped_string :
    wellFormed arrEscaped = true ∧ wellFormed highlightsEscaped = true
      ∧ obfuscateAppSecHighlights keyPassword arrEscaped [] true = .ok []
      ∧ obfuscateAppSecHighlights keyPassword highlightsEscaped [] true
          = .ok [{ from_ := 1, to_ := 10, value := redacted }]
      ∧ wellFormed docHighlightsEscaped = true
      ∧ ObfuscateAppSec keyPassword docHighlightsEscaped = .ok docHighlightsEscapedOutput
      ∧ wellFormed docHighlightsEscapedOutput = false
      ∧ obfuscateAppSecHighlights keyPassword (B "[\"a\", 1, [\"b\"], \"c\"]") [] true
          = .ok [{ from_ := 1, to_ := 3, value := redacted },
                 { from_ := 16, to_ := 18, value := redacted }] := by
  decide

/-- C25 (refuted on the code in its second part): without a sensitive key and without a
value matcher `obfuscateAppSecHighlights` records nothing; but with a value matcher
matching `secretval` the highlights `["secretval\\"]` get no edit, although the element
unquotes to `secretval\`, the matcher matches it and `quote` succeeds on the replacement:
the document `{"parameters":[{"highlight":["secretval\\"],"value":"x"}]}` is returned
unchanged.  On `["secretval","x"]` the first element gets the edit `(1, 11, "?")`. -/
theorem obfuscateAppSecHighlights_match_escaped (k : Option Regexp) (input : List Nat)
    (d : Diff) :
    obfuscateAppSecHighlights { KeyRegexp := k, ValueRegexp := none } input d false = .ok d
      ∧ unquote (B "\"secretval\\\\\"") = some (B "secretval\\")
      ∧ (literalRegexp (B "secretval")).MatchString (B "secretval\\") = true
      ∧ quote ((literalRegexp (B "secretval")).ReplaceAllString (B "secretval\\") [63])
          = some (B "\"?\\\\\"")
      ∧ obfuscateAppSecHighlights valueSecretval highlightsSecretEscaped [] false = .ok []
      ∧ wellFormed docHighlightsSecretEscaped = true
      ∧ ObfuscateAppSec valueSecretval docHighlightsSecretEscaped
          = .ok docHighlightsSecretEscaped
      ∧ obfuscateAppSecHighlights valueSecretval (B "[\"secretval\",\"x\"]") [] false
          = .ok [{ from_ := 1, to_ := 11, value := redacted }] := by
  refine ⟨rfl, by decide, by decide, by decide, by decide, by decide, by decide, by decide⟩

theorem Res.Sat_mono {α : Type} {P Q : α → Prop} {r : Res α} (h : Res.Sat P r)
    (hpq : ∀ a, P a → Q a) : Res.Sat Q r := by
  cases r with
  | ok a => exact hpq a h
  | panic => trivial
  | timeout => exact h

theorem Res.Sat_bind {α β : Type} {P : α → Prop} {Q : β → Prop} {r : Res α} {f : α → Res β}
    (h : Res.Sat P r) (hf : ∀ a, P a → Res.Sat Q (f a)) : Res.Sat Q (r.bind f) := by
  cases r with
  | ok a => exact hf a h
  | panic => trivial
  | timeout => exact h

/-- A loop whose iterations keep an invariant and go to a larger index satisfies the
postcondition of its exits, within an iteration budget larger than the number of bytes
left. -/
theorem forLoop_sat {σ ρ : Type} (input : List Nat)
    (body : Nat → Nat → σ → Res (Step σ ρ)) (done : Nat → σ → Res ρ)
    (Inv : Nat → σ → Prop) (P : ρ → Prop)
    (hbody : ∀ i c st, input[i]? = some c → Inv i st → Step.Sat i Inv P (body i c st))
    (hdone : ∀ i st, input.length ≤ i → Inv i st → Res.Sat P (done i st)) :
    ∀ fuel i st, input.length - i < fuel → Inv i st →
      Res.Sat P (forLoop input body done fuel i st) := by
  intro fuel
  induction fuel with
  | zero => intro i st h; omega
  | succ n ih =>
    intro i st hf hinv
    rw [forLoop]
    cases hc : input[i]? with
    | none =>
      simp only
      exact hdone i st (by simpa using hc) hinv
    | some c =>
      have hi : i < input.length := (List.getElem?_eq_some_iff.mp hc).1
      have hb := hbody i c st hc hinv
      simp only
      cases hbd : body i c st with
      | ok s =>
        rw [hbd] at hb
        cases s with
        | next j st1 =>
          simp only [Step.Sat] at hb
          exact ih j st1 (by omega) hb.2
        | ret r => exact hb
      | panic => trivial
      | timeout => rw [hbd] at hb; exact hb

theorem stepToOneOf_loop_spec (targets : List ScanOp) (input : List Nat) :
    ∀ (l : List Nat) (i : Nat) (sc : Scanner) (fuel : Nat), input.drop i = l →
      l.length < fuel →
      forLoop input (stepToOneOfBody targets)
          (fun i sc => .ok { sc := sc.eof.1, i := i, op := scanContinue,
                             err := sc.eof.1.errValue }) fuel i sc
        = .ok (stepToOneOfSpec targets (firstSignificant sc l i)) := by
  intro l
  induction l with
  | nil =>
    intro i sc fuel hd hf
    cases fuel with
    | zero => simp at hf
    | succ n =>
      have hnone : input[i]? = none := by
        have : input.length ≤ i := by simpa using hd
        simpa using this
      rw [forLoop, hnone]
      rfl
  | cons c rest ih =>
    intro i sc fuel hd hf
    obtain ⟨hc, hrest⟩ := getElem?_of_drop hd
    cases fuel with
    | zero => simp at hf
    | succ n =>
      rw [forLoop, hc]
      simp only [stepToOneOfBody, firstSignificant]
      generalize hr : sc.step c = r
      obtain ⟨s1, op⟩ := r
      have hrec := ih (i + 1) s1 n hrest (by simpa using hf)
      cases op <;> simp [stepToOneOfSpec, hrec] <;> split_ifs <;> rfl

/-- C27, counterexample: when `scanError` is listed among the targets and is the first
significant operation, the result carries the syntax error, not `nil`; and when the start
index is past the end of the input, the index returned is the start index, not
`len(input)`. -/
theorem stepToOneOf_first_significant_counterexample :
    (Scanner.reset.step 120).2 = scanError
      ∧ stepToOneOf Scanner.reset (B "x") 0 [scanError]
          = .ok { sc := (Scanner.reset.step 120).1, i := 1, op := scanError,
                  err := some (.syntaxError (.invalidCharacter 120)) }
      ∧ (B "x").length = 1
      ∧ stepToOneOf Scanner.reset (B "x") 5 [scanBeginArray]
          = .ok { sc := Scanner.reset.eof.1, i := 5, op := scanContinue,
                  err := some (.syntaxError .unexpectedEnd) } := by
  decide

/-- C27 (amended): `stepToOneOf` stops at the first significant operation.  For every
scanner state, input, start index `i` and target list, let `k >= i` be the first index
whose byte makes the scanner return an operation `op` other than `scanSkipSpace` and
`scanContinue`.  If `op` is `scanError` the result is `(k+1, op, scanner.err)`, whether or
not `scanError` is a target; otherwise, if `op` is a target, it is `(k+1, op, nil)`;
otherwise it is `(k+1, op, unexpectedScannerOpError(op))`, a value different from every
syntax error that determines `op`.  If there is no such `k`, the scanner is told `eof` and
the result is `(max(i, len(input)), 0, scanner.err)`.  `stepTo` is the case of one
target. -/
theorem stepToOneOf_first_significant (scanner : Scanner) (input : List Nat) (i : Nat)
    (targets : List ScanOp) (target : ScanOp) :
    stepToOneOf scanner input i targets
        = .ok (stepToOneOfSpec targets (firstSignificant scanner (input.drop i) i))
      ∧ stepTo scanner input i target
        = .ok (stepToOneOfSpec [target] (firstSignificant scanner (input.drop i) i))
      ∧ (∀ k sc, firstSignificant scanner (input.drop i) i = .exhausted k sc →
          k = max i input.length)
      ∧ (∀ k sc op, firstSignificant scanner (input.drop i) i = .found k sc op →
          i ≤ k ∧ k < input.length ∧ op ≠ scanSkipSpace ∧ op ≠ scanContinue)
      ∧ (∀ op e, Err.unexpectedScannerOpError op ≠ Err.syntaxError e)
      ∧ (∀ op1 op2, Err.unexpectedScannerOpError op1 = Err.unexpectedScannerOpError op2 →
          op1 = op2) := by
  have hex : ∀ (l : List Nat) (j : Nat) (s : Scanner) (k : Nat) (sc : Scanner),
      firstSignificant s l j = .exhausted k sc → k = j + l.length := by
    intro l
    induction l with
    | nil =>
      intro j s k sc h
      simp only [firstSignificant, Significant.exhausted.injEq] at h
      simp [h.1]
    | cons c rest ih =>
      intro j s k sc h
      simp only [firstSignificant] at h
      split at h
      · have := ih (j + 1) _ k sc h
        simp
        omega
      · simp at h
  have hfd : ∀ (l : List Nat) (j : Nat) (s : Scanner) (k : Nat) (sc : Scanner) (op : ScanOp),
      firstSignificant s l j = .found k sc op →
        j ≤ k ∧ k < j + l.length ∧ op ≠ scanSkipSpace ∧ op ≠ scanContinue := by
    intro l
    induction l with
    | nil => intro j s k sc op h; simp [firstSignificant] at h
    | cons c rest ih =>
      intro j s k sc op h
      simp only [firstSignificant] at h
      split at h
      · have := ih (j + 1) _ k sc op h
        exact ⟨by omega, by simp only [List.length_cons]; omega, this.2.2.1, this.2.2.2⟩
      · rename_i hns
        simp only [Significant.found.injEq] at h
        obtain ⟨rfl, _, rfl⟩ := h
        simp only [not_or] at hns
        exact ⟨le_refl _, by simp, hns.1, hns.2⟩
  refine ⟨?_, ?_, ?_, ?_, ?_, ?_⟩
  · exact stepToOneOf_loop_spec targets input _ i scanner _ rfl (by simp; omega)
  · exact stepToOneOf_loop_spec [target] input _ i scanner _ rfl (by simp; omega)
  · intro k sc h
    have := hex _ _ _ _ _ h
    rw [List.length_drop] at this
    omega
  · intro k sc op h
    have := hfd _ _ _ _ _ _ h
    rw [List.length_drop] at this
    exact ⟨this.1, by omega, this.2.2.1, this.2.2.2⟩
  · intro op e h
    cases h
  · intro op1 op2 h
    cases h
    rfl

theorem firstSignificant_spaces (s : Scanner) (hs : s.stepFn = .stateBeginValue)
    (l : List Nat) :
    ∀ (ws : List Nat) (k : Nat), (∀ w ∈ ws, isSpace w = true) →
      firstSignificant s (ws ++ l) k = firstSignificant s l (k + ws.length) := by
  intro ws
  induction ws with
  | nil => intro k _; rfl
  | cons w ws ih =>
    intro k hws
    have hw : isSpace w = true := hws w (by simp)
    have hstep : s.step w = (s, scanSkipSpace) := by
      simp [Scanner.step, hs, Scanner.stateBeginValue, hw]
    show firstSignificant s (w :: (ws ++ l)) k = _
    rw [firstSignificant, hstep]
    simp only [true_or, ↓reduceIte]
    rw [ih (k + 1) (fun w1 h1 => hws w1 (by simp [h1]))]
    congr 1
    simp only [List.length_cons]
    omega

/-- A text whose first significant byte begins a value that is not a string is rejected
by `scanString`: it returns a non-nil error. -/
theorem scanString_not_string (ws rest : List Nat) (c : Nat)
    (hws : ∀ w ∈ ws, isSpace w = true) (hc : startsNonString c) :
    (scanString (ws ++ c :: rest)).bind (fun r => .ok r.2.2.isSome) = .ok true := by
  have hfs : firstSignificant Scanner.reset ((ws ++ c :: rest).drop 0) 0
      = firstSignificant Scanner.reset (c :: rest) ws.length := by
    have := firstSignificant_spaces Scanner.reset rfl (c :: rest) ws 0 hws
    simpa using this
  have hstep := stepToOneOf_loop_spec [scanBeginLiteral] (ws ++ c :: rest) _ 0 Scanner.reset
    ((ws ++ c :: rest).length + 1) rfl (by simp)
  have hbyte : byteAt (ws ++ c :: rest) (ws.length : Int) = .ok c :=
    byteAt_natCast (getElem?_of_drop_eq
      (show (ws ++ c :: rest).drop ws.length = c :: rest by simp))
  unfold scanString stepTo stepToOneOf
  rw [hstep, hfs]
  unfold startsNonString at hc
  rcases hc with rfl | rfl | rfl | rfl | rfl | rfl | ⟨h1, h2⟩
  · simp [firstSignificant, stepToOneOfSpec, Scanner.step, Scanner.reset,
      Scanner.stateBeginValue, isSpace, bind, Res.bind, pure]
  · simp [firstSignificant, stepToOneOfSpec, Scanner.step, Scanner.reset,
      Scanner.stateBeginValue, isSpace, bind, Res.bind, pure]
  · simp [firstSignificant, stepToOneOfSpec, Scanner.step, Scanner.reset,
      Scanner.stateBeginValue, isSpace, bind, Res.bind, pure, hbyte]
  · simp [firstSignificant, stepToOneOfSpec, Scanner.step, Scanner.reset,
      Scanner.stateBeginValue, isSpace, bind, Res.bind, pure, hbyte]
  · simp [firstSignificant, stepToOneOfSpec, Scanner.step, Scanner.reset,
      Scanner.stateBeginValue, isSpace, bind, Res.bind, pure, hbyte]
  · simp [firstSignificant, stepToOneOfSpec, Scanner.step, Scanner.reset,
      Scanner.stateBeginValue, isSpace, bind, Res.bind, pure, hbyte]
  · have hop : (Scanner.reset.step c).2 = scanBeginLiteral := by
      by_cases h48 : c = 48
      · subst h48; rfl
      · have h49 : 49 ≤ c := by omega
        have e1 : ¬ c = 32 := by omega
        have e2 : ¬ c = 9 := by omega
        have e3 : ¬ c = 13 := by omega
        have e4 : ¬ c = 10 := by omega
        have e5 : ¬ c = 123 := by omega
        have e6 : ¬ c = 91 := by omega
        have e7 : ¬ c = 34 := by omega
        have e8 : ¬ c = 45 := by omega
        have e9 : ¬ c = 116 := by omega
        have e10 : ¬ c = 102 := by omega
        have e11 : ¬ c = 110 := by omega
        simp [Scanner.step, Scanner.reset, Scanner.stateBeginValue, isSpace, e1, e2, e3, e4,
          e5, e6, e7, e8, e9, e10, e11, h48, h49, h2]
    have hne : c ≠ 34 := by omega
    simp [firstSignificant, stepToOneOfSpec, hop, bind, Res.bind, pure, hbyte, hne]

/-- C26 (refuted on the code in its second part): for every value text whose first
significant byte begins a number, `true`, `false`, `null`, an object or an array (after any
white space), `obfuscateAppSecValue` returns the edit buffer unchanged, whether or not the
key path is sensitive and whatever the matchers are.  But the other parameters are not
always redacted: with a value matcher matching `secretval` the well-formed document
`{"parameters":[{"value":1},{"value":"secretval"}]}` is returned unchanged; with a blank
after the comma the second value is redacted. -/
theorem obfuscateAppSecValue_not_string (o : Obfuscator) (ws rest : List Nat) (c : Nat)
    (d : Diff) (hasSensitiveKey : Bool) (hws : ∀ w ∈ ws, isSpace w = true)
    (hc : startsNonString c) :
    obfuscateAppSecValue o (ws ++ c :: rest) d hasSensitiveKey = .ok d
      ∧ wellFormed docNumberThenSecret = true
      ∧ ObfuscateAppSec valueSecretval docNumberThenSecret = .ok docNumberThenSecret
      ∧ ObfuscateAppSec valueSecretval docNumberThenSecretSpaced
          = .ok docNumberThenSecretSpacedRedacted := by
  refine ⟨?_, by decide, by decide, by decide⟩
  have h := scanString_not_string ws rest c hws hc
  unfold obfuscateAppSecValue
  split
  · rfl
  · cases hs : scanString (ws ++ c :: rest) with
    | ok r =>
      rw [hs] at h
      simp only [Res.bind, Res.ok.injEq] at h
      simp [bind, Res.bind, h, pure]
    | panic => rw [hs] at h; simp [Res.bind] at h
    | timeout => rw [hs] at h; simp [Res.bind] at h

/-- C26, witness: the value text ` \n\x7b"a":"secretval"\x7d`, an object after a blank and a
line feed, gets no edit under a sensitive key; the two documents are as stated. -/
theorem obfuscateAppSecValue_not_string_witness :
    ((∀ w ∈ [32, 10], isSpace w = true) ∧ startsNonString 123)
      ∧ [32, 10] ++ 123 :: B "\"a\":\"secretval\"\x7d" = B " \n\x7b\"a\":\"secretval\"\x7d"
      ∧ obfuscateAppSecValue valueSecretval ([32, 10] ++ 123 :: B "\"a\":\"secretval\"\x7d") []
          true = .ok []
      ∧ wellFormed docNumberThenSecret = true
      ∧ ObfuscateAppSec valueSecretval docNumberThenSecret = .ok docNumberThenSecret
      ∧ ObfuscateAppSec valueSecretval docNumberThenSecretSpaced
          = .ok docNumberThenSecretSpacedRedacted :=
  ⟨⟨by decide, Or.inl rfl⟩, by decide,
    obfuscateAppSecValue_not_string valueSecretval [32, 10] (B "\"a\":\"secretval\"\x7d") 123 []
      true (by decide) (Or.inl rfl)⟩

theorem sortSearchLoop_sat (f : Nat → Bool) :
    ∀ fuel i j, j - i < fuel → Res.Sat (fun _ => True) (sortSearchLoop f fuel i j) := by
  intro fuel
  induction fuel with
  | zero => intro i j h; omega
  | succ n ih =>
    intro i j h
    rw [sortSearchLoop]
    by_cases hlt : i < j
    · rw [if_pos hlt]
      simp only
      split
      · exact ih _ _ (by omega)
      · exact ih _ _ (by omega)
    · rw [if_neg hlt]
      trivial

/-- The buffer after `add` holds the new edit and the old ones; `add` does not exhaust
the budget of the binary search. -/
theorem Diff.add_sat (d : Diff) (from_ to_ : Int) (value : List Nat) :
    Res.Sat (fun d1 => d1.Perm ({ from_ := from_, to_ := to_, value := value } :: d))
      (Diff.add d from_ to_ value) := by
  unfold Diff.add
  simp only [bind]
  apply Res.Sat_bind (sortSearchLoop_sat _ (d.length + 1) 0 d.length (by omega))
  intro i _
  split
  · simp only [pure, Res.Sat]
    exact List.perm_append_singleton _ _
  · simp only [pure, Res.Sat]
    have h1 : (List.take i d ++ Edit.mk from_ to_ value :: List.drop i d).Perm
        (Edit.mk from_ to_ value :: (List.take i d ++ List.drop i d)) := List.perm_middle
    rw [List.take_append_drop] at h1
    exact h1

/-- The buffer after `merge` holds the old edits and the edits of the merged buffer
shifted by the offset. -/
theorem Diff.merge_sat (offset : Int) : ∀ (other d : Diff),
    Res.Sat (fun d1 => d1.Perm (d ++ other.map (Edit.shift offset)))
      (Diff.merge d other offset) := by
  intro other
  induction other with
  | nil => intro d; simp [Diff.merge, pure, Res.Sat]
  | cons e rest ih =>
    intro d
    rw [Diff.merge]
    simp only [bind]
    apply Res.Sat_bind (Diff.add_sat d (e.from_ + offset) (e.to_ + offset) e.value)
    intro d1 h1
    apply Res.Sat_mono (ih d1)
    intro d2 h2
    refine h2.trans ?_
    have h3 : (d1 ++ rest.map (Edit.shift offset)).Perm
        ((Edit.mk (e.from_ + offset) (e.to_ + offset) e.value :: d)
          ++ rest.map (Edit.shift offset)) := List.Perm.append_right _ h1
    refine h3.trans ?_
    simp only [List.map_cons, List.cons_append, Edit.shift]
    exact List.perm_middle.symm

theorem slice_sat (input : List Nat) (lo hi : Int) (P : List Nat → Prop)
    (h : 0 ≤ lo → lo ≤ hi → hi ≤ (input.length : Int) →
      P ((input.drop lo.toNat).take (hi.toNat - lo.toNat))) :
    Res.Sat P (slice input lo hi) := by
  unfold slice
  split
  · rename_i hc
    exact h hc.1 hc.2.1 hc.2.2
  · trivial

theorem Diff.applyLoop_sat (input : List Nat) : ∀ (d : List Edit) (lo : Int) (out : List Nat),
    Res.Sat (fun _ => True) (Diff.applyLoop input d lo out) := by
  intro d
  induction d with
  | nil =>
    intro lo out
    simp only [Diff.applyLoop, sliceFrom, bind]
    exact Res.Sat_bind (slice_sat input lo _ (fun _ => True) (fun _ _ _ => trivial))
      (fun _ _ => trivial)
  | cons e rest ih =>
    intro lo out
    simp only [Diff.applyLoop, bind]
    exact Res.Sat_bind (slice_sat input lo _ (fun _ => True) (fun _ _ _ => trivial))
      (fun _ _ => ih _ _)

theorem byteAt_sat (input : List Nat) (i : Int) :
    Res.Sat (fun _ => 0 ≤ i ∧ i < (input.length : Int)) (byteAt input i) := by
  unfold byteAt
  split
  · trivial
  · split
    · rename_i c hc
      have := (List.getElem?_eq_some_iff.mp hc).1
      exact ⟨by omega, by omega⟩
    · trivial

theorem isJSONStringEnd_sat (input : List Nat) (i : Nat) :
    Res.Sat (fun _ => True) (isJSONStringEnd input i) := by
  unfold isJSONStringEnd
  simp only [bind]
  apply Res.Sat_bind (byteAt_sat input i)
  intro c _
  split
  · exact Res.Sat_bind (byteAt_sat input _) (fun _ _ => trivial)
  · trivial

theorem stepToOneOf_sat (scanner : Scanner) (input : List Nat) (i : Nat)
    (targets : List ScanOp) :
    ∃ r, stepToOneOf scanner input i targets = .ok r ∧ i ≤ r.i
      ∧ (i ≤ input.length → r.i ≤ input.length) := by
  refine ⟨_, stepToOneOf_loop_spec targets input _ i scanner _ rfl (by simp; omega), ?_⟩
  have key : ∀ (l : List Nat) (j : Nat) (s : Scanner),
      j ≤ (stepToOneOfSpec targets (firstSignificant s l j)).i
        ∧ (stepToOneOfSpec targets (firstSignificant s l j)).i ≤ j + l.length := by
    intro l
    induction l with
    | nil => intro j s; simp [firstSignificant, stepToOneOfSpec]
    | cons c rest ih =>
      intro j s
      simp only [firstSignificant]
      split
      · have := ih (j + 1) (s.step c).1
        simp only [List.length_cons]
        omega
      · simp only [stepToOneOfSpec, List.length_cons]
        split_ifs <;> simp
  have := key (input.drop i) i scanner
  rw [List.length_drop] at this
  exact ⟨this.1, fun h => by omega⟩

theorem Step.Sat_of_bind {α σ ρ : Type} {P : α → Prop} {i : Nat} {Inv : Nat → σ → Prop}
    {Q : ρ → Prop} {r : Res α} {f : α → Res (Step σ ρ)} (h : Res.Sat P r)
    (hf : ∀ a, P a → Step.Sat i Inv Q (f a)) : Step.Sat i Inv Q (r.bind f) := by
  cases r with
  | ok a => exact hf a h
  | panic => trivial
  | timeout => exact h

/-- `walkArrayStrings` calls `visit` only with offsets `0 <= from < to < len(input)`: a
property of the closure state that every such call keeps holds after the walk. -/
theorem walkArrayStrings_sat {β : Type} (input : List Nat) (visit : Int → Int → β → Res β)
    (acc : β) (Q : β → Prop)
    (hvisit : ∀ (f t : Int) (a : β), 0 ≤ f → f < t → t < (input.length : Int) → Q a →
      Res.Sat Q (visit f t a))
    (hacc : Q acc) : Res.Sat Q (walkArrayStrings input visit acc) := by
  unfold walkArrayStrings stepTo
  obtain ⟨r, hr, -, -⟩ := stepToOneOf_sat Scanner.reset input 0 [scanBeginArray]
  rw [hr]
  simp only [bind, Res.bind]
  split
  · exact hacc
  · apply forLoop_sat input _ _
      (fun i st => (st.stringFrom = -1 ∨ (0 ≤ st.stringFrom ∧ st.stringFrom < (i : Int)))
        ∧ Q st.acc) Q
    · intro i c st hc hinv
      have hi : i < input.length := (List.getElem?_eq_some_iff.mp hc).1
      obtain ⟨hsf, hq⟩ := hinv
      unfold walkArrayStringsBody
      generalize st.sc.step c = r1
      obtain ⟨s1, op⟩ := r1
      have hsf1 : st.stringFrom = -1
          ∨ (0 ≤ st.stringFrom ∧ st.stringFrom < ((i + 1 : Nat) : Int)) := by
        rcases hsf with h | h
        · exact Or.inl h
        · exact Or.inr ⟨h.1, by push_cast; omega⟩
      cases op <;> dsimp only
      case scanContinue =>
        split
        · rename_i hne
          have hpos : 0 ≤ st.stringFrom ∧ st.stringFrom < (i : Int) := by
            rcases hsf with h | h
            · exact absurd h hne
            · exact h
          apply Step.Sat_of_bind (isJSONStringEnd_sat input i)
          intro e _
          split
          · apply Step.Sat_of_bind (hvisit st.stringFrom i st.acc hpos.1 hpos.2 (by omega) hq)
            intro a ha
            exact ⟨by omega, Or.inl rfl, ha⟩
          · exact ⟨by omega, hsf1, hq⟩
        · exact ⟨by omega, hsf1, hq⟩
      case scanBeginLiteral =>
        split
        · exact ⟨by omega, Or.inr ⟨by simp only; omega, by simp only; push_cast; omega⟩, hq⟩
        · exact ⟨by omega, hsf1, hq⟩
      case scanEndArray =>
        split
        · exact hq
        · exact ⟨by omega, hsf1, hq⟩
      all_goals first
        | exact ⟨by omega, hsf1, hq⟩
        | exact hq
    · intro i st _ hinv
      exact hinv.2
    · omega
    · exact ⟨Or.inl rfl, hacc⟩

/-- When `scanString` returns a nil error, `0 <= from` and `to <= len(input)`. -/
theorem scanString_sat (input : List Nat) :
    Res.Sat (fun r => r.2.2 = none → 0 ≤ r.1 ∧ r.2.1 ≤ (input.length : Int))
      (scanString input) := by
  unfold scanString stepTo
  obtain ⟨r, hr, -, -⟩ := stepToOneOf_sat Scanner.reset input 0 [scanBeginLiteral]
  rw [hr]
  simp only [bind, Res.bind]
  split
  · rename_i he
    simp only [pure, Res.Sat]
    intro h
    rw [h] at he
    simp at he
  · apply Res.Sat_bind (byteAt_sat input _)
    intro c hc
    split
    · simp [pure, Res.Sat]
    · apply forLoop_sat input _ _ (fun _ _ => True)
      · intro i c1 sc hc1 _
        have hi : i < input.length := (List.getElem?_eq_some_iff.mp hc1).1
        unfold scanStringBody
        generalize sc.step c1 = r1
        obtain ⟨s1, op⟩ := r1
        cases op <;> dsimp only
        case scanContinue =>
          simp only [bind]
          apply Step.Sat_of_bind (isJSONStringEnd_sat input i)
          intro e _
          split
          · simp only [pure, Step.Sat]
            intro _
            exact ⟨hc.1, by omega⟩
          · exact ⟨by omega, trivial⟩
        all_goals first
          | (simp [Step.Sat]; done)
          | (simp [Step.Sat]; intro _; omega)
      · intro i sc _ _
        simp [Res.Sat]
      · omega
      · trivial

/-- The edits that `redactMatches` adds are at the given offsets. -/
theorem redactMatches_sat (o : Obfuscator) (raw : List Nat) (from_ to_ : Int) (d : Diff) :
    Res.Sat (fun d1 => ∃ new : List Edit, d1.Perm (d ++ new)
        ∧ ∀ e ∈ new, e.from_ = from_ ∧ e.to_ = to_)
      (redactMatches o raw from_ to_ d) := by
  have hsame : ∃ new : List Edit, d.Perm (d ++ new) ∧ ∀ e ∈ new, e.from_ = from_ ∧ e.to_ = to_ :=
    ⟨[], by simp, by simp⟩
  unfold redactMatches
  split
  · exact hsame
  · split
    · trivial
    · split
      · exact hsame
      · split
        · exact hsame
        · rename_i q _
          apply Res.Sat_mono (Diff.add_sat d from_ to_ q)
          intro d1 h1
          exact ⟨[Edit.mk from_ to_ q], h1.trans (List.perm_append_singleton _ _).symm,
            by simp⟩

/-- The edits recorded by `obfuscateAppSecValue` lie inside the value text. -/
theorem obfuscateAppSecValue_sat (o : Obfuscator) (input : List Nat) (d : Diff)
    (hasSensitiveKey : Bool) :
    Res.Sat (fun d1 => ∃ new : List Edit, d1.Perm (d ++ new)
        ∧ ∀ e ∈ new, 0 ≤ e.from_ ∧ e.to_ < (input.length : Int))
      (obfuscateAppSecValue o input d hasSensitiveKey) := by
  have hsame : ∃ new : List Edit, d.Perm (d ++ new)
      ∧ ∀ e ∈ new, 0 ≤ e.from_ ∧ e.to_ < (input.length : Int) := ⟨[], by simp, by simp⟩
  unfold obfuscateAppSecValue
  split
  · exact hsame
  · simp only [bind]
    apply Res.Sat_bind (scanString_sat input)
    intro r hr
    split
    · exact hsame
    · rename_i hnone
      have hr1 := hr (by simpa using hnone)
      split
      · apply Res.Sat_mono (Diff.add_sat d r.1 (r.2.1 - 1) redacted)
        intro d1 h1
        exact ⟨[Edit.mk r.1 (r.2.1 - 1) redacted],
          h1.trans (List.perm_append_singleton _ _).symm, by simp; omega⟩
      · apply Res.Sat_bind (slice_sat input r.1 r.2.1 (fun _ => True) (fun _ _ _ => trivial))
        intro raw _
        apply Res.Sat_mono (redactMatches_sat o raw r.1 (r.2.1 - 1) d)
        intro d1 ⟨new, hp, hn⟩
        exact ⟨new, hp, fun e he => by have := hn e he; omega⟩

/-- The edits recorded by `obfuscateAppSecHighlights` lie inside the highlights text. -/
theorem obfuscateAppSecHighlights_sat (o : Obfuscator) (input : List Nat) (d : Diff)
    (hasSensitiveKey : Bool) :
    Res.Sat (fun d1 => ∃ new : List Edit, d1.Perm (d ++ new)
        ∧ ∀ e ∈ new, 0 ≤ e.from_ ∧ e.to_ < (input.length : Int))
      (obfuscateAppSecHighlights o input d hasSensitiveKey) := by
  have hsame : ∃ new : List Edit, d.Perm (d ++ new)
      ∧ ∀ e ∈ new, 0 ≤ e.from_ ∧ e.to_ < (input.length : Int) := ⟨[], by simp, by simp⟩
  unfold obfuscateAppSecHighlights
  split
  · exact hsame
  · apply walkArrayStrings_sat input _ d _ _ hsame
    intro f t a hf hft ht ⟨new, hp, hn⟩
    unfold highlightVisit
    split
    · apply Res.Sat_mono (Diff.add_sat a f t redacted)
      intro d1 h1
      refine ⟨new ++ [Edit.mk f t redacted], ?_, ?_⟩
      · refine h1.trans ?_
        refine (List.perm_append_singleton _ _).symm.trans ?_
        rw [← List.append_assoc]
        exact List.Perm.append_right _ hp
      · intro e he
        rcases List.mem_append.mp he with he | he
        · exact hn e he
        · simp at he; subst he; exact ⟨hf, ht⟩
    · simp only [bind]
      apply Res.Sat_bind (slice_sat input f (t + 1) (fun _ => True) (fun _ _ _ => trivial))
      intro raw _
      apply Res.Sat_mono (redactMatches_sat o raw f t a)
      intro d1 ⟨new1, hp1, hn1⟩
      refine ⟨new ++ new1, ?_, ?_⟩
      · refine hp1.trans ?_
        rw [← List.append_assoc]
        exact List.Perm.append_right _ hp
      · intro e he
        rcases List.mem_append.mp he with he | he
        · exact hn e he
        · have := hn1 e he
          omega

theorem Res.bind_ok {α β : Type} (a : α) (f : α → Res β) : (Res.ok a).bind f = f a := rfl

theorem hasSensitiveKeyPath_sat (o : Obfuscator) (keypath : List Nat) :
    Res.Sat (fun _ => True) (hasSensitiveKeyPath o keypath) := by
  unfold hasSensitiveKeyPath
  split
  · trivial
  · split
    · trivial
    · apply walkArrayStrings_sat keypath _ false (fun _ => True) _ trivial
      intro f t a _ _ _ _
      unfold keyPathVisit
      split
      · trivial
      · simp only [bind]
        apply Res.Sat_bind (slice_sat keypath f (t + 1) (fun _ => True) (fun _ _ _ => trivial))
        intro v _
        split
        · trivial
        · split <;> trivial

theorem slice_length_sat (input : List Nat) (lo hi : Int) :
    Res.Sat (fun s => (s.length : Int) = hi - lo ∧ 0 ≤ lo ∧ hi ≤ (input.length : Int))
      (slice input lo hi) := by
  apply slice_sat
  intro h0 h1 h2
  refine ⟨?_, h0, h2⟩
  simp only [List.length_take, List.length_drop]
  omega

/-- Shifting edits recorded on a text of length `hi - lo` by `lo` puts them in `[lo, hi)`. -/
theorem shift_confined (text : List Nat) (t new : List Edit) (lo hi : Int)
    (hp : t.Perm ([] ++ new))
    (hn : ∀ e ∈ new, 0 ≤ e.from_ ∧ e.to_ < (text.length : Int))
    (hlen : (text.length : Int) = hi - lo) :
    ∀ e ∈ t.map (Edit.shift lo), lo ≤ e.from_ ∧ e.to_ < hi := by
  intro e he
  obtain ⟨e0, he0, rfl⟩ := List.mem_map.mp he
  have := hn e0 ((List.Perm.mem_iff hp).mp he0)
  simp only [Edit.shift]
  omega

/-- The value stage of `obfuscateAppSecParameter`: starting from a buffer that extends `d`
by edits of the highlight range, it adds edits of the value range only, and only when
that range is a non-empty part of the input. -/
theorem obfuscateAppSecParameter_value_sat (o : Obfuscator) (input : List Nat) (d d1 : Diff)
    (sens : Bool) (sc : Scanner) (wi : Nat) (hfrom hto vfrom vto : Int) (new1 : List Edit)
    (hp1 : d1.Perm (d ++ new1))
    (hn1 : ∀ e ∈ new1, (0 ≤ hfrom ∧ hfrom < hto) ∧ hfrom ≤ e.from_ ∧ e.to_ < hto) :
    Res.Sat (fun r : ParamResult => r.i = wi ∧ ∃ new : List Edit, r.diff.Perm (d ++ new)
        ∧ ∀ e ∈ new, ((0 ≤ hfrom ∧ hfrom < hto) ∧ hfrom ≤ e.from_ ∧ e.to_ < hto)
          ∨ ((0 ≤ vfrom ∧ vfrom < vto) ∧ vfrom ≤ e.from_ ∧ e.to_ < vto))
      ((slice input vfrom vto).bind fun value =>
        if value ≠ [] then
          (obfuscateAppSecValue o value [] sens).bind fun tmpDiff =>
            (Diff.merge d1 tmpDiff vfrom).bind fun y =>
              Res.ok { sc := sc, diff := y, i := wi, err := none }
        else (Res.ok d1).bind fun y => Res.ok { sc := sc, diff := y, i := wi, err := none }) := by
  have hfin : ∀ (d2 : Diff) (new2 : List Edit), d2.Perm (d1 ++ new2) →
      (∀ e ∈ new2, (0 ≤ vfrom ∧ vfrom < vto) ∧ vfrom ≤ e.from_ ∧ e.to_ < vto) →
      ∃ new : List Edit, d2.Perm (d ++ new)
        ∧ ∀ e ∈ new, ((0 ≤ hfrom ∧ hfrom < hto) ∧ hfrom ≤ e.from_ ∧ e.to_ < hto)
          ∨ ((0 ≤ vfrom ∧ vfrom < vto) ∧ vfrom ≤ e.from_ ∧ e.to_ < vto) := by
    intro d2 new2 hp2 hn2
    refine ⟨new1 ++ new2, ?_, ?_⟩
    · refine hp2.trans ?_
      rw [← List.append_assoc]
      exact List.Perm.append_right _ hp1
    · intro e he
      rcases List.mem_append.mp he with he | he
      · exact Or.inl (hn1 e he)
      · exact Or.inr (hn2 e he)
  apply Res.Sat_bind (slice_length_sat input vfrom vto)
  intro value hv
  split
  · rename_i hne
    have hpos : 0 < value.length := List.length_pos.mpr hne
    apply Res.Sat_bind (obfuscateAppSecValue_sat o value [] sens)
    intro t ⟨new, hp, hn⟩
    apply Res.Sat_bind (Diff.merge_sat vfrom t d1)
    intro d2 h2
    exact ⟨rfl, hfin d2 _ h2 (fun e he =>
      ⟨⟨hv.2.1, by omega⟩, shift_confined value t new vfrom vto hp hn hv.1 e he⟩)⟩
  · rw [Res.bind_ok]
    exact ⟨rfl, hfin d1 [] (by simp) (by simp)⟩

/-- The edits merged by `obfuscateAppSecParameter` are confined to the ranges captured for
the `highlight` and `value` fields: the buffer after the call is, up to the order, the
buffer before the call followed by edits lying in one of the two ranges, each a non-empty
part of the input when it receives an edit. -/
theorem obfuscateAppSecParameter_sat (o : Obfuscator) (scanner : Scanner) (input : List Nat)
    (i : Nat) (d : Diff) (w : WalkResult ParamFields)
    (hw : walkObject scanner input i (paramVisit input)
      { keypath := [], vfrom := 0, vto := 0, hfrom := 0, hto := 0 } = .ok w) :
    Res.Sat (fun r => r.i = w.i ∧ ∃ new : List Edit, r.diff.Perm (d ++ new)
        ∧ ∀ e ∈ new,
          ((0 ≤ w.acc.hfrom ∧ w.acc.hfrom < w.acc.hto)
            ∧ w.acc.hfrom ≤ e.from_ ∧ e.to_ < w.acc.hto)
          ∨ ((0 ≤ w.acc.vfrom ∧ w.acc.vfrom < w.acc.vto)
            ∧ w.acc.vfrom ≤ e.from_ ∧ e.to_ < w.acc.vto))
      (obfuscateAppSecParameter o scanner input i d) := by
  unfold obfuscateAppSecParameter
  simp only [bind, pure]
  rw [hw, Res.bind_ok]
  split
  · exact ⟨rfl, [], by simp, by simp⟩
  · apply Res.Sat_bind (hasSensitiveKeyPath_sat o w.acc.keypath)
    intro sens _
    apply Res.Sat_bind (slice_length_sat input w.acc.hfrom w.acc.hto)
    intro highlights hhl
    split
    · rename_i hne
      have hpos : 0 < highlights.length := List.length_pos.mpr hne
      apply Res.Sat_bind (obfuscateAppSecHighlights_sat o highlights [] sens)
      intro t ⟨new, hp, hn⟩
      apply Res.Sat_bind (Diff.merge_sat w.acc.hfrom t d)
      intro d1 h1
      exact obfuscateAppSecParameter_value_sat o input d d1 sens w.sc w.i _ _ _ _ _ h1
        (fun e he => ⟨⟨hhl.2.1, by omega⟩, shift_confined highlights t new _ _ hp hn hhl.1 e he⟩)
    · rw [Res.bind_ok]
      exact obfuscateAppSecParameter_value_sat o input d d sens w.sc w.i _ _ _ _ []
        (by simp) (by simp)

/-- The calls of `visit` made by `walkObject` come in increasing order of offsets: with
`e` the index reached by the previous call (or by the opening brace), the value range
passed satisfies `e < valueFrom <= valueTo < len(input)` unless `valueFrom` is `-1`, and
the key starts at `e` or later unless `keyFrom` is `-1`.  A property `Inv k` of the closure
state, monotone in `k`, that every such call establishes at `valueTo + 1` holds at the
returned index, which is at least the start index and at most `len(input)`. -/
theorem walkObject_sat {β : Type} (scanner : Scanner) (input : List Nat) (i : Nat)
    (visit : Int → Int → Int → Int → β → Res β) (acc : β) (Inv : Nat → β → Prop)
    (hmono : ∀ (e k : Nat) (a : β), e ≤ k → Inv e a → Inv k a)
    (hvisit : ∀ (kf kt vf : Int) (vt e : Nat) (a : β), Inv e a → i ≤ e → e ≤ vt →
      vt < input.length → (vf = -1 ∨ ((e : Int) < vf ∧ vf ≤ (vt : Int))) →
      (kf = -1 ∨ ((e : Int) ≤ kf ∧ kf < (vt : Int))) →
      Res.Sat (Inv (vt + 1)) (visit kf kt vf vt a))
    (hacc : Inv i acc) :
    Res.Sat (fun w => i ≤ w.i ∧ (i ≤ input.length → w.i ≤ input.length) ∧ Inv w.i w.acc)
      (walkObject scanner input i visit acc) := by
  unfold walkObject stepTo
  obtain ⟨r, hr, hri, hrl⟩ := stepToOneOf_sat scanner input i [scanBeginObject]
  rw [hr]
  simp only [bind, pure, Res.bind_ok]
  split
  · exact ⟨hri, hrl, hmono _ _ _ hri hacc⟩
  · apply forLoop_sat input _ _
      (fun (j : Nat) (st : ObjectState β) => (i ≤ input.length → j ≤ input.length) ∧ ∃ e : Nat, i ≤ e ∧ e ≤ j
        ∧ Inv e st.acc
        ∧ (st.valueFrom = -1 ∨ ((e : Int) < st.valueFrom ∧ st.valueFrom ≤ (j : Int)))
        ∧ (st.keyFrom = -1 ∨ ((e : Int) ≤ st.keyFrom ∧ st.keyFrom < (j : Int))))
      (fun (w : WalkResult β) => i ≤ w.i ∧ (i ≤ input.length → w.i ≤ input.length) ∧ Inv w.i w.acc)
    · intro j c st hc hinv
      have hj : j < input.length := (List.getElem?_eq_some_iff.mp hc).1
      obtain ⟨hlen, e, hie, hej, hq, hvf, hkf⟩ := hinv
      unfold walkObjectBody
      generalize st.sc.step c = r1
      obtain ⟨s1, op⟩ := r1
      have hvf1 : st.valueFrom = -1
          ∨ ((e : Int) < st.valueFrom ∧ st.valueFrom ≤ ((j + 1 : Nat) : Int)) := by
        rcases hvf with h | h
        · exact Or.inl h
        · exact Or.inr ⟨h.1, by push_cast; omega⟩
      have hkf1 : st.keyFrom = -1
          ∨ ((e : Int) ≤ st.keyFrom ∧ st.keyFrom < ((j + 1 : Nat) : Int)) := by
        rcases hkf with h | h
        · exact Or.inl h
        · exact Or.inr ⟨h.1, by push_cast; omega⟩
      have hkeep : (i ≤ input.length → j + 1 ≤ input.length) ∧ ∃ e : Nat, i ≤ e ∧ e ≤ j + 1
          ∧ Inv e st.acc
          ∧ (st.valueFrom = -1 ∨ ((e : Int) < st.valueFrom
              ∧ st.valueFrom ≤ ((j + 1 : Nat) : Int)))
          ∧ (st.keyFrom = -1 ∨ ((e : Int) ≤ st.keyFrom
              ∧ st.keyFrom < ((j + 1 : Nat) : Int))) :=
        ⟨fun _ => by omega, e, hie, by omega, hq, hvf1, hkf1⟩
      have hkf2 : st.keyFrom = -1 ∨ ((e : Int) ≤ st.keyFrom ∧ st.keyFrom < (j : Int)) := hkf
      cases op <;> dsimp only
      case scanEndObject =>
        split
        · exact ⟨by omega, hkeep⟩
        · split
          · apply Step.Sat_of_bind (hvisit st.keyFrom st.keyTo st.valueFrom j e st.acc hq hie hej hj
              hvf hkf)
            intro a ha
            exact ⟨by simp only; omega, fun _ => by simp only; omega, ha⟩
          · exact ⟨by simp only; omega, fun _ => by simp only; omega,
              hmono _ _ _ (by simp only; omega) hq⟩
      case scanBeginLiteral =>
        split
        · exact ⟨by omega, hkeep⟩
        · split
          · exact ⟨by omega, fun _ => by omega, e, hie, by omega, hq, hvf1,
              Or.inr ⟨by simp only; omega, by simp only; push_cast; omega⟩⟩
          · exact ⟨by omega, hkeep⟩
      case scanContinue =>
        split
        · apply Step.Sat_of_bind (isJSONStringEnd_sat input j)
          intro b _
          split
          · exact ⟨by omega, hkeep⟩
          · exact ⟨by omega, hkeep⟩
        · exact ⟨by omega, hkeep⟩
      case scanObjectKey =>
        split
        · exact ⟨by omega, fun _ => by omega, e, hie, by omega, hq,
            Or.inr ⟨by simp only; omega, by simp only; push_cast; omega⟩, hkf1⟩
        · exact ⟨by omega, hkeep⟩
      case scanObjectValue =>
        split
        · exact ⟨by omega, hkeep⟩
        · apply Step.Sat_of_bind (hvisit st.keyFrom st.keyTo st.valueFrom j e st.acc hq hie hej hj
            hvf hkf)
          intro a ha
          exact ⟨by omega, fun _ => by omega, j + 1, by omega, le_refl _, ha, Or.inl rfl,
            Or.inl rfl⟩
      case scanError =>
        exact ⟨by simp only; omega, fun _ => by simp only; omega,
          hmono _ _ _ (by simp only; omega) hq⟩
      all_goals exact ⟨by omega, hkeep⟩
    · intro j st hjl hinv
      obtain ⟨hlen, e, hie, hej, hq, -, -⟩ := hinv
      exact ⟨by simp only; omega, hlen, hmono _ _ _ hej hq⟩
    · omega
    · exact ⟨hrl, r.i, hri, le_refl _, hmono _ _ _ hri hacc, Or.inl rfl, Or.inl rfl⟩

theorem Scanner.stateEndValue_effect (s : Scanner) (c : Nat) (hE : s.endTop = false) :
    s.Effect c (s.stateEndValue c) := by
  obtain ⟨fn, ps, err, et⟩ := s
  simp only at hE
  subst hE
  unfold Scanner.Effect
  cases ps with
  | nil =>
    simp only [Scanner.stateEndValue, Scanner.stateEndTop, Scanner.error, Scanner.Coherent]
    split <;> simp [StackEffect]
  | cons p rest =>
    simp only [Scanner.stateEndValue, Scanner.popParseState, Scanner.error, Scanner.Coherent]
    cases p <;> cases rest <;> simp only [List.tail_cons] <;> split_ifs <;>
      simp [StackEffect, *]

/-- A step that leaves the stack and the unset end flag alone and does not enter the state
expecting the first key of an object keeps the scanner coherent. -/
theorem Scanner.Plain.effect {s : Scanner} {c : Nat} {r : Scanner × ScanOp}
    (hp : s.Plain r) : s.Effect c r := by
  obtain ⟨hps, het, hfn, hop⟩ := hp
  refine ⟨?_, fun h1 => absurd h1 hfn, fun h1 => ?_⟩
  · rcases hop with h | h | h | h | h <;> rw [h] <;> simp [StackEffect, hps]
  · rw [het] at h1
    exact absurd h1 (by simp)

theorem Scanner.error_plain (s : Scanner) (c : Nat) (hE : s.endTop = false) :
    s.Plain (s.error c) := by
  simp [Scanner.Plain, Scanner.error, hE]

theorem Scanner.expect_plain (s : Scanner) (c want : Nat) (next : StepFn)
    (hE : s.endTop = false) (hn : next ≠ .stateBeginStringOrEmpty) :
    s.Plain (s.expect c want next) := by
  unfold Scanner.expect
  split
  · exact ⟨rfl, hE, hn, Or.inl rfl⟩
  · exact Scanner.error_plain s c hE

theorem Scanner.stateESign_plain (s : Scanner) (c : Nat) (hE : s.endTop = false) :
    s.Plain (s.stateESign c) := by
  unfold Scanner.stateESign
  split
  · exact ⟨rfl, hE, by simp, Or.inl rfl⟩
  · exact Scanner.error_plain s c hE

theorem Scanner.stateBeginString_effect (s : Scanner) (c : Nat) (h : s.Coherent)
    (hE : s.endTop = false) : s.Effect c (s.stateBeginString c) := by
  unfold Scanner.stateBeginString
  split_ifs
  · exact ⟨rfl, h⟩
  · exact Scanner.Plain.effect ⟨rfl, hE, by simp, by simp⟩
  · exact Scanner.Plain.effect (Scanner.error_plain s c hE)

theorem Scanner.stateBeginValue_effect (s : Scanner) (c : Nat) (hE : s.endTop = false)
    (hfn : s.stepFn ≠ .stateBeginStringOrEmpty) :
    s.Effect c (s.stateBeginValue c) := by
  unfold Scanner.stateBeginValue
  by_cases h0 : isSpace c = true
  · rw [if_pos h0]
    exact Scanner.Plain.effect ⟨rfl, hE, hfn, by simp⟩
  rw [if_neg h0]
  by_cases h1 : c = 123
  · rw [if_pos h1]
    refine ⟨⟨h1, rfl⟩, fun _ => ⟨_, rfl⟩, fun h1 => ?_⟩
    exact absurd (hE ▸ h1 : false = true) (by simp)
  rw [if_neg h1]
  by_cases h2 : c = 91
  · rw [if_pos h2]
    refine ⟨⟨h2, rfl⟩, fun h1 => absurd h1 (by simp), fun h1 => ?_⟩
    exact absurd (hE ▸ h1 : false = true) (by simp)
  rw [if_neg h2]
  by_cases h3 : c = 34
  · rw [if_pos h3]
    exact Scanner.Plain.effect ⟨rfl, hE, by simp, by simp⟩
  rw [if_neg h3]
  by_cases h4 : c = 45
  · rw [if_pos h4]
    exact Scanner.Plain.effect ⟨rfl, hE, by simp, by simp⟩
  rw [if_neg h4]
  by_cases h5 : c = 48
  · rw [if_pos h5]
    exact Scanner.Plain.effect ⟨rfl, hE, by simp, by simp⟩
  rw [if_neg h5]
  by_cases h6 : c = 116
  · rw [if_pos h6]
    exact Scanner.Plain.effect ⟨rfl, hE, by simp, by simp⟩
  rw [if_neg h6]
  by_cases h7 : c = 102
  · rw [if_pos h7]
    exact Scanner.Plain.effect ⟨rfl, hE, by simp, by simp⟩
  rw [if_neg h7]
  by_cases h8 : c = 110
  · rw [if_pos h8]
    exact Scanner.Plain.effect ⟨rfl, hE, by simp, by simp⟩
  rw [if_neg h8]
  by_cases h9 : 49 ≤ c ∧ c ≤ 57
  · rw [if_pos h9]
    exact Scanner.Plain.effect ⟨rfl, hE, by simp, by simp⟩
  rw [if_neg h9]
  exact Scanner.Plain.effect (Scanner.error_plain s c hE)

theorem Scanner.state0_effect (s : Scanner) (c : Nat) (hE : s.endTop = false) :
    s.Effect c (s.state0 c) := by
  unfold Scanner.state0
  split_ifs
  · exact Scanner.Plain.effect ⟨rfl, hE, by simp, by simp⟩
  · exact Scanner.Plain.effect ⟨rfl, hE, by simp, by simp⟩
  · exact Scanner.stateEndValue_effect s c hE

/-- Every step from a coherent state whose end flag is unset acts on the stack as its
operation says and leaves a coherent state. -/
theorem Scanner.step_effect_running (s : Scanner) (c : Nat) (h : s.Coherent)
    (hE : s.endTop = false) : s.Effect c (s.step c) := by
  obtain ⟨fn, ps, err, et⟩ := s
  simp only at hE
  cases fn <;> unfold Scanner.step <;> dsimp only
  case stateBeginValueOrEmpty =>
    by_cases h0 : isSpace c = true
    · rw [if_pos h0]
      exact ⟨rfl, h⟩
    rw [if_neg h0]
    by_cases h1 : c = 93
    · rw [if_pos h1]
      exact Scanner.stateEndValue_effect _ c hE
    rw [if_neg h1]
    exact Scanner.stateBeginValue_effect _ c hE (by simp)
  case stateBeginValue =>
    exact Scanner.stateBeginValue_effect _ c hE (by simp)
  case stateBeginStringOrEmpty =>
    by_cases h0 : isSpace c = true
    · rw [if_pos h0]
      exact ⟨rfl, h⟩
    rw [if_neg h0]
    by_cases h1 : c = 125
    · rw [if_pos h1]
      obtain ⟨rest, hrest⟩ := h.1 rfl
      simp only at hrest
      subst hrest
      subst h1
      cases rest <;> simp [Scanner.stateEndValue, Scanner.popParseState, isSpace, Scanner.Effect,
        StackEffect, Scanner.Coherent, hE]
    rw [if_neg h1]
    exact Scanner.stateBeginString_effect _ c h hE
  case stateBeginString =>
    exact Scanner.stateBeginString_effect _ c h hE
  case stateEndValue =>
    exact Scanner.stateEndValue_effect _ c hE
  case stateEndTop =>
    unfold Scanner.stateEndTop
    split
    · exact Scanner.Plain.effect ⟨rfl, hE, by simp [Scanner.error], by simp⟩
    · exact Scanner.Plain.effect ⟨rfl, hE, by simp, by simp⟩
  case stateInString =>
    by_cases h0 : c = 34
    · rw [if_pos h0]
      exact Scanner.Plain.effect ⟨rfl, hE, by simp, by simp⟩
    rw [if_neg h0]
    by_cases h1 : c = 92
    · rw [if_pos h1]
      exact Scanner.Plain.effect ⟨rfl, hE, by simp, by simp⟩
    rw [if_neg h1]
    by_cases h2 : c < 32
    · rw [if_pos h2]
      exact Scanner.Plain.effect (Scanner.error_plain _ c hE)
    rw [if_neg h2]
    exact Scanner.Plain.effect ⟨rfl, hE, by simp, by simp⟩
  case stateInStringEsc =>
    by_cases h0 : c = 98 ∨ c = 102 ∨ c = 110 ∨ c = 114 ∨ c = 116 ∨ c = 92 ∨ c = 47 ∨ c = 34
    · rw [if_pos h0]
      exact Scanner.Plain.effect ⟨rfl, hE, by simp, by simp⟩
    rw [if_neg h0]
    by_cases h1 : c = 117
    · rw [if_pos h1]
      exact Scanner.Plain.effect ⟨rfl, hE, by simp, by simp⟩
    rw [if_neg h1]
    exact Scanner.Plain.effect (Scanner.error_plain _ c hE)
  case stateInStringEscU =>
    by_cases h0 : isHex c = true
    · rw [if_pos h0]
      exact Scanner.Plain.effect ⟨rfl, hE, by simp, by simp⟩
    rw [if_neg h0]
    exact Scanner.Plain.effect (Scanner.error_plain _ c hE)
  case stateInStringEscU1 =>
    by_cases h0 : isHex c = true
    · rw [if_pos h0]
      exact Scanner.Plain.effect ⟨rfl, hE, by simp, by simp⟩
    rw [if_neg h0]
    exact Scanner.Plain.effect (Scanner.error_plain _ c hE)
  case stateInStringEscU12 =>
    by_cases h0 : isHex c = true
    · rw [if_pos h0]
      exact Scanner.Plain.effect ⟨rfl, hE, by simp, by simp⟩
    rw [if_neg h0]
    exact Scanner.Plain.effect (Scanner.error_plain _ c hE)
  case stateInStringEscU123 =>
    by_cases h0 : isHex c = true
    · rw [if_pos h0]
      exact Scanner.Plain.effect ⟨rfl, hE, by simp, by simp⟩
    rw [if_neg h0]
    exact Scanner.Plain.effect (Scanner.error_plain _ c hE)
  case stateNeg =>
    by_cases h0 : c = 48
    · rw [if_pos h0]
      exact Scanner.Plain.effect ⟨rfl, hE, by simp, by simp⟩
    rw [if_neg h0]
    by_cases h1 : 49 ≤ c ∧ c ≤ 57
    · rw [if_pos h1]
      exact Scanner.Plain.effect ⟨rfl, hE, by simp, by simp⟩
    rw [if_neg h1]
    exact Scanner.Plain.effect (Scanner.error_plain _ c hE)
  case state1 =>
    by_cases h0 : isDigit c = true
    · rw [if_pos h0]
      exact Scanner.Plain.effect ⟨rfl, hE, by simp, by simp⟩
    rw [if_neg h0]
    exact Scanner.state0_effect _ c hE
  case state0 =>
    exact Scanner.state0_effect _ c hE
  case stateDot =>
    by_cases h0 : isDigit c = true
    · rw [if_pos h0]
      exact Scanner.Plain.effect ⟨rfl, hE, by simp, by simp⟩
    rw [if_neg h0]
    exact Scanner.Plain.effect (Scanner.error_plain _ c hE)
  case stateDot0 =>
    by_cases h0 : isDigit c = true
    · rw [if_pos h0]
      exact Scanner.Plain.effect ⟨rfl, hE, by simp, by simp⟩
    rw [if_neg h0]
    by_cases h1 : c = 101 ∨ c = 69
    · rw [if_pos h1]
      exact Scanner.Plain.effect ⟨rfl, hE, by simp, by simp⟩
    rw [if_neg h1]
    exact Scanner.stateEndValue_effect _ c hE
  case stateE =>
    by_cases h0 : c = 43 ∨ c = 45
    · rw [if_pos h0]
      exact Scanner.Plain.effect ⟨rfl, hE, by simp, by simp⟩
    rw [if_neg h0]
    exact Scanner.Plain.effect (Scanner.stateESign_plain _ c hE)
  case stateESign =>
    exact Scanner.Plain.effect (Scanner.stateESign_plain _ c hE)
  case stateE0 =>
    by_cases h0 : isDigit c = true
    · rw [if_pos h0]
      exact Scanner.Plain.effect ⟨rfl, hE, by simp, by simp⟩
    rw [if_neg h0]
    exact Scanner.stateEndValue_effect _ c hE
  case stateError =>
    exact Scanner.Plain.effect ⟨rfl, hE, by simp, by simp⟩
  case stateT =>
    exact Scanner.Plain.effect (Scanner.expect_plain _ c _ _ hE (by simp))
  case stateTr =>
    exact Scanner.Plain.effect (Scanner.expect_plain _ c _ _ hE (by simp))
  case stateTru =>
    exact Scanner.Plain.effect (Scanner.expect_plain _ c _ _ hE (by simp))
  case stateF =>
    exact Scanner.Plain.effect (Scanner.expect_plain _ c _ _ hE (by simp))
  case stateFa =>
    exact Scanner.Plain.effect (Scanner.expect_plain _ c _ _ hE (by simp))
  case stateFal =>
    exact Scanner.Plain.effect (Scanner.expect_plain _ c _ _ hE (by simp))
  case stateFals =>
    exact Scanner.Plain.effect (Scanner.expect_plain _ c _ _ hE (by simp))
  case stateN =>
    exact Scanner.Plain.effect (Scanner.expect_plain _ c _ _ hE (by simp))
  case stateNu =>
    exact Scanner.Plain.effect (Scanner.expect_plain _ c _ _ hE (by simp))
  case stateNul =>
    exact Scanner.Plain.effect (Scanner.expect_plain _ c _ _ hE (by simp))

/-- Every step from a coherent state acts on the stack as its operation says and leaves a
coherent state. -/
theorem Scanner.step_effect (s : Scanner) (c : Nat) (h : s.Coherent) : s.Effect c (s.step c) := by
  cases hE : s.endTop with
  | false => exact Scanner.step_effect_running s c h hE
  | true =>
    obtain ⟨hps, hfn⟩ := h.2 hE
    obtain ⟨fn, ps, err, et⟩ := s
    simp only at hE hps hfn
    subst hE hps
    rcases hfn with hfn | hfn <;> subst hfn
    · unfold Scanner.step Scanner.stateEndTop Scanner.error
      dsimp only
      split <;> simp [Scanner.Effect, StackEffect, Scanner.Coherent]
    · unfold Scanner.step
      simp [Scanner.Effect, StackEffect, Scanner.Coherent]

theorem closerOf_cases (opn : ScanOp) :
    (opn = scanBeginArray ∧ closerOf opn = scanEndArray ∧ closerByte opn = 93)
      ∨ (opn ≠ scanBeginArray ∧ closerOf opn = scanEndObject ∧ closerByte opn = 125) := by
  cases opn <;> simp [closerOf, closerByte]

/-- The loop of `stepUntil` run on a coherent scanner whose stack is `extra ++ t :: ps0`, with
`depth` the number of containers opened since the one to skip: when the bytes left contain
the byte at which the stack falls back to `ps0`, the loop returns the index just past that
byte and a nil error. -/
theorem stepUntil_loop (input : List Nat) (ps0 : List ParseState) (opn : ScanOp)
    (j : Nat) (sc1 : Scanner) :
    ∀ (l : List Nat) (i : Nat) (sc : Scanner) (extra : List ParseState) (t : ParseState)
      (fuel : Nat), input.drop i = l → l.length < fuel → sc.Coherent →
      sc.parseState = extra ++ t :: ps0 →
      (t = parseArrayValue ↔ opn = scanBeginArray) →
      closingIndex (ps0.length + 1) sc l i = some (j, sc1) →
      forLoop input (stepUntilBody (closerOf opn))
          (fun i st => .ok (st.sc.eof.1, i, st.sc.eof.1.errValue)) fuel i
          { sc := sc, depth := (extra.length : Int) }
        = .ok (sc1, j + 1, none)
        ∧ i ≤ j ∧ input[j]? = some (closerByte opn) ∧ sc1.parseState = ps0 := by
  intro l
  induction l with
  | nil =>
    intro i sc extra t fuel _ _ _ _ _ hclose
    simp [closingIndex] at hclose
  | cons c rest ih =>
    intro i sc extra t fuel hd hf hcoh hstack hkind hclose
    obtain ⟨hc, hrest⟩ := getElem?_of_drop hd
    cases fuel with
    | zero => simp at hf
    | succ n =>
      have hn : rest.length < n := by simpa using hf
      have eff := Scanner.step_effect sc c hcoh
      rw [closingIndex] at hclose
      rw [forLoop, hc]
      simp only [stepUntilBody]
      generalize hr : sc.step c = r at eff hclose
      obtain ⟨s1, op⟩ := r
      obtain ⟨hse, hcoh1⟩ := eff
      simp only at hse hcoh1 hclose
      rw [hstack] at hse
      -- the loop goes on with the stack `extra1 ++ t1 :: ps0` and the depth `dep`
      have hgo : ∀ (extra1 : List ParseState) (t1 : ParseState) (dep : Int),
          dep = (extra1.length : Int) → s1.parseState = extra1 ++ t1 :: ps0 →
          (t1 = parseArrayValue ↔ opn = scanBeginArray) → op ≠ scanError →
          forLoop input (stepUntilBody (closerOf opn))
              (fun i st => .ok (st.sc.eof.1, i, st.sc.eof.1.errValue)) n (i + 1)
              { sc := s1, depth := dep }
            = .ok (sc1, j + 1, none)
            ∧ i ≤ j ∧ input[j]? = some (closerByte opn) ∧ sc1.parseState = ps0 := by
        intro extra1 t1 dep hdep h1 hk1 hne
        rw [if_neg hne, h1, if_neg (by simp only [List.length_append, List.length_cons]; omega)]
          at hclose
        have := ih (i + 1) s1 extra1 t1 n hrest hn hcoh1 h1 hk1 hclose
        rw [hdep]
        exact ⟨this.1, by omega, this.2.2⟩
      have hcl := closerOf_cases opn
      have hnb : ∀ o : ScanOp, o ≠ scanEndArray → o ≠ scanEndObject →
          ¬ (((extra.length : Int) = 0) ∧ o = closerOf opn) := by
        rintro o h1 h2 ⟨-, h⟩
        rcases hcl with ⟨-, h3, -⟩ | ⟨-, h3, -⟩
        · exact h1 (h.trans h3)
        · exact h2 (h.trans h3)
      cases op <;> try dsimp only
      case scanError => simp at hclose
      case scanContinue => exact hgo extra t _ rfl hse hkind (by simp)
      case scanSkipSpace => exact hgo extra t _ rfl hse hkind (by simp)
      case scanBeginLiteral =>
        rw [if_neg (hnb _ (by simp) (by simp))]
        exact hgo extra t _ rfl hse hkind (by simp)
      case scanArrayValue =>
        rw [if_neg (hnb _ (by simp) (by simp))]
        exact hgo extra t _ rfl hse hkind (by simp)
      case scanEnd =>
        rw [if_neg (hnb _ (by simp) (by simp))]
        exact hgo extra t _ rfl hse hkind (by simp)
      case scanBeginObject =>
        rw [if_neg (hnb _ (by simp) (by simp))]
        exact hgo (parseObjectKey :: extra) t _ (by simp) (by simpa using hse.2) hkind (by simp)
      case scanBeginArray =>
        rw [if_neg (hnb _ (by simp) (by simp))]
        exact hgo (parseArrayValue :: extra) t _ (by simp) (by simpa using hse.2) hkind (by simp)
      case scanObjectKey =>
        rw [if_neg (hnb _ (by simp) (by simp))]
        obtain ⟨rest1, h1, h2⟩ := hse
        cases extra with
        | nil =>
          simp only [List.nil_append, List.cons.injEq] at h1
          obtain ⟨rfl, rfl⟩ := h1
          exact hgo [] parseObjectValue _ rfl (by simpa using h2)
            (by simpa using hkind) (by simp)
        | cons x extra1 =>
          simp only [List.cons_append, List.cons.injEq] at h1
          obtain ⟨rfl, rfl⟩ := h1
          exact hgo (parseObjectValue :: extra1) t _ (by simp) (by simpa using h2) hkind (by simp)
      case scanObjectValue =>
        rw [if_neg (hnb _ (by simp) (by simp))]
        obtain ⟨rest1, h1, h2⟩ := hse
        cases extra with
        | nil =>
          simp only [List.nil_append, List.cons.injEq] at h1
          obtain ⟨rfl, rfl⟩ := h1
          exact hgo [] parseObjectKey _ rfl (by simpa using h2)
            (by simpa using hkind) (by simp)
        | cons x extra1 =>
          simp only [List.cons_append, List.cons.injEq] at h1
          obtain ⟨rfl, rfl⟩ := h1
          exact hgo (parseObjectKey :: extra1) t _ (by simp) (by simpa using h2) hkind (by simp)
      case scanEndArray =>
        obtain ⟨hc93, h1⟩ := hse
        cases extra with
        | nil =>
          simp only [List.nil_append, List.cons.injEq] at h1
          obtain ⟨rfl, rfl⟩ := h1
          have hopn : opn = scanBeginArray := hkind.mp rfl
          subst hopn
          simp only [if_neg (show ¬ scanEndArray = scanError by simp),
            if_pos (Nat.lt_succ_self _), Option.some.injEq, Prod.mk.injEq] at hclose
          obtain ⟨rfl, rfl⟩ := hclose
          simp [closerOf, closerByte, hc, hc93]
        | cons x extra1 =>
          simp only [List.cons_append, List.cons.injEq] at h1
          obtain ⟨rfl, h1⟩ := h1
          rw [if_neg (by simp only [List.length_cons]; push_cast; omega)]
          exact hgo extra1 t _ (by simp) h1.symm hkind (by simp)
      case scanEndObject =>
        obtain ⟨hc125, h1⟩ := hse
        cases extra with
        | nil =>
          simp only [List.nil_append, List.cons.injEq] at h1
          have ht : t ≠ parseArrayValue := by
            rcases h1 with ⟨h, -⟩ | ⟨h, -⟩ <;> rw [h] <;> simp
          have hps : ps0 = s1.parseState := by
            rcases h1 with ⟨-, h⟩ | ⟨-, h⟩ <;> exact h
          have hopn : opn ≠ scanBeginArray := fun h => ht (hkind.mpr h)
          rcases hcl with ⟨h, -, -⟩ | ⟨-, hco, hcb⟩
          · exact absurd h hopn
          · rw [hps] at hclose
            simp only [if_neg (show ¬ scanEndObject = scanError by simp),
              if_pos (Nat.lt_succ_self _), Option.some.injEq, Prod.mk.injEq] at hclose
            obtain ⟨rfl, rfl⟩ := hclose
            simp [hco, hcb, hc, hc125, hps]
        | cons x extra1 =>
          simp only [List.cons_append, List.cons.injEq] at h1
          have h2 : extra1 ++ t :: ps0 = s1.parseState := by
            rcases h1 with ⟨-, h⟩ | ⟨-, h⟩ <;> exact h
          rw [if_neg (by simp only [List.length_cons]; push_cast; omega)]
          exact hgo extra1 t _ (by simp) h2.symm hkind (by simp)

theorem Scanner.reset_coherent : Scanner.reset.Coherent := by
  simp [Scanner.Coherent, Scanner.reset]

/-- The scanner stays coherent along the bytes it accepts. -/
theorem scanAll_coherent : ∀ (l : List Nat) (sc scEnd : Scanner), sc.Coherent →
    scanAll sc l = some scEnd → scEnd.Coherent := by
  intro l
  induction l with
  | nil =>
    intro sc scEnd h he
    simp only [scanAll, Option.some.injEq] at he
    exact he ▸ h
  | cons c rest ih =>
    intro sc scEnd h he
    rw [scanAll] at he
    split at he
    · simp at he
    · exact ih _ _ (Scanner.step_effect sc c h).2 he

theorem scanAll_append : ∀ (l1 l2 : List Nat) (sc : Scanner),
    scanAll sc (l1 ++ l2) = (scanAll sc l1).bind (fun s => scanAll s l2) := by
  intro l1
  induction l1 with
  | nil => intro l2 sc; simp [scanAll]
  | cons c rest ih =>
    intro l2 sc
    simp only [List.cons_append, scanAll]
    split
    · rfl
    · exact ih l2 _

/-- When `eof` does not report an error on a coherent scanner, no container is open. -/
theorem Scanner.eof_ok_stack (s : Scanner) (h : s.Coherent) (hne : s.eof.2 ≠ scanError) :
    s.parseState = [] := by
  unfold Scanner.eof at hne
  split at hne
  · exact absurd rfl hne
  · split at hne
    · rename_i het
      exact (h.2 het).1
    · have eff := Scanner.step_effect s 32 h
      generalize s.step 32 = r at eff hne
      obtain ⟨s1, op⟩ := r
      obtain ⟨hse, hcoh1⟩ := eff
      simp only at hne hse hcoh1
      split at hne
      · rename_i het
        have h1 := (hcoh1.2 het).1
        rw [h1] at hse
        cases op <;> simp [StackEffect] at hse <;> first | exact hse.symm | exact hse
      · split at hne <;> exact absurd rfl hne

/-- When the scanner accepts bytes that bring the stack below the height `base`, one of
them is the closing byte. -/
theorem closingIndex_of_scanAll (base : Nat) : ∀ (l : List Nat) (sc scEnd : Scanner) (i : Nat),
    scanAll sc l = some scEnd → scEnd.parseState.length < base →
    base ≤ sc.parseState.length → ∃ j sc1, closingIndex base sc l i = some (j, sc1) := by
  intro l
  induction l with
  | nil =>
    intro sc scEnd i he h1 h2
    simp only [scanAll, Option.some.injEq] at he
    subst he
    omega
  | cons c rest ih =>
    intro sc scEnd i he h1 h2
    rw [scanAll] at he
    rw [closingIndex]
    split at he
    · simp at he
    · rename_i hne
      rw [if_neg hne]
      by_cases hlt : (sc.step c).1.parseState.length < base
      · rw [if_pos hlt]
        exact ⟨_, _, rfl⟩
      · rw [if_neg hlt]
        exact ih _ _ _ he h1 (by omega)

/-- C28: `stepUntil` skips a whole nested container.  In a well-formed document whose byte
at index `i` has just been consumed as the opening bracket of an array (resp. brace of an
object), the scanner being the one that read the bytes before it, the bytes that follow
contain the byte `]` (resp. `\x7d`) at which the scanner's stack falls back to what it
was before the opening byte, at an index `j`; `stepUntil` started at `i + 1` with
`scanEndArray` (resp. `scanEndObject`) returns `j + 1` with a nil error and the scanner that
read the bytes up to `j`, whatever is nested in between: no closing operation met before `j`
ends the skip. -/
theorem stepUntil_skips_container (input : List Nat) (i : Nat) (sc0 : Scanner) (c : Nat)
    (hwf : wellFormed input = true)
    (hpre : scanAll Scanner.reset (input.take i) = some sc0)
    (hc : input[i]? = some c)
    (hop : (sc0.step c).2 = scanBeginArray ∨ (sc0.step c).2 = scanBeginObject) :
    ∃ j sc1,
      closingIndex (sc0.parseState.length + 1) (sc0.step c).1 (input.drop (i + 1)) (i + 1)
          = some (j, sc1)
        ∧ stepUntil (sc0.step c).1 input (i + 1) (closerOf (sc0.step c).2)
            = .ok (sc1, j + 1, none)
        ∧ i < j ∧ input[j]? = some (closerByte (sc0.step c).2)
        ∧ sc1.parseState = sc0.parseState := by
  have hsplit : input = input.take i ++ c :: input.drop (i + 1) := by
    have hi : i < input.length := (List.getElem?_eq_some_iff.mp hc).1
    have hci : input[i] = c := (List.getElem?_eq_some_iff.mp hc).2
    rw [← hci, ← List.drop_eq_getElem_cons hi, List.take_append_drop]
  unfold wellFormed at hwf
  cases hall : scanAll Scanner.reset input with
  | none => rw [hall] at hwf; simp at hwf
  | some scEnd =>
    rw [hall] at hwf
    have hne : scEnd.eof.2 ≠ scanError := by simpa using hwf
    rw [hsplit, scanAll_append, hpre] at hall
    simp only [Option.bind, scanAll] at hall
    have hcoh0 : sc0.Coherent := scanAll_coherent _ _ _ Scanner.reset_coherent hpre
    have eff := Scanner.step_effect sc0 c hcoh0
    split at hall
    · simp at hall
    · have hend : scEnd.parseState = [] :=
        Scanner.eof_ok_stack scEnd (scanAll_coherent _ _ _ eff.2 hall) hne
      have hstack : ∃ t, (sc0.step c).1.parseState = [] ++ t :: sc0.parseState
          ∧ (t = parseArrayValue ↔ (sc0.step c).2 = scanBeginArray) := by
        have hse := eff.1
        rcases hop with h | h <;> rw [h] at hse ⊢
        · exact ⟨parseArrayValue, hse.2, by simp⟩
        · exact ⟨parseObjectKey, hse.2, by simp⟩
      obtain ⟨t, hst, hkind⟩ := hstack
      obtain ⟨j, sc1, hclose⟩ := closingIndex_of_scanAll (sc0.parseState.length + 1)
        (input.drop (i + 1)) (sc0.step c).1 scEnd (i + 1) hall (by rw [hend]; simp)
        (by rw [hst]; simp)
      have hloop := stepUntil_loop input sc0.parseState (sc0.step c).2 j sc1
        (input.drop (i + 1)) (i + 1) (sc0.step c).1 [] t (input.length + 1) rfl
        (by rw [List.length_drop]; omega) eff.2 hst hkind hclose
      exact ⟨j, sc1, hclose, hloop.1, hloop.2.1, hloop.2.2⟩

/-- C28, witness: in the document `\x7b"a":\x7b"b":[\x7b\x7d,"\x7d"]\x7d,"c":1\x7d` the inner
object opens at index 5; its closing brace is the byte at index 18, after a nested array, a
nested empty object and a brace inside a string, and `stepUntil` returns 19. -/
theorem stepUntil_skips_container_witness :
    wellFormed nestedObjectText = true
      ∧ scanAll Scanner.reset (nestedObjectText.take 5) = some scannerAfterParametersKey
      ∧ nestedObjectText[5]? = some 123
      ∧ (scannerAfterParametersKey.step 123).2 = scanBeginObject
      ∧ (stepUntil (scannerAfterParametersKey.step 123).1 nestedObjectText 6 scanEndObject).bind
          (fun r => .ok (r.2.1, r.2.2)) = .ok (19, none)
      ∧ ∃ j sc1,
          closingIndex (scannerAfterParametersKey.parseState.length + 1)
              (scannerAfterParametersKey.step 123).1 (nestedObjectText.drop (5 + 1)) (5 + 1)
            = some (j, sc1)
          ∧ stepUntil (scannerAfterParametersKey.step 123).1 nestedObjectText (5 + 1)
              (closerOf (scannerAfterParametersKey.step 123).2) = .ok (sc1, j + 1, none)
          ∧ 5 < j ∧ nestedObjectText[j]? = some (closerByte (scannerAfterParametersKey.step 123).2)
          ∧ sc1.parseState = scannerAfterParametersKey.parseState :=
  ⟨by decide, by decide, by decide, by decide, by decide,
    stepUntil_skips_container nestedObjectText 5 scannerAfterParametersKey 123 (by decide)
      (by decide) (by decide) (Or.inr (by decide))⟩

/-- `stepUntil` returns an index that is at least its start index, and at most `len(input)`
when the start index is. -/
theorem stepUntil_sat (scanner : Scanner) (input : List Nat) (i : Nat) (until_ : ScanOp) :
    Res.Sat (fun r => i ≤ r.2.1 ∧ (i ≤ input.length → r.2.1 ≤ input.length))
      (stepUntil scanner input i until_) := by
  unfold stepUntil
  apply forLoop_sat input _ _
    (fun (j : Nat) (_ : UntilState) => i ≤ j ∧ (i ≤ input.length → j ≤ input.length))
    (fun (r : Scanner × Nat × Option Err) => i ≤ r.2.1 ∧ (i ≤ input.length → r.2.1 ≤ input.length))
  · intro j c st hc hinv
    have hj : j < input.length := (List.getElem?_eq_some_iff.mp hc).1
    unfold stepUntilBody
    generalize st.sc.step c = r1
    obtain ⟨s1, op⟩ := r1
    have hnext : j < j + 1 ∧ i ≤ j + 1 ∧ (i ≤ input.length → j + 1 ≤ input.length) :=
      ⟨by omega, by omega, fun _ => by omega⟩
    have hret : i ≤ j + 1 ∧ (i ≤ input.length → j + 1 ≤ input.length) := hnext.2
    cases op <;> dsimp only
    case scanError => exact hret
    case scanContinue => exact hnext
    case scanSkipSpace => exact hnext
    all_goals
      split
      · exact hret
      · exact hnext
  · intro j st hjl hinv
    exact hinv
  · omega
  · exact ⟨le_refl _, fun h => h⟩

/-- The field visitor of `obfuscateAppSecParameter` records value ranges only. -/
theorem paramVisit_sat (input : List Nat) (i : Nat) (kf kt vf : Int) (vt e : Nat)
    (a : ParamFields)
    (ha : CapturedRange i e a.hfrom a.hto ∧ CapturedRange i e a.vfrom a.vto)
    (hie : i ≤ e) (hev : e ≤ vt)
    (hvf : vf = -1 ∨ ((e : Int) < vf ∧ vf ≤ (vt : Int))) :
    Res.Sat (fun a1 => CapturedRange i (vt + 1) a1.hfrom a1.hto
        ∧ CapturedRange i (vt + 1) a1.vfrom a1.vto)
      (paramVisit input kf kt vf vt a) := by
  have hmono : ∀ lo hi : Int, CapturedRange i e lo hi → CapturedRange i (vt + 1) lo hi := by
    intro lo hi h
    rcases h with h | ⟨h1, h2, h3⟩
    · exact Or.inl h
    · exact Or.inr ⟨h1, h2, by push_cast; omega⟩
  have hnew : CapturedRange i (vt + 1) vf vt := by
    refine Or.inr ⟨?_, ?_, by push_cast; omega⟩
    · rcases hvf with h | h
      · exact Or.inl h
      · exact Or.inr (by omega)
    · rcases hvf with h | h <;> omega
  unfold paramVisit
  simp only [bind, pure]
  apply Res.Sat_bind (slice_sat input kf kt (fun _ => True) (fun _ _ _ => trivial))
  intro k _
  split
  · apply Res.Sat_bind (slice_sat input vf vt (fun _ => True) (fun _ _ _ => trivial))
    intro v _
    exact ⟨hmono _ _ ha.1, hmono _ _ ha.2⟩
  · split
    · exact ⟨hmono _ _ ha.1, hnew⟩
    · split
      · exact ⟨hnew, hmono _ _ ha.2⟩
      · exact ⟨hmono _ _ ha.1, hmono _ _ ha.2⟩

/-- C30 (refuted on the code in its last part): whenever `obfuscateAppSecParameter`
returns, the field walk of the parameter object has returned some `w`, the index returned
is the one of the walk, and the buffer is, up to the order, the buffer before the call
followed by new edits each of which satisfies `hfrom <= from` and `to < hto` for the range
captured for `highlight`, or `vfrom <= from` and `to < vto` for the range captured for
`value`, and lies strictly between the start index and the byte that ends the object.  On
the parameter object `paramObjectText` the ranges are `[51, 61)` and `[70, 75)` and the
three edits replace the two highlight strings and the value only.  But bytes of an object
key are replaced: on `paramHighlightsEscaped`, whose highlight range is `[37, 54)`, the only
edit is `(38, 47, "?")`, which covers the first highlight string, the comma, the brace and
the key `"k"` at the bytes 45 to 47 of the object nested in the highlights. -/
theorem obfuscateAppSecParameter_confined (o : Obfuscator) (scanner : Scanner)
    (input : List Nat) (i : Nat) (d : Diff) :
    Res.Sat (fun r => ∃ w : WalkResult ParamFields,
        walkObject scanner input i (paramVisit input)
            { keypath := [], vfrom := 0, vto := 0, hfrom := 0, hto := 0 } = .ok w
          ∧ r.i = w.i
          ∧ ∃ new : List Edit, r.diff.Perm (d ++ new)
            ∧ ∀ e ∈ new,
              ((w.acc.hfrom ≤ e.from_ ∧ e.to_ < w.acc.hto)
                ∨ (w.acc.vfrom ≤ e.from_ ∧ e.to_ < w.acc.vto))
              ∧ (i : Int) < e.from_ ∧ e.to_ + 1 < (r.i : Int))
        (obfuscateAppSecParameter o scanner input i d)
      ∧ (walkObject Scanner.reset paramObjectText 0 (paramVisit paramObjectText)
            { keypath := [], vfrom := 0, vto := 0, hfrom := 0, hto := 0 }).bind
          (fun w => .ok (w.acc.hfrom, w.acc.hto, w.acc.vfrom, w.acc.vto, w.i))
          = .ok (51, 61, 70, 75, 76)
      ∧ (obfuscateAppSecParameter keyPassword Scanner.reset paramObjectText 0 []).bind
          (fun r => .ok (r.diff, r.i, r.err))
          = .ok ([Edit.mk 52 55 redacted, Edit.mk 57 59 redacted, Edit.mk 70 74 redacted],
              76, none)
      ∧ wellFormed paramHighlightsEscaped = true
      ∧ (walkObject Scanner.reset paramHighlightsEscaped 0 (paramVisit paramHighlightsEscaped)
            { keypath := [], vfrom := 0, vto := 0, hfrom := 0, hto := 0 }).bind
          (fun w => .ok (w.acc.hfrom, w.acc.hto, w.acc.vfrom, w.acc.vto, w.i))
          = .ok (37, 54, 0, 0, 55)
      ∧ (obfuscateAppSecParameter keyPassword Scanner.reset paramHighlightsEscaped 0 []).bind
          (fun r => .ok (r.diff, r.i, r.err)) = .ok ([Edit.mk 38 47 redacted], 55, none)
      ∧ slice paramHighlightsEscaped 45 48 = .ok (B "\"k\"")
      ∧ slice paramHighlightsEscaped 38 48 = .ok (B "\"a\\\\\",\x7b\"k\"") := by
  refine ⟨?_, by decide, by decide, by decide, by decide, by decide, by decide, by decide⟩
  have hwalk := walkObject_sat scanner input i (paramVisit input)
    { keypath := [], vfrom := 0, vto := 0, hfrom := 0, hto := 0 }
    (fun k a => CapturedRange i k a.hfrom a.hto ∧ CapturedRange i k a.vfrom a.vto)
    (by
      intro e k a hek ⟨h1, h2⟩
      have hmono : ∀ lo hi : Int, CapturedRange i e lo hi → CapturedRange i k lo hi := by
        intro lo hi h
        rcases h with h | ⟨h1, h2, h3⟩
        · exact Or.inl h
        · exact Or.inr ⟨h1, h2, by omega⟩
      exact ⟨hmono _ _ h1, hmono _ _ h2⟩)
    (by
      intro kf kt vf vt e a ha hie hev _ hvf _
      exact paramVisit_sat input i kf kt vf vt e a ha hie hev hvf)
    ⟨Or.inl ⟨rfl, rfl⟩, Or.inl ⟨rfl, rfl⟩⟩
  cases hw : walkObject scanner input i (paramVisit input)
      { keypath := [], vfrom := 0, vto := 0, hfrom := 0, hto := 0 } with
  | timeout => rw [hw] at hwalk; exact absurd hwalk (by simp [Res.Sat])
  | panic =>
    unfold obfuscateAppSecParameter
    simp only [bind]
    rw [hw]
    trivial
  | ok w =>
    rw [hw] at hwalk
    obtain ⟨-, -, hh, hv⟩ := hwalk
    apply Res.Sat_mono (obfuscateAppSecParameter_sat o scanner input i d w hw)
    intro r ⟨hri, new, hp, hn⟩
    refine ⟨w, rfl, hri, new, hp, ?_⟩
    intro e he
    rcases hn e he with ⟨⟨h0, hlt⟩, h1, h2⟩ | ⟨⟨h0, hlt⟩, h1, h2⟩
    · refine ⟨Or.inl ⟨h1, h2⟩, ?_⟩
      rcases hh with hz | ⟨ha, -, hc⟩
      · omega
      · rw [hri]
        constructor <;> omega
    · refine ⟨Or.inr ⟨h1, h2⟩, ?_⟩
      rcases hv with hz | ⟨ha, -, hc⟩
      · omega
      · rw [hri]
        constructor <;> omega

/-- `obfuscateAppSecParameter` returns an index that is at least its start index, and at
most `len(input)` when the start index is. -/
theorem obfuscateAppSecParameter_index_sat (o : Obfuscator) (scanner : Scanner)
    (input : List Nat) (i : Nat) (d : Diff) :
    Res.Sat (fun r => i ≤ r.i ∧ (i ≤ input.length → r.i ≤ input.length))
      (obfuscateAppSecParameter o scanner input i d) := by
  have hwalk := walkObject_sat scanner input i (paramVisit input)
    { keypath := [], vfrom := 0, vto := 0, hfrom := 0, hto := 0 } (fun _ _ => True)
    (fun _ _ _ _ _ => trivial)
    (by
      intro kf kt vf vt e a _ _ _ _ _ _
      unfold paramVisit
      simp only [bind, pure]
      apply Res.Sat_bind (slice_sat input kf kt (fun _ => True) (fun _ _ _ => trivial))
      intro k _
      split
      · exact Res.Sat_bind (slice_sat input vf vt (fun _ => True) (fun _ _ _ => trivial))
          (fun _ _ => trivial)
      · split
        · trivial
        · split <;> trivial)
    trivial
  cases hw : walkObject scanner input i (paramVisit input)
      { keypath := [], vfrom := 0, vto := 0, hfrom := 0, hto := 0 } with
  | timeout => rw [hw] at hwalk; exact absurd hwalk (by simp [Res.Sat])
  | panic =>
    unfold obfuscateAppSecParameter
    simp only [bind]
    rw [hw]
    trivial
  | ok w =>
    rw [hw] at hwalk
    apply Res.Sat_mono (obfuscateAppSecParameter_sat o scanner input i d w hw)
    intro r ⟨hri, _⟩
    rw [hri]
    exact ⟨hwalk.1, hwalk.2.1⟩

/-- The end of an iteration of the loop of `obfuscateAppSecParameters`, entered at an index
`i` that is at least the loop variable `j`: the loop goes on at a larger index, or returns
an index that is at least `i`. -/
theorem parametersNext_sat (input : List Nat) (sc : Scanner) (i j start : Nat) (diff : Diff)
    (hji : j ≤ i) (hs : start ≤ j) :
    Step.Sat j (fun (k : Nat) (_ : ParamsState) => start ≤ k)
      (fun (r : ParamsState × Nat) => start ≤ r.2) (parametersNext input sc i diff) := by
  unfold parametersNext
  obtain ⟨r, hr, hri, -⟩ := stepToOneOf_sat sc input i [scanArrayValue, scanEndArray]
  rw [hr]
  simp only [bind, pure, Res.bind_ok]
  split
  · show start ≤ r.i
    omega
  · exact ⟨by omega, by omega⟩

/-- Every iteration of the loop of `obfuscateAppSecParameters` goes on at a larger index or
returns an index that is at least the start index of the function. -/
theorem obfuscateAppSecParametersBody_sat (o : Obfuscator) (input : List Nat) (j c start : Nat)
    (st : ParamsState) (hs : start ≤ j) :
    Step.Sat j (fun (k : Nat) (_ : ParamsState) => start ≤ k)
      (fun (r : ParamsState × Nat) => start ≤ r.2)
      (obfuscateAppSecParametersBody o input j c st) := by
  unfold obfuscateAppSecParametersBody
  simp only [bind, pure]
  apply Step.Sat_of_bind (obfuscateAppSecParameter_index_sat o st.sc input j st.diff)
  intro p ⟨hp, _⟩
  have hret : ∀ s : ParamsState, Step.Sat j (fun (k : Nat) (_ : ParamsState) => start ≤ k)
      (fun (r : ParamsState × Nat) => start ≤ r.2) (Res.ok (Step.ret (s, p.i))) := by
    intro s
    show start ≤ p.i
    omega
  have huntil : ∀ until_ : ScanOp,
      Step.Sat j (fun (k : Nat) (_ : ParamsState) => start ≤ k)
        (fun (r : ParamsState × Nat) => start ≤ r.2)
        ((stepUntil p.sc input p.i until_).bind fun u =>
          if u.2.2.isSome = true then Res.ok (Step.ret ({ sc := u.1, diff := p.diff }, u.2.1))
          else parametersNext input u.1 u.2.1 p.diff) := by
    intro until_
    apply Step.Sat_of_bind (stepUntil_sat p.sc input p.i until_)
    intro u ⟨hu, _⟩
    split
    · show start ≤ u.2.1
      omega
    · exact parametersNext_sat input u.1 u.2.1 j start p.diff (by omega) hs
  split
  · exact parametersNext_sat input p.sc p.i j start p.diff hp hs
  · exact hret _
  · split
    · exact hret _
    · exact huntil _
    · exact huntil _
    · exact parametersNext_sat input p.sc p.i j start p.diff hp hs
    · exact hret _

/-- `obfuscateAppSecParameters` returns an index that is at least its start index. -/
theorem obfuscateAppSecParameters_sat (o : Obfuscator) (scanner : Scanner) (input : List Nat)
    (i : Nat) (diff : Diff) :
    Res.Sat (fun r => i ≤ r.2) (obfuscateAppSecParameters o scanner input i diff) := by
  unfold obfuscateAppSecParameters stepTo
  obtain ⟨r, hr, hri, -⟩ := stepToOneOf_sat scanner input i [scanBeginArray]
  rw [hr]
  simp only [bind, pure, Res.bind_ok]
  split
  · exact hri
  · apply forLoop_sat input _ _ (fun (k : Nat) (_ : ParamsState) => i ≤ k)
      (fun (r : ParamsState × Nat) => i ≤ r.2)
    · intro j c st _ hinv
      exact obfuscateAppSecParametersBody_sat o input j c i st hinv
    · intro j st _ hinv
      exact hinv
    · omega
    · exact hri

/-- Every iteration of the main loop of `obfuscateAppSec` goes on at a larger index or
leaves the function. -/
theorem obfuscateAppSecBody_sat (o : Obfuscator) (input : List Nat) (i c : Nat)
    (st : MainState) :
    Step.Sat i (fun (_ : Nat) (_ : MainState) => True)
      (fun (_ : List Nat × Option Err) => True) (obfuscateAppSecBody o input i c st) := by
  unfold obfuscateAppSecBody
  generalize st.sc.step c = r1
  obtain ⟨s1, op⟩ := r1
  have hnext : ∀ s : MainState, Step.Sat i (fun (_ : Nat) (_ : MainState) => True)
      (fun (_ : List Nat × Option Err) => True) (Res.ok (Step.next (i + 1) s)) :=
    fun _ => ⟨by omega, trivial⟩
  cases op <;> dsimp only
  case scanError => trivial
  case scanBeginLiteral => split <;> exact hnext _
  case scanContinue =>
    split
    · apply Step.Sat_of_bind (isJSONStringEnd_sat input i)
      intro e _
      split <;> exact hnext _
    · exact hnext _
  case scanObjectKey =>
    simp only [bind, pure]
    apply Step.Sat_of_bind (slice_sat input _ _ (fun _ => True) (fun _ _ _ => trivial))
    intro k _
    split
    · apply Step.Sat_of_bind (obfuscateAppSecParameters_sat o s1 input (i + 1) st.diff)
      intro p hp
      exact ⟨by omega, trivial⟩
    · exact hnext _
  all_goals exact hnext _

/-- The loops of `ObfuscateAppSec` end within their iteration budgets: the call returns or
panics. -/
theorem ObfuscateAppSec_sat (o : Obfuscator) (val : List Nat) :
    Res.Sat (fun _ => True) (ObfuscateAppSec o val) := by
  unfold ObfuscateAppSec
  split
  · trivial
  · simp only [bind, pure]
    refine Res.Sat_bind (P := fun _ => True) ?_ (fun r _ => by split <;> trivial)
    unfold obfuscateAppSec
    apply forLoop_sat val _ _ (fun (_ : Nat) (_ : MainState) => True)
      (fun (_ : List Nat × Option Err) => True)
    · intro i c st _ _
      exact obfuscateAppSecBody_sat o val i c st
    · intro i st _ _
      unfold obfuscateAppSecDone
      split
      · trivial
      · simp only [bind, pure]
        exact Res.Sat_bind (Diff.applyLoop_sat val st.diff 0 []) (fun _ _ => trivial)
    · omega
    · trivial

/-- C29: termination by strict progress, and where it stops short.  For every configuration
and input: each iteration of the main loop of `obfuscateAppSec` goes on at a strictly larger
index or leaves the loop, the iterations that call `obfuscateAppSecParameters` included;
`obfuscateAppSecParameters` returns an index at least its start index; `stepToOneOf`,
`stepUntil` and `obfuscateAppSecParameter` (which returns the index of `walkObject`) return
an index at least the start index and at most `len(input)` when the start index is;
`scanString` returns offsets within the input; and `ObfuscateAppSec` never exhausts the
iteration budget `len(input) + 1` of its loops.  Two parts of the property fail: on the 17
bytes `\x7b"parameters":[1,` the loop of `obfuscateAppSecParameters` started at 14 returns
18, which is more than `len(input)`; and on `\x7b"a\\":1\x7d` the call `ObfuscateAppSec`
panics instead of returning. -/
theorem ObfuscateAppSec_strict_progress (o : Obfuscator) (input : List Nat) :
    (∀ (i c : Nat) (st : MainState),
        Step.Sat i (fun (_ : Nat) (_ : MainState) => True)
          (fun (_ : List Nat × Option Err) => True) (obfuscateAppSecBody o input i c st))
      ∧ (∀ (scanner : Scanner) (i : Nat) (d : Diff),
          Res.Sat (fun r => i ≤ r.2) (obfuscateAppSecParameters o scanner input i d))
      ∧ (∀ (scanner : Scanner) (i : Nat) (targets : List ScanOp),
          ∃ r, stepToOneOf scanner input i targets = .ok r ∧ i ≤ r.i
            ∧ (i ≤ input.length → r.i ≤ input.length))
      ∧ (∀ (scanner : Scanner) (i : Nat) (until_ : ScanOp),
          Res.Sat (fun r => i ≤ r.2.1 ∧ (i ≤ input.length → r.2.1 ≤ input.length))
            (stepUntil scanner input i until_))
      ∧ (∀ (scanner : Scanner) (i : Nat) (d : Diff),
          Res.Sat (fun r => i ≤ r.i ∧ (i ≤ input.length → r.i ≤ input.length))
            (obfuscateAppSecParameter o scanner input i d))
      ∧ Res.Sat (fun r => r.2.2 = none → 0 ≤ r.1 ∧ r.2.1 ≤ (input.length : Int))
          (scanString input)
      ∧ ObfuscateAppSec o input ≠ .timeout
      ∧ docTruncatedAfterComma.length = 17
      ∧ (obfuscateAppSecParameters keyPassword scannerAfterParametersKey
            docTruncatedAfterComma 14 []).bind (fun r => .ok r.2) = .ok 18
      ∧ ObfuscateAppSec keyPassword docEscapedKey = .panic := by
  refine ⟨fun i c st => obfuscateAppSecBody_sat o input i c st,
    fun scanner i d => obfuscateAppSecParameters_sat o scanner input i d,
    fun scanner i targets => stepToOneOf_sat scanner input i targets,
    fun scanner i until_ => stepUntil_sat scanner input i until_,
    fun scanner i d => obfuscateAppSecParameter_index_sat o scanner input i d,
    scanString_sat input, ?_, by decide, by decide, by decide⟩
  have h := ObfuscateAppSec_sat o input
  intro ht
  rw [ht] at h
  exact h

/-! ## The main scan at a `parameters` key -/

theorem mainScan_succ {o : Obfuscator} {input : List Nat} {n i c j : Nat} {st st1 : MainState}
    (h : mainScan o input n = some (i, st)) (hc : input[i]? = some c)
    (hb : obfuscateAppSecBody o input i c st = .ok (.next j st1)) :
    mainScan o input (n + 1) = some (j, st1) := by
  rw [mainScan, h]
  simp only [hc, hb]

theorem reached_step {o : Obfuscator} {input : List Nat} {i c j : Nat} {st st1 : MainState}
    (h : Reached o input i st) (hc : input[i]? = some c)
    (hb : obfuscateAppSecBody o input i c st = .ok (.next j st1)) :
    Reached o input j st1 := by
  obtain ⟨n, hn⟩ := h
  exact ⟨n + 1, mainScan_succ hn hc hb⟩

/-- What `mainScan` does in one more iteration. -/
theorem mainScan_succ_inv {o : Obfuscator} {input : List Nat} {n j : Nat} {st1 : MainState}
    (h : mainScan o input (n + 1) = some (j, st1)) :
    ∃ i st c, mainScan o input n = some (i, st) ∧ input[i]? = some c
      ∧ obfuscateAppSecBody o input i c st = .ok (.next j st1) := by
  rw [mainScan] at h
  cases h0 : mainScan o input n with
  | none => rw [h0] at h; simp at h
  | some p =>
    obtain ⟨i, st⟩ := p
    rw [h0] at h
    simp only at h
    cases hc : input[i]? with
    | none => rw [hc] at h; simp at h
    | some c =>
      rw [hc] at h
      simp only at h
      cases hb : obfuscateAppSecBody o input i c st with
      | ok s =>
        rw [hb] at h
        cases s with
        | next j1 st2 =>
          simp only [Option.some.injEq, Prod.mk.injEq] at h
          obtain ⟨rfl, rfl⟩ := h
          exact ⟨i, st, c, rfl, hc, hb⟩
        | ret r => simp at h
      | panic => rw [hb] at h; simp at h
      | timeout => rw [hb] at h; simp at h

theorem obfuscateAppSecBody_next_lt {o : Obfuscator} {input : List Nat} {i c j : Nat}
    {st st1 : MainState} (hb : obfuscateAppSecBody o input i c st = .ok (.next j st1)) :
    i < j := by
  have h := obfuscateAppSecBody_sat o input i c st
  rw [hb] at h
  exact h.1

/-- The indices of the main scan increase strictly with the iterations. -/
theorem mainScan_lt {o : Obfuscator} {input : List Nat} :
    ∀ (k m : Nat) {i j : Nat} {st st1 : MainState}, mainScan o input m = some (i, st) →
      mainScan o input (m + k + 1) = some (j, st1) → i < j := by
  intro k
  induction k with
  | zero =>
    intro m i j st st1 h1 h2
    obtain ⟨i1, st2, c, h3, _, hb⟩ := mainScan_succ_inv h2
    rw [h1] at h3
    simp only [Option.some.injEq, Prod.mk.injEq] at h3
    obtain ⟨rfl, rfl⟩ := h3
    exact obfuscateAppSecBody_next_lt hb
  | succ k ih =>
    intro m i j st st1 h1 h2
    obtain ⟨i1, st2, c, h3, _, hb⟩ := mainScan_succ_inv h2
    have := ih m h1 h3
    have := obfuscateAppSecBody_next_lt hb
    omega

/-- The main scan is at one place at a time: between the index of an iteration and the
index of the next no index is the start of an iteration. -/
theorem reached_not_between {o : Obfuscator} {input : List Nat} {n i j : Nat}
    {st st1 : MainState} (h1 : mainScan o input n = some (i, st))
    (h2 : mainScan o input (n + 1) = some (j, st1)) (k : Nat) (st2 : MainState)
    (hk : Reached o input k st2) : k ≤ i ∨ j ≤ k := by
  obtain ⟨m, hm⟩ := hk
  rcases Nat.lt_trichotomy m n with h | h | h
  · left
    obtain ⟨d, rfl⟩ : ∃ d, n = m + d + 1 := ⟨n - m - 1, by omega⟩
    exact Nat.le_of_lt (mainScan_lt d m hm h1)
  · subst h
    rw [h1] at hm
    simp only [Option.some.injEq, Prod.mk.injEq] at hm
    left; omega
  · right
    rcases Nat.eq_or_lt_of_le (Nat.succ_le_of_lt h) with h3 | h3
    · have : m = n + 1 := by omega
      subst this
      rw [h2] at hm
      simp only [Option.some.injEq, Prod.mk.injEq] at hm
      omega
    · obtain ⟨d, rfl⟩ : ∃ d, m = (n + 1) + d + 1 := ⟨m - (n + 1) - 1, by omega⟩
      exact Nat.le_of_lt (mainScan_lt d (n + 1) h2 hm)

/-- The result of `obfuscateAppSec` is the result of its loop continued from any place the
main scan reaches. -/
theorem mainScan_forLoop {o : Obfuscator} {input : List Nat} :
    ∀ (n : Nat) {i : Nat} {st : MainState}, mainScan o input n = some (i, st) →
      n ≤ i ∧ (n ≤ input.length) ∧ ∀ f, forLoop input (obfuscateAppSecBody o input)
          (fun _ st => obfuscateAppSecDone input st) (f + n) 0
          { sc := Scanner.reset, diff := [], keyFrom := -1, keyTo := -1 }
        = forLoop input (obfuscateAppSecBody o input)
          (fun _ st => obfuscateAppSecDone input st) f i st := by
  intro n
  induction n with
  | zero =>
    intro i st h
    rw [mainScan] at h
    simp only [Option.some.injEq, Prod.mk.injEq] at h
    obtain ⟨rfl, rfl⟩ := h
    exact ⟨Nat.le_refl _, Nat.zero_le _, fun f => rfl⟩
  | succ n ih =>
    intro j st1 h
    obtain ⟨i, st, c, h0, hc, hb⟩ := mainScan_succ_inv h
    obtain ⟨h1, h2, h3⟩ := ih h0
    have hlt := obfuscateAppSecBody_next_lt hb
    have hi : i < input.length := (List.getElem?_eq_some_iff.mp hc).1
    refine ⟨by omega, by omega, fun f => ?_⟩
    have e : f + (n + 1) = (f + 1) + n := by omega
    rw [e, h3 (f + 1), forLoop]
    simp only [hc, hb]

theorem reached_result {o : Obfuscator} {input : List Nat} {i : Nat} {st : MainState}
    (h : Reached o input i st) :
    ∃ fuel, input.length - i < fuel ∧ forLoop input (obfuscateAppSecBody o input)
        (fun _ st => obfuscateAppSecDone input st) fuel i st = obfuscateAppSec o input := by
  obtain ⟨n, hn⟩ := h
  obtain ⟨h1, h2, h3⟩ := mainScan_forLoop n hn
  refine ⟨input.length + 1 - n, by omega, ?_⟩
  rw [← h3, obfuscateAppSec]
  congr 1
  omega

theorem reached_plain {o : Obfuscator} {input : List Nat} (st : MainState)
    (hs : st.sc.stepFn = .stateInString) :
    ∀ (k : List Nat) (i : Nat) (rest : List Nat), (∀ c ∈ k, plain c) →
      Reached o input i st → input.drop i = k ++ rest →
      Reached o input (i + k.length) st ∧ input.drop (i + k.length) = rest := by
  intro k
  induction k with
  | nil => intro i rest _ h hd; exact ⟨by simpa using h, by simpa using hd⟩
  | cons c k ih =>
    intro i rest hk h hd
    obtain ⟨h1, h2⟩ := getElem?_of_drop (by simpa using hd)
    have hb := obfuscateAppSecBody_plain o input st hs i c (hk c (by simp)) h1
    have h3 := ih (i + 1) rest (fun c' hc' => hk c' (by simp [hc'])) (reached_step h h1 hb) h2
    have e : i + (c :: k).length = i + 1 + k.length := by simp; omega
    rw [e]
    exact h3

theorem step_endValue_space (p : ParseState) (ps : List ParseState)
    (err : Option SyntaxError) (et : Bool) (c : Nat) (hc : isSpace c = true) :
    (Scanner.mk .stateEndValue (p :: ps) err et).step c
      = (Scanner.mk .stateEndValue (p :: ps) err et, scanSkipSpace) := by
  simp [Scanner.step, Scanner.stateEndValue, hc]

theorem reached_endValue_ws {o : Obfuscator} {input : List Nat} (p : ParseState)
    (ps : List ParseState) (err : Option SyntaxError) (et : Bool) (d : Diff) (kf kt : Int) :
    ∀ (w : List Nat) (i : Nat) (rest : List Nat), IsWs w →
      Reached o input i (MainState.mk (Scanner.mk .stateEndValue (p :: ps) err et) d kf kt) →
      input.drop i = w ++ rest →
      Reached o input (i + w.length) (MainState.mk (Scanner.mk .stateEndValue (p :: ps) err et) d kf kt) ∧ input.drop (i + w.length) = rest := by
  intro w
  induction w with
  | nil => intro i rest _ h hd; exact ⟨by simpa using h, by simpa using hd⟩
  | cons c w ih =>
    intro i rest hw h hd
    obtain ⟨h1, h2⟩ := getElem?_of_drop (by simpa using hd)
    have hc : isSpace c = true := hw c (by simp)
    have hb : obfuscateAppSecBody o input i c (MainState.mk (Scanner.mk .stateEndValue (p :: ps) err et) d kf kt)
        = .ok (.next (i + 1) (MainState.mk (Scanner.mk .stateEndValue (p :: ps) err et) d kf kt)) := by
      unfold obfuscateAppSecBody
      simp only [step_endValue_space p ps err et c hc]
    have h3 := ih (i + 1) rest (fun c' hc' => hw c' (by simp [hc'])) (reached_step h h1 hb) h2
    have e : i + (c :: w).length = i + 1 + w.length := by simp; omega
    rw [e]
    exact h3

theorem step_beginKey (fn : StepFn) (ps : List ParseState) (err : Option SyntaxError)
    (et : Bool) (hfn : fn = .stateBeginString ∨ fn = .stateBeginStringOrEmpty) :
    (Scanner.mk fn ps err et).step 34 = (Scanner.mk .stateInString ps err et, scanBeginLiteral) := by
  rcases hfn with rfl | rfl <;> simp [Scanner.step, Scanner.stateBeginString, isSpace]

theorem step_endString (ps : List ParseState) (err : Option SyntaxError) (et : Bool) :
    (Scanner.mk .stateInString ps err et).step 34
      = (Scanner.mk .stateEndValue ps err et, scanContinue) := by
  simp [Scanner.step]

theorem step_colon (ps : List ParseState) (err : Option SyntaxError) (et : Bool) :
    (Scanner.mk .stateEndValue (parseObjectKey :: ps) err et).step 58
      = (Scanner.mk .stateBeginValue (parseObjectValue :: ps) err et, scanObjectKey) := by
  simp [Scanner.step, Scanner.stateEndValue, isSpace]

/-- The main scan over an object key `"parameters"` and the white space after it: the key
is recorded in `keyFrom` and `keyTo` and the scan stands at the colon. -/
theorem reached_parametersKey {o : Obfuscator} {input : List Nat} {i : Nat} (fn : StepFn)
    (ps : List ParseState) (err : Option SyntaxError) (et : Bool) (d : Diff) (kf kt : Int)
    (w rest : List Nat) (hfn : fn = .stateBeginString ∨ fn = .stateBeginStringOrEmpty)
    (hr : Reached o input i (MainState.mk (Scanner.mk fn (parseObjectKey :: ps) err et) d kf kt))
    (hd : input.drop i = parametersKey ++ (w ++ 58 :: rest)) (hw : IsWs w) :
    Reached o input (i + 12 + w.length)
        (MainState.mk (Scanner.mk .stateEndValue (parseObjectKey :: ps) err et) d i (i + 11))
      ∧ input.drop (i + 12 + w.length) = 58 :: rest
      ∧ slice input i (i + 11 + 1) = .ok parametersKey := by
  have hsl : slice input i (i + 11 + 1) = .ok parametersKey := by
    exact slice_of_drop hd (by decide) _ _ rfl (by simp [parametersKey]; omega)
  have e0 : parametersKey ++ (w ++ 58 :: rest)
      = 34 :: (B "parameters" ++ (34 :: (w ++ 58 :: rest))) := by
    rfl
  rw [e0] at hd
  obtain ⟨h1, h2⟩ := getElem?_of_drop hd
  -- the opening quote
  have hb1 : obfuscateAppSecBody o input i 34
      (MainState.mk (Scanner.mk fn (parseObjectKey :: ps) err et) d kf kt)
      = .ok (.next (i + 1)
          (MainState.mk (Scanner.mk .stateInString (parseObjectKey :: ps) err et) d i kt)) := by
    unfold obfuscateAppSecBody
    simp only [step_beginKey fn _ err et hfn]
    simp
  have r1 := reached_step hr h1 hb1
  -- the ten letters
  have hpl : ∀ c ∈ B "parameters", plain c := by decide
  obtain ⟨r2, h3⟩ := reached_plain (o := o)
    (MainState.mk (Scanner.mk .stateInString (parseObjectKey :: ps) err et) d i kt) rfl
    (B "parameters") (i + 1) _ hpl r1 h2
  have e10 : (B "parameters").length = 10 := by rfl
  rw [e10] at r2 h3
  -- the closing quote
  obtain ⟨h4, h5⟩ := getElem?_of_drop h3
  have hprev : input[i + 1 + 10 - 1]? = some 115 := by
    have h6 : input.drop (i + 1) = (B "paramete" ++ [114]) ++ (115 :: 34 :: (w ++ 58 :: rest)) := by
      rw [h2]; rfl
    have h7 := (getElem?_of_drop (drop_add_of_drop h6 (B "paramete" ++ [114]) _ rfl
      (i + 1 + 9) (by simp [B]))).1
    have e : i + 1 + 10 - 1 = i + 1 + 9 := by omega
    rw [e]; exact h7
  have hE := isJSONStringEnd_of_prev h4 (by omega) hprev (by decide)
  have hb2 : obfuscateAppSecBody o input (i + 1 + 10) 34
      (MainState.mk (Scanner.mk .stateInString (parseObjectKey :: ps) err et) d i kt)
      = .ok (.next (i + 1 + 10 + 1)
          (MainState.mk (Scanner.mk .stateEndValue (parseObjectKey :: ps) err et) d i
            ((i + 1 + 10 : Nat) : Int))) := by
    unfold obfuscateAppSecBody
    simp only [step_endString, hE]
    have hne : ((i : Int) ≠ -1) := by omega
    simp [hne, bind, Res.bind, pure]
  have r3 := reached_step r2 h4 hb2
  have e11 : (((i + 1 + 10 : Nat) : Int)) = (i : Int) + 11 := by push_cast; omega
  rw [e11] at r3
  -- the white space
  obtain ⟨r4, h6⟩ := reached_endValue_ws (o := o) parseObjectKey ps err et d i (i + 11) w
    (i + 1 + 10 + 1) _ hw r3 h5
  have e12 : i + 1 + 10 + 1 + w.length = i + 12 + w.length := by omega
  rw [e12] at r4 h6
  exact ⟨r4, h6, hsl⟩

/-- C14 (amended): any-depth matching of the `parameters` key by the main scan.  For every
configuration and input, whenever the main loop of `obfuscateAppSec` starts an iteration at
an object key whose raw text is `"parameters"` (the scanner is about to read an object key,
whatever containers `ps` are open around it), followed by white space `w` and a colon: the
scan goes to the colon with the key recorded; the iteration at the colon hands the text
after the colon to `obfuscateAppSecParameters`, with the scanner that has read the colon
and the edits recorded so far; that call returns or panics; and when it returns `p`, the
next iteration starts at the returned index `p.2`, larger than the index of the colon, with
the scanner and the edits of the call and no key recorded, no iteration of the main loop
starts strictly between the colon and `p.2` (the keys in the text the call has consumed are
not looked at), and the result of `obfuscateAppSec` is the result of the loop continued
from there. -/
theorem ObfuscateAppSec_parameters_any_depth (o : Obfuscator) (input : List Nat) (i : Nat)
    (st : MainState) (ps : List ParseState) (w rest : List Nat)
    (hr : Reached o input i st)
    (hfn : st.sc.stepFn = .stateBeginString ∨ st.sc.stepFn = .stateBeginStringOrEmpty)
    (hps : st.sc.parseState = parseObjectKey :: ps)
    (hd : input.drop i = parametersKey ++ (w ++ 58 :: rest)) (hw : IsWs w) :
    Reached o input (i + 12 + w.length)
        (MainState.mk { st.sc with stepFn := .stateEndValue } st.diff i (i + 11))
      ∧ obfuscateAppSecBody o input (i + 12 + w.length) 58
          (MainState.mk { st.sc with stepFn := .stateEndValue } st.diff i (i + 11))
        = (obfuscateAppSecParameters o
            { st.sc with stepFn := .stateBeginValue, parseState := parseObjectValue :: ps }
            input (i + 12 + w.length + 1) st.diff).bind
          (fun p => .ok (.next p.2 (MainState.mk p.1.sc p.1.diff (-1) (-1))))
      ∧ obfuscateAppSecParameters o
            { st.sc with stepFn := .stateBeginValue, parseState := parseObjectValue :: ps }
            input (i + 12 + w.length + 1) st.diff ≠ .timeout
      ∧ ∀ p, obfuscateAppSecParameters o
            { st.sc with stepFn := .stateBeginValue, parseState := parseObjectValue :: ps }
            input (i + 12 + w.length + 1) st.diff = .ok p →
          i + 12 + w.length < p.2
            ∧ Reached o input p.2 (MainState.mk p.1.sc p.1.diff (-1) (-1))
            ∧ (∀ k st2, Reached o input k st2 → k ≤ i + 12 + w.length ∨ p.2 ≤ k)
            ∧ ∃ fuel, input.length - p.2 < fuel
                ∧ forLoop input (obfuscateAppSecBody o input)
                    (fun _ st => obfuscateAppSecDone input st) fuel p.2
                    (MainState.mk p.1.sc p.1.diff (-1) (-1)) = obfuscateAppSec o input := by
  obtain ⟨sc, d, kf, kt⟩ := st
  obtain ⟨fn, pstk, err, et⟩ := sc
  simp only at hfn hps
  subst hps
  obtain ⟨r1, h1, hsl⟩ := reached_parametersKey fn ps err et d kf kt w rest hfn hr hd hw
  have hc := (getElem?_of_drop h1).1
  have hb : obfuscateAppSecBody o input (i + 12 + w.length) 58
      (MainState.mk (Scanner.mk .stateEndValue (parseObjectKey :: ps) err et) d i (i + 11))
      = (obfuscateAppSecParameters o (Scanner.mk .stateBeginValue (parseObjectValue :: ps) err et)
          input (i + 12 + w.length + 1) d).bind
        (fun p => .ok (.next p.2 (MainState.mk p.1.sc p.1.diff (-1) (-1)))) := by
    unfold obfuscateAppSecBody
    simp only [step_colon, hsl, bind, pure, Res.bind_ok, if_true]
  have hsat := obfuscateAppSecParameters_sat o
    (Scanner.mk .stateBeginValue (parseObjectValue :: ps) err et) input (i + 12 + w.length + 1) d
  refine ⟨r1, hb, ?_, ?_⟩
  · intro ht
    rw [ht] at hsat
    exact hsat
  · intro p hp
    rw [hp] at hsat
    simp only [Res.Sat] at hsat
    rw [hp, Res.bind_ok] at hb
    obtain ⟨n, hn⟩ := r1
    have hn1 := mainScan_succ hn hc hb
    have r2 : Reached o input p.2 (MainState.mk p.1.sc p.1.diff (-1) (-1)) := ⟨n + 1, hn1⟩
    exact ⟨by omega, r2, fun k st2 hk => reached_not_between hn hn1 k st2 hk,
      reached_result r2⟩

set_option maxRecDepth 100000 in
theorem ObfuscateAppSec_parameters_any_depth_witness :
    (Reached keyPassword docTriggers 31
        (MainState.mk (scannerAtKey [parseArrayValue, parseObjectValue, parseArrayValue,
          parseObjectValue]) [] (-1) (-1))
      ∧ docTriggers.drop 31 = parametersKey ++ ([] ++ 58 :: docTriggers.drop 44)
      ∧ Reached keyPassword docSiblingObjects 65
        (MainState.mk (scannerAtKey [parseObjectValue]) [Edit.mk 53 55 redacted] (-1) (-1))
      ∧ docSiblingObjects.drop 65 = parametersKey ++ ([32] ++ 58 :: docSiblingObjects.drop 79))
      ∧ (Reached keyPassword docTriggers 88
          (MainState.mk (Scanner.mk .stateEndValue [parseObjectValue, parseArrayValue,
            parseObjectValue, parseArrayValue, parseObjectValue] none false)
            [Edit.mk 78 85 redacted] (-1) (-1))
        ∧ ∀ k st2, Reached keyPassword docTriggers k st2 → k ≤ 43 ∨ 88 ≤ k)
      ∧ (Reached keyPassword docSiblingObjects 119
          (MainState.mk (Scanner.mk .stateEndValue [parseObjectValue, parseObjectValue] none false)
            [Edit.mk 53 55 redacted, Edit.mk 114 116 redacted] (-1) (-1))
        ∧ ∀ k st2, Reached keyPassword docSiblingObjects k st2 → k ≤ 78 ∨ 119 ≤ k)
      ∧ ObfuscateAppSec keyPassword docSiblingObjects
          = .ok (B "\x7b\"a\":\x7b\"parameters\":[\x7b\"key_path\":[\"password\"],\"value\":\"?\"\x7d]\x7d,\"b\":\x7b\"parameters\" : [\x7b\"key_path\":[\"password\"],\"value\":\"?\"\x7d]\x7d\x7d") := by
  have r1 : Reached keyPassword docTriggers 31
      (MainState.mk (scannerAtKey [parseArrayValue, parseObjectValue, parseArrayValue,
        parseObjectValue]) [] (-1) (-1)) := ⟨31, by decide⟩
  have d1 : docTriggers.drop 31 = parametersKey ++ ([] ++ 58 :: docTriggers.drop 44) := by rfl
  have r2 : Reached keyPassword docSiblingObjects 65
      (MainState.mk (scannerAtKey [parseObjectValue]) [Edit.mk 53 55 redacted] (-1) (-1)) :=
    ⟨26, by decide⟩
  have d2 : docSiblingObjects.drop 65
      = parametersKey ++ ([32] ++ 58 :: docSiblingObjects.drop 79) := by rfl
  have t1 := (ObfuscateAppSec_parameters_any_depth keyPassword docTriggers 31 _
    [parseArrayValue, parseObjectValue, parseArrayValue, parseObjectValue] [] _ r1
    (Or.inr rfl) rfl d1 (by decide)).2.2.2
    (ParamsState.mk (Scanner.mk .stateEndValue [parseObjectValue, parseArrayValue,
      parseObjectValue, parseArrayValue, parseObjectValue] none false)
      [Edit.mk 78 85 redacted], 88) (by decide)
  have t2 := (ObfuscateAppSec_parameters_any_depth keyPassword docSiblingObjects 65 _
    [parseObjectValue] [32] _ r2 (Or.inr rfl) rfl d2 (by decide)).2.2.2
    (ParamsState.mk (Scanner.mk .stateEndValue [parseObjectValue, parseObjectValue] none false)
      [Edit.mk 53 55 redacted, Edit.mk 114 116 redacted], 119) (by decide)
  exact ⟨⟨r1, d1, r2, d2⟩, ⟨t1.2.1, t1.2.2.1⟩, ⟨t2.2.1, t2.2.2.1⟩, by decide⟩

/-! ## Single-parameter documents in general -/

/-- Inside a string literal a step depends on the state function and the byte only. -/
theorem step_string (sc : Scanner) (f : StepFn) (c : Nat) (hf : InStr f) :
    Scanner.step { sc with stepFn := f } c
      = match strNext f c with
        | some g => ({ sc with stepFn := g }, scanContinue)
        | none => ({ sc with stepFn := .stateError, err := some (.invalidCharacter c) },
            scanError) := by
  rcases hf with h | h | h | h | h | h <;> subst h <;>
    simp only [Scanner.step, strNext, Scanner.error] <;> split_ifs <;> rfl

theorem strNext_inStr {f g : StepFn} {c : Nat} (h : strNext f c = some g) :
    InStr g ∨ (g = .stateEndValue ∧ f = .stateInString ∧ c = 34) := by
  unfold strNext at h
  split at h
  · split_ifs at h <;> simp only [Option.some.injEq] at h <;> subst h <;>
      simp_all [InStr]
  · split_ifs at h <;> simp only [Option.some.injEq] at h <;> subst h <;> simp [InStr]
  · split_ifs at h; simp only [Option.some.injEq] at h; subst h; simp [InStr]
  · split_ifs at h; simp only [Option.some.injEq] at h; subst h; simp [InStr]
  · split_ifs at h; simp only [Option.some.injEq] at h; subst h; simp [InStr]
  · split_ifs at h; simp only [Option.some.injEq] at h; subst h; simp [InStr]
  · cases h

theorem adv_zero {σ ρ : Type} {input : List Nat} {body : Nat → Nat → σ → Res (Step σ ρ)}
    {done : Nat → σ → Res ρ} (i : Nat) (st : σ) : Adv input body done i 0 st st :=
  fun _ h => h

theorem adv_trans {σ ρ : Type} {input : List Nat} {body : Nat → Nat → σ → Res (Step σ ρ)}
    {done : Nat → σ → Res ρ} {i n m : Nat} {st st1 st2 : σ}
    (h1 : Adv input body done i n st st1) (h2 : Adv input body done (i + n) m st1 st2) :
    Adv input body done i (n + m) st st2 := by
  intro R h
  apply h1
  apply h2
  rw [Nat.add_assoc]
  exact h

theorem adv_then {σ ρ : Type} {input : List Nat} {body : Nat → Nat → σ → Res (Step σ ρ)}
    {done : Nat → σ → Res ρ} {i n j m k : Nat} {st st1 st2 : σ}
    (h1 : Adv input body done i n st st1) (h2 : Adv input body done j m st1 st2)
    (hj : j = i + n) (hk : k = n + m) : Adv input body done i k st st2 := by
  subst hj hk
  exact adv_trans h1 h2

theorem adv_step {σ ρ : Type} {input : List Nat} {body : Nat → Nat → σ → Res (Step σ ρ)}
    {done : Nat → σ → Res ρ} {i c : Nat} {st st1 : σ} (hc : input[i]? = some c)
    (hb : body i c st = .ok (.next (i + 1) st1)) : Adv input body done i 1 st st1 := by
  intro R h
  apply runs_of_step hc
  rw [hb]
  exact ⟨by omega, h⟩

/-- The bytes of a part of the input that starts at the index `i`. -/
theorem getElem?_of_drop_append {input seg rest : List Nat} {i : Nat}
    (hd : input.drop i = seg ++ rest) (k : Nat) (hk : k < seg.length) :
    input[i + k]? = seg[k]? := by
  have h1 : input[i + k]? = (input.drop i)[k]? := by
    rw [List.getElem?_drop]
  rw [h1, hd, List.getElem?_append_left hk]

theorem drop_of_drop_append {input seg rest : List Nat} {i : Nat}
    (hd : input.drop i = seg ++ rest) : input.drop (i + seg.length) = rest := by
  have : input.drop (i + seg.length) = (input.drop i).drop seg.length := by
    rw [List.drop_drop, Nat.add_comm]
  rw [this, hd]
  simp

/-- White space that an iteration skips without changing the variables is skipped as a
whole. -/
theorem adv_ws {σ ρ : Type} {input : List Nat} {body : Nat → Nat → σ → Res (Step σ ρ)}
    {done : Nat → σ → Res ρ} (st : σ)
    (hb : ∀ j c, isSpace c = true → body j c st = .ok (.next (j + 1) st)) :
    ∀ (ws rest : List Nat) (i : Nat), IsWs ws → input.drop i = ws ++ rest →
      Adv input body done i ws.length st st := by
  intro ws
  induction ws with
  | nil => intro rest i _ _; exact adv_zero i st
  | cons c w ih =>
    intro rest i hws hd
    have hc : input[i]? = some c := getElem?_of_drop_eq hd
    have h1 : Adv input body done i 1 st st := adv_step hc (hb i c (hws c (by simp)))
    have h2 := ih rest (i + 1) (fun x hx => hws x (by simp [hx]))
      (by have := (getElem?_of_drop hd).2; exact this)
    have := adv_trans h1 h2
    rw [List.length_cons, Nat.add_comm]
    exact this

theorem strBody_inStr : ∀ (k : List Nat) (f g : StepFn), InStr f → strBody f k = some g →
    InStr g := by
  intro k
  induction k with
  | nil => intro f g hf h; simp only [strBody, Option.some.injEq] at h; subst h; exact hf
  | cons c k ih =>
    intro f g hf h
    rw [strBody] at h
    cases hn : strNext f c with
    | none => rw [hn] at h; simp at h
    | some g1 =>
      rw [hn] at h
      simp only at h
      by_cases he : g1 = .stateEndValue
      · rw [if_pos he] at h; simp at h
      · rw [if_neg he] at h
        rcases strNext_inStr hn with h1 | h1
        · exact ih g1 g h1 h
        · exact absurd h1.1 he

/-- A quote inside the content of a string literal follows a backslash, so the end test
of the walkers fails on every byte of the content. -/
theorem isJSONStringEnd_content {input : List Nat} {j c : Nat} {f g : StepFn}
    (hc : input[j]? = some c) (hf : InStr f) (hn : strNext f c = some g)
    (hg : g ≠ .stateEndValue)
    (hp : f = .stateInStringEsc → ∃ j0, j = j0 + 1 ∧ input[j0]? = some 92) :
    isJSONStringEnd input j = .ok false := by
  unfold isJSONStringEnd
  rw [byteAt_natCast hc]
  by_cases h34 : c = 34
  · subst h34
    have hesc : f = .stateInStringEsc := by
      rcases hf with h | h | h | h | h | h <;> subst h <;>
        simp [strNext, isHex] at hn ⊢
      exact hg hn.symm
    obtain ⟨j0, rfl, h0⟩ := hp hesc
    have e : (((j0 + 1 : Nat) : Int) - 1) = ((j0 : Nat) : Int) := by omega
    simp [bind, Res.bind, pure, e, byteAt_natCast h0]
  · simp [bind, Res.bind, pure, h34]

/-- The content of a string literal is passed by a loop whose iterations, on a byte of the
content, only move the scanner. -/
theorem adv_content {σ ρ : Type} {input : List Nat} {body : Nat → Nat → σ → Res (Step σ ρ)}
    {done : Nat → σ → Res ρ} (S : StepFn → σ)
    (hb : ∀ j c f g, input[j]? = some c → InStr f → strNext f c = some g →
      g ≠ .stateEndValue → isJSONStringEnd input j = .ok false →
      body j c (S f) = .ok (.next (j + 1) (S g))) :
    ∀ (k rest : List Nat) (f g : StepFn) (i : Nat), InStr f → strBody f k = some g →
      (f = .stateInStringEsc → ∃ j0, i = j0 + 1 ∧ input[j0]? = some 92) →
      input.drop i = k ++ rest → Adv input body done i k.length (S f) (S g) := by
  intro k
  induction k with
  | nil =>
    intro rest f g i _ h _ _
    simp only [strBody, Option.some.injEq] at h
    subst h
    exact adv_zero i (S f)
  | cons c k ih =>
    intro rest f g i hf h hp hd
    rw [strBody] at h
    cases hn : strNext f c with
    | none => rw [hn] at h; simp at h
    | some g1 =>
      rw [hn] at h
      simp only at h
      by_cases he : g1 = .stateEndValue
      · rw [if_pos he] at h; simp at h
      · rw [if_neg he] at h
        have hc : input[i]? = some c := getElem?_of_drop_eq hd
        have hg1 : InStr g1 := by
          rcases strNext_inStr hn with h1 | h1
          · exact h1
          · exact absurd h1.1 he
        have hE := isJSONStringEnd_content hc hf hn he hp
        have h1 : Adv input body done i 1 (S f) (S g1) := adv_step hc (hb i c f g1 hc hf hn he hE)
        have hp1 : g1 = .stateInStringEsc → ∃ j0, i + 1 = j0 + 1 ∧ input[j0]? = some 92 := by
          intro hesc
          refine ⟨i, rfl, ?_⟩
          have : c = 92 := by
            subst hesc
            rcases hf with h | h | h | h | h | h <;> subst h <;>
              simp [strNext, isHex] at hn
            · split_ifs at hn with h1 h2 h3 <;> simp_all
            · split_ifs at hn <;> simp_all
          rw [hc, this]
        have h2 := ih rest g1 g (i + 1) hg1 h hp1 (getElem?_of_drop hd).2
        have := adv_trans h1 h2
        rw [List.length_cons, Nat.add_comm]
        exact this

theorem Scanner.error_lift (s : Scanner) (c : Nat) (suf : List ParseState) :
    (s.lift suf).error c = ((s.error c).1.lift suf, (s.error c).2) := rfl

theorem Scanner.expect_lift (s : Scanner) (c want : Nat) (next : StepFn)
    (suf : List ParseState) :
    (s.lift suf).expect c want next
      = ((s.expect c want next).1.lift suf, (s.expect c want next).2) := by
  unfold Scanner.expect
  split <;> rfl

theorem Scanner.stateESign_lift (s : Scanner) (c : Nat) (suf : List ParseState) :
    (s.lift suf).stateESign c = ((s.stateESign c).1.lift suf, (s.stateESign c).2) := by
  unfold Scanner.stateESign
  split <;> rfl

theorem Scanner.stateBeginString_lift (s : Scanner) (c : Nat) (suf : List ParseState) :
    (s.lift suf).stateBeginString c
      = ((s.stateBeginString c).1.lift suf, (s.stateBeginString c).2) := by
  unfold Scanner.stateBeginString
  split_ifs <;> rfl

theorem Scanner.stateBeginValue_lift (s : Scanner) (c : Nat) (suf : List ParseState) :
    (s.lift suf).stateBeginValue c
      = ((s.stateBeginValue c).1.lift suf, (s.stateBeginValue c).2) := by
  unfold Scanner.stateBeginValue
  by_cases h0 : isSpace c = true
  · (simp only [if_pos h0]) <;> rfl
  simp only [if_neg h0]
  by_cases h1 : c = 123
  · (simp only [if_pos h1]) <;> rfl
  simp only [if_neg h1]
  by_cases h2 : c = 91
  · (simp only [if_pos h2]) <;> rfl
  simp only [if_neg h2]
  by_cases h3 : c = 34
  · (simp only [if_pos h3]) <;> rfl
  simp only [if_neg h3]
  by_cases h4 : c = 45
  · (simp only [if_pos h4]) <;> rfl
  simp only [if_neg h4]
  by_cases h5 : c = 48
  · (simp only [if_pos h5]) <;> rfl
  simp only [if_neg h5]
  by_cases h6 : c = 116
  · (simp only [if_pos h6]) <;> rfl
  simp only [if_neg h6]
  by_cases h7 : c = 102
  · (simp only [if_pos h7]) <;> rfl
  simp only [if_neg h7]
  by_cases h8 : c = 110
  · (simp only [if_pos h8]) <;> rfl
  simp only [if_neg h8]
  by_cases h9 : 49 ≤ c ∧ c ≤ 57
  · (simp only [if_pos h9]) <;> rfl
  simp only [if_neg h9]
  rfl

theorem Scanner.stateEndValue_lift (s : Scanner) (c : Nat) (suf : List ParseState)
    (hne : s.parseState ≠ []) (hres : (s.stateEndValue c).1.parseState ≠ []) :
    (s.lift suf).stateEndValue c
      = ((s.stateEndValue c).1.lift suf, (s.stateEndValue c).2) := by
  obtain ⟨fn, ps, err, et⟩ := s
  cases ps with
  | nil => exact absurd rfl hne
  | cons p rest =>
    cases rest with
    | nil =>
      cases p <;> simp only [Scanner.stateEndValue, Scanner.popParseState, Scanner.error,
        Scanner.lift, List.tail_cons, List.cons_append, List.nil_append] at hres ⊢ <;>
        split_ifs at hres ⊢ <;> first | rfl | exact absurd rfl hres
    | cons q rest2 =>
      cases p <;> simp only [Scanner.stateEndValue, Scanner.popParseState, Scanner.error,
        Scanner.lift, List.tail_cons, List.cons_append] <;> split_ifs <;> rfl

theorem Scanner.state0_lift (s : Scanner) (c : Nat) (suf : List ParseState)
    (hne : s.parseState ≠ []) (hres : (s.state0 c).1.parseState ≠ []) :
    (s.lift suf).state0 c = ((s.state0 c).1.lift suf, (s.state0 c).2) := by
  unfold Scanner.state0 at hres ⊢
  by_cases h0 : c = 46
  · simp only [if_pos h0]
    rfl
  simp only [if_neg h0] at hres ⊢
  by_cases h1 : c = 101 ∨ c = 69
  · simp only [if_pos h1]
    rfl
  simp only [if_neg h1] at hres ⊢
  exact Scanner.stateEndValue_lift s c suf hne hres

/-- A step that neither starts with nor leaves an empty stack does not look at the
containers below its own: it is the same step inside any containers `suf`. -/
theorem Scanner.step_lift (s : Scanner) (c : Nat) (suf : List ParseState)
    (hne : s.parseState ≠ []) (hres : (s.step c).1.parseState ≠ []) :
    (s.lift suf).step c = ((s.step c).1.lift suf, (s.step c).2) := by
  obtain ⟨fn, ps, err, et⟩ := s
  cases fn <;> unfold Scanner.step at hres ⊢ <;> unfold Scanner.lift <;> dsimp only at hres ⊢
  case stateBeginValueOrEmpty =>
    split_ifs at hres ⊢
    · rfl
    · exact Scanner.stateEndValue_lift (Scanner.mk .stateBeginValueOrEmpty ps err et) c suf hne hres
    · exact Scanner.stateBeginValue_lift (Scanner.mk .stateBeginValueOrEmpty ps err et) c suf
  case stateBeginValue => exact Scanner.stateBeginValue_lift (Scanner.mk .stateBeginValue ps err et) c suf
  case stateBeginStringOrEmpty =>
    split_ifs at hres ⊢ with h0 h1
    · rfl
    · subst h1
      cases ps with
      | nil => exact absurd rfl hne
      | cons p rest =>
        cases rest with
        | nil => simp [Scanner.stateEndValue, Scanner.popParseState, isSpace] at hres
        | cons q rest2 =>
          cases suf <;> simp [Scanner.stateEndValue, Scanner.popParseState, isSpace]
    · exact Scanner.stateBeginString_lift (Scanner.mk .stateBeginStringOrEmpty ps err et) c suf
  case stateBeginString => exact Scanner.stateBeginString_lift (Scanner.mk .stateBeginString ps err et) c suf
  case stateEndValue => exact Scanner.stateEndValue_lift (Scanner.mk .stateEndValue ps err et) c suf hne hres
  case stateEndTop =>
    unfold Scanner.stateEndTop Scanner.error
    split <;> rfl
  case state1 =>
    split_ifs at hres ⊢
    · rfl
    · exact Scanner.state0_lift (Scanner.mk .state1 ps err et) c suf hne hres
  case state0 => exact Scanner.state0_lift (Scanner.mk .state0 ps err et) c suf hne hres
  case stateDot0 =>
    split_ifs at hres ⊢
    · rfl
    · rfl
    · exact Scanner.stateEndValue_lift (Scanner.mk .stateDot0 ps err et) c suf hne hres
  case stateE0 =>
    split_ifs at hres ⊢
    · rfl
    · exact Scanner.stateEndValue_lift (Scanner.mk .stateE0 ps err et) c suf hne hres
  case stateE =>
    split_ifs
    · rfl
    · exact Scanner.stateESign_lift (Scanner.mk .stateE ps err et) c suf
  case stateESign => exact Scanner.stateESign_lift (Scanner.mk .stateESign ps err et) c suf
  case stateT => exact Scanner.expect_lift (Scanner.mk .stateT ps err et) c _ _ suf
  case stateTr => exact Scanner.expect_lift (Scanner.mk .stateTr ps err et) c _ _ suf
  case stateTru => exact Scanner.expect_lift (Scanner.mk .stateTru ps err et) c _ _ suf
  case stateF => exact Scanner.expect_lift (Scanner.mk .stateF ps err et) c _ _ suf
  case stateFa => exact Scanner.expect_lift (Scanner.mk .stateFa ps err et) c _ _ suf
  case stateFal => exact Scanner.expect_lift (Scanner.mk .stateFal ps err et) c _ _ suf
  case stateFals => exact Scanner.expect_lift (Scanner.mk .stateFals ps err et) c _ _ suf
  case stateN => exact Scanner.expect_lift (Scanner.mk .stateN ps err et) c _ _ suf
  case stateNu => exact Scanner.expect_lift (Scanner.mk .stateNu ps err et) c _ _ suf
  case stateNul => exact Scanner.expect_lift (Scanner.mk .stateNul ps err et) c _ _ suf
  all_goals first
    | rfl
    | (split_ifs <;> rfl)

theorem Scanner.lift_parseState (s : Scanner) (suf : List ParseState) :
    (s.lift suf).parseState = s.parseState ++ suf := rfl

theorem valueRun_nil (sc : Scanner) (depth : Nat) : valueRun sc depth [] = some (sc, depth) :=
  rfl

theorem valueRun_cons (sc : Scanner) (depth c : Nat) (rest : List Nat) :
    valueRun sc depth (c :: rest)
      = match (sc.step c).2 with
        | scanError => none
        | scanEnd => none
        | scanBeginObject => valueRun (sc.step c).1 (depth + 1) rest
        | scanBeginArray => valueRun (sc.step c).1 (depth + 1) rest
        | scanEndObject => if depth = 0 then none else valueRun (sc.step c).1 (depth - 1) rest
        | scanEndArray => if depth = 0 then none else valueRun (sc.step c).1 (depth - 1) rest
        | scanObjectKey => if depth = 0 then none else valueRun (sc.step c).1 depth rest
        | scanObjectValue => if depth = 0 then none else valueRun (sc.step c).1 depth rest
        | scanArrayValue => if depth = 0 then none else valueRun (sc.step c).1 depth rest
        | _ => valueRun (sc.step c).1 depth rest :=
  rfl

/-- Reading complete values does not depend on the containers around the current one. -/
theorem valueRun_lift (suf : List ParseState) : ∀ (t : List Nat) (sc : Scanner) (depth : Nat)
    (r : Scanner × Nat), sc.Coherent → depth + 2 ≤ sc.parseState.length →
    valueRun sc depth t = some r →
    valueRun (sc.lift suf) depth t = some (r.1.lift suf, r.2) ∧ r.1.Coherent
      ∧ r.2 + 2 ≤ r.1.parseState.length := by
  intro t
  induction t with
  | nil =>
    intro sc depth r hc hl h
    simp only [valueRun_nil, Option.some.injEq] at h
    subst h
    exact ⟨rfl, hc, hl⟩
  | cons c t ih =>
    intro sc depth r hc hl h
    have heff := Scanner.step_effect sc c hc
    obtain ⟨hse, hc1⟩ := heff
    have hne : sc.parseState ≠ [] := by
      intro h0; rw [h0] at hl; simp at hl
    rw [valueRun_cons] at h ⊢
    have fin : ∀ d1, d1 + 2 ≤ (sc.step c).1.parseState.length →
        valueRun (sc.step c).1 d1 t = some r →
        ((sc.lift suf).step c = ((sc.step c).1.lift suf, (sc.step c).2))
          ∧ (valueRun ((sc.step c).1.lift suf) d1 t = some (r.1.lift suf, r.2) ∧ r.1.Coherent
            ∧ r.2 + 2 ≤ r.1.parseState.length) := by
      intro d1 hl1 h1
      have hres : (sc.step c).1.parseState ≠ [] := by
        intro h0; rw [h0] at hl1; simp at hl1
      exact ⟨Scanner.step_lift sc c suf hne hres, ih (sc.step c).1 d1 r hc1 hl1 h1⟩
    cases hopc : (sc.step c).2 <;> rw [hopc] at h hse <;> simp only [StackEffect] at hse <;>
      simp only at h
    case scanError => simp at h
    case scanEnd => simp at h
    case scanBeginObject =>
      obtain ⟨hL, hr⟩ := fin (depth + 1) (by rw [hse.2]; simp; omega) h
      rw [hL]; simp only [hopc]; exact hr
    case scanBeginArray =>
      obtain ⟨hL, hr⟩ := fin (depth + 1) (by rw [hse.2]; simp; omega) h
      rw [hL]; simp only [hopc]; exact hr
    case scanEndObject =>
      by_cases hd : depth = 0
      · simp [hd] at h
      · rw [if_neg hd] at h
        have hlen : sc.parseState.length = (sc.step c).1.parseState.length + 1 := by
          rcases hse.2 with h1 | h1 <;> rw [h1] <;> simp
        obtain ⟨hL, hr⟩ := fin (depth - 1) (by omega) h
        rw [hL]; simp only [hopc, if_neg hd]; exact hr
    case scanEndArray =>
      by_cases hd : depth = 0
      · simp [hd] at h
      · rw [if_neg hd] at h
        have hlen : sc.parseState.length = (sc.step c).1.parseState.length + 1 := by
          rw [hse.2]; simp
        obtain ⟨hL, hr⟩ := fin (depth - 1) (by omega) h
        rw [hL]; simp only [hopc, if_neg hd]; exact hr
    case scanObjectKey =>
      by_cases hd : depth = 0
      · simp [hd] at h
      · rw [if_neg hd] at h
        obtain ⟨rest, h1, h2⟩ := hse
        obtain ⟨hL, hr⟩ := fin depth (by rw [h2]; rw [h1] at hl; simpa using hl) h
        rw [hL]; simp only [hopc, if_neg hd]; exact hr
    case scanObjectValue =>
      by_cases hd : depth = 0
      · simp [hd] at h
      · rw [if_neg hd] at h
        obtain ⟨rest, h1, h2⟩ := hse
        obtain ⟨hL, hr⟩ := fin depth (by rw [h2]; rw [h1] at hl; simpa using hl) h
        rw [hL]; simp only [hopc, if_neg hd]; exact hr
    case scanArrayValue =>
      by_cases hd : depth = 0
      · simp [hd] at h
      · rw [if_neg hd] at h
        obtain ⟨hL, hr⟩ := fin depth (by rw [hse]; exact hl) h
        rw [hL]; simp only [hopc, if_neg hd]; exact hr
    all_goals
      obtain ⟨hL, hr⟩ := fin depth (by rw [hse]; exact hl) h
      rw [hL]; simp only [hopc]; exact hr

theorem skipsSpace_begin (fn : StepFn) (ps : List ParseState) (err : Option SyntaxError)
    (et : Bool) (hfn : fn = .stateBeginValue ∨ fn = .stateBeginValueOrEmpty
      ∨ fn = .stateBeginString ∨ fn = .stateBeginStringOrEmpty) :
    SkipsSpace (Scanner.mk fn ps err et) := by
  intro w hw
  rcases hfn with h | h | h | h <;> subst h <;>
    simp [Scanner.step, Scanner.stateBeginValue, Scanner.stateBeginString, hw]

theorem skipsSpace_endValue (p : ParseState) (ps : List ParseState) (err : Option SyntaxError)
    (et : Bool) : SkipsSpace (Scanner.mk .stateEndValue (p :: ps) err et) := by
  intro w hw
  simp [Scanner.step, Scanner.stateEndValue, hw]

/-- `stepToOneOf` over white space followed by a byte that makes one of the target
operations. -/
theorem stepToOneOf_ws_hit (sc : Scanner) (targets : List ScanOp) {input : List Nat} {i c : Nat}
    (ws rest : List Nat) (hs : SkipsSpace sc) (hw : IsWs ws)
    (hd : input.drop i = ws ++ c :: rest) (hop : (sc.step c).2 ∈ targets)
    (h1 : (sc.step c).2 ≠ scanSkipSpace) (h2 : (sc.step c).2 ≠ scanContinue)
    (h3 : (sc.step c).2 ≠ scanError) :
    stepToOneOf sc input i targets
      = .ok { sc := (sc.step c).1, i := i + ws.length + 1, op := (sc.step c).2, err := none } := by
  unfold stepToOneOf
  apply runs_apply
  have hadv : Adv input (stepToOneOfBody targets)
      (fun i sc => .ok { sc := sc.eof.1, i := i, op := scanContinue, err := sc.eof.1.errValue })
      i ws.length sc sc := by
    apply adv_ws sc _ ws (c :: rest) i hw hd
    intro j w hw1
    unfold stepToOneOfBody
    simp only [hs w hw1]
  apply hadv
  have hc : input[i + ws.length]? = some c := getElem?_of_drop_eq (drop_of_drop_append hd)
  apply runs_of_step hc
  unfold stepToOneOfBody
  generalize sc.step c = r at *
  obtain ⟨s, op⟩ := r
  cases op <;> simp_all [Cont]

/-- The loop of `walkObject` over the text of complete values inside the value of a field,
the key of which has been recorded: only the scanner and the depth change. -/
theorem walkObject_hole {β : Type} (input : List Nat)
    (visit : Int → Int → Int → Int → β → Res β)
    (done : Nat → ObjectState β → Res (WalkResult β)) (kf kt vf : Int) (acc : β)
    (hkf : kf ≠ -1) (hkt : kt ≠ -1) :
    ∀ (t rest : List Nat) (sc : Scanner) (depth : Nat) (r : Scanner × Nat) (i : Nat),
      valueRun sc depth t = some r → input.drop i = t ++ rest →
      Adv input (walkObjectBody input visit) done i t.length
        (ObjectState.mk sc kf kt vf (depth : Int) acc)
        (ObjectState.mk r.1 kf kt vf (r.2 : Int) acc) := by
  intro t
  induction t with
  | nil =>
    intro rest sc depth r i h _
    simp only [valueRun_nil, Option.some.injEq] at h
    subst h
    exact adv_zero i _
  | cons c t ih =>
    intro rest sc depth r i h hd
    have hc : input[i]? = some c := getElem?_of_drop_eq hd
    have hd1 := (getElem?_of_drop hd).2
    rw [valueRun_cons] at h
    have fin : ∀ d1 : Nat, valueRun (sc.step c).1 d1 t = some r →
        walkObjectBody input visit i c (ObjectState.mk sc kf kt vf (depth : Int) acc)
          = .ok (.next (i + 1) (ObjectState.mk (sc.step c).1 kf kt vf (d1 : Int) acc)) →
        Adv input (walkObjectBody input visit) done i (c :: t).length
          (ObjectState.mk sc kf kt vf (depth : Int) acc)
          (ObjectState.mk r.1 kf kt vf (r.2 : Int) acc) := by
      intro d1 h1 hb
      have a1 : Adv input (walkObjectBody input visit) done i 1
          (ObjectState.mk sc kf kt vf (depth : Int) acc)
          (ObjectState.mk (sc.step c).1 kf kt vf (d1 : Int) acc) := adv_step hc hb
      have a2 := ih rest (sc.step c).1 d1 r (i + 1) h1 hd1
      have := adv_trans a1 a2
      rw [List.length_cons, Nat.add_comm]
      exact this
    cases hopc : (sc.step c).2 <;> rw [hopc] at h <;> simp only at h
    case scanError => simp at h
    case scanEnd => simp at h
    case scanBeginObject =>
      apply fin (depth + 1) h
      unfold walkObjectBody
      simp only [hopc]
      rfl
    case scanBeginArray =>
      apply fin (depth + 1) h
      unfold walkObjectBody
      simp only [hopc]
      rfl
    case scanEndObject =>
      by_cases hd0 : depth = 0
      · simp [hd0] at h
      · rw [if_neg hd0] at h
        apply fin (depth - 1) h
        unfold walkObjectBody
        have hne : ((depth : Nat) : Int) ≠ 0 := by omega
        have e : (((depth - 1 : Nat)) : Int) = (depth : Int) - 1 := by omega
        simp only [hopc, hne, ne_eq, not_false_eq_true, if_true, e]
    case scanEndArray =>
      by_cases hd0 : depth = 0
      · simp [hd0] at h
      · rw [if_neg hd0] at h
        apply fin (depth - 1) h
        unfold walkObjectBody
        have e : (((depth - 1 : Nat)) : Int) = (depth : Int) - 1 := by omega
        simp only [hopc, e]
    case scanObjectKey =>
      by_cases hd0 : depth = 0
      · simp [hd0] at h
      · rw [if_neg hd0] at h
        apply fin depth h
        unfold walkObjectBody
        have hne : ¬ ((depth : Nat) : Int) = 0 := by omega
        simp only [hopc, hne, if_false]
    case scanObjectValue =>
      by_cases hd0 : depth = 0
      · simp [hd0] at h
      · rw [if_neg hd0] at h
        apply fin depth h
        unfold walkObjectBody
        have hne : ((depth : Nat) : Int) ≠ 0 := by omega
        simp only [hopc, hne, ne_eq, not_false_eq_true, if_true]
    case scanArrayValue =>
      by_cases hd0 : depth = 0
      · simp [hd0] at h
      · rw [if_neg hd0] at h
        apply fin depth h
        unfold walkObjectBody
        simp only [hopc]
    case scanBeginLiteral =>
      apply fin depth h
      unfold walkObjectBody
      simp only [hopc, hkf, ne_eq, not_false_eq_true, or_true, if_true]
    case scanContinue =>
      apply fin depth h
      unfold walkObjectBody
      simp only [hopc, hkt, and_false, if_false]
    case scanSkipSpace =>
      apply fin depth h
      unfold walkObjectBody
      simp only [hopc]

theorem endsPlain_last {k : List Nat} (h : endsPlain k) {x : Nat}
    (hx : (34 :: k)[k.length]? = some x) : x ≠ 92 := by
  cases k with
  | nil => simp at hx; omega
  | cons a k =>
    intro h92
    apply h
    subst h92
    rw [List.getLast?_eq_getElem?]
    simpa using hx

/-- The loop of `walkObject` over the key of a field and its colon: the offsets of the key
and of the value are recorded. -/
theorem walkObject_key {β : Type} (input : List Nat)
    (visit : Int → Int → Int → Int → β → Res β)
    (done : Nat → ObjectState β → Res (WalkResult β)) (fn : StepFn) (ps : List ParseState)
    (err : Option SyntaxError) (et : Bool) (vf : Int) (acc : β) (pre k mid rest : List Nat)
    (p : Nat) (hfn : fn = .stateBeginString ∨ fn = .stateBeginStringOrEmpty)
    (hpre : IsWs pre) (hk : isStringContent k) (hkp : endsPlain k) (hmid : IsWs mid)
    (hd : input.drop p = pre ++ (strLit k ++ (mid ++ 58 :: rest))) :
    Adv input (walkObjectBody input visit) done p
        (pre.length + (k.length + 2) + mid.length + 1)
        (ObjectState.mk (Scanner.mk fn (parseObjectKey :: ps) err et) (-1) (-1) vf 0 acc)
        (ObjectState.mk (Scanner.mk .stateBeginValue (parseObjectValue :: ps) err et)
          ((p + pre.length : Nat) : Int) ((p + pre.length + (k.length + 2) : Nat) : Int)
          ((p + pre.length + (k.length + 2) + mid.length + 1 : Nat) : Int) 0 acc)
      ∧ input.drop (p + pre.length + (k.length + 2) + mid.length + 1) = rest
      ∧ slice input ((p + pre.length : Nat) : Int) ((p + pre.length + (k.length + 2) : Nat) : Int)
          = .ok (strLit k) := by
  -- white space before the key
  have a1 : Adv input (walkObjectBody input visit) done p pre.length
      (ObjectState.mk (Scanner.mk fn (parseObjectKey :: ps) err et) (-1) (-1) vf 0 acc)
      (ObjectState.mk (Scanner.mk fn (parseObjectKey :: ps) err et) (-1) (-1) vf 0 acc) := by
    apply adv_ws _ _ pre _ p hpre hd
    intro j w hw
    unfold walkObjectBody
    simp only [skipsSpace_begin fn _ err et (by tauto) w hw]
  have hd1 := drop_of_drop_append hd
  have hsl : slice input ((p + pre.length : Nat) : Int)
      ((p + pre.length + (k.length + 2) : Nat) : Int) = .ok (strLit k) := by
    apply slice_of_drop hd1 (by simp [strLit]) _ _ rfl
    simp [strLit]; omega
  -- the opening quote
  have hd1a : input.drop (p + pre.length) = 34 :: (k ++ (34 :: (mid ++ 58 :: rest))) := by
    rw [hd1]; simp [strLit]
  obtain ⟨hq, hd2⟩ := getElem?_of_drop hd1a
  have a2 : Adv input (walkObjectBody input visit) done (p + pre.length) 1
      (ObjectState.mk (Scanner.mk fn (parseObjectKey :: ps) err et) (-1) (-1) vf 0 acc)
      (ObjectState.mk (Scanner.mk .stateInString (parseObjectKey :: ps) err et)
        ((p + pre.length : Nat) : Int) (-1) vf 0 acc) := by
    apply adv_step hq
    unfold walkObjectBody
    simp only [step_beginKey fn _ err et hfn]
    simp
  -- the content
  have a3 : Adv input (walkObjectBody input visit) done (p + pre.length + 1) k.length
      (ObjectState.mk (Scanner.mk .stateInString (parseObjectKey :: ps) err et)
        ((p + pre.length : Nat) : Int) (-1) vf 0 acc)
      (ObjectState.mk (Scanner.mk .stateInString (parseObjectKey :: ps) err et)
        ((p + pre.length : Nat) : Int) (-1) vf 0 acc) := by
    apply adv_content (fun f => ObjectState.mk (Scanner.mk f (parseObjectKey :: ps) err et)
      ((p + pre.length : Nat) : Int) (-1) vf 0 acc) _ k _ .stateInString .stateInString
      (p + pre.length + 1) (Or.inl rfl) hk (by simp) hd2
    intro j c f g hc hf hn hg hE
    unfold walkObjectBody
    have hs := step_string (Scanner.mk f (parseObjectKey :: ps) err et) f c hf
    simp only [hn] at hs
    simp only [hs, hE]
    have hne : (((p + pre.length : Nat) : Int) ≠ -1) := by omega
    simp [hne, bind, Res.bind, pure]
  -- the closing quote
  have hd3 := drop_of_drop_append hd2
  obtain ⟨hq2, hd4⟩ := getElem?_of_drop hd3
  have hprev : ∃ x, input[p + pre.length + 1 + k.length - 1]? = some x ∧ x ≠ 92 := by
    have e : p + pre.length + 1 + k.length - 1 = p + pre.length + k.length := by omega
    have h0 : input.drop (p + pre.length) = (34 :: k) ++ (34 :: (mid ++ 58 :: rest)) := by
      rw [hd1a]; simp
    have h1 := getElem?_of_drop_append h0 k.length (by simp)
    rw [e, h1]
    cases hx : (34 :: k)[k.length]? with
    | none => simp at hx
    | some x => exact ⟨x, rfl, endsPlain_last hkp hx⟩
  obtain ⟨x, hx, hx92⟩ := hprev
  have hE := isJSONStringEnd_of_prev hq2 (by omega) hx hx92
  have a4 : Adv input (walkObjectBody input visit) done (p + pre.length + 1 + k.length) 1
      (ObjectState.mk (Scanner.mk .stateInString (parseObjectKey :: ps) err et)
        ((p + pre.length : Nat) : Int) (-1) vf 0 acc)
      (ObjectState.mk (Scanner.mk .stateEndValue (parseObjectKey :: ps) err et)
        ((p + pre.length : Nat) : Int) ((p + pre.length + (k.length + 2) : Nat) : Int) vf 0
        acc) := by
    apply adv_step hq2
    unfold walkObjectBody
    simp only [step_endString, hE]
    have hne : ((p : Int) + (pre.length : Int) ≠ -1) := by omega
    simp [hne, bind, Res.bind, pure] <;> omega
  -- white space and the colon
  have a5 : Adv input (walkObjectBody input visit) done (p + pre.length + 1 + k.length + 1)
      mid.length
      (ObjectState.mk (Scanner.mk .stateEndValue (parseObjectKey :: ps) err et)
        ((p + pre.length : Nat) : Int) ((p + pre.length + (k.length + 2) : Nat) : Int) vf 0
        acc)
      (ObjectState.mk (Scanner.mk .stateEndValue (parseObjectKey :: ps) err et)
        ((p + pre.length : Nat) : Int) ((p + pre.length + (k.length + 2) : Nat) : Int) vf 0
        acc) := by
    apply adv_ws _ _ mid _ _ hmid hd4
    intro j w hw
    unfold walkObjectBody
    simp only [skipsSpace_endValue parseObjectKey ps err et w hw]
  have hd5 := drop_of_drop_append hd4
  obtain ⟨hq3, hd6⟩ := getElem?_of_drop hd5
  have a6 : Adv input (walkObjectBody input visit) done
      (p + pre.length + 1 + k.length + 1 + mid.length) 1
      (ObjectState.mk (Scanner.mk .stateEndValue (parseObjectKey :: ps) err et)
        ((p + pre.length : Nat) : Int) ((p + pre.length + (k.length + 2) : Nat) : Int) vf 0
        acc)
      (ObjectState.mk (Scanner.mk .stateBeginValue (parseObjectValue :: ps) err et)
        ((p + pre.length : Nat) : Int) ((p + pre.length + (k.length + 2) : Nat) : Int)
        ((p + pre.length + (k.length + 2) + mid.length + 1 : Nat) : Int) 0 acc) := by
    apply adv_step hq3
    unfold walkObjectBody
    simp only [step_colon]
    simp <;> omega
  have b2 := adv_then a1 a2 rfl rfl
  have b3 := adv_then b2 a3 (by omega) rfl
  have b4 := adv_then b3 a4 (by omega) rfl
  have b5 := adv_then b4 a5 (by omega) rfl
  have b6 := adv_then b5 a6 (by omega)
    (show pre.length + (k.length + 2) + mid.length + 1
      = pre.length + 1 + k.length + 1 + mid.length + 1 by omega)
  have e2 : p + pre.length + 1 + k.length + 1 + mid.length + 1
      = p + pre.length + (k.length + 2) + mid.length + 1 := by omega
  rw [e2] at hd6
  exact ⟨b6, hd6, hsl⟩

theorem isFieldValue_spec {t : List Nat} (h : isFieldValue t = true) :
    t ≠ [] ∧ ∃ s, valueRun scannerInField 0 t = some (s, 0)
      ∧ s.step 44 = (Scanner.mk .stateBeginString [parseObjectKey, parseArrayValue] none false,
          scanObjectValue)
      ∧ s.step 125 = (Scanner.mk .stateEndValue [parseArrayValue] none false, scanEndObject) := by
  constructor
  · intro h0
    subst h0
    revert h
    decide
  · unfold isFieldValue at h
    split at h
    · rename_i s hs
      simp only [Bool.and_eq_true, decide_eq_true_eq] at h
      exact ⟨s, hs, h.1, h.2⟩
    · simp at h

theorem scannerInField_coherent : scannerInField.Coherent := by
  simp [Scanner.Coherent, scannerInField]

/-- The visitor of `obfuscateAppSecParameter` on a field. -/
theorem paramVisit_field {input : List Nat} (f : Field) (p : Nat) (kf kt : Int) (acc : ParamFields)
    (hk : slice input kf kt = .ok (strLit f.key))
    (hv : slice input ((f.valueStart p : Nat) : Int)
      ((f.valueStart p + f.value.length : Nat) : Int) = .ok f.value) :
    paramVisit input kf kt ((f.valueStart p : Nat) : Int)
      ((f.valueStart p + f.value.length : Nat) : Int) acc = .ok (f.visit p acc) := by
  unfold paramVisit Field.visit
  simp only [hk, hv, bind, pure, Res.bind_ok]
  by_cases h1 : strLit f.key = keyPathKey
  · simp only [if_pos h1, hv, Res.bind_ok]
  · simp only [if_neg h1]
    by_cases h2 : strLit f.key = valueKey
    · simp only [if_pos h2]
      push_cast
      rfl
    · simp only [if_neg h2]
      by_cases h3 : strLit f.key = highlightKey
      · simp only [if_pos h3]
        push_cast
        rfl
      · simp only [if_neg h3]

/-- The loop of `walkObject` over a field, up to the byte that follows its value. -/
theorem walkObject_field (input : List Nat)
    (done : Nat → ObjectState ParamFields → Res (WalkResult ParamFields)) (fn : StepFn)
    (ps : List ParseState) (acc : ParamFields) (f : Field) (rest : List Nat) (p : Nat)
    (hfn : fn = .stateBeginString ∨ fn = .stateBeginStringOrEmpty) (hf : f.WellFormed)
    (hd : input.drop p = f.text ++ rest) :
    ∃ s : Scanner, Adv input (walkObjectBody input (paramVisit input)) done p f.text.length
        (ObjectState.mk (Scanner.mk fn (parseObjectKey :: parseArrayValue :: ps) none false)
          (-1) (-1) (-1) 0 acc)
        (ObjectState.mk (s.lift ps) ((p + f.pre.length : Nat) : Int)
          ((p + f.pre.length + (f.key.length + 2) : Nat) : Int)
          ((f.valueStart p : Nat) : Int) 0 acc)
      ∧ input.drop (p + f.text.length) = rest
      ∧ (∀ (a : ParamFields), paramVisit input ((p + f.pre.length : Nat) : Int)
          ((p + f.pre.length + (f.key.length + 2) : Nat) : Int) ((f.valueStart p : Nat) : Int)
          ((p + f.text.length : Nat) : Int) a = .ok (f.visit p a))
      ∧ (s.lift ps).step 44
          = (Scanner.mk .stateBeginString (parseObjectKey :: parseArrayValue :: ps) none false,
            scanObjectValue)
      ∧ (s.lift ps).step 125
          = (Scanner.mk .stateEndValue (parseArrayValue :: ps) none false, scanEndObject) := by
  obtain ⟨hpre, hk, hkp, hmid, hval⟩ := hf
  obtain ⟨hne, s, hrun, h44, h125⟩ := isFieldValue_spec hval
  have hd0 : input.drop p = f.pre ++ (strLit f.key ++ (f.mid ++ 58 :: (f.value ++ rest))) := by
    rw [hd]; simp [Field.text]
  obtain ⟨a1, hd1, hsl⟩ := walkObject_key input (paramVisit input) done fn
    (parseArrayValue :: ps) none false (-1) acc f.pre f.key f.mid (f.value ++ rest) p hfn hpre hk
    hkp hmid hd0
  have hlift := valueRun_lift ps f.value scannerInField 0 (s, 0) scannerInField_coherent
    (by simp [scannerInField]) hrun
  obtain ⟨hl1, hco, hlen⟩ := hlift
  have a2 := walkObject_hole input (paramVisit input) done ((p + f.pre.length : Nat) : Int)
    ((p + f.pre.length + (f.key.length + 2) : Nat) : Int) ((f.valueStart p : Nat) : Int) acc
    (by omega) (by omega) f.value rest (scannerInField.lift ps) 0 (s.lift ps, 0)
    (f.valueStart p) hl1 hd1
  have etext : f.text.length = f.pre.length + (f.key.length + 2) + f.mid.length + 1
      + f.value.length := by
    simp [Field.text, strLit]; omega
  have hsne : s.parseState ≠ [] := by
    intro h0; rw [h0] at hlen; simp at hlen
  refine ⟨s, ?_, ?_, ?_, ?_, ?_⟩
  · exact adv_then a1 a2 (by simp [Field.valueStart]; omega) etext
  · have := drop_of_drop_append hd1
    have e : p + f.text.length = f.valueStart p + f.value.length := by
      rw [etext]; simp [Field.valueStart]; omega
    rw [e]; exact this
  · intro a
    have hv : slice input ((f.valueStart p : Nat) : Int)
        ((f.valueStart p + f.value.length : Nat) : Int) = .ok f.value :=
      slice_of_drop hd1 hne _ _ rfl (by push_cast; rfl)
    have e : p + f.text.length = f.valueStart p + f.value.length := by
      rw [etext]; simp [Field.valueStart]; omega
    rw [e]
    exact paramVisit_field f p _ _ a hsl hv
  · rw [Scanner.step_lift s 44 ps hsne (by rw [h44]; simp), h44]
    rfl
  · rw [Scanner.step_lift s 125 ps hsne (by rw [h125]; simp), h125]
    rfl

theorem fieldsText_cons (f : Field) (fs : List Field) (hfs : fs ≠ []) :
    fieldsText (f :: fs) = f.text ++ 44 :: fieldsText fs := by
  cases fs with
  | nil => exact absurd rfl hfs
  | cons g fs => rfl

/-- The loop of `walkObject` over the fields of a parameter object and its closing brace:
every field is visited and the walk returns the index after the brace. -/
theorem walkObject_fields (input : List Nat)
    (done : Nat → ObjectState ParamFields → Res (WalkResult ParamFields))
    (ps : List ParseState) (rest : List Nat) :
    ∀ (fs : List Field) (p : Nat) (fn : StepFn) (acc : ParamFields), fs ≠ [] →
      (∀ f ∈ fs, f.WellFormed) → (fn = .stateBeginString ∨ fn = .stateBeginStringOrEmpty) →
      input.drop p = fieldsText fs ++ 125 :: rest →
      Runs input (walkObjectBody input (paramVisit input)) done p
          (ObjectState.mk (Scanner.mk fn (parseObjectKey :: parseArrayValue :: ps) none false)
            (-1) (-1) (-1) 0 acc)
          (.ok { sc := Scanner.mk .stateEndValue (parseArrayValue :: ps) none false,
                 i := p + (fieldsText fs).length + 1, err := none,
                 acc := visitFields p fs acc }) := by
  intro fs
  induction fs with
  | nil => intro p fn acc h; exact absurd rfl h
  | cons f fs ih =>
    intro p fn acc _ hwf hfn hd
    have hf : f.WellFormed := hwf f (by simp)
    by_cases hfs : fs = []
    · subst hfs
      have hd0 : input.drop p = f.text ++ 125 :: rest := by simpa [fieldsText] using hd
      obtain ⟨s, a1, hd1, hvis, _, h125⟩ := walkObject_field input done fn ps acc f
        (125 :: rest) p hfn hf hd0
      apply a1
      have hc : input[p + f.text.length]? = some 125 := getElem?_of_drop_eq hd1
      apply runs_of_step hc
      unfold walkObjectBody
      simp only [h125]
      have h1 : ((p + f.pre.length : Nat) : Int) ≠ -1 := by omega
      have h2 : ((p + f.pre.length + (f.key.length + 2) : Nat) : Int) ≠ -1 := by omega
      have h3 : ((f.valueStart p : Nat) : Int) ≠ -1 := by omega
      simp only [ne_eq, not_true_eq_false, if_false, h1, h2, h3, not_false_eq_true, and_self,
        if_true, hvis, bind, pure, Res.bind_ok, Cont]
      simp [fieldsText, visitFields]
    · have hd0 : input.drop p = f.text ++ 44 :: (fieldsText fs ++ 125 :: rest) := by
        rw [hd, fieldsText_cons f fs hfs]; simp
      obtain ⟨s, a1, hd1, hvis, h44, _⟩ := walkObject_field input done fn ps acc f
        (44 :: (fieldsText fs ++ 125 :: rest)) p hfn hf hd0
      apply a1
      obtain ⟨hc, hd2⟩ := getElem?_of_drop hd1
      apply runs_of_step hc
      unfold walkObjectBody
      simp only [h44]
      simp only [ne_eq, not_true_eq_false, if_false, hvis, bind, pure, Res.bind_ok, Cont]
      refine ⟨by omega, ?_⟩
      have := ih (p + f.text.length + 1) .stateBeginString (f.visit p acc) hfs
        (fun g hg => hwf g (by simp [hg])) (Or.inl rfl) hd2
      have e : p + f.text.length + 1 + (fieldsText fs).length + 1
          = p + (fieldsText (f :: fs)).length + 1 := by
        rw [fieldsText_cons f fs hfs]; simp; omega
      rw [e] at this
      exact this

theorem step_beginObject (fn : StepFn) (ps : List ParseState) (err : Option SyntaxError)
    (et : Bool) (hfn : fn = .stateBeginValue ∨ fn = .stateBeginValueOrEmpty) :
    (Scanner.mk fn ps err et).step 123
      = (Scanner.mk .stateBeginStringOrEmpty (parseObjectKey :: ps) err et, scanBeginObject) := by
  rcases hfn with h | h <;> subst h <;> simp [Scanner.step, Scanner.stateBeginValue, isSpace]

theorem step_beginArray (fn : StepFn) (ps : List ParseState) (err : Option SyntaxError)
    (et : Bool) (hfn : fn = .stateBeginValue ∨ fn = .stateBeginValueOrEmpty) :
    (Scanner.mk fn ps err et).step 91
      = (Scanner.mk .stateBeginValueOrEmpty (parseArrayValue :: ps) err et, scanBeginArray) := by
  rcases hfn with h | h <;> subst h <;> simp [Scanner.step, Scanner.stateBeginValue, isSpace]

/-- `walkObject` on a parameter object with well-formed fields, white space before it
allowed: the fields are visited in order and the index after the closing brace is
returned. -/
theorem walkObject_object (input : List Nat) (fn : StepFn) (ps : List ParseState)
    (acc : ParamFields) (ws : List Nat) (fs : List Field) (rest : List Nat) (i : Nat)
    (hfn : fn = .stateBeginValue ∨ fn = .stateBeginValueOrEmpty) (hws : IsWs ws)
    (hfs : fs ≠ []) (hwf : ∀ f ∈ fs, f.WellFormed)
    (hd : input.drop i = ws ++ 123 :: (fieldsText fs ++ 125 :: rest)) :
    walkObject (Scanner.mk fn (parseArrayValue :: ps) none false) input i (paramVisit input) acc
      = .ok { sc := Scanner.mk .stateEndValue (parseArrayValue :: ps) none false,
              i := i + ws.length + 1 + (fieldsText fs).length + 1, err := none,
              acc := visitFields (i + ws.length + 1) fs acc } := by
  unfold walkObject stepTo
  have hstep := step_beginObject fn (parseArrayValue :: ps) none false hfn
  have h1 := stepToOneOf_ws_hit (Scanner.mk fn (parseArrayValue :: ps) none false)
    [scanBeginObject] ws _ (skipsSpace_begin fn _ none false (by tauto)) hws hd
    (by rw [hstep]; simp) (by rw [hstep]; simp) (by rw [hstep]; simp) (by rw [hstep]; simp)
  rw [h1, hstep]
  simp only [bind, pure, Res.bind_ok, Option.isSome_none, Bool.false_eq_true, if_false]
  apply runs_apply
  have hd1 : input.drop (i + ws.length + 1) = fieldsText fs ++ 125 :: rest :=
    (getElem?_of_drop (drop_of_drop_append hd)).2
  exact walkObject_fields input _ ps rest fs (i + ws.length + 1) .stateBeginStringOrEmpty acc
    hfs hwf (Or.inr rfl) hd1

/-- The content of a string literal, taken apart at its first byte or escape. -/
theorem isStringContent_cases {c : Nat} {t : List Nat} (h : isStringContent (c :: t)) :
    (c ≠ 34 ∧ c ≠ 92 ∧ ¬ c < 32 ∧ isStringContent t)
      ∨ (c = 92 ∧ ∃ e t1, t = e :: t1
          ∧ ((e ≠ 117 ∧ (e = 98 ∨ e = 102 ∨ e = 110 ∨ e = 114 ∨ e = 116 ∨ e = 92 ∨ e = 47
                ∨ e = 34) ∧ isStringContent t1)
            ∨ (e = 117 ∧ ∃ a b c d t2, t1 = a :: b :: c :: d :: t2 ∧ isHex a ∧ isHex b
                ∧ isHex c ∧ isHex d ∧ isStringContent t2))) := by
  unfold isStringContent at h ⊢
  rw [strBody] at h
  by_cases h34 : c = 34
  · subst h34; simp [strNext] at h
  by_cases h92 : c = 92
  · subst h92
    right
    refine ⟨rfl, ?_⟩
    simp only [strNext, if_neg (by decide : ¬ (92 : Nat) = 34), if_true] at h
    simp only [reduceCtorEq, if_false] at h
    cases t with
    | nil => simp [strBody] at h
    | cons e t1 =>
      refine ⟨e, t1, rfl, ?_⟩
      rw [strBody] at h
      by_cases he : e = 98 ∨ e = 102 ∨ e = 110 ∨ e = 114 ∨ e = 116 ∨ e = 92 ∨ e = 47 ∨ e = 34
      · left
        simp only [strNext, if_pos he, reduceCtorEq, if_false] at h
        refine ⟨by omega, he, h⟩
      · right
        by_cases hu : e = 117
        · refine ⟨hu, ?_⟩
          simp only [strNext, if_neg he, if_pos hu, reduceCtorEq, if_false] at h
          cases t1 with
          | nil => simp [strBody] at h
          | cons a t1 =>
            rw [strBody] at h
            by_cases ha : isHex a
            · simp only [strNext, if_pos ha, reduceCtorEq, if_false] at h
              cases t1 with
              | nil => simp [strBody] at h
              | cons b t1 =>
                rw [strBody] at h
                by_cases hb : isHex b
                · simp only [strNext, if_pos hb, reduceCtorEq, if_false] at h
                  cases t1 with
                  | nil => simp [strBody] at h
                  | cons c1 t1 =>
                    rw [strBody] at h
                    by_cases hc : isHex c1
                    · simp only [strNext, if_pos hc, reduceCtorEq, if_false] at h
                      cases t1 with
                      | nil => simp [strBody] at h
                      | cons d t1 =>
                        rw [strBody] at h
                        by_cases hd : isHex d
                        · simp only [strNext, if_pos hd, reduceCtorEq, if_false] at h
                          exact ⟨a, b, c1, d, t1, rfl, ha, hb, hc, hd, h⟩
                        · simp [strNext, hd] at h
                    · simp [strNext, hc] at h
                · simp [strNext, hb] at h
            · simp [strNext, ha] at h
        · simp [strNext, he, hu] at h
  · left
    by_cases hlt : c < 32
    · simp [strNext, h34, h92, hlt] at h
    · simp only [strNext, if_neg h34, if_neg h92, if_neg hlt, reduceCtorEq, if_false] at h
      exact ⟨h34, h92, hlt, h⟩

/-- A string literal followed by more bytes has no unquoted form: the decoding stops at the
quote that closes the literal. -/
theorem unquoteBody_cut : ∀ (n : Nat) (lit : List Nat), lit.length ≤ n →
    ∀ (pend : Option Nat) (y : List Nat), isStringContent lit → y ≠ [] →
      unquoteBody pend (lit ++ 34 :: y) = none := by
  intro n
  induction n with
  | zero =>
    intro lit hl pend y _ hy
    have : lit = [] := List.length_eq_zero.mp (by omega)
    subst this
    cases y with
    | nil => exact absurd rfl hy
    | cons y0 ys => simp [unquoteBody]
  | succ n ih =>
    intro lit hl pend y hk hy
    cases lit with
    | nil =>
      cases y with
      | nil => exact absurd rfl hy
      | cons y0 ys => simp [unquoteBody]
    | cons c t =>
      rcases isStringContent_cases hk with ⟨h34, h92, hlt, ht⟩ | ⟨rfl, e, t1, rfl, hcase⟩
      · have ih1 := ih t (by simp at hl; omega) none y ht hy
        rw [List.cons_append]
        unfold unquoteBody
        split
        · next heq => simp at heq
        · next heq => simp_all
        · next heq => simp_all
        · next heq => simp_all
        · next heq =>
          simp at heq
          obtain ⟨rfl, rfl⟩ := heq
          simp [h34, h92, hlt, ih1]
      · rcases hcase with ⟨hu, he, ht1⟩ | ⟨rfl, a, b, c1, d, t2, rfl, ha, hb, hc, hd, ht2⟩
        · have ih1 := ih t1 (by simp at hl; omega) none y ht1 hy
          simp only [List.cons_append]
          unfold unquoteBody
          split
          · next heq => simp at heq
          · next heq => simp at heq
          · next heq => simp at heq; simp_all
          · next heq =>
            simp at heq
            obtain ⟨rfl, rfl⟩ := heq
            simp only [ih1, Option.map_none', ite_self]
          · next h1 h2 h3 heq =>
            simp at heq
            obtain ⟨rfl, rfl⟩ := heq
            exact (h3 _ _ rfl rfl).elim
        · have ih1 := fun p => ih t2 (by simp at hl; omega) p y ht2 hy
          simp only [List.cons_append]
          unfold unquoteBody
          simp only [ha, hb, hc, hd, and_self, if_true, ih1, Option.map_none']
          cases pend <;> simp

/-- A string literal followed by more bytes has no unquoted form. -/
theorem unquote_cut (lit y : List Nat) (hk : isStringContent lit) (hy : y ≠ []) :
    unquote (strLit lit ++ y) = none := by
  have e : strLit lit ++ y = 34 :: (lit ++ 34 :: y) := by simp [strLit]
  rw [e]
  simp only [unquote]
  exact unquoteBody_cut lit.length lit (Nat.le_refl _) none y hk hy

theorem isJSONStringEnd_escaped {input : List Nat} {i : Nat} (h : input[i]? = some 34)
    (hi : 0 < i) (hp : input[i - 1]? = some 92) : isJSONStringEnd input i = .ok false := by
  have h2 : byteAt input ((i : Int) - 1) = .ok 92 := by
    have : ((i : Int) - 1) = ((i - 1 : Nat) : Int) := by omega
    rw [this]; exact byteAt_natCast hp
  unfold isJSONStringEnd
  rw [byteAt_natCast h]
  simp [bind, Res.bind, h2, pure]

theorem not_endsPlain_last {k : List Nat} (h : ¬ endsPlain k) :
    (34 :: k)[k.length]? = some 92 := by
  unfold endsPlain at h
  simp only [ne_eq, not_not] at h
  cases k with
  | nil => simp at h
  | cons a k =>
    rw [List.getLast?_eq_getElem?] at h
    simpa using h

theorem itemsText_cons (e : Item) (es : List Item) (hes : es ≠ []) :
    itemsText (e :: es) = e.text ++ 44 :: itemsText es := by
  cases es with
  | nil => exact absurd rfl hes
  | cons g es => rfl

theorem step_beginString_value (fn : StepFn) (ps : List ParseState) (err : Option SyntaxError)
    (et : Bool) (hfn : fn = .stateBeginValue ∨ fn = .stateBeginValueOrEmpty) :
    (Scanner.mk fn ps err et).step 34
      = (Scanner.mk .stateInString ps err et, scanBeginLiteral) := by
  rcases hfn with h | h <;> subst h <;> simp [Scanner.step, Scanner.stateBeginValue, isSpace]

theorem staleAt_mono {input : List Nat} {sf : Int} {p q : Nat} (h : StaleAt input sf p)
    (hpq : p ≤ q) : StaleAt input sf q := by
  rcases h with h | ⟨a, lit, tail, h1, h2, h3, h4⟩
  · exact Or.inl h
  · exact Or.inr ⟨a, lit, tail, h1, h2, h3, by omega⟩

/-- The loop of `walkArrayStrings` over an element of an array of string literals: the
literal is visited when its closing quote does not follow a backslash; here the visitor
leaves its state as it is. -/
theorem walkArrayStrings_elem {β : Type} (input : List Nat) (visit : Int → Int → β → Res β)
    (done : Nat → ArrayState β → Res β) (acc : β) (e : Elem) (rest : List Nat) (p : Nat)
    (fn : StepFn) (sf : Int) (hfn : fn = .stateBeginValue ∨ fn = .stateBeginValueOrEmpty)
    (he : e.WellFormed) (hd : input.drop p = e.text ++ rest)
    (hvis : endsPlain e.lit → ∀ (a b : Nat), slice input a ((b : Int) + 1) = .ok (strLit e.lit) →
      visit a b acc = .ok acc) :
    ∃ sf1 : Int, Adv input (walkArrayStringsBody input visit) done p e.text.length
        (ArrayState.mk (Scanner.mk fn [parseArrayValue] none false) sf 0 acc)
        (ArrayState.mk (Scanner.mk .stateEndValue [parseArrayValue] none false) sf1 0 acc)
      ∧ input.drop (p + e.text.length) = rest ∧ StaleAt input sf1 (p + e.text.length) := by
  obtain ⟨hpre, hk, hpost⟩ := he
  have hd0 : input.drop p = e.pre ++ (34 :: (e.lit ++ (34 :: (e.post ++ rest)))) := by
    rw [hd]; simp [Elem.text, strLit]
  have a1 : Adv input (walkArrayStringsBody input visit) done p e.pre.length
      (ArrayState.mk (Scanner.mk fn [parseArrayValue] none false) sf 0 acc)
      (ArrayState.mk (Scanner.mk fn [parseArrayValue] none false) sf 0 acc) := by
    apply adv_ws _ _ e.pre _ p hpre hd0
    intro j w hw
    unfold walkArrayStringsBody
    simp only [skipsSpace_begin fn _ none false (by tauto) w hw]
  have hd1 := drop_of_drop_append hd0
  obtain ⟨hq, hd2⟩ := getElem?_of_drop hd1
  have a2 : Adv input (walkArrayStringsBody input visit) done (p + e.pre.length) 1
      (ArrayState.mk (Scanner.mk fn [parseArrayValue] none false) sf 0 acc)
      (ArrayState.mk (Scanner.mk .stateInString [parseArrayValue] none false)
        ((p + e.pre.length : Nat) : Int) 0 acc) := by
    apply adv_step hq
    unfold walkArrayStringsBody
    simp only [step_beginString_value fn _ none false hfn]
    simp
  have a3 : Adv input (walkArrayStringsBody input visit) done (p + e.pre.length + 1)
      e.lit.length
      (ArrayState.mk (Scanner.mk .stateInString [parseArrayValue] none false)
        ((p + e.pre.length : Nat) : Int) 0 acc)
      (ArrayState.mk (Scanner.mk .stateInString [parseArrayValue] none false)
        ((p + e.pre.length : Nat) : Int) 0 acc) := by
    apply adv_content (fun f => ArrayState.mk (Scanner.mk f [parseArrayValue] none false)
      ((p + e.pre.length : Nat) : Int) 0 acc) _ e.lit _ .stateInString .stateInString
      (p + e.pre.length + 1) (Or.inl rfl) hk (by simp) hd2
    intro j c f g hc hf hn hg hE
    unfold walkArrayStringsBody
    have hs := step_string (Scanner.mk f [parseArrayValue] none false) f c hf
    simp only [hn] at hs
    simp only [hs, hE]
    have hne : ((p : Int) + (e.pre.length : Int) ≠ -1) := by omega
    simp [hne, bind, Res.bind, pure]
  have hd3 := drop_of_drop_append hd2
  obtain ⟨hq2, hd4⟩ := getElem?_of_drop hd3
  have hlast : input[p + e.pre.length + 1 + e.lit.length - 1]? = (34 :: e.lit)[e.lit.length]? := by
    have e1 : p + e.pre.length + 1 + e.lit.length - 1 = p + e.pre.length + e.lit.length := by
      omega
    have h0 : input.drop (p + e.pre.length) = (34 :: e.lit) ++ (34 :: (e.post ++ rest)) := by
      rw [hd1]; simp
    rw [e1]
    exact getElem?_of_drop_append h0 e.lit.length (by simp)
  have a4 : ∃ sf1 : Int, Adv input (walkArrayStringsBody input visit) done
      (p + e.pre.length + 1 + e.lit.length) 1
      (ArrayState.mk (Scanner.mk .stateInString [parseArrayValue] none false)
        ((p + e.pre.length : Nat) : Int) 0 acc)
      (ArrayState.mk (Scanner.mk .stateEndValue [parseArrayValue] none false) sf1 0 acc)
      ∧ StaleAt input sf1 (p + e.pre.length + 1 + e.lit.length + 1) := by
    have hne : ((p : Int) + (e.pre.length : Int) ≠ -1) := by omega
    by_cases hp : endsPlain e.lit
    · refine ⟨-1, ?_, Or.inl rfl⟩
      apply adv_step hq2
      cases hx : (34 :: e.lit)[e.lit.length]? with
      | none => simp at hx
      | some x =>
        rw [hx] at hlast
        have hE := isJSONStringEnd_of_prev hq2 (by omega) hlast (endsPlain_last hp hx)
        have hsl : slice input ((p + e.pre.length : Nat) : Int)
            (((p + e.pre.length + 1 + e.lit.length : Nat) : Int) + 1) = .ok (strLit e.lit) := by
          have h0 : input.drop (p + e.pre.length) = strLit e.lit ++ (e.post ++ rest) := by
            rw [hd1]; simp [strLit]
          apply slice_of_drop h0 (by simp [strLit]) _ _ rfl
          simp [strLit]; omega
        have hv := hvis hp _ _ hsl
        push_cast at hv
        unfold walkArrayStringsBody
        simp only [step_endString, hE]
        simp [hne, bind, Res.bind, pure, hv]
    · refine ⟨((p + e.pre.length : Nat) : Int), ?_,
        Or.inr ⟨p + e.pre.length, e.lit, e.post ++ rest, rfl, hk, ?_, by omega⟩⟩
      rotate_left
      · rw [hd1]; simp [strLit]
      apply adv_step hq2
      rw [not_endsPlain_last hp] at hlast
      have hE := isJSONStringEnd_escaped hq2 (by omega) hlast
      unfold walkArrayStringsBody
      simp only [step_endString, hE]
      simp [hne, bind, Res.bind, pure]
  obtain ⟨sf1, a4, hsf⟩ := a4
  have a5 : Adv input (walkArrayStringsBody input visit) done
      (p + e.pre.length + 1 + e.lit.length + 1) e.post.length
      (ArrayState.mk (Scanner.mk .stateEndValue [parseArrayValue] none false) sf1 0 acc)
      (ArrayState.mk (Scanner.mk .stateEndValue [parseArrayValue] none false) sf1 0 acc) := by
    apply adv_ws _ _ e.post _ _ hpost hd4
    intro j w hw
    unfold walkArrayStringsBody
    simp only [skipsSpace_endValue parseArrayValue [] none false w hw]
  have hd5 := drop_of_drop_append hd4
  have etext : e.text.length = e.pre.length + 1 + e.lit.length + 1 + e.post.length := by
    simp [Elem.text, strLit]; omega
  refine ⟨sf1, ?_, ?_, staleAt_mono hsf (by omega)⟩
  · have b2 := adv_then a1 a2 rfl rfl
    have b3 := adv_then b2 a3 (by omega) rfl
    have b4 := adv_then b3 a4 (by omega) rfl
    exact adv_then b4 a5 (by omega) etext
  · have e1 : p + e.text.length = p + e.pre.length + 1 + e.lit.length + 1 + e.post.length := by
      rw [etext]; omega
    rw [e1]; exact hd5

theorem otherRun_nil (sc : Scanner) (depth : Nat) : otherRun sc depth [] = some (sc, depth) :=
  rfl

theorem otherRun_cons (sc : Scanner) (depth c : Nat) (rest : List Nat) :
    otherRun sc depth (c :: rest)
      = match (sc.step c).2 with
        | scanError => none
        | scanEnd => none
        | scanBeginLiteral =>
          if depth = 0 ∧ c = 34 then none else otherRun (sc.step c).1 depth rest
        | scanBeginObject => otherRun (sc.step c).1 (depth + 1) rest
        | scanBeginArray => otherRun (sc.step c).1 (depth + 1) rest
        | scanEndObject => if depth = 0 then none else otherRun (sc.step c).1 (depth - 1) rest
        | scanEndArray => if depth = 0 then none else otherRun (sc.step c).1 (depth - 1) rest
        | scanObjectKey => if depth = 0 then none else otherRun (sc.step c).1 depth rest
        | scanObjectValue => if depth = 0 then none else otherRun (sc.step c).1 depth rest
        | scanArrayValue => if depth = 0 then none else otherRun (sc.step c).1 depth rest
        | _ => otherRun (sc.step c).1 depth rest :=
  rfl

theorem isJSONStringEnd_total {input : List Nat} {i c : Nat} (hc : input[i]? = some c)
    (hi : 0 < i) : ∃ e, isJSONStringEnd input i = .ok e := by
  have hlt : i - 1 < input.length := by
    have := (List.getElem?_eq_some_iff.mp hc).1
    omega
  have hp : input[i - 1]? = some (input[i - 1]) := List.getElem?_eq_getElem hlt
  have h2 : byteAt input ((i : Int) - 1) = .ok (input[i - 1]) := by
    have : ((i : Int) - 1) = ((i - 1 : Nat) : Int) := by omega
    rw [this]; exact byteAt_natCast hp
  unfold isJSONStringEnd
  rw [byteAt_natCast hc]
  by_cases h34 : c = 34
  · exact ⟨input[i - 1] != 92, by simp [bind, Res.bind, h34, h2, pure]⟩
  · exact ⟨false, by simp [bind, Res.bind, h34, pure]⟩

/-- The text from the start of a complete literal to a later byte is the literal followed
by more bytes. -/
theorem slice_stale {input : List Nat} {a i c : Nat} {lit tail : List Nat}
    (hd : input.drop a = strLit lit ++ tail) (hp : a + lit.length + 2 ≤ i)
    (hc : input[i]? = some c) :
    ∃ y, y ≠ [] ∧ slice input (a : Int) ((i : Int) + 1) = .ok (strLit lit ++ y) := by
  have hlt : i < input.length := (List.getElem?_eq_some_iff.mp hc).1
  have hlen : (input.drop a).length = (strLit lit).length + tail.length := by rw [hd]; simp
  have hsl : (strLit lit).length = lit.length + 2 := by simp [strLit]
  simp only [List.length_drop] at hlen
  refine ⟨tail.take (i + 1 - a - (lit.length + 2)), ?_, ?_⟩
  · intro h
    have := congrArg List.length h
    simp only [List.length_take, List.length_nil] at this
    omega
  · unfold slice
    have hcond : (0 : Int) ≤ (a : Int) ∧ (a : Int) ≤ (i : Int) + 1
        ∧ (i : Int) + 1 ≤ (input.length : Int) := by omega
    rw [if_pos hcond]
    have e1 : ((a : Int)).toNat = a := by simp
    have e2 : ((i : Int) + 1).toNat = i + 1 := by omega
    rw [e1, e2, hd, List.take_append_eq_append_take, hsl]
    rw [List.take_of_length_le (by rw [hsl]; omega)]

/-- The loop of `walkArrayStrings` over the text of an element that is not a string, with a
visitor that leaves its state as it is on a text without unquoted form: only the scanner,
the depth and the open string change, and no string or a complete literal is open after. -/
theorem walkArrayStrings_hole {β : Type} (input : List Nat) (visit : Int → Int → β → Res β)
    (done : Nat → ArrayState β → Res β) (acc : β)
    (hvis : ∀ (a b : Nat) (x : List Nat), slice input a ((b : Int) + 1) = .ok x →
      unquote x = none → visit a b acc = .ok acc) :
    ∀ (t rest : List Nat) (sc : Scanner) (depth : Nat) (r : Scanner × Nat) (i : Nat) (sf : Int),
      otherRun sc depth t = some r → input.drop i = t ++ rest → StaleAt input sf i →
      ∃ sf1 : Int, Adv input (walkArrayStringsBody input visit) done i t.length
          (ArrayState.mk sc sf (depth : Int) acc) (ArrayState.mk r.1 sf1 (r.2 : Int) acc)
        ∧ StaleAt input sf1 (i + t.length) := by
  intro t
  induction t with
  | nil =>
    intro rest sc depth r i sf h _ hst
    simp only [otherRun_nil, Option.some.injEq] at h
    subst h
    exact ⟨sf, adv_zero i _, hst⟩
  | cons c t ih =>
    intro rest sc depth r i sf h hd hst
    have hc : input[i]? = some c := getElem?_of_drop_eq hd
    have hd1 := (getElem?_of_drop hd).2
    rw [otherRun_cons] at h
    have fin : ∀ (d1 : Nat) (sf2 : Int), otherRun (sc.step c).1 d1 t = some r →
        walkArrayStringsBody input visit i c (ArrayState.mk sc sf (depth : Int) acc)
          = .ok (.next (i + 1) (ArrayState.mk (sc.step c).1 sf2 (d1 : Int) acc)) →
        StaleAt input sf2 (i + 1) →
        ∃ sf1 : Int, Adv input (walkArrayStringsBody input visit) done i (c :: t).length
            (ArrayState.mk sc sf (depth : Int) acc)
            (ArrayState.mk r.1 sf1 (r.2 : Int) acc)
          ∧ StaleAt input sf1 (i + (c :: t).length) := by
      intro d1 sf2 h1 hb hst2
      have a1 : Adv input (walkArrayStringsBody input visit) done i 1
          (ArrayState.mk sc sf (depth : Int) acc)
          (ArrayState.mk (sc.step c).1 sf2 (d1 : Int) acc) := adv_step hc hb
      obtain ⟨sf1, a2, hst1⟩ := ih rest (sc.step c).1 d1 r (i + 1) sf2 h1 hd1 hst2
      refine ⟨sf1, adv_then a1 a2 rfl (by simp; omega), ?_⟩
      have e : i + (c :: t).length = i + 1 + t.length := by simp; omega
      rw [e]; exact hst1
    have hst1 : StaleAt input sf (i + 1) := staleAt_mono hst (by omega)
    cases hopc : (sc.step c).2 <;> rw [hopc] at h <;> simp only at h
    case scanError => simp at h
    case scanEnd => simp at h
    case scanBeginObject =>
      apply fin (depth + 1) sf h _ hst1
      unfold walkArrayStringsBody
      simp only [hopc]
      rfl
    case scanBeginArray =>
      apply fin (depth + 1) sf h _ hst1
      unfold walkArrayStringsBody
      simp only [hopc]
      rfl
    case scanEndObject =>
      by_cases hd0 : depth = 0
      · simp [hd0] at h
      · rw [if_neg hd0] at h
        apply fin (depth - 1) sf h _ hst1
        unfold walkArrayStringsBody
        have e : (((depth - 1 : Nat)) : Int) = (depth : Int) - 1 := by omega
        simp only [hopc, e]
    case scanEndArray =>
      by_cases hd0 : depth = 0
      · simp [hd0] at h
      · rw [if_neg hd0] at h
        apply fin (depth - 1) sf h _ hst1
        unfold walkArrayStringsBody
        have hne : ¬ ((depth : Nat) : Int) = 0 := by omega
        have e : (((depth - 1 : Nat)) : Int) = (depth : Int) - 1 := by omega
        simp only [hopc, hne, if_false, e]
    case scanObjectKey =>
      by_cases hd0 : depth = 0
      · simp [hd0] at h
      · rw [if_neg hd0] at h
        apply fin depth sf h _ hst1
        unfold walkArrayStringsBody
        simp only [hopc]
    case scanObjectValue =>
      by_cases hd0 : depth = 0
      · simp [hd0] at h
      · rw [if_neg hd0] at h
        apply fin depth sf h _ hst1
        unfold walkArrayStringsBody
        simp only [hopc]
    case scanArrayValue =>
      by_cases hd0 : depth = 0
      · simp [hd0] at h
      · rw [if_neg hd0] at h
        apply fin depth sf h _ hst1
        unfold walkArrayStringsBody
        simp only [hopc]
    case scanBeginLiteral =>
      by_cases hq : depth = 0 ∧ c = 34
      · rw [if_pos hq] at h; simp at h
      · rw [if_neg hq] at h
        apply fin depth sf h _ hst1
        unfold walkArrayStringsBody
        have hq1 : ¬ (((depth : Nat) : Int) = 0 ∧ c = 34) := by
          intro hh; exact hq ⟨by omega, hh.2⟩
        simp only [hopc, hq1, if_false]
    case scanContinue =>
      by_cases hsf : sf = -1
      · apply fin depth sf h _ hst1
        unfold walkArrayStringsBody
        simp only [hopc, hsf, ne_eq, not_true_eq_false, if_false]
      · rcases hst with hst | ⟨a, lit, tail, hsfa, hlit, hda, hle⟩
        · exact absurd hst hsf
        · subst hsfa
          obtain ⟨e, he⟩ := isJSONStringEnd_total hc (by omega)
          cases e with
          | false =>
            apply fin depth (a : Int) h _ hst1
            unfold walkArrayStringsBody
            simp only [hopc, ne_eq, hsf, not_false_eq_true, if_true, he, bind, pure,
              Res.bind_ok, Bool.false_eq_true, if_false]
          | true =>
            obtain ⟨y, hy, hsl⟩ := slice_stale hda hle hc
            have hv := hvis a i _ hsl (unquote_cut lit y hlit hy)
            apply fin depth (-1) h _ (Or.inl rfl)
            unfold walkArrayStringsBody
            simp only [hopc, ne_eq, hsf, not_false_eq_true, if_true, he, bind, pure,
              Res.bind_ok, hv]
    case scanSkipSpace =>
      apply fin depth sf h _ hst1
      unfold walkArrayStringsBody
      simp only [hopc]

theorem isOtherElement_spec {t : List Nat} (h : isOtherElement t = true) :
    ∃ c rest s, t = c :: rest ∧ isSpace c = false
      ∧ otherRun (Scanner.mk .stateBeginValue [parseArrayValue] none false) 0 t = some (s, 0)
      ∧ s.step 44 = (Scanner.mk .stateBeginValue [parseArrayValue] none false, scanArrayValue)
      ∧ s.step 93 = (Scanner.mk .stateEndTop [] none true, scanEndArray) := by
  unfold isOtherElement at h
  simp only [Bool.and_eq_true] at h
  obtain ⟨h1, h2⟩ := h
  cases t with
  | nil => simp at h1
  | cons c rest =>
    simp only [List.head?_cons, Bool.not_eq_true'] at h1
    split at h2
    · rename_i s hs
      simp only [Bool.and_eq_true, decide_eq_true_eq] at h2
      exact ⟨c, rest, s, rfl, h1, hs, h2.1, h2.2⟩
    · simp at h2

theorem step_orEmpty (fn : StepFn) (ps : List ParseState) (err : Option SyntaxError) (et : Bool)
    (c : Nat) (hfn : fn = .stateBeginValue ∨ fn = .stateBeginValueOrEmpty)
    (hs : isSpace c = false) (h93 : c ≠ 93) :
    (Scanner.mk fn ps err et).step c
      = (Scanner.mk .stateBeginValue ps err et).step c := by
  rcases hfn with h | h
  · rw [h]
  · subst h
    have e1 : (Scanner.mk .stateBeginValueOrEmpty ps err et).step c
        = (Scanner.mk .stateBeginValueOrEmpty ps err et).stateBeginValue c := by
      simp [Scanner.step, hs, h93]
    have e2 : (Scanner.mk .stateBeginValue ps err et).step c
        = (Scanner.mk .stateBeginValue ps err et).stateBeginValue c := by
      simp [Scanner.step]
    rw [e1, e2]
    unfold Scanner.stateBeginValue Scanner.error
    simp only [hs, Bool.false_eq_true, if_false]

/-- The loop of `walkArrayStrings` over an element that is not a string, with a visitor
that leaves its state as it is on a text without unquoted form. -/
theorem walkArrayStrings_other {β : Type} (input : List Nat) (visit : Int → Int → β → Res β)
    (done : Nat → ArrayState β → Res β) (acc : β) (pre body rest : List Nat) (p : Nat)
    (fn : StepFn) (sf : Int) (hfn : fn = .stateBeginValue ∨ fn = .stateBeginValueOrEmpty)
    (hpre : IsWs pre) (hbody : isOtherElement body = true)
    (hd : input.drop p = (pre ++ body) ++ rest) (hst : StaleAt input sf p)
    (hvis : ∀ (a b : Nat) (x : List Nat), slice input a ((b : Int) + 1) = .ok x →
      unquote x = none → visit a b acc = .ok acc) :
    ∃ (s : Scanner) (sf1 : Int),
      Adv input (walkArrayStringsBody input visit) done p (pre ++ body).length
        (ArrayState.mk (Scanner.mk fn [parseArrayValue] none false) sf 0 acc)
        (ArrayState.mk s sf1 0 acc)
      ∧ input.drop (p + (pre ++ body).length) = rest
      ∧ s.step 44 = (Scanner.mk .stateBeginValue [parseArrayValue] none false, scanArrayValue)
      ∧ s.step 93 = (Scanner.mk .stateEndTop [] none true, scanEndArray)
      ∧ StaleAt input sf1 (p + (pre ++ body).length) := by
  obtain ⟨c, t, s, rfl, hs, hrun, h44, h93⟩ := isOtherElement_spec hbody
  have hd0 : input.drop p = pre ++ (c :: (t ++ rest)) := by rw [hd]; simp
  have a1 : Adv input (walkArrayStringsBody input visit) done p pre.length
      (ArrayState.mk (Scanner.mk fn [parseArrayValue] none false) sf 0 acc)
      (ArrayState.mk (Scanner.mk fn [parseArrayValue] none false) sf 0 acc) := by
    apply adv_ws _ _ pre _ p hpre hd0
    intro j w hw
    unfold walkArrayStringsBody
    simp only [skipsSpace_begin fn _ none false (by tauto) w hw]
  have hd1 := drop_of_drop_append hd0
  have hc93 : c ≠ 93 := by
    intro h
    subst h
    rw [otherRun_cons] at hrun
    simp [Scanner.step, Scanner.stateBeginValue, Scanner.error, isSpace] at hrun
  have hstep := step_orEmpty fn [parseArrayValue] none false c hfn hs hc93
  have hrun1 : otherRun (Scanner.mk fn [parseArrayValue] none false) 0 (c :: t) = some (s, 0) := by
    rw [otherRun_cons, hstep, ← otherRun_cons]
    exact hrun
  obtain ⟨sf1, a2, hst1⟩ := walkArrayStrings_hole input visit done acc hvis (c :: t) rest
    (Scanner.mk fn [parseArrayValue] none false) 0 (s, 0) (p + pre.length) sf hrun1
    (by rw [hd1]; simp) (staleAt_mono hst (by omega))
  have e : p + (pre ++ c :: t).length = p + pre.length + (c :: t).length := by
    simp; omega
  refine ⟨s, sf1, ?_, ?_, h44, h93, ?_⟩
  · exact adv_then a1 a2 rfl (by simp)
  · have := drop_of_drop_append (show input.drop (p + pre.length) = (c :: t) ++ rest by
      rw [hd1]; simp)
    rw [e]; exact this
  · rw [e]; exact hst1

theorem step_arrayComma (ps : List ParseState) (err : Option SyntaxError) (et : Bool) :
    (Scanner.mk .stateEndValue (parseArrayValue :: ps) err et).step 44
      = (Scanner.mk .stateBeginValue (parseArrayValue :: ps) err et, scanArrayValue) := by
  simp [Scanner.step, Scanner.stateEndValue, isSpace]

theorem step_arrayEnd (err : Option SyntaxError) (et : Bool) :
    (Scanner.mk .stateEndValue [parseArrayValue] err et).step 93
      = (Scanner.mk .stateEndTop [] err true, scanEndArray) := by
  simp [Scanner.step, Scanner.stateEndValue, Scanner.popParseState, isSpace]

/-- The loop of `walkArrayStrings` over an element of an array, with a visitor that leaves
its state as it is on the string of the element and on a text without unquoted form. -/
theorem walkArrayStrings_item {β : Type} (input : List Nat) (visit : Int → Int → β → Res β)
    (done : Nat → ArrayState β → Res β) (acc : β) (it : Item)
    (rest : List Nat) (p : Nat) (fn : StepFn) (sf : Int)
    (hfn : fn = .stateBeginValue ∨ fn = .stateBeginValueOrEmpty)
    (hok : it.WellFormed) (hst : StaleAt input sf p)
    (hd : input.drop p = it.text ++ rest)
    (hvis : ∀ (a b : Nat) (x : List Nat), slice input a ((b : Int) + 1) = .ok x →
      (unquote x = none ∨ ∃ e, it = .str e ∧ x = strLit e.lit) → visit a b acc = .ok acc) :
    ∃ (s : Scanner) (sf1 : Int), Adv input (walkArrayStringsBody input visit) done p
        it.text.length
        (ArrayState.mk (Scanner.mk fn [parseArrayValue] none false) sf 0 acc)
        (ArrayState.mk s sf1 0 acc)
      ∧ input.drop (p + it.text.length) = rest
      ∧ s.step 44 = (Scanner.mk .stateBeginValue [parseArrayValue] none false, scanArrayValue)
      ∧ s.step 93 = (Scanner.mk .stateEndTop [] none true, scanEndArray)
      ∧ StaleAt input sf1 (p + it.text.length) := by
  cases it with
  | str e =>
    obtain ⟨sf1, a1, hd1, h1⟩ := walkArrayStrings_elem input visit done acc e rest p fn sf hfn
      hok hd (fun _ a b hsl => hvis a b _ hsl (Or.inr ⟨e, rfl, rfl⟩))
    exact ⟨_, sf1, a1, hd1, step_arrayComma [] none false, step_arrayEnd none false, h1⟩
  | other pre body =>
    obtain ⟨hpre, hbody⟩ := hok
    exact walkArrayStrings_other input visit done acc pre body rest p fn sf hfn hpre hbody
      (by simpa [Item.text] using hd) hst (fun a b x hsl hu => hvis a b x hsl (Or.inl hu))

/-- The loop of `walkArrayStrings` over the elements of an array and its closing bracket,
with a visitor that leaves its state as it is on every string of the array and on a text
without unquoted form. -/
theorem walkArrayStrings_items {β : Type} (input : List Nat) (visit : Int → Int → β → Res β)
    (done : Nat → ArrayState β → Res β) (acc : β) (rest : List Nat) :
    ∀ (es : List Item) (p : Nat) (fn : StepFn) (sf : Int), es ≠ [] →
      (∀ it ∈ es, it.WellFormed) → StaleAt input sf p →
      (fn = .stateBeginValue ∨ fn = .stateBeginValueOrEmpty) →
      input.drop p = itemsText es ++ 93 :: rest →
      (∀ (a b : Nat) (x : List Nat), slice input a ((b : Int) + 1) = .ok x →
        (unquote x = none ∨ ∃ e, Item.str e ∈ es ∧ x = strLit e.lit) →
        visit a b acc = .ok acc) →
      Runs input (walkArrayStringsBody input visit) done p
        (ArrayState.mk (Scanner.mk fn [parseArrayValue] none false) sf 0 acc) (.ok acc) := by
  intro es
  induction es with
  | nil => intro p fn sf h; exact absurd rfl h
  | cons it es ih =>
    intro p fn sf _ hok hst hfn hd hvis
    have hvis1 : ∀ (a b : Nat) (x : List Nat), slice input a ((b : Int) + 1) = .ok x →
        (unquote x = none ∨ ∃ e, it = .str e ∧ x = strLit e.lit) →
        visit a b acc = .ok acc := by
      intro a b x hsl hx
      apply hvis a b x hsl
      rcases hx with hx | ⟨e, he, hx⟩
      · exact Or.inl hx
      · exact Or.inr ⟨e, by rw [he]; simp, hx⟩
    by_cases hes : es = []
    · subst hes
      have hd0 : input.drop p = it.text ++ 93 :: rest := by simpa [itemsText] using hd
      obtain ⟨s, sf1, a1, hd1, _, h93, _⟩ := walkArrayStrings_item input visit done acc it
        (93 :: rest) p fn sf hfn (hok it (by simp)) hst hd0 hvis1
      apply a1
      have hc : input[p + it.text.length]? = some 93 := getElem?_of_drop_eq hd1
      apply runs_of_step hc
      unfold walkArrayStringsBody
      simp only [h93]
      simp [Cont]
    · have hd0 : input.drop p = it.text ++ 44 :: (itemsText es ++ 93 :: rest) := by
        rw [hd, itemsText_cons it es hes]; simp
      obtain ⟨s, sf1, a1, hd1, h44, _, hsf1⟩ := walkArrayStrings_item input visit done acc it
        (44 :: (itemsText es ++ 93 :: rest)) p fn sf hfn (hok it (by simp)) hst hd0 hvis1
      apply a1
      obtain ⟨hc, hd2⟩ := getElem?_of_drop hd1
      apply runs_of_step hc
      unfold walkArrayStringsBody
      simp only [h44, Cont]
      refine ⟨by omega, ?_⟩
      apply ih (p + it.text.length + 1) .stateBeginValue sf1 hes
        (fun g hg => hok g (by simp [hg])) (staleAt_mono hsf1 (by omega)) (Or.inl rfl) hd2
      intro a b x hsl hx
      apply hvis a b x hsl
      rcases hx with hx | ⟨e, he, hx⟩
      · exact Or.inl hx
      · exact Or.inr ⟨e, by simp [he], hx⟩

/-- `walkArrayStrings` on an array of well-formed elements with a visitor that leaves its
state as it is on every string of the array and on a text without unquoted form: the state
is returned unchanged. -/
theorem walkArrayStrings_array {β : Type} (visit : Int → Int → β → Res β) (acc : β)
    (w0 wi : List Nat) (es : List Item) (w1 : List Nat) (hw0 : IsWs w0) (hwi : IsWs wi)
    (hok : ∀ it ∈ es, it.WellFormed)
    (hvis : ∀ (a b : Nat) (x : List Nat),
      slice (arrayText w0 wi es w1) a ((b : Int) + 1) = .ok x →
      (unquote x = none ∨ ∃ e, Item.str e ∈ es ∧ x = strLit e.lit) →
      visit a b acc = .ok acc) :
    walkArrayStrings (arrayText w0 wi es w1) visit acc = .ok acc := by
  unfold walkArrayStrings stepTo
  have hd : (arrayText w0 wi es w1).drop 0 = w0 ++ 91 :: (wi ++ (itemsText es ++ 93 :: w1)) := by
    simp [arrayText]
  have hstep := step_beginArray .stateBeginValue [] none false (Or.inl rfl)
  have hr : Scanner.reset = Scanner.mk .stateBeginValue [] none false := rfl
  have h1 := stepToOneOf_ws_hit Scanner.reset [scanBeginArray] w0 _
    (skipsSpace_begin .stateBeginValue [] none false (by tauto)) hw0 hd
    (by rw [hr, hstep]; simp) (by rw [hr, hstep]; simp) (by rw [hr, hstep]; simp)
    (by rw [hr, hstep]; simp)
  rw [h1, hr, hstep]
  simp only [bind, pure, Res.bind_ok, Option.isSome_none, Bool.false_eq_true, if_false]
  apply runs_apply
  have hd1 : (arrayText w0 wi es w1).drop (0 + w0.length + 1)
      = wi ++ (itemsText es ++ 93 :: w1) := (getElem?_of_drop (drop_of_drop_append hd)).2
  have a1 : Adv (arrayText w0 wi es w1) (walkArrayStringsBody (arrayText w0 wi es w1) visit)
      (fun _ st => .ok st.acc) (0 + w0.length + 1) wi.length
      (ArrayState.mk (Scanner.mk .stateBeginValueOrEmpty [parseArrayValue] none false) (-1) 0 acc)
      (ArrayState.mk (Scanner.mk .stateBeginValueOrEmpty [parseArrayValue] none false) (-1) 0
        acc) := by
    apply adv_ws _ _ wi _ _ hwi hd1
    intro j w hw
    unfold walkArrayStringsBody
    simp only [skipsSpace_begin .stateBeginValueOrEmpty _ none false (by tauto) w hw]
  apply a1
  have hd2 := drop_of_drop_append hd1
  by_cases hes : es = []
  · subst hes
    have hc : (arrayText w0 wi [] w1)[0 + w0.length + 1 + wi.length]? = some 93 :=
      getElem?_of_drop_eq (by simpa [itemsText] using hd2)
    apply runs_of_step hc
    unfold walkArrayStringsBody
    simp [Scanner.step, Scanner.stateEndValue, isSpace, Scanner.popParseState, Cont]
  · exact walkArrayStrings_items _ visit _ acc w1 es _ .stateBeginValueOrEmpty (-1) hes hok
      (Or.inl rfl) (Or.inr rfl) hd2 hvis

theorem stateBeginValue_op (s : Scanner) (c : Nat) (hs : isSpace c = false) (hc : c ≠ 91) :
    (s.stateBeginValue c).2 = scanBeginObject ∨ (s.stateBeginValue c).2 = scanBeginLiteral
      ∨ ((s.stateBeginValue c).2 = scanError ∧ (s.stateBeginValue c).1.err.isSome = true) := by
  unfold Scanner.stateBeginValue
  rw [if_neg (by simp [hs])]
  by_cases h1 : c = 123
  · rw [if_pos h1]; exact Or.inl rfl
  rw [if_neg h1, if_neg hc]
  by_cases h2 : c = 34
  · rw [if_pos h2]; exact Or.inr (Or.inl rfl)
  rw [if_neg h2]
  by_cases h3 : c = 45
  · rw [if_pos h3]; exact Or.inr (Or.inl rfl)
  rw [if_neg h3]
  by_cases h4 : c = 48
  · rw [if_pos h4]; exact Or.inr (Or.inl rfl)
  rw [if_neg h4]
  by_cases h5 : c = 116
  · rw [if_pos h5]; exact Or.inr (Or.inl rfl)
  rw [if_neg h5]
  by_cases h6 : c = 102
  · rw [if_pos h6]; exact Or.inr (Or.inl rfl)
  rw [if_neg h6]
  by_cases h7 : c = 110
  · rw [if_pos h7]; exact Or.inr (Or.inl rfl)
  rw [if_neg h7]
  by_cases h8 : 49 ≤ c ∧ c ≤ 57
  · rw [if_pos h8]; exact Or.inr (Or.inl rfl)
  rw [if_neg h8]
  exact Or.inr (Or.inr ⟨rfl, rfl⟩)

/-- `walkArrayStrings` on a text that is not an array returns its state unchanged. -/
theorem walkArrayStrings_notArray {β : Type} (visit : Int → Int → β → Res β) (acc : β)
    (ws rest : List Nat) (c : Nat) (hws : IsWs ws) (hs : isSpace c = false) (hc : c ≠ 91) :
    walkArrayStrings (ws ++ c :: rest) visit acc = .ok acc := by
  unfold walkArrayStrings stepTo stepToOneOf
  have hd : (ws ++ c :: rest).drop 0 = ws ++ c :: rest := rfl
  have hop : (Scanner.reset.step c).2 = scanBeginObject
      ∨ (Scanner.reset.step c).2 = scanBeginLiteral
      ∨ ((Scanner.reset.step c).2 = scanError
        ∧ (Scanner.reset.step c).1.err.isSome = true) := by
    have e : Scanner.reset.step c = Scanner.reset.stateBeginValue c := by
      simp [Scanner.step, Scanner.reset]
    rw [e]
    exact stateBeginValue_op _ c hs hc
  have hrun : ∃ r : StepResult, r.err.isSome = true
      ∧ Runs (ws ++ c :: rest) (stepToOneOfBody [scanBeginArray])
        (fun i sc => .ok { sc := sc.eof.1, i := i, op := scanContinue, err := sc.eof.1.errValue })
        0 Scanner.reset (.ok r) := by
    have a1 : Adv (ws ++ c :: rest) (stepToOneOfBody [scanBeginArray])
        (fun i sc => .ok { sc := sc.eof.1, i := i, op := scanContinue, err := sc.eof.1.errValue })
        0 ws.length Scanner.reset Scanner.reset := by
      apply adv_ws _ _ ws _ 0 hws hd
      intro j w hw
      unfold stepToOneOfBody
      simp only [skipsSpace_begin .stateBeginValue [] none false (by tauto) w hw,
        show Scanner.reset = Scanner.mk .stateBeginValue [] none false from rfl]
    have hc1 : (ws ++ c :: rest)[0 + ws.length]? = some c :=
      getElem?_of_drop_eq (drop_of_drop_append hd)
    have hbody : ∃ r : StepResult, r.err.isSome = true
        ∧ stepToOneOfBody [scanBeginArray] (0 + ws.length) c Scanner.reset = .ok (.ret r) := by
      unfold stepToOneOfBody
      generalize Scanner.reset.step c = r at hop
      obtain ⟨s1, op⟩ := r
      simp only at hop
      rcases hop with h | h | ⟨h, herr⟩ <;> subst h
      · exact ⟨StepResult.mk s1 (0 + ws.length + 1) scanBeginObject
          (some (.unexpectedScannerOpError scanBeginObject)), rfl, by simp⟩
      · exact ⟨StepResult.mk s1 (0 + ws.length + 1) scanBeginLiteral
          (some (.unexpectedScannerOpError scanBeginLiteral)), rfl, by simp⟩
      · refine ⟨StepResult.mk s1 (0 + ws.length + 1) scanError s1.errValue, ?_, by simp⟩
        cases he : s1.err with
        | none => rw [he] at herr; simp at herr
        | some x => simp [Scanner.errValue, he]
    obtain ⟨r, hr, hb⟩ := hbody
    refine ⟨r, hr, ?_⟩
    apply a1
    apply runs_of_step hc1
    rw [hb]
    simp [Cont]
  obtain ⟨r, hr, hruns⟩ := hrun
  rw [runs_apply hruns]
  simp only [bind, pure, Res.bind_ok, hr, if_true]

theorem arrayText_ne_nil (w0 wi : List Nat) (es : List Item) (w1 : List Nat) :
    arrayText w0 wi es w1 ≠ [] := by
  simp [arrayText]

/-- `walkArrayStrings` on the value of a field no string element of which is matched, with
a visitor that leaves its state as it is on every text that is not a matched literal. -/
theorem walkArrayStrings_clear {β : Type} (re : Regexp) (t : List Nat)
    (visit : Int → Int → β → Res β) (acc : β) (h : ArrayClear re t)
    (hvis : ∀ (x : List Nat) (a b : Nat),
      (∀ u, unquote x = some u → re.MatchString u = false) →
      slice t a ((b : Int) + 1) = .ok x → visit a b acc = .ok acc) :
    walkArrayStrings t visit acc = .ok acc := by
  rcases h with ⟨ws, c, rest, rfl, hws, hs, hc⟩ | ⟨w0, wi, es, w1, rfl, hw0, hwi, hok, hun⟩
  · exact walkArrayStrings_notArray visit acc ws rest c hws hs hc
  · apply walkArrayStrings_array visit acc w0 wi es w1 hw0 hwi hok
    intro a b x hsl hx
    apply hvis x a b _ hsl
    intro u hu
    rcases hx with hx | ⟨e, he, rfl⟩
    · rw [hx] at hu; cases hu
    · have h1 := hun _ he
      simp only [Item.unmatchedBy, unmatched, hu, Bool.not_eq_true'] at h1
      exact h1

/-- A key path no element of which is matched is not sensitive. -/
theorem hasSensitiveKeyPath_clear (o : Obfuscator) (t : List Nat) (h : KeyPathClear o t) :
    hasSensitiveKeyPath o t = .ok false := by
  unfold hasSensitiveKeyPath
  rcases h with h | h | ⟨keyRE, ho, hclear⟩
  · rw [h]; rfl
  · subst h
    cases o.KeyRegexp <;> rfl
  · rw [ho]
    simp only
    by_cases ht : t = []
    · simp [ht]; rfl
    · rw [if_neg ht]
      apply walkArrayStrings_clear keyRE t _ false hclear
      intro x a b hu hsl
      unfold keyPathVisit
      simp only [Bool.false_eq_true, if_false, hsl, bind, pure, Res.bind_ok]
      cases hq : unquote x with
      | none => rfl
      | some u => simp [hu u hq]

/-- Highlights none of which is matched by the value matcher get no edit. -/
theorem obfuscateAppSecHighlights_clear (o : Obfuscator) (valueRE : Regexp) (t : List Nat)
    (ho : o.ValueRegexp = some valueRE) (h : HighlightClear valueRE t) (hne : t ≠ []) :
    obfuscateAppSecHighlights o t [] false = .ok [] := by
  unfold obfuscateAppSecHighlights
  rcases h with h | hclear
  · exact absurd h hne
  · simp only [ho, Option.isNone_some, Bool.false_eq_true, false_and, if_false]
    apply walkArrayStrings_clear valueRE t _ [] hclear
    intro x a b hu hsl
    unfold highlightVisit redactMatches
    simp only [Bool.false_eq_true, if_false, hsl, bind, pure, Res.bind_ok]
    cases hq : unquote x with
    | none => rfl
    | some u => simp [ho, hu u hq]

/-- `scanString` on a string literal with white space around it: the offsets of the
literal. -/
theorem scanString_literal (w1 v w2 : List Nat) (hw1 : IsWs w1) (hv : isStringContent v)
    (hp : endsPlain v) :
    scanString (w1 ++ (strLit v ++ w2))
      = .ok ((w1.length : Int), ((w1.length + (v.length + 2) : Nat) : Int), none) := by
  unfold scanString stepTo
  have hd : (w1 ++ (strLit v ++ w2)).drop 0 = w1 ++ 34 :: (v ++ 34 :: w2) := by
    simp [strLit]
  have hstep := step_beginString_value .stateBeginValue [] none false (Or.inl rfl)
  have hr : Scanner.reset = Scanner.mk .stateBeginValue [] none false := rfl
  have h1 := stepToOneOf_ws_hit Scanner.reset [scanBeginLiteral] w1 _
    (skipsSpace_begin .stateBeginValue [] none false (by tauto)) hw1 hd
    (by rw [hr, hstep]; simp) (by rw [hr, hstep]; simp) (by rw [hr, hstep]; simp)
    (by rw [hr, hstep]; simp)
  rw [h1, hr, hstep]
  have hd1 := drop_of_drop_append hd
  obtain ⟨hq, hd2⟩ := getElem?_of_drop hd1
  have hb : byteAt (w1 ++ (strLit v ++ w2)) (((0 + w1.length + 1 : Nat) : Int) - 1) = .ok 34 := by
    have e : (((0 + w1.length + 1 : Nat) : Int) - 1) = ((0 + w1.length : Nat) : Int) := by
      push_cast; omega
    rw [e]; exact byteAt_natCast hq
  simp only [bind, pure, Res.bind_ok, Option.isSome_none, Bool.false_eq_true, if_false, hb,
    ne_eq, not_true_eq_false]
  apply runs_apply
  have a3 : Adv (w1 ++ (strLit v ++ w2))
      (scanStringBody (w1 ++ (strLit v ++ w2)) (((0 + w1.length + 1 : Nat) : Int) - 1))
      (fun _ sc => .ok (0, 0, sc.eof.1.errValue)) (0 + w1.length + 1) v.length
      (Scanner.mk .stateInString [] none false) (Scanner.mk .stateInString [] none false) := by
    apply adv_content (fun f => Scanner.mk f [] none false) _ v _ .stateInString .stateInString
      (0 + w1.length + 1) (Or.inl rfl) hv (by simp) hd2
    intro j c f g hc hf hn hg hE
    unfold scanStringBody
    have hs := step_string (Scanner.mk f [] none false) f c hf
    simp only [hn] at hs
    simp only [hs, hE, bind, pure, Res.bind_ok, Bool.false_eq_true, if_false]
  apply a3
  have hd3 := drop_of_drop_append hd2
  obtain ⟨hq2, _⟩ := getElem?_of_drop hd3
  have hlast : (w1 ++ (strLit v ++ w2))[0 + w1.length + 1 + v.length - 1]?
      = (34 :: v)[v.length]? := by
    have e1 : 0 + w1.length + 1 + v.length - 1 = 0 + w1.length + v.length := by omega
    have h0 : (w1 ++ (strLit v ++ w2)).drop (0 + w1.length) = (34 :: v) ++ (34 :: w2) := by
      rw [hd1]; simp
    rw [e1]
    exact getElem?_of_drop_append h0 v.length (by simp)
  apply runs_of_step hq2
  cases hx : (34 :: v)[v.length]? with
  | none => simp at hx
  | some x =>
    rw [hx] at hlast
    have hE := isJSONStringEnd_of_prev hq2 (by omega) hlast (endsPlain_last hp hx)
    unfold scanStringBody
    simp only [step_endString, hE]
    simp [bind, Res.bind, pure, Cont]
    omega

theorem slice_append_mid (a m c : List Nat) (hm : m ≠ []) :
    slice (a ++ (m ++ c)) (a.length : Int) ((a.length + m.length : Nat) : Int) = .ok m := by
  have hd : (a ++ (m ++ c)).drop a.length = m ++ c := by simp
  exact slice_of_drop hd hm _ _ rfl (by push_cast; rfl)

/-- `obfuscateAppSecValue` without a sensitive key on a string literal whose content is
matched by the value matcher: one edit, which replaces the literal by the quoted result of
the replacement. -/
theorem obfuscateAppSecValue_literal (o : Obfuscator) (valueRE : Regexp) (w1 v w2 u q : List Nat)
    (ho : o.ValueRegexp = some valueRE) (hw1 : IsWs w1) (hv : isStringContent v)
    (hp : endsPlain v) (hu : unquote (strLit v) = some u) (hm : valueRE.MatchString u = true)
    (hq : quote (valueRE.ReplaceAllString u [63]) = some q) :
    obfuscateAppSecValue o (w1 ++ (strLit v ++ w2)) [] false
      = .ok [{ from_ := (w1.length : Int), to_ := (w1.length : Int) + v.length + 1,
               value := q }] := by
  unfold obfuscateAppSecValue
  rw [scanString_literal w1 v w2 hw1 hv hp]
  simp only [ho, Option.isNone_some, Bool.false_eq_true, false_and, if_false, bind, pure,
    Res.bind_ok, Option.isSome_none]
  have hsl : slice (w1 ++ (strLit v ++ w2)) (w1.length : Int)
      ((w1.length + (v.length + 2) : Nat) : Int) = .ok (strLit v) := by
    have := slice_append_mid w1 (strLit v) w2 (by simp [strLit])
    simpa [strLit] using this
  rw [hsl]
  simp only [Res.bind_ok, redactMatches, hu, ho, hm, hq, Bool.not_true, Bool.false_eq_true,
    if_false, Diff.add_nil]
  congr 3
  push_cast
  omega

theorem fieldsText_after (f : Field) : ∀ (fs : List Field),
    fieldsText (f :: fs) = f.text ++ fieldsAfter fs := by
  intro fs
  induction fs generalizing f with
  | nil => simp [fieldsText, fieldsAfter]
  | cons g fs ih =>
    rw [fieldsText_cons f (g :: fs) (by simp), ih g]
    simp [fieldsAfter]

theorem fieldsText_split : ∀ (fs1 : List Field) (f : Field) (fs2 : List Field),
    fieldsText (fs1 ++ f :: fs2) = fieldsBefore fs1 ++ (f.text ++ fieldsAfter fs2) := by
  intro fs1
  induction fs1 with
  | nil => intro f fs2; simpa [fieldsBefore] using fieldsText_after f fs2
  | cons g fs1 ih =>
    intro f fs2
    have : (g :: fs1) ++ f :: fs2 = g :: (fs1 ++ f :: fs2) := rfl
    rw [this, fieldsText_cons g _ (by simp), ih f fs2]
    simp [fieldsBefore]

theorem visitFields_append : ∀ (fs1 fs2 : List Field) (p : Nat) (acc : ParamFields),
    visitFields p (fs1 ++ fs2) acc
      = visitFields (p + (fieldsBefore fs1).length) fs2 (visitFields p fs1 acc) := by
  intro fs1
  induction fs1 with
  | nil => intro fs2 p acc; simp [visitFields, fieldsBefore]
  | cons f fs1 ih =>
    intro fs2 p acc
    have : (f :: fs1) ++ fs2 = f :: (fs1 ++ fs2) := rfl
    rw [this, visitFields, visitFields, ih]
    congr 1
    simp [fieldsBefore]
    omega

theorem keys_distinct : keyPathKey ≠ valueKey ∧ keyPathKey ≠ highlightKey
    ∧ valueKey ≠ highlightKey := by decide

theorem visitFields_keypath : ∀ (fs : List Field) (p : Nat) (acc : ParamFields),
    (visitFields p fs acc).keypath = keyPathOf fs acc.keypath := by
  intro fs
  induction fs with
  | nil => intro p acc; rfl
  | cons f fs ih =>
    intro p acc
    rw [visitFields, ih, keyPathOf]
    congr 1
    unfold Field.visit
    by_cases h1 : strLit f.key = keyPathKey
    · simp [h1]
    · simp only [if_neg h1]
      split_ifs <;> rfl

/-- Fields none of which is `value` leave the range of the value as it is. -/
theorem visitFields_value_keep : ∀ (fs : List Field) (p : Nat) (acc : ParamFields),
    (∀ f ∈ fs, strLit f.key ≠ valueKey) →
    (visitFields p fs acc).vfrom = acc.vfrom ∧ (visitFields p fs acc).vto = acc.vto := by
  intro fs
  induction fs with
  | nil => intro p acc _; exact ⟨rfl, rfl⟩
  | cons f fs ih =>
    intro p acc h
    rw [visitFields]
    have h1 := ih (p + f.text.length + 1) (f.visit p acc) (fun g hg => h g (by simp [hg]))
    rw [h1.1, h1.2]
    have hv : strLit f.key ≠ valueKey := h f (by simp)
    unfold Field.visit
    simp only [if_neg hv]
    split_ifs <;> exact ⟨rfl, rfl⟩

theorem drop_valueStart {input : List Nat} {p : Nat} (f : Field) (rest : List Nat)
    (hd : input.drop p = f.text ++ rest) :
    input.drop (f.valueStart p) = f.value ++ rest := by
  have h0 : input.drop p
      = (f.pre ++ (strLit f.key ++ (f.mid ++ [58]))) ++ (f.value ++ rest) := by
    rw [hd]; simp [Field.text]
  have := drop_of_drop_append h0
  have e : p + (f.pre ++ (strLit f.key ++ (f.mid ++ [58]))).length = f.valueStart p := by
    simp [Field.valueStart, strLit]; omega
  rw [e] at this
  exact this

/-- The range kept for `highlight` is the text of the value of the last field
`highlight`. -/
theorem visitFields_highlight {input : List Nat} : ∀ (fs : List Field) (p : Nat)
    (acc : ParamFields) (rest h : List Nat), (∀ f ∈ fs, f.value ≠ []) →
    input.drop p = fieldsText fs ++ rest → slice input acc.hfrom acc.hto = .ok h →
    slice input (visitFields p fs acc).hfrom (visitFields p fs acc).hto
      = .ok (highlightOf fs h) := by
  intro fs
  induction fs with
  | nil => intro p acc rest h _ _ hs; exact hs
  | cons f fs ih =>
    intro p acc rest h hne hd hs
    rw [visitFields, highlightOf]
    rw [fieldsText_after] at hd
    have hd0 : input.drop p = f.text ++ (fieldsAfter fs ++ rest) := by rw [hd]; simp
    have hv := drop_valueStart f _ hd0
    have hstep : slice input (f.visit p acc).hfrom (f.visit p acc).hto
        = .ok (if strLit f.key = highlightKey then f.value else h) := by
      unfold Field.visit
      by_cases h3 : strLit f.key = highlightKey
      · have h1 : strLit f.key ≠ keyPathKey := by rw [h3]; exact keys_distinct.2.1.symm
        have h2 : strLit f.key ≠ valueKey := by rw [h3]; exact keys_distinct.2.2.symm
        simp only [if_neg h1, if_neg h2, if_pos h3]
        exact slice_of_drop hv (hne f (by simp)) _ _ rfl (by push_cast; rfl)
      · simp only [if_neg h3]
        split_ifs <;> exact hs
    cases fs with
    | nil => simpa [visitFields, highlightOf] using hstep
    | cons g fs =>
      have hd1 : input.drop (p + f.text.length + 1) = fieldsText (g :: fs) ++ rest := by
        have h0 : input.drop p = (f.text ++ [44]) ++ (fieldsText (g :: fs) ++ rest) := by
          rw [hd0, fieldsText_after g fs]; simp [fieldsAfter]
        have := drop_of_drop_append h0
        simpa [Nat.add_assoc] using this
      exact ih (p + f.text.length + 1) (f.visit p acc) rest _
        (fun x hx => hne x (by simp [hx])) hd1 hstep

/-- `obfuscateAppSecParameter` on a parameter object with well-formed fields, no sensitive
key path, no matched highlight and a last field `value` whose string literal is matched by
the value matcher: the only edit replaces that literal. -/
theorem obfuscateAppSecParameter_partial (o : Obfuscator) (valueRE : Regexp) (input : List Nat)
    (fn : StepFn) (ps : List ParseState) (ws : List Nat) (fs1 : List Field) (fv : Field)
    (fs2 : List Field) (w1 v w2 u q rest : List Nat) (i : Nat)
    (hfn : fn = .stateBeginValue ∨ fn = .stateBeginValueOrEmpty) (hws : IsWs ws)
    (hwf : ∀ f ∈ fs1 ++ fv :: fs2, f.WellFormed)
    (hkey : strLit fv.key = valueKey) (hlast : ∀ f ∈ fs2, strLit f.key ≠ valueKey)
    (hval : fv.value = w1 ++ (strLit v ++ w2)) (hw1 : IsWs w1) (hv : isStringContent v)
    (hp : endsPlain v) (ho : o.ValueRegexp = some valueRE)
    (hu : unquote (strLit v) = some u) (hm : valueRE.MatchString u = true)
    (hq : quote (valueRE.ReplaceAllString u [63]) = some q)
    (hkp : KeyPathClear o (keyPathOf (fs1 ++ fv :: fs2) []))
    (hh : HighlightClear valueRE (highlightOf (fs1 ++ fv :: fs2) []))
    (hd : input.drop i = ws ++ 123 :: (fieldsText (fs1 ++ fv :: fs2) ++ 125 :: rest)) :
    obfuscateAppSecParameter o (Scanner.mk fn (parseArrayValue :: ps) none false) input i []
      = .ok { sc := Scanner.mk .stateEndValue (parseArrayValue :: ps) none false,
              diff := [Edit.mk
                ((fv.valueStart (i + ws.length + 1 + (fieldsBefore fs1).length) + w1.length : Nat) : Int)
                ((fv.valueStart (i + ws.length + 1 + (fieldsBefore fs1).length) + w1.length
                  + v.length + 1 : Nat) : Int) q],
              i := i + ws.length + 1 + (fieldsText (fs1 ++ fv :: fs2)).length + 1,
              err := none } := by
  have hfs : fs1 ++ fv :: fs2 ≠ [] := by simp
  have hw := walkObject_object input fn ps
    { keypath := [], vfrom := 0, vto := 0, hfrom := 0, hto := 0 } ws (fs1 ++ fv :: fs2) rest i
    hfn hws hfs hwf hd
  have hd1 : input.drop (i + ws.length + 1) = fieldsText (fs1 ++ fv :: fs2) ++ 125 :: rest :=
    (getElem?_of_drop (drop_of_drop_append hd)).2
  have hne : ∀ f ∈ fs1 ++ fv :: fs2, f.value ≠ [] :=
    fun f hf => (isFieldValue_spec (hwf f hf).2.2.2.2).1
  -- the three things kept of the fields
  have hkeypath := visitFields_keypath (fs1 ++ fv :: fs2) (i + ws.length + 1)
    { keypath := [], vfrom := 0, vto := 0, hfrom := 0, hto := 0 }
  have hhl := visitFields_highlight (fs1 ++ fv :: fs2) (i + ws.length + 1)
    { keypath := [], vfrom := 0, vto := 0, hfrom := 0, hto := 0 } (125 :: rest) [] hne hd1
    (by simp [slice])
  have happ := visitFields_append fs1 (fv :: fs2) (i + ws.length + 1)
    { keypath := [], vfrom := 0, vto := 0, hfrom := 0, hto := 0 }
  have hkeep := visitFields_value_keep fs2
    (i + ws.length + 1 + (fieldsBefore fs1).length + fv.text.length + 1)
    (fv.visit (i + ws.length + 1 + (fieldsBefore fs1).length)
      (visitFields (i + ws.length + 1) fs1
        { keypath := [], vfrom := 0, vto := 0, hfrom := 0, hto := 0 })) hlast
  have hvis : ∀ a : ParamFields,
      (fv.visit (i + ws.length + 1 + (fieldsBefore fs1).length) a).vfrom
        = ((fv.valueStart (i + ws.length + 1 + (fieldsBefore fs1).length) : Nat) : Int)
      ∧ (fv.visit (i + ws.length + 1 + (fieldsBefore fs1).length) a).vto
        = ((fv.valueStart (i + ws.length + 1 + (fieldsBefore fs1).length)
            + fv.value.length : Nat) : Int) := by
    intro a
    unfold Field.visit
    have h1 : strLit fv.key ≠ keyPathKey := by rw [hkey]; exact keys_distinct.1.symm
    simp only [if_neg h1, if_pos hkey]
    simp
  rw [visitFields] at happ
  have hvf : (visitFields (i + ws.length + 1) (fs1 ++ fv :: fs2)
      { keypath := [], vfrom := 0, vto := 0, hfrom := 0, hto := 0 }).vfrom
      = ((fv.valueStart (i + ws.length + 1 + (fieldsBefore fs1).length) : Nat) : Int) := by
    rw [happ, hkeep.1, (hvis _).1]
  have hvt : (visitFields (i + ws.length + 1) (fs1 ++ fv :: fs2)
      { keypath := [], vfrom := 0, vto := 0, hfrom := 0, hto := 0 }).vto
      = ((fv.valueStart (i + ws.length + 1 + (fieldsBefore fs1).length)
          + fv.value.length : Nat) : Int) := by
    rw [happ, hkeep.2, (hvis _).2]
  -- the text of the value
  have hdv : input.drop (fv.valueStart (i + ws.length + 1 + (fieldsBefore fs1).length))
      = fv.value ++ (fieldsAfter fs2 ++ 125 :: rest) := by
    have h0 : input.drop (i + ws.length + 1)
        = fieldsBefore fs1 ++ (fv.text ++ (fieldsAfter fs2 ++ 125 :: rest)) := by
      rw [hd1, fieldsText_split]; simp
    exact drop_valueStart fv _ (drop_of_drop_append h0)
  have hsv : slice input
      ((fv.valueStart (i + ws.length + 1 + (fieldsBefore fs1).length) : Nat) : Int)
      ((fv.valueStart (i + ws.length + 1 + (fieldsBefore fs1).length)
        + fv.value.length : Nat) : Int) = .ok fv.value :=
    slice_of_drop hdv (hne fv (by simp)) _ _ rfl (by push_cast; rfl)
  have hvne : fv.value ≠ [] := hne fv (by simp)
  have e1 : ((w1.length : Int)
      + ((fv.valueStart (i + ws.length + 1 + (fieldsBefore fs1).length) : Nat) : Int))
      = ((fv.valueStart (i + ws.length + 1 + (fieldsBefore fs1).length) + w1.length : Nat) : Int) := by
    push_cast; ring
  have e2 : ((w1.length : Int) + (v.length : Int) + 1
      + ((fv.valueStart (i + ws.length + 1 + (fieldsBefore fs1).length) : Nat) : Int))
      = ((fv.valueStart (i + ws.length + 1 + (fieldsBefore fs1).length) + w1.length
          + v.length + 1 : Nat) : Int) := by
    push_cast; ring
  unfold obfuscateAppSecParameter
  rw [hw]
  simp only [bind, pure, Res.bind_ok, Option.isSome_none, Bool.false_eq_true, if_false]
  rw [hkeypath, hasSensitiveKeyPath_clear o _ hkp]
  simp only [Res.bind_ok, hhl, hvf, hvt, hsv]
  by_cases hhe : highlightOf (fs1 ++ fv :: fs2) [] = []
  · simp only [hhe, ne_eq, not_true_eq_false, if_false, Res.bind_ok, hvne, not_false_eq_true,
      if_true]
    rw [hval, obfuscateAppSecValue_literal o valueRE w1 v w2 u q ho hw1 hv hp hu hm hq]
    simp only [Res.bind_ok, Diff.merge, Diff.add_nil, bind, pure]
    rw [e1, e2]
  · simp only [hhe, ne_eq, not_false_eq_true, if_true, Res.bind_ok, hvne,
      obfuscateAppSecHighlights_clear o valueRE _ ho hh hhe, Diff.merge, pure]
    rw [hval, obfuscateAppSecValue_literal o valueRE w1 v w2 u q ho hw1 hv hp hu hm hq]
    simp only [Res.bind_ok, Diff.merge, Diff.add_nil, bind, pure]
    rw [e1, e2]

theorem valueRun_append : ∀ (t1 t2 : List Nat) (sc : Scanner) (d : Nat) (r : Scanner × Nat),
    valueRun sc d t1 = some r → valueRun sc d (t1 ++ t2) = valueRun r.1 r.2 t2 := by
  intro t1
  induction t1 with
  | nil =>
    intro t2 sc d r h
    simp only [valueRun_nil, Option.some.injEq] at h
    subst h
    rfl
  | cons c t1 ih =>
    intro t2 sc d r h
    rw [List.cons_append, valueRun_cons]
    rw [valueRun_cons] at h
    cases hop : (sc.step c).2 <;> rw [hop] at h <;> simp only at h ⊢
    case scanError => simp at h
    case scanEnd => simp at h
    case scanEndObject =>
      by_cases hd : d = 0
      · simp [hd] at h
      · rw [if_neg hd] at h ⊢; exact ih t2 _ _ r h
    case scanEndArray =>
      by_cases hd : d = 0
      · simp [hd] at h
      · rw [if_neg hd] at h ⊢; exact ih t2 _ _ r h
    case scanObjectKey =>
      by_cases hd : d = 0
      · simp [hd] at h
      · rw [if_neg hd] at h ⊢; exact ih t2 _ _ r h
    case scanObjectValue =>
      by_cases hd : d = 0
      · simp [hd] at h
      · rw [if_neg hd] at h ⊢; exact ih t2 _ _ r h
    case scanArrayValue =>
      by_cases hd : d = 0
      · simp [hd] at h
      · rw [if_neg hd] at h ⊢; exact ih t2 _ _ r h
    all_goals exact ih t2 _ _ r h

theorem valueRun_ws (sc : Scanner) (d : Nat) (hs : SkipsSpace sc) :
    ∀ (ws : List Nat), IsWs ws → valueRun sc d ws = some (sc, d) := by
  intro ws
  induction ws with
  | nil => intro _; rfl
  | cons c ws ih =>
    intro h
    rw [valueRun_cons, hs c (h c (by simp))]
    exact ih (fun x hx => h x (by simp [hx]))

theorem valueRun_content (ps : List ParseState) (err : Option SyntaxError) (et : Bool)
    (d : Nat) : ∀ (k : List Nat) (f g : StepFn), InStr f → strBody f k = some g →
    valueRun (Scanner.mk f ps err et) d k = some (Scanner.mk g ps err et, d) := by
  intro k
  induction k with
  | nil =>
    intro f g _ h
    simp only [strBody, Option.some.injEq] at h
    subst h
    rfl
  | cons c k ih =>
    intro f g hf h
    rw [strBody] at h
    cases hn : strNext f c with
    | none => rw [hn] at h; simp at h
    | some g1 =>
      rw [hn] at h
      simp only at h
      by_cases he : g1 = .stateEndValue
      · rw [if_pos he] at h; simp at h
      · rw [if_neg he] at h
        have hg1 : InStr g1 := by
          rcases strNext_inStr hn with h1 | h1
          · exact h1
          · exact absurd h1.1 he
        have hs := step_string (Scanner.mk f ps err et) f c hf
        simp only [hn] at hs
        rw [valueRun_cons, hs]
        exact ih g1 g hg1 h

/-- A string literal with white space around it is the value of a field. -/
theorem isFieldValue_literal (w1 v w2 : List Nat) (hw1 : IsWs w1) (hv : isStringContent v)
    (hw2 : IsWs w2) : isFieldValue (w1 ++ (strLit v ++ w2)) = true := by
  have h1 := valueRun_ws scannerInField 0
    (skipsSpace_begin .stateBeginValue _ none false (by tauto)) w1 hw1
  have h2 : valueRun scannerInField 0 (34 :: (v ++ (34 :: w2)))
      = some (Scanner.mk .stateEndValue [parseObjectValue, parseArrayValue] none false, 0) := by
    rw [valueRun_cons]
    have hs := step_beginString_value .stateBeginValue [parseObjectValue, parseArrayValue] none
      false (Or.inl rfl)
    rw [show scannerInField = Scanner.mk .stateBeginValue [parseObjectValue, parseArrayValue]
      none false from rfl, hs]
    simp only
    have h3 := valueRun_content [parseObjectValue, parseArrayValue] none false 0 v
      .stateInString .stateInString (Or.inl rfl) hv
    rw [valueRun_append v (34 :: w2) _ 0 _ h3, valueRun_cons, step_endString]
    simp only
    exact valueRun_ws _ 0 (skipsSpace_endValue _ _ none false) w2 hw2
  have h4 : valueRun scannerInField 0 (w1 ++ (strLit v ++ w2))
      = some (Scanner.mk .stateEndValue [parseObjectValue, parseArrayValue] none false, 0) := by
    rw [valueRun_append w1 _ _ 0 _ h1]
    simpa [strLit] using h2
  unfold isFieldValue
  rw [h4]
  decide

theorem reached_ws {o : Obfuscator} {input : List Nat} (st : MainState)
    (hs : SkipsSpace st.sc) :
    ∀ (w : List Nat) (i : Nat) (rest : List Nat), IsWs w → Reached o input i st →
      input.drop i = w ++ rest →
      Reached o input (i + w.length) st ∧ input.drop (i + w.length) = rest := by
  intro w
  induction w with
  | nil => intro i rest _ h hd; exact ⟨by simpa using h, by simpa using hd⟩
  | cons c w ih =>
    intro i rest hw h hd
    obtain ⟨h1, h2⟩ := getElem?_of_drop (by simpa using hd)
    have hb : obfuscateAppSecBody o input i c st = .ok (.next (i + 1) st) := by
      unfold obfuscateAppSecBody
      simp only [hs c (hw c (by simp))]
    have h3 := ih (i + 1) rest (fun c' hc' => hw c' (by simp [hc'])) (reached_step h h1 hb) h2
    have e : i + (c :: w).length = i + 1 + w.length := by simp; omega
    rw [e]
    exact h3

/-- A parameters array with one element on which `obfuscateAppSecParameter` succeeds. -/
theorem obfuscateAppSecParameters_one (o : Obfuscator) (input : List Nat) (ps : List ParseState)
    (d : Diff) (w3 rest1 w5 rest2 : List Nat) (j n c : Nat) (hw3 : IsWs w3) (hw5 : IsWs w5)
    (hd : input.drop j = w3 ++ 91 :: rest1) (hc : input[j + w3.length + 1]? = some c)
    (hp : obfuscateAppSecParameter o
        (Scanner.mk .stateBeginValueOrEmpty (parseArrayValue :: parseObjectValue :: ps) none false)
        input (j + w3.length + 1) []
      = .ok { sc := Scanner.mk .stateEndValue (parseArrayValue :: parseObjectValue :: ps) none
                false, diff := d, i := n, err := none })
    (hn : input.drop n = w5 ++ 93 :: rest2) :
    obfuscateAppSecParameters o
        (Scanner.mk .stateBeginValue (parseObjectValue :: ps) none false) input j []
      = .ok ({ sc := Scanner.mk .stateEndValue (parseObjectValue :: ps) none false, diff := d },
          n + w5.length + 1) := by
  have hstep := step_beginArray .stateBeginValue (parseObjectValue :: ps) none false (Or.inl rfl)
  have h1 := stepToOneOf_ws_hit (Scanner.mk .stateBeginValue (parseObjectValue :: ps) none false)
    [scanBeginArray] w3 _ (skipsSpace_begin .stateBeginValue _ none false (by tauto)) hw3 hd
    (by rw [hstep]; simp) (by rw [hstep]; simp) (by rw [hstep]; simp) (by rw [hstep]; simp)
  unfold obfuscateAppSecParameters stepTo
  rw [h1, hstep]
  simp only [bind, pure, Res.bind_ok, Option.isSome_none, Bool.false_eq_true, if_false]
  apply runs_apply
  apply runs_of_step hc
  unfold obfuscateAppSecParametersBody
  rw [hp]
  simp only [bind, pure, Res.bind_ok]
  unfold parametersNext
  have hstep2 : (Scanner.mk .stateEndValue (parseArrayValue :: parseObjectValue :: ps) none
      false).step 93
      = (Scanner.mk .stateEndValue (parseObjectValue :: ps) none false, scanEndArray) := by
    simp [Scanner.step, Scanner.stateEndValue, Scanner.popParseState, isSpace]
  have h2 := stepToOneOf_ws_hit
    (Scanner.mk .stateEndValue (parseArrayValue :: parseObjectValue :: ps) none false)
    [scanArrayValue, scanEndArray] w5 _ (skipsSpace_endValue _ _ none false) hw5 hn
    (by rw [hstep2]; simp) (by rw [hstep2]; simp) (by rw [hstep2]; simp) (by rw [hstep2]; simp)
  rw [h2, hstep2]
  simp [bind, Res.bind, pure, Cont]

/-- Applying one edit that covers the part `m` of the input replaces `m`. -/
theorem Diff.apply_one (a m c q : List Nat) (hm : m ≠ []) :
    Diff.apply [Edit.mk (a.length : Int) ((a.length + m.length - 1 : Nat) : Int) q]
      (a ++ (m ++ c)) = .ok (a ++ (q ++ c)) := by
  have hpos : 0 < m.length := List.length_pos.mpr hm
  unfold Diff.apply
  simp only [Diff.applyLoop, bind, pure]
  have s1 : slice (a ++ (m ++ c)) 0 (a.length : Int) = .ok a := by
    unfold slice
    simp
    omega
  have e : (((a.length + m.length - 1 : Nat) : Int) + 1) = ((a.length + m.length : Nat) : Int) := by
    omega
  have s2 : sliceFrom (a ++ (m ++ c)) (((a.length + m.length - 1 : Nat) : Int) + 1) = .ok c := by
    rw [e]
    unfold sliceFrom slice
    have hc : (0 : Int) ≤ ((a.length + m.length : Nat) : Int)
        ∧ ((a.length + m.length : Nat) : Int) ≤ (((a ++ (m ++ c)).length : Nat) : Int)
        ∧ (((a ++ (m ++ c)).length : Nat) : Int) ≤ (((a ++ (m ++ c)).length : Nat) : Int) := by
      simp; omega
    rw [if_pos hc]
    simp only [Int.toNat_ofNat]
    have : (a ++ (m ++ c)).drop (a.length + m.length) = c := by
      rw [← List.append_assoc, ← List.length_append]
      simp
    rw [this]
    simp
    omega
  rw [s1]
  simp only [Res.bind_ok, s2]
  simp

/-- The main loop on a document `w0 \x7b w1 "parameters" w2 : ... w6 \x7d w7` whose
parameters array is processed without error: the scan ends without error and the edits
recorded by `obfuscateAppSecParameters` are applied. -/
theorem obfuscateAppSec_wrapped (o : Obfuscator) (input output : List Nat) (d : Diff)
    (w0 w1 w2 rest w6 w7 : List Nat) (n : Nat) (hw0 : IsWs w0) (hw1 : IsWs w1) (hw2 : IsWs w2)
    (hw6 : IsWs w6) (hw7 : IsWs w7)
    (hd : input.drop 0 = w0 ++ 123 :: (w1 ++ (parametersKey ++ (w2 ++ 58 :: rest))))
    (hcall : obfuscateAppSecParameters o
        (Scanner.mk .stateBeginValue [parseObjectValue] none false) input
        (0 + w0.length + 1 + w1.length + 12 + w2.length + 1) []
      = .ok ({ sc := Scanner.mk .stateEndValue [parseObjectValue] none false, diff := d }, n))
    (hn : input.drop n = w6 ++ 125 :: w7) (happly : Diff.apply d input = .ok output) :
    obfuscateAppSec o input = .ok (output, none) := by
  -- up to the key
  have r0 : Reached o input 0 (MainState.mk (Scanner.mk .stateBeginValue [] none false) []
      (-1) (-1)) := ⟨0, rfl⟩
  obtain ⟨r1, hd1⟩ := reached_ws (o := o) _
    (skipsSpace_begin .stateBeginValue [] none false (by tauto)) w0 0 _ hw0 r0 hd
  obtain ⟨hq, hd2⟩ := getElem?_of_drop hd1
  have hb1 : obfuscateAppSecBody o input (0 + w0.length) 123
      (MainState.mk (Scanner.mk .stateBeginValue [] none false) [] (-1) (-1))
      = .ok (.next (0 + w0.length + 1)
          (MainState.mk (Scanner.mk .stateBeginStringOrEmpty [parseObjectKey] none false) []
            (-1) (-1))) := by
    unfold obfuscateAppSecBody
    simp only [step_beginObject .stateBeginValue [] none false (Or.inl rfl)]
  have r2 := reached_step r1 hq hb1
  obtain ⟨r3, hd3⟩ := reached_ws (o := o) _
    (skipsSpace_begin .stateBeginStringOrEmpty [parseObjectKey] none false (by tauto)) w1 _ _
    hw1 r2 hd2
  obtain ⟨r4, hd4, hsl⟩ := reached_parametersKey .stateBeginStringOrEmpty [] none false []
    (-1) (-1) w2 rest (Or.inr rfl) r3 hd3 hw2
  -- the call
  have hc := (getElem?_of_drop hd4).1
  have hb : obfuscateAppSecBody o input (0 + w0.length + 1 + w1.length + 12 + w2.length) 58
      (MainState.mk (Scanner.mk .stateEndValue [parseObjectKey] none false) []
        ((0 + w0.length + 1 + w1.length : Nat) : Int)
        (((0 + w0.length + 1 + w1.length : Nat) : Int) + 11))
      = .ok (.next n (MainState.mk (Scanner.mk .stateEndValue [parseObjectValue] none false) d
          (-1) (-1))) := by
    unfold obfuscateAppSecBody
    simp only [step_colon, hsl, bind, pure, Res.bind_ok, if_true, hcall]
  have r5 := reached_step r4 hc hb
  obtain ⟨fuel, hfuel, hres⟩ := reached_result r5
  rw [← hres]
  -- after the array
  have a1 : Adv input (obfuscateAppSecBody o input) (fun _ st => obfuscateAppSecDone input st)
      n w6.length
      (MainState.mk (Scanner.mk .stateEndValue [parseObjectValue] none false) d (-1) (-1))
      (MainState.mk (Scanner.mk .stateEndValue [parseObjectValue] none false) d (-1) (-1)) := by
    apply adv_ws _ _ w6 _ n hw6 hn
    intro j w hw
    unfold obfuscateAppSecBody
    simp only [skipsSpace_endValue parseObjectValue [] none false w hw]
  have hd5 := drop_of_drop_append hn
  obtain ⟨hq5, hd6⟩ := getElem?_of_drop hd5
  have a2 : Adv input (obfuscateAppSecBody o input) (fun _ st => obfuscateAppSecDone input st)
      (n + w6.length) 1
      (MainState.mk (Scanner.mk .stateEndValue [parseObjectValue] none false) d (-1) (-1))
      (MainState.mk (Scanner.mk .stateEndTop [] none true) d (-1) (-1)) := by
    apply adv_step hq5
    unfold obfuscateAppSecBody
    simp [Scanner.step, Scanner.stateEndValue, Scanner.popParseState, isSpace]
  have a3 : Adv input (obfuscateAppSecBody o input) (fun _ st => obfuscateAppSecDone input st)
      (n + w6.length + 1) w7.length
      (MainState.mk (Scanner.mk .stateEndTop [] none true) d (-1) (-1))
      (MainState.mk (Scanner.mk .stateEndTop [] none true) d (-1) (-1)) := by
    apply adv_ws _ _ w7 [] _ hw7 (by simpa using hd6)
    intro j w hw
    unfold obfuscateAppSecBody
    simp [Scanner.step, Scanner.stateEndTop, hw]
  have hruns : Runs input (obfuscateAppSecBody o input)
      (fun _ st => obfuscateAppSecDone input st) n
      (MainState.mk (Scanner.mk .stateEndValue [parseObjectValue] none false) d (-1) (-1))
      (.ok (output, none)) := by
    apply a1
    apply a2
    apply a3
    apply runs_of_none
    · have : input.length ≤ n + w6.length + 1 + w7.length := by
        have h := congrArg List.length hd6
        simp at h
        omega
      simpa using this
    · unfold obfuscateAppSecDone
      simp [Scanner.eof, happly, bind, Res.bind, pure]
  exact hruns fuel hfuel

theorem keyPathOf_skip (f : Field) (hf : strLit f.key ≠ keyPathKey) :
    ∀ (fs1 fs2 : List Field) (t : List Nat),
      keyPathOf (fs1 ++ f :: fs2) t = keyPathOf (fs1 ++ fs2) t := by
  intro fs1
  induction fs1 with
  | nil => intro fs2 t; simp [keyPathOf, hf]
  | cons g fs1 ih => intro fs2 t; simp only [List.cons_append, keyPathOf]; exact ih fs2 _

theorem highlightOf_skip (f : Field) (hf : strLit f.key ≠ highlightKey) :
    ∀ (fs1 fs2 : List Field) (t : List Nat),
      highlightOf (fs1 ++ f :: fs2) t = highlightOf (fs1 ++ fs2) t := by
  intro fs1
  induction fs1 with
  | nil => intro fs2 t; simp [highlightOf, hf]
  | cons g fs1 ih => intro fs2 t; simp only [List.cons_append, highlightOf]; exact ih fs2 _

theorem valueField_wellFormed (pre mid w1 v w2 : List Nat) (hpre : IsWs pre) (hmid : IsWs mid)
    (hw1 : IsWs w1) (hv : isStringContent v) (hw2 : IsWs w2) :
    (valueField pre mid w1 (strLit v) w2).WellFormed :=
  ⟨hpre, (by decide : isStringContent (B "value")), (by decide : endsPlain (B "value")), hmid,
    isFieldValue_literal w1 v w2 hw1 hv hw2⟩

/-- The single-parameter document around the literal of its field `value`. -/
theorem docParameter_split (b : Blanks) (fs1 fs2 : List Field) (pre mid w1 lit w2 : List Nat) :
    docParameter b (fs1 ++ valueField pre mid w1 lit w2 :: fs2)
      = (b.w0 ++ 123 :: (b.w1 ++ (parametersKey ++ (b.w2 ++ 58 :: (b.w3 ++ 91 :: (b.w4 ++ 123 ::
          (fieldsBefore fs1 ++ (pre ++ (strLit (B "value") ++ (mid ++ 58 :: w1))))))))))
        ++ (lit ++ (w2 ++ (fieldsAfter fs2 ++ 125 :: (b.w5 ++ 93 :: (b.w6 ++ 125 :: b.w7))))) := by
  simp [docParameter, fieldsText_split, valueField, Field.text]

/-- C6 (amended): partial redaction without a sensitive key.  For every single-parameter
document `w0 \x7b w1 "parameters" w2 : w3 [ w4 \x7b fields \x7d w5 ] w6 \x7d w7` with any
white space `w0 .. w7`, whose parameter object has well-formed fields in any number and
order (a key is a string literal, escapes allowed, that does not end in an escaped
backslash; a value is any text that the scanner reads as one value, white space included),
among them a field `value`, the last of that name, that holds a string literal `"v"`
(escapes allowed, not ending in an escaped backslash, white space around it allowed): if no
element of the last `key_path` is matched by the key matcher (the matcher is unset, the
field is absent, its value is not an array, or it is an array of any elements none of whose
strings is matched), no element of the last `highlight` is matched by the value matcher
(the field is absent, its value is not an array, or it is an array of any elements none of
whose strings is matched), the literal unquotes to `u`, the value matcher matches `u` and
`quote` of `u` with every match replaced by `?` gives `q`, then `ObfuscateAppSec` returns
the same document with the literal replaced by `q`, `key_path` and every other byte
unchanged. -/
theorem ObfuscateAppSec_partial_redaction (o : Obfuscator) (valueRE : Regexp) (b : Blanks)
    (fs1 fs2 : List Field) (pre mid w1 v w2 u q : List Nat)
    (ho : o.ValueRegexp = some valueRE) (hb : b.WellFormed)
    (hwf : ∀ f ∈ fs1 ++ fs2, f.WellFormed) (hlast : ∀ f ∈ fs2, strLit f.key ≠ valueKey)
    (hpre : IsWs pre) (hmid : IsWs mid) (hw1 : IsWs w1) (hw2 : IsWs w2)
    (hv : isStringContent v) (hp : endsPlain v)
    (hu : unquote (strLit v) = some u) (hm : valueRE.MatchString u = true)
    (hq : quote (valueRE.ReplaceAllString u [63]) = some q)
    (hkp : KeyPathClear o (keyPathOf (fs1 ++ fs2) []))
    (hh : HighlightClear valueRE (highlightOf (fs1 ++ fs2) [])) :
    ObfuscateAppSec o (docParameter b (fs1 ++ valueField pre mid w1 (strLit v) w2 :: fs2))
      = .ok (docParameter b (fs1 ++ valueField pre mid w1 q w2 :: fs2)) := by
  obtain ⟨hb0, hb1, hb2, hb3, hb4, hb5, hb6, hb7⟩ := hb
  have hfv := valueField_wellFormed pre mid w1 v w2 hpre hmid hw1 hv hw2
  have hkey : strLit (valueField pre mid w1 (strLit v) w2).key = valueKey :=
    (by decide : strLit (B "value") = valueKey)
  have hnk : strLit (valueField pre mid w1 (strLit v) w2).key ≠ keyPathKey :=
    (by decide : strLit (B "value") ≠ keyPathKey)
  have hnh : strLit (valueField pre mid w1 (strLit v) w2).key ≠ highlightKey :=
    (by decide : strLit (B "value") ≠ highlightKey)
  have hwf1 : ∀ f ∈ fs1 ++ valueField pre mid w1 (strLit v) w2 :: fs2, f.WellFormed := by
    intro f hf
    simp only [List.mem_append, List.mem_cons] at hf
    rcases hf with h | h | h
    · exact hwf f (by simp [h])
    · rw [h]; exact hfv
    · exact hwf f (by simp [h])
  rw [← keyPathOf_skip _ hnk fs1 fs2 []] at hkp
  rw [← highlightOf_skip _ hnh fs1 fs2 []] at hh
  -- the places of the document
  generalize hin : docParameter b (fs1 ++ valueField pre mid w1 (strLit v) w2 :: fs2) = input
  have h0 : input.drop 0 = b.w0 ++ 123 :: (b.w1 ++ (parametersKey ++ (b.w2 ++ 58 ::
      (b.w3 ++ 91 :: (b.w4 ++ 123 ::
        (fieldsText (fs1 ++ valueField pre mid w1 (strLit v) w2 :: fs2) ++ 125 ::
          (b.w5 ++ 93 :: (b.w6 ++ 125 :: b.w7)))))))) := by
    rw [← hin]; rfl
  have hJ : input.drop (0 + b.w0.length + 1 + b.w1.length + 12 + b.w2.length + 1)
      = b.w3 ++ 91 :: (b.w4 ++ 123 ::
        (fieldsText (fs1 ++ valueField pre mid w1 (strLit v) w2 :: fs2) ++ 125 ::
          (b.w5 ++ 93 :: (b.w6 ++ 125 :: b.w7)))) :=
    drop_add_of_drop h0 (b.w0 ++ 123 :: (b.w1 ++ (parametersKey ++ (b.w2 ++ [58])))) _
      (by simp) _ (by simp [parametersKey]; omega)
  have hI := (getElem?_of_drop (drop_of_drop_append hJ)).2
  obtain ⟨c, hc⟩ : ∃ c, input[0 + b.w0.length + 1 + b.w1.length + 12 + b.w2.length + 1
      + b.w3.length + 1]? = some c := by
    cases hw4 : b.w4 with
    | nil => rw [hw4] at hI; exact ⟨123, getElem?_of_drop_eq hI⟩
    | cons x xs => rw [hw4] at hI; exact ⟨x, getElem?_of_drop_eq hI⟩
  have hparam := obfuscateAppSecParameter_partial o valueRE input .stateBeginValueOrEmpty
    [parseObjectValue] b.w4 fs1 (valueField pre mid w1 (strLit v) w2) fs2 w1 v w2 u q
    (b.w5 ++ 93 :: (b.w6 ++ 125 :: b.w7)) _ (Or.inr rfl) hb4 hwf1 hkey hlast rfl hw1 hv hp ho hu
    hm hq hkp hh hI
  have hN := (getElem?_of_drop (drop_of_drop_append
    (getElem?_of_drop (drop_of_drop_append hI)).2)).2
  have hparams := obfuscateAppSecParameters_one o input [] _ b.w3 _ b.w5 _ _ _ c hb3 hb5 hJ hc
    hparam hN
  have hend := (getElem?_of_drop (drop_of_drop_append hN)).2
  -- the edit
  have hsplit := docParameter_split b fs1 fs2 pre mid w1 (strLit v) w2
  rw [hin] at hsplit
  have happly := Diff.apply_one
    (b.w0 ++ 123 :: (b.w1 ++ (parametersKey ++ (b.w2 ++ 58 :: (b.w3 ++ 91 :: (b.w4 ++ 123 ::
      (fieldsBefore fs1 ++ (pre ++ (strLit (B "value") ++ (mid ++ 58 :: w1))))))))))
    (strLit v) (w2 ++ (fieldsAfter fs2 ++ 125 :: (b.w5 ++ 93 :: (b.w6 ++ 125 :: b.w7)))) q
    (by simp [strLit])
  rw [← hsplit, ← docParameter_split b fs1 fs2 pre mid w1 q w2] at happly
  have hcfg : ¬ (o.KeyRegexp.isNone ∧ o.ValueRegexp.isNone) := by simp [ho]
  unfold ObfuscateAppSec
  rw [if_neg hcfg]
  have hfinal : obfuscateAppSec o input
      = .ok (docParameter b (fs1 ++ valueField pre mid w1 q w2 :: fs2), none) := by
    apply obfuscateAppSec_wrapped o input _ _ b.w0 b.w1 b.w2 _ b.w6 b.w7 _ hb0 hb1 hb2 hb6
      hb7 h0 hparams hend
    convert happly using 3 <;>
      (simp [Field.valueStart, valueField, strLit, parametersKey, B] <;> omega)
  rw [hfinal]
  rfl

set_option maxRecDepth 100000 in
/-- Witness of C6: the document of the claim, and a document with white space, fields before
and after `value`, a key path of three elements one of which is a number, highlights that
are not matched (two strings, the second ending in an escaped backslash, and an object) and
escapes in its literals. -/
theorem ObfuscateAppSec_partial_redaction_witness :
    (valueSecretWord.ValueRegexp = some (wordRegexp (B "secret="))
      ∧ (∀ f ∈ [fieldKeyPathUsername] ++ [], f.WellFormed)
      ∧ isStringContent (B "secret=topsecret;ok=1") ∧ endsPlain (B "secret=topsecret;ok=1")
      ∧ unquote (strLit (B "secret=topsecret;ok=1")) = some (B "secret=topsecret;ok=1")
      ∧ (wordRegexp (B "secret=")).MatchString (B "secret=topsecret;ok=1") = true
      ∧ quote ((wordRegexp (B "secret=")).ReplaceAllString (B "secret=topsecret;ok=1") [63])
          = some (B "\"?;ok=1\"")
      ∧ KeyPathClear valueSecretWord (keyPathOf ([fieldKeyPathUsername] ++ []) [])
      ∧ HighlightClear (wordRegexp (B "secret=")) (highlightOf ([fieldKeyPathUsername] ++ []) []))
      ∧ docParameter blanksNone ([fieldKeyPathUsername]
            ++ valueField [] [] [] (strLit (B "secret=topsecret;ok=1")) [] :: [])
          = B "\x7b\"parameters\":[\x7b\"key_path\":[\"username\"],\"value\":\"secret=topsecret;ok=1\"\x7d]\x7d"
      ∧ docParameter blanksNone ([fieldKeyPathUsername]
            ++ valueField [] [] [] (B "\"?;ok=1\"") [] :: [])
          = B "\x7b\"parameters\":[\x7b\"key_path\":[\"username\"],\"value\":\"?;ok=1\"\x7d]\x7d"
      ∧ ObfuscateAppSec valueSecretWord (docParameter blanksNone ([fieldKeyPathUsername]
            ++ valueField [] [] [] (strLit (B "secret=topsecret;ok=1")) [] :: []))
          = .ok (docParameter blanksNone ([fieldKeyPathUsername]
            ++ valueField [] [] [] (B "\"?;ok=1\"") [] :: []))
      ∧ (blanksSpaced.WellFormed
        ∧ (∀ f ∈ fieldsBeforeValue ++ fieldsAfterValue, f.WellFormed)
        ∧ (∀ f ∈ fieldsAfterValue, strLit f.key ≠ valueKey)
        ∧ isStringContent (B "secret=top\\u0041;ok=1\\n")
        ∧ endsPlain (B "secret=top\\u0041;ok=1\\n")
        ∧ unquote (strLit (B "secret=top\\u0041;ok=1\\n")) = some (B "secret=topA;ok=1\n")
        ∧ (wordRegexp (B "secret=")).MatchString (B "secret=topA;ok=1\n") = true
        ∧ quote ((wordRegexp (B "secret=")).ReplaceAllString (B "secret=topA;ok=1\n") [63])
            = some (B "\"?;ok=1\\n\"")
        ∧ KeyPathClear keyPasswordValueSecretWord
            (keyPathOf (fieldsBeforeValue ++ fieldsAfterValue) [])
        ∧ HighlightClear (wordRegexp (B "secret="))
            (highlightOf (fieldsBeforeValue ++ fieldsAfterValue) []))
      ∧ docParameter blanksSpaced (fieldsBeforeValue
            ++ valueField [32] [] [32] (strLit (B "secret=top\\u0041;ok=1\\n")) []
              :: fieldsAfterValue)
          = B " \x7b\n \"parameters\" : [\x7b\"address\":\"query\", \"key_path\" : [\"user\", 0, \"na\\\"me\"],\"highlight\":[\"a\\\\b\",\"c\\\\\",\x7b\"k\":\"v\"\x7d] , \"value\": \"secret=top\\u0041;ok=1\\n\",\"n\":[1,\x7b\"x\\\\\":\"y\"\x7d], \"t\":true \x7d ]\n\x7d\n"
      ∧ docParameter blanksSpaced (fieldsBeforeValue
            ++ valueField [32] [] [32] (B "\"?;ok=1\\n\"") [] :: fieldsAfterValue)
          = B " \x7b\n \"parameters\" : [\x7b\"address\":\"query\", \"key_path\" : [\"user\", 0, \"na\\\"me\"],\"highlight\":[\"a\\\\b\",\"c\\\\\",\x7b\"k\":\"v\"\x7d] , \"value\": \"?;ok=1\\n\",\"n\":[1,\x7b\"x\\\\\":\"y\"\x7d], \"t\":true \x7d ]\n\x7d\n"
      ∧ ObfuscateAppSec keyPasswordValueSecretWord (docParameter blanksSpaced (fieldsBeforeValue
            ++ valueField [32] [] [32] (strLit (B "secret=top\\u0041;ok=1\\n")) []
              :: fieldsAfterValue))
          = .ok (docParameter blanksSpaced (fieldsBeforeValue
            ++ valueField [32] [] [32] (B "\"?;ok=1\\n\"") [] :: fieldsAfterValue)) := by
  have k1 : KeyPathClear valueSecretWord (keyPathOf ([fieldKeyPathUsername] ++ []) []) :=
    Or.inl rfl
  have l1 : HighlightClear (wordRegexp (B "secret="))
      (highlightOf ([fieldKeyPathUsername] ++ []) []) := Or.inl rfl
  have k2 : KeyPathClear keyPasswordValueSecretWord
      (keyPathOf (fieldsBeforeValue ++ fieldsAfterValue) []) :=
    Or.inr (Or.inr ⟨literalRegexp (B "password"), rfl,
      Or.inr ⟨[32], [], keyPathItems, [], by decide, by decide, by decide, by decide,
        by decide⟩⟩)
  have l2 : HighlightClear (wordRegexp (B "secret="))
      (highlightOf (fieldsBeforeValue ++ fieldsAfterValue) []) :=
    Or.inr (Or.inr ⟨[], [], highlightItems, [32], by decide, by decide, by decide, by decide,
      by decide⟩)
  exact ⟨⟨rfl, by decide, by decide, by decide, by decide, by decide, by decide, k1, l1⟩,
    by decide, by decide,
    ObfuscateAppSec_partial_redaction valueSecretWord (wordRegexp (B "secret=")) blanksNone
      [fieldKeyPathUsername] [] [] [] [] (B "secret=topsecret;ok=1") []
      (B "secret=topsecret;ok=1") (B "\"?;ok=1\"") rfl (by decide) (by decide) (by decide)
      (by decide) (by decide) (by decide) (by decide) (by decide) (by decide) (by decide)
      (by decide) (by decide) k1 l1,
    ⟨by decide, by decide, by decide, by decide, by decide, by decide, by decide, by decide,
      k2, l2⟩,
    by decide, by decide,
    ObfuscateAppSec_partial_redaction keyPasswordValueSecretWord (wordRegexp (B "secret="))
      blanksSpaced fieldsBeforeValue fieldsAfterValue [32] [] [32]
      (B "secret=top\\u0041;ok=1\\n") [] (B "secret=topA;ok=1\n") (B "\"?;ok=1\\n\"") rfl
      (by decide) (by decide) (by decide) (by decide) (by decide) (by decide) (by decide)
      (by decide) (by decide) (by decide) (by decide) (by decide) k2 l2⟩

end Obfuscate
